import Mathlib

/-!
# bmfont_to_cpp: a shallow embedding of the converter and its checked properties

The definitions below follow `src/bmfont_to_cpp/src/bmfont_to_cpp.cpp`:
`is_pow2`, `parse_line`, `Page::read_data`, `FntInfo::parse`, and
`FntInfo::export_to_cpp` together with the `Font::get_glyph` and
`Font::get_kerning` bodies that the emitted text contains.

Conventions.
* A `std::string` is a list of characters (`Str`); a file is a list of bytes.
* `int` values are mathematical integers; the places where the 32-bit width
  matters (`std::stoi` range, `width * height`, `int` to `char32_t`) reduce
  explicitly.
* A thrown exception is the `Except.error` outcome, carrying the exception
  class and its `what()` text.
* Whether `page_list.resize` and `chars.resize` obtain their storage is given
  by the surroundings of the run; `std::bad_alloc` is thrown when they do not.
-/

namespace BMFont

/-- Contents of a `std::string`. -/
abbrev Str := List Char

/-- The exceptions the program can throw, by class, with their message. -/
inductive Error where
  /-- Class `std::invalid_argument`. -/
  | invalid_argument (what : Str)
  /-- Class `std::out_of_range`. -/
  | out_of_range (what : Str)
  /-- Class `std::length_error`. -/
  | length_error (what : Str)
  /-- Class `std::runtime_error`. -/
  | runtime_error (what : Str)
  /-- Class `std::bad_alloc`, thrown when a `std::vector::resize` of `parse`
  cannot obtain its storage. -/
  | bad_alloc
  /-- Not an exception of the program: the outcome of a scan that used up the
  step budget given to the model of the `while (state != State::done)` loop.
  `parse_line` never produces it (`parse_line_budget_suffices`). -/
  | step_budget_exhausted
  deriving DecidableEq, Repr

deriving instance DecidableEq for Except

/-! ## `is_pow2` -/

/-- The loop `for (auto y = x; y > 1; y /= 2) power += 1;`, returning `power`.
The first argument bounds the number of iterations; `is_pow2` passes `x`, and
the loop halves `y` each time. -/
def is_pow2_loop : Nat → Int → Nat → Nat
  | 0, _, power => power
  | fuel + 1, y, power =>
    if y > 1 then is_pow2_loop fuel (y / 2) (power + 1) else power

/-- `bool is_pow2(const int x)`; `1 << power` is `2 ^ power`. -/
def is_pow2 (x : Int) : Bool :=
  if x < 0 then false
  else if x ≤ 1 then true
  else
    let power := is_pow2_loop x.toNat x 0
    x == (2 : Int) ^ power

/-! ## `parse_line` -/

/-- `LineParts = std::unordered_map<std::string, std::string>`: an association
list holding each key at most once. -/
abbrev LineParts := List (Str × Str)

/-- `line_parts.find(key)`, as the mapped value if any. -/
def LineParts.find (parts : LineParts) (key : Str) : Option Str :=
  match parts with
  | [] => none
  | (k, v) :: rest => if k = key then some v else LineParts.find rest key

/-- `line_parts[key] = value`: overwrites the entry of `key`, or adds one. -/
def LineParts.assign (parts : LineParts) (key value : Str) : LineParts :=
  match parts with
  | [] => [(key, value)]
  | (k, v) :: rest =>
    if k = key then (k, value) :: rest else (k, v) :: LineParts.assign rest key value

/-- Reading `parts["name"]`: the mapped value, or the empty string that
`operator[]` creates for a missing key. -/
def LineParts.at (parts : LineParts) (key : String) : Str :=
  (LineParts.find parts key.toList).getD []

/-- `enum class State` of `parse_line`. -/
inductive State where
  | find_keyword_end
  | find_key_begin
  | find_key_end
  | find_equal_sign
  | find_value_begin
  | find_value_end
  | done
  deriving DecidableEq, Repr

/-- The local variables of `parse_line`. The iterators `char_it` and
`char_begin_it` are offsets from `line.cbegin()`. -/
structure Scan where
  state : State
  key : Str
  value : Str
  line_parts : LineParts
  is_string_value : Bool
  char_it : Nat
  char_begin_it : Nat
  deriving DecidableEq, Repr

/-- `while (char_it != line_end_it && p(*char_it)) ++char_it;` run on the
characters from `char_it` to the end of the line; returns the new `char_it`. -/
def advance_while (p : Char → Bool) : List Char → Nat → Nat
  | [], char_it => char_it
  | c :: rest, char_it => if p c then advance_while p rest (char_it + 1) else char_it

/-- The string `assign(first, last)` builds from the characters of the line in
the iterator range `[first, last)`. -/
def assign (line : Str) (first last : Nat) : Str :=
  (line.drop first).take (last - first)

/-- Whether the loop of `State::find_value_end` goes on past the character `c`
(it breaks at a space outside a string value, and at a double quote inside
one). -/
def value_continues (is_string_value : Bool) (c : Char) : Bool :=
  if c = ' ' then is_string_value
  else !(is_string_value && c == '"')

/-- One pass through the `switch (state)` of `parse_line`. `line[char_it]?` is
`none` exactly when `char_it == line_end_it`. -/
def step (line keyword : Str) (m : Scan) : Except Error Scan :=
  match m.state with
  | .find_keyword_end =>
    let char_it := advance_while (fun c => c != ' ') (line.drop m.char_it) m.char_it
    let key := assign line m.char_begin_it char_it
    if key ≠ keyword then
      .error (.runtime_error ("Keyword not found: \"".toList ++ keyword ++ "\"".toList))
    else
      .ok { m with char_it := char_it, key := key, state := .find_key_begin }
  | .find_key_begin =>
    let char_it := advance_while (fun c => c == ' ') (line.drop m.char_it) m.char_it
    match line.get? char_it with
    | none => .ok { m with char_it := char_it, state := .done }
    | some _ =>
      .ok { m with char_it := char_it, char_begin_it := char_it, state := .find_key_end }
  | .find_key_end =>
    let char_it :=
      advance_while (fun c => c != ' ' && c != '=') (line.drop m.char_it) m.char_it
    let key := assign line m.char_begin_it char_it
    if key = [] then
      .error (.runtime_error "Empty key.".toList)
    else
      .ok { m with char_it := char_it, key := key, state := .find_equal_sign }
  | .find_equal_sign =>
    let char_it := advance_while (fun c => c != '=') (line.drop m.char_it) m.char_it
    match line.get? char_it with
    | none => .error (.runtime_error "Equal sign expected.".toList)
    | some _ => .ok { m with char_it := char_it + 1, state := .find_value_begin }
  | .find_value_begin =>
    let char_it := advance_while (fun c => c == ' ') (line.drop m.char_it) m.char_it
    match line.get? char_it with
    | none => .error (.runtime_error "Value expected.".toList)
    | some c =>
      .ok { m with
            char_begin_it := char_it
            is_string_value := (c == '"')
            char_it := char_it + 1
            state := .find_value_end }
  | .find_value_end =>
    let char_it :=
      advance_while (value_continues m.is_string_value) (line.drop m.char_it) m.char_it
    if m.is_string_value then
      match line.get? char_it with
      | none => .error (.runtime_error "Unexpected end of string value.".toList)
      | some _ =>
        let char_it := char_it + 1
        let value := assign line (m.char_begin_it + 1) (char_it - 1)
        .ok { m with
              char_it := char_it
              value := value
              line_parts := LineParts.assign m.line_parts m.key value
              state := .find_key_begin }
    else
      let value := assign line m.char_begin_it char_it
      .ok { m with
            char_it := char_it
            value := value
            line_parts := LineParts.assign m.line_parts m.key value
            state := .find_key_begin }
  | .done => .ok m

/-- The loop `while (state != State::done) { switch (state) ... }`, returning
`line_parts` when it ends. The first argument is the step budget. -/
def run (line keyword : Str) : Nat → Scan → Except Error LineParts
  | budget, m =>
    if m.state = .done then .ok m.line_parts
    else
      match budget with
      | 0 => .error .step_budget_exhausted
      | budget + 1 =>
        match step line keyword m with
        | .error e => .error e
        | .ok m' => run line keyword budget m'

/-- The values of the locals of `parse_line` when its loop starts. -/
def Scan.start : Scan :=
  { state := .find_keyword_end, key := [], value := [], line_parts := [],
    is_string_value := false, char_it := 0, char_begin_it := 0 }

/-- A number of steps that no scan of `line` exceeds. -/
def step_budget (line : Str) : Nat := 6 * line.length + 6

/-- `LineParts parse_line(const std::string& line, const std::string& keyword)`. -/
def parse_line (line keyword : Str) : Except Error LineParts :=
  if line = [] then .ok []
  else if keyword = [] then .error (.invalid_argument "Empty keyword.".toList)
  else run line keyword (step_budget line) Scan.start

/-! ## `std::stoi` and `std::stoul` -/

/-- `isspace` in the "C" locale. -/
def isspace (c : Char) : Bool :=
  c == ' ' || c == '\t' || c == '\n' || c == '\x0b' || c == '\x0c' || c == '\r'

/-- `isdigit`. -/
def isdigit (c : Char) : Bool := '0' ≤ c && c ≤ '9'

/-- The value of a run of decimal digits. -/
def digits_value (digits : List Char) : Nat :=
  digits.foldl (fun acc c => 10 * acc + (c.toNat - '0'.toNat)) 0

/-- What `strtol` and `strtoul` (base 10) take from the front of a string:
white space is skipped, one sign is accepted, and the longest run of digits
is the number; `none` when there is no digit (no conversion). -/
def scan_number (s : Str) : Option (Bool × Nat) :=
  let s1 := s.dropWhile isspace
  let signed : Bool × Str :=
    match s1 with
    | '-' :: t => (true, t)
    | '+' :: t => (false, t)
    | _ => (false, s1)
  let digits := signed.2.takeWhile isdigit
  if digits = [] then none else some (signed.1, digits_value digits)

/-- Least value of `int`. -/
def INT_MIN : Int := -2147483648

/-- Greatest value of `int`. -/
def INT_MAX : Int := 2147483647

/-- `std::stoi(str)`: `std::invalid_argument` when no conversion can be done,
`std::out_of_range` when the number does not fit an `int`. -/
def stoi (str : Str) : Except Error Int :=
  match scan_number str with
  | none => .error (.invalid_argument "stoi".toList)
  | some (negative, magnitude) =>
    let v : Int := if negative then -(magnitude : Int) else (magnitude : Int)
    if v < INT_MIN ∨ INT_MAX < v then .error (.out_of_range "stoi".toList)
    else .ok v

/-- `std::stoul(str)` for an `unsigned long` of `ulong_bits` bits:
`std::out_of_range` when the digits exceed `ULONG_MAX`; a minus sign negates
in the unsigned type. -/
def stoul (ulong_bits : Nat) (str : Str) : Except Error Nat :=
  match scan_number str with
  | none => .error (.invalid_argument "stoul".toList)
  | some (negative, magnitude) =>
    if 2 ^ ulong_bits ≤ magnitude then .error (.out_of_range "stoul".toList)
    else if negative then .ok ((2 ^ ulong_bits - magnitude) % 2 ^ ulong_bits)
    else .ok magnitude

/-- Conversion of an `int` or `unsigned long` value to `char32_t`. -/
def to_char32 (v : Int) : Nat := (v % 4294967296).toNat

/-- Result of an `int` multiplication, kept in 32 bits (two's complement). -/
def wrap_int (v : Int) : Int := (v + 2147483648) % 4294967296 - 2147483648

/-! ## The surroundings of a run -/

/-- What a run of the converter finds outside the metrics stream. -/
structure Env where
  /-- The page resources: the bytes of the file of that name, `none` when
  `std::ifstream` cannot open it. -/
  open_file : Str → Option (List Nat)
  /-- The indeterminate bytes that the locals `dds_magic` and `dds_header`
  hold before `stream.read` fills them, by file offset; they are seen only
  where the file ends inside the first 128 bytes. -/
  uninit : Nat → Nat
  /-- Width of `unsigned long` (32 or 64). -/
  ulong_bits : Nat
  /-- Whether the allocator gives `page_list.resize(n)` the storage for `n`
  pages, `n` positive; it throws `std::bad_alloc` when not. -/
  page_list_storage : Nat → Bool
  /-- Whether the allocator gives `chars.resize(n)` the storage for `n`
  glyphs, `n` positive; it throws `std::bad_alloc` when not. -/
  chars_storage : Nat → Bool

/-! ## DDS header and `Page::read_data` -/

/-- `struct DDS_PIXELFORMAT`. -/
structure DDS_PIXELFORMAT where
  dwSize : Nat
  dwFlags : Nat
  dwFourCC : Nat
  dwRGBBitCount : Nat
  dwRBitMask : Nat
  dwGBitMask : Nat
  dwBBitMask : Nat
  dwABitMask : Nat
  deriving DecidableEq, Repr

/-- `const size_t DDS_HEADER_SIZE = 124;` -/
def DDS_HEADER_SIZE : Nat := 124

/-- `struct DDS_HEADER`. -/
structure DDS_HEADER where
  dwSize : Nat
  dwFlags : Nat
  dwHeight : Nat
  dwWidth : Nat
  dwPitchOrLinearSize : Nat
  dwDepth : Nat
  dwMipMapCount : Nat
  dwReserved1 : List Nat
  ddspf : DDS_PIXELFORMAT
  dwCaps : Nat
  dwCaps2 : Nat
  dwCaps3 : Nat
  dwCaps4 : Nat
  dwReserved2 : Nat
  deriving DecidableEq, Repr

/-- `std::uint32_t MAKEFOURCC(a, b, c, d)`: the four bytes at bit 0, 8, 16, 24. -/
def MAKEFOURCC (a b c d : Char) : Nat :=
  (a.toNat % 256) + (b.toNat % 256) * 256 + (c.toNat % 256) * 65536 +
    (d.toNat % 256) * 16777216

/-- The byte that a read of the file leaves at `offset` of the locals: the
file's byte when the file has one there, else what the local held. -/
def byte_at (env : Env) (bytes : List Nat) (offset : Nat) : Nat :=
  match bytes.get? offset with
  | some b => b % 256
  | none => env.uninit offset % 256

/-- The `std::uint32_t` made of the four bytes from `offset` on (the host is
little-endian). -/
def read_u32 (env : Env) (bytes : List Nat) (offset : Nat) : Nat :=
  byte_at env bytes offset + byte_at env bytes (offset + 1) * 256 +
    byte_at env bytes (offset + 2) * 65536 + byte_at env bytes (offset + 3) * 16777216

/-- The `DDS_HEADER` that `stream.read(&dds_header, DDS_HEADER_SIZE)` fills
from the bytes at file offset `base` on: 31 consecutive 32-bit fields in
declaration order. -/
def read_DDS_HEADER (env : Env) (bytes : List Nat) (base : Nat) : DDS_HEADER :=
  let field := fun (i : Nat) => read_u32 env bytes (base + 4 * i)
  { dwSize := field 0
    dwFlags := field 1
    dwHeight := field 2
    dwWidth := field 3
    dwPitchOrLinearSize := field 4
    dwDepth := field 5
    dwMipMapCount := field 6
    dwReserved1 := (List.range 11).map (fun i => field (7 + i))
    ddspf :=
      { dwSize := field 18
        dwFlags := field 19
        dwFourCC := field 20
        dwRGBBitCount := field 21
        dwRBitMask := field 22
        dwGBitMask := field 23
        dwBBitMask := field 24
        dwABitMask := field 25 }
    dwCaps := field 26
    dwCaps2 := field 27
    dwCaps3 := field 28
    dwCaps4 := field 29
    dwReserved2 := field 30 }

/-- `auto data_size = width * height;` -/
def data_size (width height : Int) : Int := wrap_int (width * height)

/-- `void Page::read_data(const int width, const int height)` for the page
whose `file` member is `file`; the result is the new `data` member. Each
message is the text before the file name followed by the file name (the
statement `message + "\".";` has no effect). -/
def Page.read_data (env : Env) (file : Str) (width height : Int) :
    Except Error (List Nat) :=
  match env.open_file file with
  | none => .error (.runtime_error ("Failed to open page: \"".toList ++ file))
  | some bytes =>
    let dds_magic := read_u32 env bytes 0
    if dds_magic ≠ MAKEFOURCC 'D' 'D' 'S' ' ' then
      .error (.runtime_error ("Page file is not DDS: \"".toList ++ file))
    else
      let dds_header := read_DDS_HEADER env bytes 4
      if dds_header.dwSize ≠ DDS_HEADER_SIZE then
        .error (.runtime_error ("Invalid DDS header size: \"".toList ++ file))
      else if dds_header.ddspf.dwRGBBitCount ≠ 8 ∨ dds_header.ddspf.dwABitMask ≠ 255 then
        .error (.runtime_error ("Unsupported image format: \"".toList ++ file))
      else
        let data_size := data_size width height
        -- `data.resize(data_size)`: a negative `int` becomes a `size_t` above `max_size()`
        if data_size < 0 then .error (.length_error "vector::_M_default_append".toList)
        else
          -- `stream.read(data.data(), data_size)`
          let data := ((bytes.drop 128).take data_size.toNat).map (fun b => b % 256)
          -- `!stream || stream.gcount() != data_size`
          if bytes.length < 128 ∨ data.length ≠ data_size.toNat then
            .error (.runtime_error ("Failed to read page data: \"".toList ++ file))
          else .ok data

/-! ## The document and `FntInfo::parse` -/

/-- `struct CharInfo`. -/
structure CharInfo where
  id : Nat
  x : Int
  y : Int
  width : Int
  height : Int
  xoffset : Int
  yoffset : Int
  xadvance : Int
  page : Int
  chnl : Int
  deriving DecidableEq, Repr

/-- `struct Page`. -/
structure Page where
  id : Int
  file : Str
  data : List Nat
  deriving DecidableEq, Repr

/-- `SubKernings = std::map<char32_t, int>`: the entries in iteration order. -/
abbrev SubKernings := List (Nat × Int)

/-- `Kernings = std::map<char32_t, SubKernings>`: the entries in iteration order. -/
abbrev Kernings := List (Nat × SubKernings)

/-- `std::map::find`, as the mapped value if any. -/
def map_find {β : Type} (m : List (Nat × β)) (key : Nat) : Option β :=
  match m with
  | [] => none
  | (k, v) :: rest => if k = key then some v else map_find rest key

/-- `m[key] = value` on a `std::map`: the entry of `key` is overwritten, or a
new entry is put at its place in ascending key order. -/
def map_assign {β : Type} (m : List (Nat × β)) (key : Nat) (value : β) : List (Nat × β) :=
  match m with
  | [] => [(key, value)]
  | (k, v) :: rest =>
    if key < k then (key, value) :: (k, v) :: rest
    else if key = k then (key, value) :: rest
    else (k, v) :: map_assign rest key value

/-- The members of `class FntInfo`. -/
structure FntInfo where
  face : Str
  size : Int
  stretchH : Int
  outline : Int
  lineHeight : Int
  base : Int
  scaleW : Int
  scaleH : Int
  pages : Int
  packed : Int
  alphaChnl : Int
  redChnl : Int
  greenChnl : Int
  blueChnl : Int
  page_list : List Page
  chars : List CharInfo
  kernings : Kernings
  deriving DecidableEq, Repr

/-- The `std::getline` call sites of `parse`, by the record they read. -/
inductive Site where
  | info
  | common
  | page
  | chars
  | char
  | kernings
  | kerning
  deriving DecidableEq, Repr

/-- An input action of `parse`. -/
inductive Event where
  /-- A call of `std::getline` and the line it gave (`none`: it failed). -/
  | getline (site : Site) (line : Option Str)
  /-- A call of `Page::read_data`. -/
  | read_data (file : Str) (width height : Int)
  deriving DecidableEq, Repr

/-- The metrics stream as `parse` sees it: the lines not yet read, and the
input actions done so far, oldest first. -/
structure Stream where
  lines : List Str
  log : List Event
  deriving DecidableEq, Repr

/-- `std::getline(stream, line)` at a call site. -/
def getline (site : Site) (s : Stream) : Option Str × Stream :=
  match s.lines with
  | [] => (none, { s with log := s.log ++ [.getline site none] })
  | line :: rest => (some line, { lines := rest, log := s.log ++ [.getline site (some line)] })

/-- `std::runtime_error{"Failed to read a line."}` -/
def failed_to_read_a_line : Error := .runtime_error "Failed to read a line.".toList

/-- What `parse` takes from the `info` line. -/
structure InfoFields where
  face : Str
  size : Int
  stretchH : Int
  outline : Int
  deriving DecidableEq, Repr

/-- The `// info` block of `parse` after its `std::getline`. -/
def info_record (line : Str) : Except Error InfoFields := do
  let info_parts ← parse_line line "info".toList
  let face := info_parts.at "face"
  let size ← stoi (info_parts.at "size")
  let stretchH ← stoi (info_parts.at "stretchH")
  let outline ← stoi (info_parts.at "outline")
  if size ≥ 0 then .error (.runtime_error "Positive size.".toList)
  else if stretchH ≠ 100 then .error (.runtime_error "Stretch is not 100%.".toList)
  else if outline ≠ 0 then .error (.runtime_error "Outline not allowed.".toList)
  else .ok { face := face, size := size, stretchH := stretchH, outline := outline }

/-- What `parse` takes from the `common` line. -/
structure CommonFields where
  lineHeight : Int
  base : Int
  scaleW : Int
  scaleH : Int
  pages : Int
  packed : Int
  alphaChnl : Int
  redChnl : Int
  greenChnl : Int
  blueChnl : Int
  deriving DecidableEq, Repr

/-- The value of `is_channels_valid` after its two guarded updates. -/
def is_channels_valid (alphaChnl redChnl greenChnl blueChnl : Int) : Bool :=
  let v0 := false
  let v1 :=
    if !v0 then v0 || (alphaChnl == 0 && redChnl == 3 && greenChnl == 3 && blueChnl == 3)
    else v0
  let v2 :=
    if !v1 then v1 || (alphaChnl == 0 && redChnl == 4 && greenChnl == 4 && blueChnl == 4)
    else v1
  v2

/-- The `// common` block of `parse` after its `std::getline`, up to the
channel check. -/
def common_record (line : Str) : Except Error CommonFields := do
  let common_parts ← parse_line line "common".toList
  let lineHeight ← stoi (common_parts.at "lineHeight")
  let base ← stoi (common_parts.at "base")
  let scaleW ← stoi (common_parts.at "scaleW")
  let scaleH ← stoi (common_parts.at "scaleH")
  let pages ← stoi (common_parts.at "pages")
  let packed ← stoi (common_parts.at "packed")
  let alphaChnl ← stoi (common_parts.at "alphaChnl")
  let redChnl ← stoi (common_parts.at "redChnl")
  let greenChnl ← stoi (common_parts.at "greenChnl")
  let blueChnl ← stoi (common_parts.at "blueChnl")
  if base ≤ 0 then .error (.runtime_error "Invalid base.".toList)
  else if !is_pow2 scaleW || !is_pow2 scaleH then
    .error (.runtime_error "Non power of two dimensions.".toList)
  else if pages ≤ 0 then .error (.runtime_error "Invalid page count.".toList)
  else if packed ≠ 0 then .error (.runtime_error "Packed data not supported.".toList)
  else if !is_channels_valid alphaChnl redChnl greenChnl blueChnl then
    .error (.runtime_error "Unexpected channel configuration.".toList)
  else
    .ok { lineHeight := lineHeight, base := base, scaleW := scaleW, scaleH := scaleH,
          pages := pages, packed := packed, alphaChnl := alphaChnl, redChnl := redChnl,
          greenChnl := greenChnl, blueChnl := blueChnl }

/-- The `// page` block before `read_data`: the page's `id` and `file`. -/
def page_record (line : Str) : Except Error (Int × Str) := do
  let page_parts ← parse_line line "page".toList
  let id ← stoi (page_parts.at "id")
  .ok (id, page_parts.at "file")

/-- The page loop `for (auto i = 0; i < pages; ++i)`, for the iterations left. -/
def read_pages (env : Env) (scaleW scaleH : Int) :
    Nat → Stream → Except Error (List Page) × Stream
  | 0, s => (.ok [], s)
  | n + 1, s =>
    match getline .page s with
    | (none, s1) => (.error failed_to_read_a_line, s1)
    | (some line, s1) =>
      match page_record line with
      | .error e => (.error e, s1)
      | .ok (id, file) =>
        let s2 : Stream := { s1 with log := s1.log ++ [.read_data file scaleW scaleH] }
        match Page.read_data env file scaleW scaleH with
        | .error e => (.error e, s2)
        | .ok data =>
          match read_pages env scaleW scaleH n s2 with
          | (.error e, s3) => (.error e, s3)
          | (.ok rest, s3) => (.ok ({ id := id, file := file, data := data } :: rest), s3)

/-- The `chars` header: `char_count`. -/
def chars_record (line : Str) : Except Error Int := do
  let chars_parts ← parse_line line "chars".toList
  stoi (chars_parts.at "count")

/-- The `// char` block after its `std::getline`. -/
def char_record (env : Env) (line : Str) : Except Error CharInfo := do
  let char_parts ← parse_line line "char".toList
  let id ← stoul env.ulong_bits (char_parts.at "id")
  let x ← stoi (char_parts.at "x")
  let y ← stoi (char_parts.at "y")
  let width ← stoi (char_parts.at "width")
  let height ← stoi (char_parts.at "height")
  let xoffset ← stoi (char_parts.at "xoffset")
  let yoffset ← stoi (char_parts.at "yoffset")
  let xadvance ← stoi (char_parts.at "xadvance")
  let page ← stoi (char_parts.at "page")
  let chnl ← stoi (char_parts.at "chnl")
  .ok { id := to_char32 id, x := x, y := y, width := width, height := height,
        xoffset := xoffset, yoffset := yoffset, xadvance := xadvance, page := page,
        chnl := chnl }

/-- The char loop `for (auto i = 0; i < char_count; ++i)`, for the iterations left. -/
def read_chars (env : Env) : Nat → Stream → Except Error (List CharInfo) × Stream
  | 0, s => (.ok [], s)
  | n + 1, s =>
    match getline .char s with
    | (none, s1) => (.error failed_to_read_a_line, s1)
    | (some line, s1) =>
      match char_record env line with
      | .error e => (.error e, s1)
      | .ok ch =>
        match read_chars env n s1 with
        | (.error e, s2) => (.error e, s2)
        | (.ok rest, s2) => (.ok (ch :: rest), s2)

/-- The `kernings` header: `kerning_count`. -/
def kernings_record (line : Str) : Except Error Int := do
  let kernings_parts ← parse_line line "kernings".toList
  stoi (kernings_parts.at "count")

/-- The `// kerning` block after its `std::getline`: `first`, `second`, `amount`. -/
def kerning_record (line : Str) : Except Error (Int × Int × Int) := do
  let kerning_parts ← parse_line line "kerning".toList
  let first ← stoi (kerning_parts.at "first")
  let second ← stoi (kerning_parts.at "second")
  let amount ← stoi (kerning_parts.at "amount")
  .ok (first, second, amount)

/-- The insertion that ends the body of the kerning loop; the `int` keys
`first` and `second` convert to `char32_t`. -/
def insert_kerning (kernings : Kernings) (first second amount : Int) : Kernings :=
  let kernings1 :=
    match map_find kernings (to_char32 first) with
    | none => map_assign kernings (to_char32 first) []
    | some _ => kernings
  let sub_kernings := (map_find kernings1 (to_char32 first)).getD []
  map_assign kernings1 (to_char32 first) (map_assign sub_kernings (to_char32 second) amount)

/-- The kerning loop `for (auto i = 0; i < kerning_count; ++i)`, for the
iterations left. -/
def read_kernings : Nat → Kernings → Stream → Except Error Kernings × Stream
  | 0, kernings, s => (.ok kernings, s)
  | n + 1, kernings, s =>
    match getline .kerning s with
    | (none, s1) => (.error failed_to_read_a_line, s1)
    | (some line, s1) =>
      match kerning_record line with
      | .error e => (.error e, s1)
      | .ok (first, second, amount) =>
        read_kernings n (insert_kerning kernings first second amount) s1

/-- Whether `resize(n)` on an empty `std::vector` returns, for an `n` below
`max_size()`: nothing is allocated for `n = 0`; for a positive `n` the
allocator is asked for the storage of `n` elements. -/
def resize_ok (storage : Nat → Bool) (n : Nat) : Bool :=
  n == 0 || storage n

/-- `void FntInfo::parse(std::istream& stream)`: the document it leaves in
`*this` or the exception it throws, and the stream afterwards. -/
def parse (env : Env) (stream : Stream) : Except Error FntInfo × Stream :=
  -- info
  match getline .info stream with
  | (none, s1) => (.error failed_to_read_a_line, s1)
  | (some line, s1) =>
  match info_record line with
  | .error e => (.error e, s1)
  | .ok info =>
  -- common
  match getline .common s1 with
  | (none, s2) => (.error failed_to_read_a_line, s2)
  | (some line, s2) =>
  match common_record line with
  | .error e => (.error e, s2)
  | .ok common =>
  -- `page_list.resize(pages)`
  if !resize_ok env.page_list_storage common.pages.toNat then (.error .bad_alloc, s2)
  else
  -- page
  match read_pages env common.scaleW common.scaleH common.pages.toNat s2 with
  | (.error e, s3) => (.error e, s3)
  | (.ok page_list, s3) =>
  -- chars
  match getline .chars s3 with
  | (none, s4) => (.error failed_to_read_a_line, s4)
  | (some line, s4) =>
  match chars_record line with
  | .error e => (.error e, s4)
  | .ok char_count =>
  -- `chars.resize(char_count)`: a negative `int` becomes a `size_t` above `max_size()`
  if char_count < 0 then (.error (.length_error "vector::_M_default_append".toList), s4)
  else if !resize_ok env.chars_storage char_count.toNat then (.error .bad_alloc, s4)
  else
  match read_chars env char_count.toNat s4 with
  | (.error e, s5) => (.error e, s5)
  | (.ok chars, s5) =>
  let document (kernings : Kernings) : FntInfo :=
    { face := info.face, size := info.size, stretchH := info.stretchH,
      outline := info.outline, lineHeight := common.lineHeight, base := common.base,
      scaleW := common.scaleW, scaleH := common.scaleH, pages := common.pages,
      packed := common.packed, alphaChnl := common.alphaChnl, redChnl := common.redChnl,
      greenChnl := common.greenChnl, blueChnl := common.blueChnl,
      page_list := page_list, chars := chars, kernings := kernings }
  -- Kernings
  match getline .kernings s5 with
  | (none, s6) => (.ok (document []), s6)
  | (some line, s6) =>
  match kernings_record line with
  | .error e => (.error e, s6)
  | .ok kerning_count =>
  match read_kernings kerning_count.toNat [] s6 with
  | (.error e, s7) => (.error e, s7)
  | (.ok kernings, s7) => (.ok (document kernings), s7)

/-- The metrics stream holding `lines`, before anything is read. -/
def Stream.of_lines (lines : List Str) : Stream := { lines := lines, log := [] }

/-- The lines that the `std::getline` calls of one site gave, oldest first. -/
def lines_read (site : Site) (log : List Event) : List Str :=
  log.filterMap fun e =>
    match e with
    | .getline s (some line) => if s = site then some line else none
    | _ => none

/-- The `(first, second, amount)` of the kerning lines read, oldest first. -/
def kerning_records (log : List Event) : List (Int × Int × Int) :=
  (lines_read .kerning log).filterMap fun line => (kerning_record line).toOption

/-- The glyphs of the char lines read, oldest first. -/
def char_records (env : Env) (log : List Event) : List CharInfo :=
  (lines_read .char log).filterMap fun line => (char_record env line).toOption

/-! ## The glyph and kerning blocks of `FntInfo::export_to_cpp` -/

/-- `stream << v` for an unsigned value (a `char32_t` is written as a number). -/
def decimal (v : Nat) : Str := Nat.toDigits 10 v

/-- `stream << v` for an `int`. -/
def decimal_int (v : Int) : Str :=
  if v < 0 then '-' :: Nat.toDigits 10 v.natAbs else Nat.toDigits 10 v.toNat

/-- `std::endl` -/
def endl : Str := ['\n']

/-- The line that the glyph loop writes for `chars[i]`. -/
def glyph_line (ch : CharInfo) : Str :=
  "\t\t\x7b ".toList ++ decimal ch.id ++ ", \x7b ".toList ++
    decimal_int ch.page ++ ", ".toList ++
    decimal_int ch.x ++ ", ".toList ++
    decimal_int ch.y ++ ", ".toList ++
    decimal_int ch.width ++ ", ".toList ++
    decimal_int ch.height ++ ", ".toList ++
    decimal_int ch.xoffset ++ ", ".toList ++
    decimal_int ch.yoffset ++ ", ".toList ++
    decimal_int ch.xadvance ++ ", ".toList ++
    " \x7d \x7d,".toList ++ endl

/-- The text written before the glyph lines. -/
def glyph_block_head : Str :=
  endl ++ endl ++
    "const GlyphInfo* Font::get_glyph(".toList ++ endl ++
    "\tconst char32_t index)".toList ++ endl ++
    "\x7b".toList ++ endl ++
    "\tusing Glyphs = std::unordered_map<char32_t, GlyphInfo>;".toList ++ endl ++
    endl ++
    "\tstatic const Glyphs glyphs = \x7b".toList ++ endl

/-- The text written after the glyph lines. -/
def glyph_block_tail : Str :=
  "\t\x7d; // glyphs".toList ++ endl ++
    endl ++
    "\tauto glyph_it = glyphs.find(index);".toList ++ endl ++
    endl ++
    "\tif (glyph_it == glyphs.cend())".toList ++ endl ++
    "\t\x7b".toList ++ endl ++
    "\t\treturn nullptr;".toList ++ endl ++
    "\t\x7d".toList ++ endl ++
    endl ++
    "\treturn &glyph_it->second;".toList ++ endl ++
    "\x7d".toList ++ endl

/-- The `// Glyphs` part of `export_to_cpp`. -/
def glyph_block (d : FntInfo) : Str :=
  glyph_block_head ++ d.chars.flatMap glyph_line ++ glyph_block_tail

/-- The line that the inner kerning loop writes for one `sub_kerning`. -/
def sub_kerning_line (sub_kerning : Nat × Int) : Str :=
  "\t\t\t\t\x7b ".toList ++ decimal sub_kerning.1 ++ ", ".toList ++
    decimal_int sub_kerning.2 ++ " \x7d,".toList ++ endl

/-- The lines that the outer kerning loop writes for one `kerning`. -/
def kerning_lines (kerning : Nat × SubKernings) : Str :=
  "\t\t\x7b".toList ++ endl ++
    "\t\t\t".toList ++ decimal kerning.1 ++ ",".toList ++ endl ++
    "\t\t\t\x7b".toList ++ endl ++
    kerning.2.flatMap sub_kerning_line ++
    "\t\t\t\x7d".toList ++ endl ++
    "\t\t\x7d,".toList ++ endl

/-- The text written before the kerning lines. -/
def kerning_block_head : Str :=
  endl ++ endl ++
    "int Font::get_kerning(".toList ++ endl ++
    "\tchar32_t left_char,".toList ++ endl ++
    "\tchar32_t right_char)".toList ++ endl ++
    "\x7b".toList ++ endl ++
    "\tusing Kernings = std::unordered_map<".toList ++ endl ++
    "\t\tchar32_t,".toList ++ endl ++
    "\t\tstd::unordered_map<char32_t, int>>;".toList ++ endl ++
    endl ++
    "\tstatic const Kernings kernings = \x7b".toList ++ endl

/-- The text written after the kerning lines. -/
def kerning_block_tail : Str :=
  "\t\x7d; // kernings".toList ++ endl ++
    endl ++
    "\tif (left_char == '\\0' || right_char == '\\0')".toList ++ endl ++
    "\t\x7b".toList ++ endl ++
    "\t\treturn 0;".toList ++ endl ++
    "\t\x7d".toList ++ endl ++
    endl ++
    "\tauto sub_kerning_it = kernings.find(left_char);".toList ++ endl ++
    endl ++
    "\tif (sub_kerning_it == kernings.cend())".toList ++ endl ++
    "\t\x7b".toList ++ endl ++
    "\t\treturn 0;".toList ++ endl ++
    "\t\x7d".toList ++ endl ++
    endl ++
    "\tconst auto& sub_kerning = sub_kerning_it->second;".toList ++ endl ++
    endl ++
    "\tauto kerning_it = sub_kerning.find(right_char);".toList ++ endl ++
    endl ++
    "\tif (kerning_it == sub_kerning.cend())".toList ++ endl ++
    "\t\x7b".toList ++ endl ++
    "\t\treturn 0;".toList ++ endl ++
    "\t\x7d".toList ++ endl ++
    endl ++
    "\treturn kerning_it->second;".toList ++ endl ++
    "\x7d".toList ++ endl

/-- The `// Kernings` part of `export_to_cpp`; the range-for loops visit the
two `std::map`s in ascending key order. -/
def kerning_block (d : FntInfo) : Str :=
  kerning_block_head ++ d.kernings.flatMap kerning_lines ++ kerning_block_tail

/-! ## The emitted `Font::get_glyph` and `Font::get_kerning` -/

/-- `struct GlyphInfo` of the emitted text. -/
structure GlyphInfo where
  page_id : Int
  page_x : Int
  page_y : Int
  width : Int
  height : Int
  offset_x : Int
  offset_y : Int
  advance_x : Int
  deriving DecidableEq, Repr

/-- The element of the initializer of `glyphs` that `glyph_line ch` spells:
the key, and the eight numbers in the order written, which fill the members
of `GlyphInfo` in declaration order. -/
def glyph_entry (ch : CharInfo) : Nat × GlyphInfo :=
  (ch.id,
    { page_id := ch.page, page_x := ch.x, page_y := ch.y, width := ch.width,
      height := ch.height, offset_x := ch.xoffset, offset_y := ch.yoffset,
      advance_x := ch.xadvance })

/-- The initializer of `glyphs` in the emitted text: one element per glyph
line, in the order written. -/
def glyph_initializer (d : FntInfo) : List (Nat × GlyphInfo) :=
  d.chars.map glyph_entry

/-- The initializer of `kernings` in the emitted text: one element per
`kerning_lines` group and, inside, one per `sub_kerning_line`, in the order
written. -/
def kerning_initializer (d : FntInfo) : List (Nat × List (Nat × Int)) :=
  d.kernings

/-- A `std::unordered_map` built from a braced initializer: the elements are
inserted in the order written, and an element whose key is already in the map
is not inserted. -/
def unordered_map_of {β : Type} (init : List (Nat × β)) : List (Nat × β) :=
  init.foldl
    (fun m e =>
      match map_find m e.1 with
      | some _ => m
      | none => m ++ [e])
    []

/-- The emitted `const GlyphInfo* Font::get_glyph(const char32_t index)`, for
the initializer of its `glyphs`; `none` is `nullptr`. -/
def Font.get_glyph (glyphs_init : List (Nat × GlyphInfo)) (index : Nat) :
    Option GlyphInfo :=
  let glyphs := unordered_map_of glyphs_init
  match map_find glyphs index with
  | none => none
  | some glyph => some glyph

/-- The emitted `int Font::get_kerning(char32_t left_char, char32_t right_char)`,
for the initializer of its `kernings`. -/
def Font.get_kerning (kernings_init : List (Nat × List (Nat × Int)))
    (left_char right_char : Nat) : Int :=
  let kernings :=
    unordered_map_of (kernings_init.map fun e => (e.1, unordered_map_of e.2))
  if left_char = 0 ∨ right_char = 0 then 0
  else
    match map_find kernings left_char with
    | none => 0
    | some sub_kerning =>
      match map_find sub_kerning right_char with
      | none => 0
      | some amount => amount

/-! ## Auxiliary notions for the statements -/

/-- The locals of `parse_line` after `n` more passes through its `switch`,
when none of them throws. A pass in `State::done` changes nothing. -/
def steps (line keyword : Str) : Nat → Scan → Except Error Scan
  | 0, m => .ok m
  | n + 1, m =>
    match step line keyword m with
    | .error e => .error e
    | .ok m' => steps line keyword n m'

/-- The locals of `parse_line line keyword` after `n` passes through the
`switch` of its loop; `none` when the call does not get that far, because it
returns or throws before the loop (empty line, empty keyword) or because a
pass throws. -/
def scan_after (line keyword : Str) (n : Nat) : Option Scan :=
  if line = [] ∨ keyword = [] then none
  else (steps line keyword n Scan.start).toOption

/-- Rank of a state in the bound on the passes still to come. -/
def State.rank : State → Nat
  | .done => 0
  | .find_equal_sign => 1
  | .find_key_end => 2
  | .find_key_begin => 3
  | .find_value_end => 4
  | .find_keyword_end => 5
  | .find_value_begin => 6

/-- A bound on the number of passes the loop of `parse_line` still makes from
the locals `m`: six per character not yet passed, plus the rank of the state. -/
def passes_left (line : Str) (m : Scan) : Nat :=
  6 * (line.length - m.char_it) + m.state.rank

/-- The amount that a two-level kerning map holds for a pair of code points,
`none` when it has no entry for the pair. -/
def kerning_amount (kernings : Kernings) (first second : Nat) : Option Int :=
  match map_find kernings first with
  | none => none
  | some sub_kernings => map_find sub_kernings second

/-- The amount of the last record in a list of kerning records whose
`first` and `second`, as `char32_t`, are the given pair. -/
def last_amount (records : List (Int × Int × Int)) (first second : Nat) : Option Int :=
  ((records.filter fun r => to_char32 r.1 = first ∧ to_char32 r.2.1 = second).getLast?).map
    fun r => r.2.2

/-- The exceptions thrown by the states after `State::find_keyword_end`, and
the outcome of a used-up budget. -/
def later_error (e : Error) : Prop :=
  e = .runtime_error "Empty key.".toList ∨
  e = .runtime_error "Equal sign expected.".toList ∨
  e = .runtime_error "Value expected.".toList ∨
  e = .runtime_error "Unexpected end of string value.".toList ∨
  e = .step_budget_exhausted

/-! ## Concrete inputs -/

/-- A page file: the magic tag, a 124-byte header with header size 124,
bit count 8 and alpha mask 255 (all other fields 0), then the given bytes. -/
def sample_dds (pixels : List Nat) : List Nat :=
  [68, 68, 83, 32] ++ [124, 0, 0, 0] ++ List.replicate 80 0 ++ [8, 0, 0, 0] ++
    List.replicate 12 0 ++ [255, 0, 0, 0] ++ List.replicate 20 0 ++ pixels

/-- Surroundings with the single page file `a.dds`, of five pixel bytes. -/
def sample_env : Env :=
  { open_file := fun file =>
      if file = "a.dds".toList then some (sample_dds [1, 2, 3, 4, 200]) else none
    uninit := fun _ => 0
    ulong_bits := 64
    page_list_storage := fun n => decide (n ≤ 1000000)
    chars_storage := fun n => decide (n ≤ 1000000) }

/-- A metrics stream with two char lines of code point 97 and three kerning
lines, one of them with the null code point, two of them with the same pair. -/
def sample_lines : List Str :=
  [ "info face=\"Arial\" size=-12 bold=0 stretchH=100 outline=0".toList,
    ("common lineHeight=14 base=11 scaleW=2 scaleH=2 pages=1 packed=0 " ++
      "alphaChnl=0 redChnl=4 greenChnl=4 blueChnl=4").toList,
    "page id=0 file=\"a.dds\"".toList,
    "chars count=2".toList,
    "char id=97 x=0 y=0 width=1 height=1 xoffset=0 yoffset=0 xadvance=1 page=0 chnl=15".toList,
    "char id=97 x=1 y=1 width=2 height=2 xoffset=3 yoffset=4 xadvance=5 page=0 chnl=15".toList,
    "kernings count=3".toList,
    "kerning first=97 second=98 amount=-1".toList,
    "kerning first=0 second=98 amount=7".toList,
    "kerning first=97 second=98 amount=0".toList ]

/-- The document that `parse` builds from `sample_lines`. -/
def sample_document : FntInfo :=
  { face := "Arial".toList, size := -12, stretchH := 100, outline := 0, lineHeight := 14,
    base := 11, scaleW := 2, scaleH := 2, pages := 1, packed := 0, alphaChnl := 0,
    redChnl := 4, greenChnl := 4, blueChnl := 4,
    page_list := [{ id := 0, file := "a.dds".toList, data := [1, 2, 3, 4] }],
    chars :=
      [ { id := 97, x := 0, y := 0, width := 1, height := 1, xoffset := 0, yoffset := 0,
          xadvance := 1, page := 0, chnl := 15 },
        { id := 97, x := 1, y := 1, width := 2, height := 2, xoffset := 3, yoffset := 4,
          xadvance := 5, page := 0, chnl := 15 } ],
    kernings := [(0, [(98, 7)]), (97, [(98, 0)])] }

/-- A metrics stream whose common line declares a page of 0 by 0 pixels. -/
def zero_size_lines : List Str :=
  [ "info face=\"Arial\" size=-12 bold=0 stretchH=100 outline=0".toList,
    ("common lineHeight=14 base=11 scaleW=0 scaleH=0 pages=1 packed=0 " ++
      "alphaChnl=0 redChnl=4 greenChnl=4 blueChnl=4").toList,
    "page id=0 file=\"a.dds\"".toList,
    "chars count=0".toList ]

/-- The stream after `parse` has read `sample_lines`. -/
def sample_stream_after : Stream := (parse sample_env (Stream.of_lines sample_lines)).2

/-- The second char line of `sample_lines`, as a glyph. -/
def sample_second_glyph : CharInfo :=
  { id := 97, x := 1, y := 1, width := 2, height := 2, xoffset := 3, yoffset := 4,
    xadvance := 5, page := 0, chnl := 15 }

/-- A line whose first value is quoted and holds a space. -/
def quoted_line : Str := "info a=\"x y\" b=1".toList

/-- The locals of `parse_line quoted_line "info"` after four passes. -/
def quoted_line_scan : Scan :=
  { state := .find_value_begin, key := "a".toList, value := [], line_parts := [],
    is_string_value := false, char_it := 7, char_begin_it := 5 }

/-- A line whose second value opens a quote that is never closed. -/
def unterminated_line : Str := "info a=1 b=\"x".toList

/-- The locals of `parse_line unterminated_line "info"` after nine passes. -/
def unterminated_line_scan : Scan :=
  { state := .find_value_begin, key := "b".toList, value := "1".toList,
    line_parts := [("a".toList, "1".toList)], is_string_value := false, char_it := 11,
    char_begin_it := 9 }

/-- The `(key, value)` pairs that the next `n` passes store with
`line_parts[key] = value`, in the order stored. -/
def stored_pairs (line keyword : Str) : Nat → Scan → List (Str × Str)
  | 0, _ => []
  | n + 1, m =>
    match step line keyword m with
    | .error _ => []
    | .ok m' =>
      (if m.state = .find_value_end then [(m'.key, m'.value)] else []) ++
        stored_pairs line keyword n m'

/-- The `key=value` pairs of a line as `parse_line line keyword` meets them:
the pairs its loop stores, in the order stored (none when the loop is not
entered). -/
def line_pairs (line keyword : Str) : List (Str × Str) :=
  if line = [] ∨ keyword = [] then []
  else stored_pairs line keyword (step_budget line) Scan.start

/-- The value of the last pair with the given key in a list of pairs. -/
def last_value (pairs : List (Str × Str)) (key : Str) : Option Str :=
  ((pairs.filter fun kv => kv.1 = key).getLast?).map fun kv => kv.2

/-- An info line with a size that is not negative. -/
def positive_size_line : Str := "info size=12 stretchH=100 outline=0".toList

/-- The record of `positive_size_line`. -/
def positive_size_parts : LineParts :=
  [("size".toList, "12".toList), ("stretchH".toList, "100".toList),
    ("outline".toList, "0".toList)]

/-- A valid info line. -/
def info_line : Str := "info face=\"Arial\" size=-12 bold=0 stretchH=100 outline=0".toList

/-- The fields of `info_line`. -/
def info_line_fields : InfoFields :=
  { face := "Arial".toList, size := -12, stretchH := 100, outline := 0 }

/-- A common line whose ten numbers are given. -/
def common_line (lineHeight base scaleW scaleH pages packed alphaChnl redChnl greenChnl
    blueChnl : Int) : Str :=
  "common lineHeight=".toList ++ decimal_int lineHeight ++
    " base=".toList ++ decimal_int base ++
    " scaleW=".toList ++ decimal_int scaleW ++
    " scaleH=".toList ++ decimal_int scaleH ++
    " pages=".toList ++ decimal_int pages ++
    " packed=".toList ++ decimal_int packed ++
    " alphaChnl=".toList ++ decimal_int alphaChnl ++
    " redChnl=".toList ++ decimal_int redChnl ++
    " greenChnl=".toList ++ decimal_int greenChnl ++
    " blueChnl=".toList ++ decimal_int blueChnl

/-- The record of `common_line` with the given numbers. -/
def common_line_parts (lineHeight base scaleW scaleH pages packed alphaChnl redChnl greenChnl
    blueChnl : Int) : LineParts :=
  [("lineHeight".toList, decimal_int lineHeight), ("base".toList, decimal_int base),
    ("scaleW".toList, decimal_int scaleW), ("scaleH".toList, decimal_int scaleH),
    ("pages".toList, decimal_int pages), ("packed".toList, decimal_int packed),
    ("alphaChnl".toList, decimal_int alphaChnl), ("redChnl".toList, decimal_int redChnl),
    ("greenChnl".toList, decimal_int greenChnl), ("blueChnl".toList, decimal_int blueChnl)]

/-- A metrics stream that ends after its single char line. -/
def no_kerning_lines : List Str :=
  [ info_line,
    common_line 14 11 2 2 1 0 0 4 4 4,
    "page id=0 file=\"a.dds\"".toList,
    "chars count=1".toList,
    "char id=65 x=0 y=0 width=1 height=1 xoffset=0 yoffset=0 xadvance=1 page=0 chnl=15".toList ]

/-- A metrics stream that ends after a chars line declaring 2147483647
glyphs. -/
def huge_chars_lines : List Str :=
  [ info_line,
    common_line 14 11 2 2 1 0 0 4 4 4,
    "page id=0 file=\"a.dds\"".toList,
    "chars count=2147483647".toList ]

/-- The document that `parse` builds from `no_kerning_lines`. -/
def no_kerning_document : FntInfo :=
  { face := "Arial".toList, size := -12, stretchH := 100, outline := 0, lineHeight := 14,
    base := 11, scaleW := 2, scaleH := 2, pages := 1, packed := 0, alphaChnl := 0,
    redChnl := 4, greenChnl := 4, blueChnl := 4,
    page_list := [{ id := 0, file := "a.dds".toList, data := [1, 2, 3, 4] }],
    chars :=
      [ { id := 65, x := 0, y := 0, width := 1, height := 1, xoffset := 0, yoffset := 0,
          xadvance := 1, page := 0, chnl := 15 } ],
    kernings := [] }

/-- A common line that declares `scaleW=300` and whose `pages` value is not a
number. -/
def non_integer_common_line : Str :=
  ("common lineHeight=14 base=11 scaleW=300 scaleH=256 pages=one packed=0 " ++
    "alphaChnl=0 redChnl=4 greenChnl=4 blueChnl=4").toList

/-! ## The records of a metrics stream -/

/-- A page line that the body of the page loop accepts, with the page it
leaves in `page_list`: the `// page` block succeeds with the page's `id` and
`file`, and `read_data` succeeds with the page's `data`. -/
def page_line_ok (env : Env) (scaleW scaleH : Int) (line : Str) (page : Page) : Prop :=
  page_record line = .ok (page.id, page.file) ∧
    Page.read_data env page.file scaleW scaleH = .ok page.data

instance (env : Env) (scaleW scaleH : Int) (line : Str) (page : Page) :
    Decidable (page_line_ok env scaleW scaleH line page) := by
  unfold page_line_ok
  infer_instance

/-- The input actions of the page loop on page lines that give the pages
`pages`: for each line its `std::getline`, then the call of `read_data` with
the page's file. -/
def page_events (scaleW scaleH : Int) : List Str → List Page → List Event
  | line :: lines, page :: pages =>
    .getline .page (some line) :: .read_data page.file scaleW scaleH ::
      page_events scaleW scaleH lines pages
  | _, _ => []

/-- The successful `std::getline` calls of one site that read the given lines. -/
def line_events (site : Site) (lines : List Str) : List Event :=
  lines.map fun line => .getline site (some line)

/-- The kerning map after the bodies of the kerning loop for the given
`(first, second, amount)`, in order. -/
def insert_kernings (kernings : Kernings) (records : List (Int × Int × Int)) : Kernings :=
  records.foldl (fun k r => insert_kerning k r.1 r.2.1 r.2.2) kernings

/-- The members of `FntInfo` after a `parse` that took the given fields from
the info and common lines and built the given page list, glyph list and
kerning map. -/
def document_of (info : InfoFields) (common : CommonFields) (page_list : List Page)
    (chars : List CharInfo) (kernings : Kernings) : FntInfo :=
  { face := info.face, size := info.size, stretchH := info.stretchH,
    outline := info.outline, lineHeight := common.lineHeight, base := common.base,
    scaleW := common.scaleW, scaleH := common.scaleH, pages := common.pages,
    packed := common.packed, alphaChnl := common.alphaChnl, redChnl := common.redChnl,
    greenChnl := common.greenChnl, blueChnl := common.blueChnl,
    page_list := page_list, chars := chars, kernings := kernings }

/-- The input actions of `parse` from the info line to the last char line. -/
def head_events (l1 l2 : Str) (scaleW scaleH : Int) (plines : List Str) (pages : List Page)
    (lc : Str) (clines : List Str) : List Event :=
  [Event.getline .info (some l1), Event.getline .common (some l2)] ++
    page_events scaleW scaleH plines pages ++
    [Event.getline .chars (some lc)] ++ line_events .char clines
/-- A common line that declares two pages of 2 by 2 pixels. -/
def two_page_common_line : Str := common_line 14 11 2 2 2 0 0 4 4 4

/-- The fields of `two_page_common_line`. -/
def two_page_common : CommonFields :=
  { lineHeight := 14, base := 11, scaleW := 2, scaleH := 2, pages := 2, packed := 0,
    alphaChnl := 0, redChnl := 4, greenChnl := 4, blueChnl := 4 }

/-- A page line that names the page file of `sample_env`. -/
def sample_page_line : Str := "page id=0 file=\"a.dds\"".toList

/-- The page of `sample_page_line` at 2 by 2 pixels. -/
def sample_page : Page := { id := 0, file := "a.dds".toList, data := [1, 2, 3, 4] }

/-- A char line for code point 65. -/
def sample_char_line : Str :=
  "char id=65 x=0 y=0 width=1 height=1 xoffset=0 yoffset=0 xadvance=1 page=0 chnl=15".toList

/-- The glyph of `sample_char_line`. -/
def sample_glyph : CharInfo :=
  { id := 65, x := 0, y := 0, width := 1, height := 1, xoffset := 0, yoffset := 0,
    xadvance := 1, page := 0, chnl := 15 }

/-- A kerning line. -/
def sample_kerning_line : Str := "kerning first=97 second=98 amount=-1".toList

/-- A char line without the `chnl` field. -/
def short_char_line : Str :=
  "char id=65 x=0 y=0 width=1 height=1 xoffset=0 yoffset=0 xadvance=1 page=0".toList

/-- The record of `short_char_line`. -/
def short_char_parts : LineParts :=
  [("id".toList, "65".toList), ("x".toList, "0".toList), ("y".toList, "0".toList),
    ("width".toList, "1".toList), ("height".toList, "1".toList),
    ("xoffset".toList, "0".toList), ("yoffset".toList, "0".toList),
    ("xadvance".toList, "1".toList), ("page".toList, "0".toList)]

/-- A metrics stream whose single char line is `short_char_line`. -/
def short_char_lines : List Str :=
  [info_line, common_line 14 11 2 2 1 0 0 4 4 4, sample_page_line, "chars count=1".toList,
    short_char_line]

/-- A metrics stream whose single page line has id 0 and whose single char
line names page 7. -/
def stray_page_lines : List Str :=
  [info_line, common_line 14 11 2 2 1 0 0 4 4 4, sample_page_line, "chars count=1".toList,
    "char id=65 x=0 y=0 width=1 height=1 xoffset=0 yoffset=0 xadvance=1 page=7 chnl=15".toList]

/-- The document that `parse` builds from `stray_page_lines`. -/
def stray_page_document : FntInfo :=
  { face := "Arial".toList, size := -12, stretchH := 100, outline := 0, lineHeight := 14,
    base := 11, scaleW := 2, scaleH := 2, pages := 1, packed := 0, alphaChnl := 0,
    redChnl := 4, greenChnl := 4, blueChnl := 4,
    page_list := [{ id := 0, file := "a.dds".toList, data := [1, 2, 3, 4] }],
    chars :=
      [ { id := 65, x := 0, y := 0, width := 1, height := 1, xoffset := 0, yoffset := 0,
          xadvance := 1, page := 7, chnl := 15 } ],
    kernings := [] }

/-- A metrics stream that declares two pages; the file of the second page
line does not exist in `sample_env`. -/
def missing_page_lines : List Str :=
  [sample_page_line, "page id=1 file=\"b.dds\"".toList, "chars count=1".toList,
    sample_char_line]

/-! ## The metadata and page blocks of `FntInfo::export_to_cpp` -/

/-- `auto data_size = scaleH * scaleW;` of `export_to_cpp`. -/
def export_data_size (d : FntInfo) : Int := wrap_int (d.scaleH * d.scaleW)

/-- The text written first: the comment, the includes and the opening of the
namespace. -/
def file_head : Str :=
  "//".toList ++ endl ++
    "// Generated by application bmfont_to_cpp.".toList ++ endl ++
    "//".toList ++ endl ++
    endl ++
    endl ++
    "#include <array>".toList ++ endl ++
    "#include <unordered_map>".toList ++ endl ++
    endl ++
    endl ++
    "namespace bmf2cpp".toList ++ endl ++
    "\x7b".toList ++ endl ++
    endl ++
    endl

/-- The emitted declaration of `struct FontInfo`. -/
def font_info_struct : Str :=
  "struct FontInfo".toList ++ endl ++
    "\x7b".toList ++ endl ++
    "\tint font_size;".toList ++ endl ++
    "\tint line_height;".toList ++ endl ++
    "\tint base_offset;".toList ++ endl ++
    "\tint page_count;".toList ++ endl ++
    "\tint page_width;".toList ++ endl ++
    "\tint page_height;".toList ++ endl ++
    "\x7d; // FontInfo".toList ++ endl ++
    endl

/-- The emitted declaration of `struct GlyphInfo`. -/
def glyph_info_struct : Str :=
  "struct GlyphInfo".toList ++ endl ++
    "\x7b".toList ++ endl ++
    "\tint page_id;".toList ++ endl ++
    "\tint page_x;".toList ++ endl ++
    "\tint page_y;".toList ++ endl ++
    "\tint width;".toList ++ endl ++
    "\tint height;".toList ++ endl ++
    "\tint offset_x;".toList ++ endl ++
    "\tint offset_y;".toList ++ endl ++
    "\tint advance_x;".toList ++ endl ++
    "\x7d; // GlyphInfo".toList ++ endl ++
    endl ++
    endl

/-- The emitted declaration of `struct Font`. -/
def font_struct : Str :=
  "struct Font".toList ++ endl ++
    "\x7b".toList ++ endl ++
    "\tFont() = delete;".toList ++ endl ++
    endl ++
    "\tFont(".toList ++ endl ++
    "\t\tconst Font& that) = delete;".toList ++ endl ++
    endl ++
    "\tFont& operator=(".toList ++ endl ++
    "\t\tconst Font& that) = delete;".toList ++ endl ++
    endl ++
    "\t~Font() = delete;".toList ++ endl ++
    endl ++
    "\tstatic const FontInfo& get_info();".toList ++ endl ++
    endl ++
    "\tstatic const GlyphInfo* get_glyph(".toList ++ endl ++
    "\t\tconst char32_t index);".toList ++ endl ++
    endl ++
    "\tstatic int get_kerning(".toList ++ endl ++
    "\t\tconst char32_t left_char,".toList ++ endl ++
    "\t\tconst char32_t right_char);".toList ++ endl ++
    endl ++
    "\tstatic const unsigned char* get_page(".toList ++ endl ++
    "\t\tconst int page_index);".toList ++ endl ++
    "\x7d; // Font".toList ++ endl ++
    endl ++
    endl

/-- The text written before the initializer of `font_info`. -/
def get_info_head : Str :=
  "const FontInfo& Font::get_info()".toList ++ endl ++
    "\x7b".toList ++ endl ++
    "\tstatic FontInfo font_info = \x7b".toList ++ endl

/-- The line with the six numbers of `font_info`; `page_list.size()` is
written as an unsigned number. -/
def font_info_initializer (d : FntInfo) : Str :=
  "\t\t".toList ++
    decimal_int d.size ++ ", ".toList ++
    decimal_int d.lineHeight ++ ", ".toList ++
    decimal_int d.base ++ ", ".toList ++
    decimal d.page_list.length ++ ", ".toList ++
    decimal_int d.scaleW ++ ", ".toList ++
    decimal_int d.scaleH ++ endl

/-- The text written after the initializer of `font_info`. -/
def get_info_tail : Str :=
  "\t\x7d; // font_info".toList ++ endl ++
    endl ++
    "\treturn font_info;".toList ++ endl ++
    "\x7d".toList ++ endl

/-- The first output statement of `export_to_cpp`. -/
def metadata_block (d : FntInfo) : Str :=
  file_head ++ font_info_struct ++ glyph_info_struct ++ font_struct ++ get_info_head ++
    font_info_initializer d ++ get_info_tail

/-- The text written before the page loop. -/
def page_block_head (d : FntInfo) : Str :=
  endl ++
    endl ++
    "const unsigned char* Font::get_page(".toList ++ endl ++
    "\tconst int page_index)".toList ++ endl ++
    "\x7b".toList ++ endl ++
    "\tusing Pages = std::array<std::array<unsigned char, ".toList ++
    decimal_int (export_data_size d) ++ ">, ".toList ++ decimal d.page_list.length ++
    ">;".toList ++ endl ++
    endl ++
    "\tstatic const Pages pages = \x7b\x7b".toList ++ endl

/-- `const int octets_per_line = 11;` -/
def octets_per_line : Nat := 11

/-- `stream << std::hex << v` under `std::uppercase`, for a value that is not
negative. -/
def hex_upper (v : Nat) : Str := (Nat.toDigits 16 v).map Char.toUpper

/-- The effect of `std::setw(width)` under `std::setfill(fill)` on the next
number written: a text shorter than `width` is filled up on the left. -/
def setw (width : Nat) (fill : Char) (s : Str) : Str :=
  List.replicate (width - s.length) fill ++ s

/-- `if (is_first_octet) stream << "\t\t\t";` -/
def octet_indent (j : Nat) : Str :=
  let is_first_octet := j % octets_per_line = 0
  if is_first_octet then "\t\t\t".toList else []

/-- The literal of the octet `o`:
`stream << "0x" << std::hex << std::setw(2) <<
static_cast<int>(static_cast<unsigned char>(o)) << std::dec << ','`. -/
def octet_literal (o : Nat) : Str :=
  "0x".toList ++ setw 2 '0' (hex_upper (o % 256)) ++ [',']

/-- What follows the literal of the octet at index `j`: a space, or
`std::endl` at the end of a line and after the last octet. -/
def octet_separator (data_size : Int) (j : Nat) : Str :=
  let is_new_line := j % octets_per_line = octets_per_line - 1
  let is_last_octet := (j : Int) + 1 = data_size
  if ¬ is_last_octet then
    if ¬ is_new_line then [' '] else endl
  else endl

/-- The body of the loop over the octets of a page, for `o = data[j]`. -/
def octet_text (data_size : Int) (j : Nat) (o : Nat) : Str :=
  octet_indent j ++ octet_literal o ++ octet_separator data_size j

/-- The loop `for (auto j = 0; j < data_size; ++j)` from index `j` on, for
the iterations left; `none` when `data[j]` is read past the end of `data`
(undefined behaviour). -/
def octet_loop (data : List Nat) (data_size : Int) : Nat → Nat → Option Str
  | 0, _ => some []
  | left + 1, j =>
    match data.get? j with
    | none => none
    | some o =>
      match octet_loop data data_size left (j + 1) with
      | none => none
      | some text => some (octet_text data_size j o ++ text)

/-- The body of the page loop for `page_list[i]`; `none` when `i` is past the
end of `page_list` (undefined behaviour). -/
def page_text (page_list : List Page) (data_size : Int) (i : Nat) : Option Str :=
  match page_list.get? i with
  | none => none
  | some page =>
    match octet_loop page.data data_size data_size.toNat 0 with
    | none => none
    | some octets =>
      some ("\t\t\x7b".toList ++ endl ++ octets ++ "\t\t\x7d,".toList ++ endl)

/-- The loop `for (auto i = 0; i < pages; ++i)` from index `i` on, for the
iterations left. -/
def page_loop (page_list : List Page) (data_size : Int) : Nat → Nat → Option Str
  | 0, _ => some []
  | left + 1, i =>
    match page_text page_list data_size i with
    | none => none
    | some text =>
      match page_loop page_list data_size left (i + 1) with
      | none => none
      | some rest => some (text ++ rest)

/-- The text written after the page loop. -/
def page_block_tail : Str :=
  "\t\x7d\x7d; // pages".toList ++ endl ++
    endl ++
    "\treturn pages[page_index].data();".toList ++ endl ++
    "\x7d".toList ++ endl

/-- The `// Pages` part of `export_to_cpp`; `none` when the loops read past
the end of `page_list` or of a page's `data`. -/
def page_block (d : FntInfo) : Option Str :=
  match page_loop d.page_list (export_data_size d) d.pages.toNat 0 with
  | none => none
  | some pages => some (page_block_head d ++ pages ++ page_block_tail)

/-- The `// namespace closing` part of `export_to_cpp`. -/
def namespace_closing : Str :=
  endl ++ endl ++ "\x7d // bmf2cpp".toList ++ endl

/-- The text that `export_to_cpp` writes to its stream once the stream is
open; `none` when the page loops have undefined behaviour. -/
def export_text (d : FntInfo) : Option Str :=
  match page_block d with
  | none => none
  | some pages =>
    some (metadata_block d ++ glyph_block d ++ kerning_block d ++ pages ++ namespace_closing)

/-- `void FntInfo::export_to_cpp(const std::string& file_name)`: the exception
thrown when the file cannot be opened (`is_open` tells whether
`std::ofstream stream(file_name)` opened it), else the text written. -/
def export_to_cpp (d : FntInfo) (file_name : Str) (is_open : Bool) :
    Except Error (Option Str) :=
  if !is_open then
    .error (.runtime_error ("Failed to open cpp file: \"".toList ++ file_name ++ "\"".toList))
  else .ok (export_text d)
/-! ## Further notions for the statements -/

/-- The entries of a map are in strictly ascending order of their keys. -/
def ascending_keys {β : Type} (m : List (Nat × β)) : Prop :=
  m.Pairwise fun a b => a.1 < b.1

instance {β : Type} (m : List (Nat × β)) : Decidable (ascending_keys m) := by
  unfold ascending_keys
  infer_instance

/-- A kerning map as the kerning loop builds it: both levels in strictly
ascending key order, the keys below `2 ^ 32`, and no left code point without a
right one. -/
def kernings_ordered (kernings : Kernings) : Prop :=
  ascending_keys kernings ∧
    ∀ e ∈ kernings, e.1 < 4294967296 ∧ ascending_keys e.2 ∧ e.2 ≠ [] ∧
      ∀ s ∈ e.2, s.1 < 4294967296

instance (kernings : Kernings) : Decidable (kernings_ordered kernings) := by
  unfold kernings_ordered
  infer_instance
/-- The lines of `sample_lines` before the kernings line, and a kernings line
that declares two kernings. -/
def sample_head_lines : List Str := sample_lines.take 6 ++ ["kernings count=2".toList]

/-- Two kerning lines with different pairs. -/
def kerning_lines_in_order : List Str :=
  ["kerning first=97 second=98 amount=-1".toList, "kerning first=0 second=98 amount=7".toList]

/-- The lines of `kerning_lines_in_order`, the other way round. -/
def kerning_lines_swapped : List Str :=
  ["kerning first=0 second=98 amount=7".toList, "kerning first=97 second=98 amount=-1".toList]

/-- The document that `parse` builds from `sample_head_lines` followed by
`kerning_lines_in_order`. -/
def two_kerning_document : FntInfo :=
  { sample_document with kernings := [(0, [(98, 7)]), (97, [(98, -1)])] }

/-- The stream after `parse` has read `sample_head_lines` followed by
`kerning_lines_in_order`. -/
def two_kerning_stream_after : Stream :=
  (parse sample_env (Stream.of_lines (sample_head_lines ++ kerning_lines_in_order ++ []))).2
/-- The lines of a text: the pieces that end at a line feed, without the line
feed, and then what follows the last line feed, when there is something. -/
def text_lines : Str → List Str
  | [] => []
  | c :: cs =>
    if c = '\n' then [] :: text_lines cs
    else
      match text_lines cs with
      | [] => [[c]]
      | line :: lines => (c :: line) :: lines

/-- The text of an entry of the glyph table, as the spec words it: the code
point as key, then the eight members of `GlyphInfo` in the order of their
declaration, each followed by a comma and a space. -/
def glyph_entry_text (e : Nat × GlyphInfo) : Str :=
  "\t\t\x7b ".toList ++ decimal e.1 ++ ", \x7b ".toList ++
    [e.2.page_id, e.2.page_x, e.2.page_y, e.2.width, e.2.height, e.2.offset_x, e.2.offset_y,
      e.2.advance_x].flatMap (fun v => decimal_int v ++ ", ".toList) ++
    " \x7d \x7d,".toList

/-- The members of the emitted `struct GlyphInfo`, in the order of their
declaration. -/
def glyph_info_members : List String :=
  ["page_id", "page_x", "page_y", "width", "height", "offset_x", "offset_y", "advance_x"]
/-- The value of an uppercase hexadecimal digit. -/
def hex_value (c : Char) : Option Nat :=
  if '0' ≤ c ∧ c ≤ '9' then some (c.toNat - '0'.toNat)
  else if 'A' ≤ c ∧ c ≤ 'F' then some (c.toNat - 'A'.toNat + 10)
  else none

/-- The byte that a literal of the form `0xHL,` denotes, `H` and `L` being
uppercase hexadecimal digits. -/
def decode_literal (literal : Str) : Option Nat :=
  match literal with
  | ['0', 'x', high, low, ','] =>
    match hex_value high, hex_value low with
    | some h, some l => some (16 * h + l)
    | _, _ => none
  | _ => none

/-- The uppercase hexadecimal digit of a value below 16. -/
def hex_digit_upper (k : Nat) : Char := "0123456789ABCDEF".toList.getD k '0'

/-- The literals of line `k` of a page block of `n` bytes: those of the bytes
`11 * k` up to `11 * k + 10`, or up to the last byte if that comes first. -/
def line_literals (data : List Nat) (n k : Nat) : List Str :=
  (List.range' (11 * k) (min 11 (n - 11 * k))).map fun j => octet_literal (data.getD j 0)

/-- Line `k` of the data lines of a page block of `n` bytes, as the spec words
it: the indentation, then the literals of the line with one space between
two literals. -/
def page_data_line (data : List Nat) (n k : Nat) : Str :=
  "\t\t\t".toList ++ List.intercalate [' '] (line_literals data n k)

/-- A page of sixteen bytes. -/
def sixteen_bytes : List Nat := (List.range 16).map fun i => 17 * i
/-- A metrics stream whose kernings line declares a negative count, followed
by one more line. -/
def negative_kernings_lines : List Str :=
  no_kerning_lines ++ ["kernings count=-1".toList, sample_kerning_line]

/-! ## Notions for the statements on the emitted text -/

/-- The members of the emitted `struct FontInfo`, in the order of their
declaration. -/
def font_info_members : List String :=
  ["font_size", "line_height", "base_offset", "page_count", "page_width", "page_height"]

/-- A glyph without its `chnl` member. -/
def erase_chnl (ch : CharInfo) : CharInfo := { ch with chnl := 0 }

/-- A document with the numbers of `sample_document` that `export_to_cpp`
writes, and with another face, stretch, outline, packing flag, channel flags,
page id, page file and glyph channels. -/
def relabelled_document : FntInfo :=
  { face := "Other".toList, size := -12, stretchH := 90, outline := 1, lineHeight := 14,
    base := 11, scaleW := 2, scaleH := 2, pages := 1, packed := 1, alphaChnl := 1,
    redChnl := 0, greenChnl := 0, blueChnl := 0,
    page_list := [{ id := 9, file := "z.dds".toList, data := [1, 2, 3, 4] }],
    chars :=
      [ { id := 97, x := 0, y := 0, width := 1, height := 1, xoffset := 0, yoffset := 0,
          xadvance := 1, page := 0, chnl := 1 },
        { id := 97, x := 1, y := 1, width := 2, height := 2, xoffset := 3, yoffset := 4,
          xadvance := 5, page := 0, chnl := 2 } ],
    kernings := [(0, [(98, 7)]), (97, [(98, 0)])] }
/-- The page file `sample_dds pixels` with other numbers in the `dwFlags`,
`dwHeight` and `dwWidth` fields of its header (file offsets 8 to 19). -/
def other_header_dds (pixels : List Nat) : List Nat :=
  [68, 68, 83, 32] ++ [124, 0, 0, 0] ++ [7, 16, 8, 0, 64, 0, 0, 0, 32, 0, 0, 0] ++
    List.replicate 68 0 ++ [8, 0, 0, 0] ++
    List.replicate 12 0 ++ [255, 0, 0, 0] ++ List.replicate 20 0 ++ pixels

/-- Surroundings like `sample_env`, with `a.dds` holding `other_header_dds`. -/
def other_header_env : Env :=
  { open_file := fun file =>
      if file = "a.dds".toList then some (other_header_dds [1, 2, 3, 4, 200]) else none
    uninit := fun _ => 255
    ulong_bits := 64
    page_list_storage := fun n => decide (n ≤ 1000000)
    chars_storage := fun n => decide (n ≤ 1000000) }
/-- Surroundings with the page file of `sample_env` and, next to it, a file
that no line of `sample_lines` names; the locals hold other bytes before the
reads. -/
def crowded_env : Env :=
  { open_file := fun file =>
      if file = "a.dds".toList then some (sample_dds [1, 2, 3, 4, 200])
      else if file = "b.dds".toList then some [66, 77] else none
    uninit := fun k => k + 1
    ulong_bits := 64
    page_list_storage := fun n => decide (n ≤ 1000000)
    chars_storage := fun n => decide (n ≤ 1000000) }

/-! ## Notions for the statements on empty lines -/

/-- The keyword that `parse` passes to `parse_line` for the line read at a site. -/
def site_keyword : Site → String
  | .info => "info"
  | .common => "common"
  | .page => "page"
  | .chars => "chars"
  | .char => "char"
  | .kernings => "kernings"
  | .kerning => "kerning"

/-- The outcome, without its value, of the block of `parse` that follows the
`std::getline` of a site (for a page line: up to `read_data`). -/
def site_record (env : Env) (site : Site) (line : Str) : Except Error Unit :=
  match site with
  | .info => (info_record line).map fun _ => ()
  | .common => (common_record line).map fun _ => ()
  | .page => (page_record line).map fun _ => ()
  | .chars => (chars_record line).map fun _ => ()
  | .char => (char_record env line).map fun _ => ()
  | .kernings => (kernings_record line).map fun _ => ()
  | .kerning => (kerning_record line).map fun _ => ()

/-- The member that the block of a site converts to a number first. -/
def first_numeric_field : Site → String
  | .info => "size"
  | .common => "lineHeight"
  | .page => "id"
  | .chars => "count"
  | .char => "id"
  | .kernings => "count"
  | .kerning => "first"

/-- The outcome, without its value, of the conversion that the block of a
site applies to its first numeric member: `std::stoul` for the `id` of a char
line, `std::stoi` elsewhere. -/
def first_conversion (env : Env) (site : Site) (parts : LineParts) : Except Error Unit :=
  if site = .char then
    (stoul env.ulong_bits (parts.at (first_numeric_field site))).map fun _ => ()
  else (stoi (parts.at (first_numeric_field site))).map fun _ => ()

/-- The `std::invalid_argument` that the conversion function used at a site
throws when it finds no number. -/
def conversion_error (site : Site) : Error :=
  .invalid_argument (if site = .char then "stoul".toList else "stoi".toList)
/-- The lines of `sample_lines` up to the chars line, then an empty line where
the first char line should be. -/
def blank_char_lines : List Str := sample_lines.take 4 ++ [[]]
/-- A line with a stray word between a key and its equal sign. -/
def stray_word_line : Str := "info a b=5".toList

/-- The locals of `parse_line stray_word_line "info"` after two passes: the
scan stands on the key `a`. -/
def stray_word_scan : Scan :=
  { state := .find_key_end, key := "info".toList, value := [], line_parts := [],
    is_string_value := false, char_it := 5, char_begin_it := 5 }

/-- The locals after the pass that takes the key `a`. -/
def stray_word_scan_key : Scan :=
  { state := .find_equal_sign, key := "a".toList, value := [], line_parts := [],
    is_string_value := false, char_it := 6, char_begin_it := 5 }

/-- The locals after the pass that goes over ` b` and the equal sign. -/
def stray_word_scan_equal : Scan :=
  { state := .find_value_begin, key := "a".toList, value := [], line_parts := [],
    is_string_value := false, char_it := 9, char_begin_it := 5 }

/-- The locals of `parse_line stray_word_line "info"` after one pass: the
keyword is found. -/
def stray_word_scan_start : Scan :=
  { state := .find_key_begin, key := "info".toList, value := [], line_parts := [],
    is_string_value := false, char_it := 4, char_begin_it := 0 }

/-- The locals after six passes: the pair is stored. -/
def stray_word_scan_stored : Scan :=
  { state := .find_key_begin, key := "a".toList, value := "5".toList,
    line_parts := [("a".toList, "5".toList)], is_string_value := false, char_it := 10,
    char_begin_it := 9 }
/-- The characters of the pair under way that a scan in the given state has
passed for certain: a character of the key, then the equal sign, then the
first character of the value. -/
def State.consumed : State → Nat
  | .find_equal_sign => 1
  | .find_value_begin => 2
  | .find_value_end => 3
  | _ => 0

/-- The place of a state in the round of five passes that scans one pair. -/
def State.position : State → Nat
  | .find_key_end => 1
  | .find_equal_sign => 2
  | .find_value_begin => 3
  | .find_value_end => 4
  | _ => 0
/-! ## Rendering of a record, for the round trip with `parse_line` -/

/-- A pair to render: its key, its value, and whether the value is written
between double quotes. -/
structure RenderedPair where
  key : Str
  value : Str
  quoted : Bool
  deriving DecidableEq, Repr

/-- The text of the value of a pair: `value`, or `"value"`. -/
def render_value (p : RenderedPair) : Str :=
  if p.quoted then '"' :: (p.value ++ ['"']) else p.value

/-- The text of a pair: one space, then `key=value` or `key="value"`. -/
def render_pair (p : RenderedPair) : Str :=
  ' ' :: (p.key ++ '=' :: render_value p)

/-- The line rendered from a keyword and pairs: the keyword, then the text of
each pair. -/
def render_line (keyword : Str) (pairs : List RenderedPair) : Str :=
  keyword ++ pairs.flatMap render_pair

/-- The pairs that may be rendered: the key is not empty and holds neither a
space nor an equal sign; a value written bare is not empty, holds no space
and does not begin with a double quote; a value written between double
quotes holds no double quote. -/
def renderable (p : RenderedPair) : Prop :=
  p.key ≠ [] ∧ ' ' ∉ p.key ∧ '=' ∉ p.key ∧
    (if p.quoted then '"' ∉ p.value
     else p.value ≠ [] ∧ ' ' ∉ p.value ∧ p.value.head? ≠ some '"')

instance (p : RenderedPair) : Decidable (renderable p) := by
  unfold renderable
  infer_instance

/-- Pairs to render: a quoted value with a space, a bare value, and the
first key again with a quoted empty value. -/
def rendered_sample : List RenderedPair :=
  [ { key := "face".toList, value := "Arial Black".toList, quoted := true },
    { key := "size".toList, value := "-12".toList, quoted := false },
    { key := "face".toList, value := [], quoted := true } ]

/-! ## Inputs for the statements on `width * height` and on the messages -/

theorem advance_while_eq (p : Char → Bool) :
    ∀ (l : List Char) (i : Nat), advance_while p l i = i + (l.takeWhile p).length := by
  intro l
  induction l with
  | nil => intro i; simp [advance_while]
  | cons c rest ih =>
    intro i
    by_cases hc : p c = true
    · simp [advance_while, List.takeWhile, hc, ih]; omega
    · simp [advance_while, List.takeWhile, hc]

theorem takeWhile_length_le (p : Char → Bool) (l : List Char) :
    (l.takeWhile p).length ≤ l.length := by
  induction l with
  | nil => simp
  | cons c rest ih =>
    by_cases hc : p c = true
    · simp [List.takeWhile, hc]; omega
    · simp [List.takeWhile, hc]

theorem advance_while_ge (p : Char → Bool) (line : Str) (i : Nat) :
    i ≤ advance_while p (line.drop i) i := by
  rw [advance_while_eq]; omega

theorem advance_while_le (p : Char → Bool) (line : Str) (i : Nat) (h : i ≤ line.length) :
    advance_while p (line.drop i) i ≤ line.length := by
  rw [advance_while_eq]
  have := takeWhile_length_le p (line.drop i)
  simp at this
  omega

theorem takeWhile_get_lt (p : Char → Bool) :
    ∀ (l : List Char) (j : Nat), j < (l.takeWhile p).length →
      ∃ c, l.get? j = some c ∧ p c = true := by
  intro l
  induction l with
  | nil => intro j hj; simp at hj
  | cons c rest ih =>
    intro j hj
    by_cases hc : p c = true
    · simp [List.takeWhile, hc] at hj
      cases j with
      | zero => exact ⟨c, by simp, hc⟩
      | succ j =>
        obtain ⟨d, hd, hp⟩ := ih j (by omega)
        exact ⟨d, by simpa using hd, hp⟩
    · simp [List.takeWhile, hc] at hj

theorem takeWhile_get_stop (p : Char → Bool) :
    ∀ (l : List Char) (c : Char), l.get? (l.takeWhile p).length = some c → p c = false := by
  intro l
  induction l with
  | nil => intro c h; simp at h
  | cons d rest ih =>
    intro c h
    by_cases hd : p d = true
    · simp [List.takeWhile, hd] at h
      exact ih c (by simpa using h)
    · simp [List.takeWhile, hd] at h
      subst h
      simpa using hd

theorem get?_drop_eq (line : Str) (i j : Nat) : (line.drop i).get? j = line.get? (i + j) := by
  simp [List.get?_eq_getElem?, List.getElem?_drop]

/-- Every character passed by a scanning loop satisfies the loop condition. -/
theorem advance_while_passed (p : Char → Bool) (line : Str) (i j : Nat)
    (h1 : i ≤ j) (h2 : j < advance_while p (line.drop i) i) :
    ∃ c, line.get? j = some c ∧ p c = true := by
  rw [advance_while_eq] at h2
  obtain ⟨c, hc, hp⟩ := takeWhile_get_lt p (line.drop i) (j - i) (by omega)
  rw [get?_drop_eq] at hc
  have : i + (j - i) = j := by omega
  rw [this] at hc
  exact ⟨c, hc, hp⟩

/-- A scanning loop stops at the end of the line or at a character that fails
the loop condition. -/
theorem advance_while_stop (p : Char → Bool) (line : Str) (i : Nat) (c : Char)
    (h : line.get? (advance_while p (line.drop i) i) = some c) : p c = false := by
  rw [advance_while_eq] at h
  apply takeWhile_get_stop p (line.drop i) c
  rw [get?_drop_eq]
  exact h

theorem get?_some_lt {line : Str} {i : Nat} {c : Char} (h : line.get? i = some c) :
    i < line.length := by
  rw [List.get?_eq_getElem?] at h
  exact (List.getElem?_eq_some_iff.mp h).1

theorem get?_none_ge {line : Str} {i : Nat} (h : line.get? i = none) :
    line.length ≤ i := by
  rw [List.get?_eq_getElem?] at h
  exact List.getElem?_eq_none_iff.mp h

theorem take_takeWhile_length (p : Char → Bool) (l : List Char) :
    l.take (l.takeWhile p).length = l.takeWhile p := by
  induction l with
  | nil => simp
  | cons c rest ih =>
    by_cases hc : p c = true
    · simp [List.takeWhile, hc, ih]
    · simp [List.takeWhile, hc]

/-- The string assigned from the start of the line up to where a scanning
loop stops is the longest prefix whose characters satisfy the loop condition. -/
theorem assign_advance_while_zero (p : Char → Bool) (line : Str) :
    assign line 0 (advance_while p (line.drop 0) 0) = line.takeWhile p := by
  simp [assign, advance_while_eq, take_takeWhile_length]

/-! ## The step budget of `parse_line` is never used up -/

theorem drop_length_bound (p : Char → Bool) (line : Str) (i : Nat) :
    advance_while p (line.drop i) i - i ≤ line.length - i := by
  rw [advance_while_eq]
  have := takeWhile_length_le p (line.drop i)
  simp at this
  omega

/-- Each pass through the switch lowers `passes_left`. -/
theorem step_passes_left {line keyword : Str} {m m' : Scan}
    (h : step line keyword m = .ok m') (hd : m.state ≠ .done) :
    passes_left line m' < passes_left line m := by
  unfold step at h
  cases hs : m.state <;> rw [hs] at h <;> simp only at h
  · -- find_keyword_end
    split at h
    · cases h
    · cases h
      have h1 := advance_while_ge (fun c => c != ' ') line m.char_it
      simp only [passes_left, hs, State.rank]
      omega
  · -- find_key_begin
    have h1 := advance_while_ge (fun c => c == ' ') line m.char_it
    split at h <;> cases h <;> simp only [passes_left, hs, State.rank] <;> omega
  · -- find_key_end
    have h1 := advance_while_ge (fun c => c != ' ' && c != '=') line m.char_it
    split at h
    · cases h
    · cases h
      simp only [passes_left, hs, State.rank]
      omega
  · -- find_equal_sign
    have h1 := advance_while_ge (fun c => c != '=') line m.char_it
    split at h
    · cases h
    · rename_i c hc
      have h2 := get?_some_lt hc
      cases h
      simp only [passes_left, hs, State.rank]
      omega
  · -- find_value_begin
    have h1 := advance_while_ge (fun c => c == ' ') line m.char_it
    split at h
    · cases h
    · rename_i c hc
      have h2 := get?_some_lt hc
      cases h
      simp only [passes_left, hs, State.rank]
      omega
  · -- find_value_end
    have h1 := advance_while_ge (value_continues m.is_string_value) line m.char_it
    split at h
    · split at h
      · cases h
      · rename_i c hc
        have h2 := get?_some_lt hc
        cases h
        simp only [passes_left, hs, State.rank]
        omega
    · cases h
      simp only [passes_left, hs, State.rank]
      omega
  · exact absurd hs hd

theorem passes_left_zero {line : Str} {m : Scan} (h : passes_left line m = 0) :
    m.state = .done := by
  unfold passes_left at h
  cases hs : m.state <;> simp [hs, State.rank] at h ⊢

/-- With a budget of at least `passes_left`, the result of the loop does not
depend on the budget. -/
theorem run_budget_irrelevant (line keyword : Str) :
    ∀ (b1 b2 : Nat) (m : Scan), passes_left line m ≤ b1 → passes_left line m ≤ b2 →
      run line keyword b1 m = run line keyword b2 m := by
  intro b1
  induction b1 with
  | zero =>
    intro b2 m h1 _
    have hd := passes_left_zero (Nat.le_zero.mp h1)
    unfold run
    simp [hd]
  | succ n ih =>
    intro b2 m h1 h2
    by_cases hd : m.state = .done
    · unfold run; simp [hd]
    · cases b2 with
      | zero => exact absurd (passes_left_zero (Nat.le_zero.mp h2)) hd
      | succ k =>
        rw [run, run]
        simp only [hd, if_false]
        cases hstep : step line keyword m with
        | error e => rfl
        | ok m' =>
          have := step_passes_left hstep hd
          exact ih k m' (by omega) (by omega)

/-- The passes of `steps` are the passes of the loop. -/
theorem run_after_steps (line keyword : Str) :
    ∀ (n : Nat) (m0 m : Scan) (b : Nat), steps line keyword n m0 = .ok m →
      passes_left line m0 ≤ b →
      run line keyword b m0 = run line keyword (passes_left line m) m := by
  intro n
  induction n with
  | zero =>
    intro m0 m b h hb
    simp [steps] at h
    subst h
    exact run_budget_irrelevant line keyword b _ m0 hb (le_refl _)
  | succ n ih =>
    intro m0 m b h hb
    simp only [steps] at h
    cases hstep : step line keyword m0 with
    | error e => rw [hstep] at h; cases h
    | ok m1 =>
      rw [hstep] at h
      simp only at h
      by_cases hd : m0.state = .done
      · have : m1 = m0 := by
          unfold step at hstep
          rw [hd] at hstep
          simp only at hstep
          cases hstep
          rfl
        subst this
        exact ih m1 m b h hb
      · have hlt := step_passes_left hstep hd
        cases b with
        | zero => omega
        | succ b' =>
          rw [run]
          simp only [hd, if_false, hstep]
          exact ih m1 m b' h (by omega)

theorem passes_left_start (line : Str) : passes_left line Scan.start ≤ step_budget line := by
  simp [passes_left, Scan.start, State.rank, step_budget]

theorem scan_after_some {line keyword : Str} {n : Nat} {m : Scan}
    (h : scan_after line keyword n = some m) :
    line ≠ [] ∧ keyword ≠ [] ∧ steps line keyword n Scan.start = .ok m := by
  unfold scan_after at h
  split at h
  · cases h
  · rename_i hne
    push_neg at hne
    refine ⟨hne.1, hne.2, ?_⟩
    cases hs : steps line keyword n Scan.start with
    | error e => rw [hs] at h; simp [Except.toOption] at h
    | ok m' => rw [hs] at h; simp [Except.toOption] at h; rw [h]

/-- From locals that the scan of a line reaches, the rest of the loop gives
the result of `parse_line`. -/
theorem parse_line_eq_run {line keyword : Str} {n : Nat} {m : Scan}
    (h : scan_after line keyword n = some m) :
    parse_line line keyword = run line keyword (passes_left line m) m := by
  obtain ⟨h1, h2, h3⟩ := scan_after_some h
  unfold parse_line
  simp only [h1, h2, if_false]
  exact run_after_steps line keyword n Scan.start m _ h3 (passes_left_start line)

theorem steps_succ_last (line keyword : Str) :
    ∀ (n : Nat) (m0 m m' : Scan), steps line keyword n m0 = .ok m →
      step line keyword m = .ok m' → steps line keyword (n + 1) m0 = .ok m' := by
  intro n
  induction n with
  | zero =>
    intro m0 m m' h hs
    simp [steps] at h
    subst h
    simp [steps, hs]
  | succ n ih =>
    intro m0 m m' h hs
    rw [steps] at h
    cases hstep : step line keyword m0 with
    | error e => rw [hstep] at h; cases h
    | ok m1 =>
      rw [hstep] at h
      simp only at h
      rw [steps, hstep]
      exact ih m1 m m' h hs

theorem scan_after_succ {line keyword : Str} {n : Nat} {m m' : Scan}
    (h : scan_after line keyword n = some m) (hs : step line keyword m = .ok m') :
    scan_after line keyword (n + 1) = some m' := by
  obtain ⟨h1, h2, h3⟩ := scan_after_some h
  unfold scan_after
  simp only [h1, h2, or_self, if_false]
  rw [steps_succ_last line keyword n _ m m' h3 hs]
  rfl

theorem step_error_runtime {line keyword : Str} {m : Scan} {e : Error}
    (h : step line keyword m = .error e) : e ≠ .step_budget_exhausted := by
  intro he
  subst he
  unfold step at h
  cases hs : m.state <;> rw [hs] at h <;> simp only at h
  all_goals
    first
    | cases h
    | (split at h <;> first | cases h | (split at h <;> cases h))

theorem run_budget_suffices (line keyword : Str) :
    ∀ (b : Nat) (m : Scan), passes_left line m ≤ b →
      run line keyword b m ≠ .error .step_budget_exhausted := by
  intro b
  induction b with
  | zero =>
    intro m h
    have hd := passes_left_zero (Nat.le_zero.mp h)
    unfold run
    simp [hd]
  | succ n ih =>
    intro m h
    rw [run]
    by_cases hd : m.state = .done
    · simp [hd]
    · simp only [hd, if_false]
      cases hstep : step line keyword m with
      | error e =>
        simp only
        intro he
        cases he
        exact step_error_runtime hstep rfl
      | ok m' =>
        have := step_passes_left hstep hd
        exact ih m' (by omega)

/-- The loop of `parse_line` ends within the step budget, on every line and
keyword: the result is a record or an exception of the program. -/
theorem parse_line_budget_suffices (line keyword : Str) :
    parse_line line keyword ≠ .error .step_budget_exhausted := by
  unfold parse_line
  split
  · intro h; cases h
  · split
    · intro h; cases h
    · exact run_budget_suffices line keyword _ _ (passes_left_start line)

/-! ## Errors of `parse_line` -/

theorem step_later {line keyword : Str} {m : Scan} (hk : m.state ≠ .find_keyword_end) :
    (∀ e, step line keyword m = .error e → later_error e) ∧
    (∀ m', step line keyword m = .ok m' → m'.state ≠ .find_keyword_end) := by
  unfold step
  cases hs : m.state <;> simp only
  · exact absurd hs hk
  · constructor
    · intro e h; split at h <;> cases h
    · intro m' h; split at h <;> cases h <;> simp
  · constructor
    · intro e h
      split at h
      · cases h; exact Or.inl rfl
      · cases h
    · intro m' h
      split at h
      · cases h
      · cases h; simp
  · constructor
    · intro e h
      split at h
      · cases h; exact Or.inr (Or.inl rfl)
      · cases h
    · intro m' h
      split at h
      · cases h
      · cases h; simp
  · constructor
    · intro e h
      split at h
      · cases h; exact Or.inr (Or.inr (Or.inl rfl))
      · cases h
    · intro m' h
      split at h
      · cases h
      · cases h; simp
  · constructor
    · intro e h
      split at h
      · split at h
        · cases h; exact Or.inr (Or.inr (Or.inr (Or.inl rfl)))
        · cases h
      · cases h
    · intro m' h
      split at h
      · split at h
        · cases h
        · cases h; simp
      · cases h; simp
  · constructor
    · intro e h; cases h
    · intro m' h; cases h; rw [hs]; simp

theorem run_later (line keyword : Str) :
    ∀ (b : Nat) (m : Scan) (e : Error), m.state ≠ .find_keyword_end →
      run line keyword b m = .error e → later_error e := by
  intro b
  induction b with
  | zero =>
    intro m e _ h
    unfold run at h
    split at h
    · cases h
    · cases h
      exact Or.inr (Or.inr (Or.inr (Or.inr rfl)))
  | succ n ih =>
    intro m e hk h
    rw [run] at h
    split at h
    · cases h
    · cases hstep : step line keyword m with
      | error e' =>
        rw [hstep] at h
        cases h
        exact (step_later hk).1 e hstep
      | ok m' =>
        rw [hstep] at h
        exact ih m' e ((step_later hk).2 m' hstep) h

theorem keyword_not_found_not_later (keyword : Str) :
    ¬ later_error
      (.runtime_error ("Keyword not found: \"".toList ++ keyword ++ "\"".toList)) := by
  intro h
  rcases h with h | h | h | h | h <;> cases h

/-- The loop step that follows from locals still in the loop. -/
theorem run_unfold {line keyword : Str} {m : Scan} (hd : m.state ≠ .done) :
    run line keyword (passes_left line m) m =
      match step line keyword m with
      | .error e => .error e
      | .ok m' => run line keyword (passes_left line m') m' := by
  have hpos : passes_left line m ≠ 0 := fun h => hd (passes_left_zero h)
  obtain ⟨k, hk⟩ := Nat.exists_eq_succ_of_ne_zero hpos
  rw [hk, run]
  simp only [hd, if_false]
  cases hstep : step line keyword m with
  | error e => rfl
  | ok m' =>
    have := step_passes_left hstep hd
    exact run_budget_irrelevant line keyword k _ m' (by omega) (le_refl _)

/-- An exception thrown by a pass that the scan reaches is the result of
`parse_line`. -/
theorem parse_line_step_error {line keyword : Str} {n : Nat} {m : Scan} {e : Error}
    (h : scan_after line keyword n = some m) (hd : m.state ≠ .done)
    (hs : step line keyword m = .error e) : parse_line line keyword = .error e := by
  rw [parse_line_eq_run h, run_unfold hd, hs]

/-- The pass through `State::find_value_begin` when a value character is there. -/
theorem step_find_value_begin (line keyword : Str) {m : Scan} {c : Char}
    (hs : m.state = .find_value_begin)
    (hc : line.get? (advance_while (fun c => c == ' ') (line.drop m.char_it) m.char_it)
      = some c) :
    step line keyword m = .ok
      { m with
        char_begin_it := advance_while (fun c => c == ' ') (line.drop m.char_it) m.char_it
        is_string_value := (c == '"')
        char_it := advance_while (fun c => c == ' ') (line.drop m.char_it) m.char_it + 1
        state := .find_value_end } := by
  unfold step
  rw [hs]
  simp only [hc]

theorem value_continues_string_false {c : Char} (h : value_continues true c = false) :
    c = '"' := by
  unfold value_continues at h
  split at h
  · cases h
  · simpa using h

theorem value_continues_string_true {c : Char} (h : value_continues true c = true) :
    c ≠ '"' := by
  unfold value_continues at h
  split at h
  · rename_i hsp; rw [hsp]; decide
  · simpa using h

/-! ## Claims on `parse_line` -/

/-- C7: for a non-empty line and a non-empty keyword, `parse_line` throws
`Keyword not found: "<keyword>"` exactly when the longest prefix of the line
without a space character differs from the keyword. -/
theorem parse_line_keyword_not_found_iff (line keyword : Str)
    (hl : line ≠ []) (hk : keyword ≠ []) :
    parse_line line keyword =
        .error (.runtime_error ("Keyword not found: \"".toList ++ keyword ++ "\"".toList)) ↔
      line.takeWhile (fun c => c != ' ') ≠ keyword := by
  have hstart : scan_after line keyword 0 = some Scan.start := by
    simp [scan_after, hl, hk, steps, Except.toOption]
  have hnd : Scan.start.state ≠ .done := by simp [Scan.start]
  constructor
  · intro h heq
    have hstep : step line keyword Scan.start =
        .ok { Scan.start with
              char_it := advance_while (fun c => c != ' ') (line.drop 0) 0
              key := keyword
              state := .find_key_begin } := by
      unfold step
      simp only [Scan.start]
      rw [assign_advance_while_zero, heq]
      simp
    rw [parse_line_eq_run hstart, run_unfold hnd, hstep] at h
    simp only at h
    exact keyword_not_found_not_later keyword (run_later line keyword _ _ _ (by simp) h)
  · intro hne
    apply parse_line_step_error hstart hnd
    unfold step
    simp only [Scan.start]
    rw [assign_advance_while_zero]
    simp [hne]

/-- C8: on the empty line `parse_line` returns the empty record, whatever the
keyword, the empty keyword included. -/
theorem parse_line_empty_line (keyword : Str) : parse_line [] keyword = .ok [] := by
  simp [parse_line]

/-- C10 (with the scan made explicit): when the scan of `parse_line` is about
to read a value (`State::find_value_begin`), the first character after the
spaces is a double quote and no double quote comes after it in the line, then
`parse_line` throws `Unexpected end of string value.`, whatever pairs were
stored before. -/
theorem parse_line_unterminated_string (line keyword : Str) (n : Nat) (m : Scan)
    (hscan : scan_after line keyword n = some m)
    (hs : m.state = .find_value_begin)
    (hq : line.get? (advance_while (fun c => c == ' ') (line.drop m.char_it) m.char_it)
      = some '"')
    (hno : ∀ j, advance_while (fun c => c == ' ') (line.drop m.char_it) m.char_it < j →
      line.get? j ≠ some '"') :
    parse_line line keyword =
      .error (.runtime_error "Unexpected end of string value.".toList) := by
  have h1 := step_find_value_begin line keyword hs hq
  have hscan1 := scan_after_succ hscan h1
  apply parse_line_step_error hscan1 (by simp)
  unfold step
  simp only [beq_self_eq_true, if_true]
  split
  · rfl
  · rename_i c hc
    exfalso
    have hstop := advance_while_stop _ _ _ _ hc
    have hcq := value_continues_string_false hstop
    subst hcq
    refine hno _ ?_ hc
    have := advance_while_ge (value_continues true) line
      (advance_while (fun c => c == ' ') (line.drop m.char_it) m.char_it + 1)
    omega

/-- C9: in a line that `parse_line` accepts, when the scan is about to read a
value (`State::find_value_begin`) and the first character after the spaces, at
offset `p`, is a double quote, then the next double quote exists, at some
offset `q`, and two passes later the record maps the key to exactly the
characters of the line at the offsets strictly between `p` and `q`, with the
scan in `State::find_key_begin` at offset `q + 1`. -/
theorem parse_line_quoted_value (line keyword : Str) (parts : LineParts) (n : Nat)
    (m : Scan)
    (hok : parse_line line keyword = .ok parts)
    (hscan : scan_after line keyword n = some m)
    (hs : m.state = .find_value_begin)
    (hq : line.get? (advance_while (fun c => c == ' ') (line.drop m.char_it) m.char_it)
      = some '"') :
    ∃ q, advance_while (fun c => c == ' ') (line.drop m.char_it) m.char_it < q ∧
      line.get? q = some '"' ∧
      (∀ j, advance_while (fun c => c == ' ') (line.drop m.char_it) m.char_it < j →
        j < q → line.get? j ≠ some '"') ∧
      scan_after line keyword (n + 2) = some
        { state := .find_key_begin
          key := m.key
          value := (line.drop
            (advance_while (fun c => c == ' ') (line.drop m.char_it) m.char_it + 1)).take
            (q - (advance_while (fun c => c == ' ') (line.drop m.char_it) m.char_it + 1))
          line_parts := LineParts.assign m.line_parts m.key
            ((line.drop
              (advance_while (fun c => c == ' ') (line.drop m.char_it) m.char_it + 1)).take
              (q - (advance_while (fun c => c == ' ') (line.drop m.char_it) m.char_it + 1)))
          is_string_value := true
          char_it := q + 1
          char_begin_it := advance_while (fun c => c == ' ') (line.drop m.char_it) m.char_it } := by
  have h1 := step_find_value_begin line keyword hs hq
  have hscan1 := scan_after_succ hscan h1
  generalize hp : advance_while (fun c => c == ' ') (line.drop m.char_it) m.char_it = p
    at h1 hscan1 hq ⊢
  generalize hq' : advance_while (value_continues true) (line.drop (p + 1)) (p + 1) = q
  have hge : p + 1 ≤ q := by rw [← hq']; exact advance_while_ge _ line (p + 1)
  cases hc : line.get? q with
  | none =>
    exfalso
    have herr : parse_line line keyword =
        .error (.runtime_error "Unexpected end of string value.".toList) := by
      apply parse_line_step_error hscan1 (by simp)
      unfold step
      simp only [beq_self_eq_true, if_true, hq', hc]
    rw [herr] at hok
    cases hok
  | some c =>
    have hstop : value_continues true c = false := by
      apply advance_while_stop (value_continues true) line (p + 1) c
      rw [hq']; exact hc
    have hcq := value_continues_string_false hstop
    subst hcq
    refine ⟨q, by omega, hc, ?_, ?_⟩
    · intro j hj1 hj2 hj
      have := advance_while_passed (value_continues true) line (p + 1) j (by omega)
        (by rw [hq']; exact hj2)
      obtain ⟨d, hd, hpd⟩ := this
      rw [hj] at hd
      cases hd
      exact value_continues_string_true hpd rfl
    · apply scan_after_succ hscan1
      unfold step
      simp only [beq_self_eq_true, if_true, hq', hc, assign]
      simp

/-! ## Maps -/

theorem map_find_assign {β : Type} (m : List (Nat × β)) (key : Nat) (value : β) (k : Nat) :
    map_find (map_assign m key value) k = if k = key then some value else map_find m k := by
  induction m with
  | nil =>
    by_cases h : k = key
    · simp [map_assign, map_find, h]
    · have h' : ¬ key = k := fun e => h e.symm
      simp [map_assign, map_find, h, h']
  | cons e rest ih =>
    obtain ⟨k0, v0⟩ := e
    unfold map_assign
    by_cases h1 : key < k0
    · simp only [h1, if_true]
      by_cases h : k = key
      · simp [map_find, h]
      · have h' : ¬ key = k := fun e => h e.symm
        simp [map_find, h, h']
    · simp only [h1, if_false]
      by_cases h2 : key = k0
      · subst h2
        simp only [if_true]
        by_cases h : k = key
        · simp [map_find, h]
        · have h' : ¬ key = k := fun e => h e.symm
          simp [map_find, h, h']
      · simp only [h2, if_false]
        by_cases h : k = key
        · subst h
          have h2' : ¬ k0 = k := fun e => h2 e.symm
          simp [map_find, h2', ih]
        · by_cases h3 : k0 = k
          · simp [map_find, h3, h]
          · simp [map_find, h3, ih, h]

/-- The amount a kerning map holds for a pair after the insertion of the
kerning loop. -/
theorem kerning_amount_insert (kernings : Kernings) (first second amount : Int)
    (f s : Nat) :
    kerning_amount (insert_kerning kernings first second amount) f s =
      if to_char32 first = f ∧ to_char32 second = s then some amount
      else kerning_amount kernings f s := by
  unfold kerning_amount insert_kerning
  simp only
  by_cases hf : f = to_char32 first
  · subst hf
    cases hfind : map_find kernings (to_char32 first) with
    | none =>
      simp only [map_find_assign, if_true, Option.getD_some]
      by_cases hs : s = to_char32 second
      · subst hs; simp [map_assign, map_find]
      · have hs' : ¬ to_char32 second = s := fun e => hs e.symm
        simp [map_assign, map_find, hs, hs']
    | some sub =>
      simp only [map_find_assign, if_true, hfind, Option.getD_some]
      by_cases hs : s = to_char32 second
      · subst hs; simp
      · have hs' : ¬ to_char32 second = s := fun e => hs e.symm
        simp [hs, hs']
  · have hf' : ¬ to_char32 first = f := fun e => hf e.symm
    cases hfind : map_find kernings (to_char32 first) with
    | none => simp [map_find_assign, hf, hf']
    | some sub => simp [map_find_assign, hf, hf', hfind]

theorem last_amount_cons (r : Int × Int × Int) (records : List (Int × Int × Int))
    (f s : Nat) :
    last_amount (r :: records) f s =
      (last_amount records f s).or
        (if to_char32 r.1 = f ∧ to_char32 r.2.1 = s then some r.2.2 else none) := by
  unfold last_amount
  by_cases h : to_char32 r.1 = f ∧ to_char32 r.2.1 = s
  · simp only [List.filter_cons, h, and_self, decide_True, if_true]
    cases hrest : List.filter (fun r => decide (to_char32 r.1 = f ∧ to_char32 r.2.1 = s)) records with
    | nil => simp
    | cons a l =>
      have hx : (a :: l).getLast? = some ((a :: l).getLast (List.cons_ne_nil a l)) :=
        List.getLast?_eq_getLast _ _
      simp only [List.getLast?_cons_cons]
      rw [hx]
      simp
  · simp [List.filter_cons, h]

/-- A `std::unordered_map` built from an initializer finds, for a key, the
first element of the initializer with that key. -/
theorem map_find_unordered_map_of {β : Type} (init : List (Nat × β)) (k : Nat) :
    map_find (unordered_map_of init) k = map_find init k := by
  have hfa : ∀ (a b : List (Nat × β)), map_find (a ++ b) k = (map_find a k).or (map_find b k) := by
    intro a b
    induction a with
    | nil => simp [map_find]
    | cons e rest ih =>
      obtain ⟨k0, v0⟩ := e
      by_cases h : k0 = k
      · simp [map_find, h]
      · simp [map_find, h, ih]
  have key : ∀ (l acc : List (Nat × β)),
      map_find (l.foldl
        (fun m e =>
          match map_find m e.1 with
          | some _ => m
          | none => m ++ [e]) acc) k = (map_find acc k).or (map_find l k) := by
    intro l
    induction l with
    | nil => intro acc; simp [map_find]
    | cons e rest ih =>
      intro acc
      obtain ⟨k0, v0⟩ := e
      simp only [List.foldl_cons]
      rw [ih]
      cases hacc : map_find acc k0 with
      | none =>
        simp only [hfa]
        by_cases h : k0 = k
        · subst h; simp [map_find, hacc]
        · simp [map_find, h]
      | some v =>
        simp only
        by_cases h : k0 = k
        · subst h; simp [map_find, hacc]
        · simp [map_find, h]
  unfold unordered_map_of
  rw [key]
  simp [map_find]

/-! ## The input actions of `parse` -/

theorem lines_read_append (site : Site) (l1 l2 : List Event) :
    lines_read site (l1 ++ l2) = lines_read site l1 ++ lines_read site l2 := by
  simp [lines_read, List.filterMap_append]

theorem lines_read_getline (site site' : Site) (line : Option Str) :
    lines_read site [.getline site' line] =
      match line with
      | some l => if site' = site then [l] else []
      | none => [] := by
  cases line with
  | none => simp [lines_read]
  | some l =>
    by_cases h : site' = site
    · simp [lines_read, h]
    · simp [lines_read, h]

theorem lines_read_read_data (site : Site) (file : Str) (w h : Int) :
    lines_read site [.read_data file w h] = [] := by
  simp [lines_read]

theorem getline_eq (site : Site) (s : Stream) :
    ∃ r, getline site s = (r, { lines := s.lines.tail, log := s.log ++ [.getline site r] }) ∧
      r = s.lines.head? := by
  unfold getline
  cases h : s.lines with
  | nil => exact ⟨none, by simp, rfl⟩
  | cons l rest => exact ⟨some l, by simp, rfl⟩

/-- The page loop reads only page lines. -/
theorem read_pages_log (env : Env) (w h : Int) :
    ∀ (n : Nat) (s : Stream), ∃ evs,
      (read_pages env w h n s).2.log = s.log ++ evs ∧
      ∀ site, site ≠ .page → lines_read site evs = [] := by
  intro n
  induction n with
  | zero => intro s; exact ⟨[], by simp [read_pages], by simp [lines_read]⟩
  | succ n ih =>
    intro s
    obtain ⟨r, hg, _⟩ := getline_eq .page s
    unfold read_pages
    rw [hg]
    have hone : ∀ site, site ≠ Site.page → lines_read site [Event.getline .page r] = [] := by
      intro site hne
      rw [lines_read_getline]
      cases r with
      | none => rfl
      | some l => simp only; rw [if_neg (fun e => hne (Eq.symm e))]
    cases r with
    | none => exact ⟨_, rfl, hone⟩
    | some line =>
      simp only
      cases hrec : page_record line with
      | error e => exact ⟨_, rfl, hone⟩
      | ok rec =>
        obtain ⟨id, file⟩ := rec
        simp only
        cases hdata : Page.read_data env file w h with
        | error e =>
          refine ⟨[Event.getline .page (some line), .read_data file w h], by simp, ?_⟩
          intro site hne
          have := hone site hne
          simp [lines_read] at this ⊢
          exact this
        | ok data =>
          simp only
          obtain ⟨evs, he, hl⟩ := ih
            { lines := s.lines.tail,
              log := s.log ++ [Event.getline .page (some line)] ++ [.read_data file w h] }
          refine ⟨[Event.getline .page (some line), .read_data file w h] ++ evs, ?_, ?_⟩
          · simp only [List.append_assoc] at he ⊢
            split <;> rename_i heq <;> rw [heq] at he <;> simpa using he
          · intro site hne
            rw [lines_read_append, hl site hne]
            have := hone site hne
            simp [lines_read] at this ⊢
            exact this

/-- The char loop reads only char lines, and the glyphs it returns are those
of the lines it read. -/
theorem read_chars_log (env : Env) :
    ∀ (n : Nat) (s : Stream), ∃ evs,
      (read_chars env n s).2.log = s.log ++ evs ∧
      (∀ site, site ≠ .char → lines_read site evs = []) ∧
      ∀ chars, (read_chars env n s).1 = .ok chars → char_records env evs = chars := by
  intro n
  induction n with
  | zero =>
    intro s
    refine ⟨[], by simp [read_chars], by simp [lines_read], ?_⟩
    intro chars h
    simp [read_chars] at h
    simp [char_records, lines_read, ← h]
  | succ n ih =>
    intro s
    obtain ⟨r, hg, _⟩ := getline_eq .char s
    unfold read_chars
    rw [hg]
    have hone : ∀ site, site ≠ Site.char → lines_read site [Event.getline .char r] = [] := by
      intro site hne
      rw [lines_read_getline]
      cases r with
      | none => rfl
      | some l => simp only; rw [if_neg (fun e => hne (Eq.symm e))]
    cases r with
    | none => exact ⟨_, rfl, hone, by intro chars h; cases h⟩
    | some line =>
      simp only
      cases hrec : char_record env line with
      | error e => exact ⟨_, rfl, hone, by intro chars h; cases h⟩
      | ok ch =>
        simp only
        obtain ⟨evs, he, hl, hc⟩ := ih
          { lines := s.lines.tail, log := s.log ++ [Event.getline .char (some line)] }
        refine ⟨[Event.getline .char (some line)] ++ evs, ?_, ?_, ?_⟩
        · simp only [List.append_assoc] at he ⊢
          split <;> rename_i heq <;> rw [heq] at he <;> simpa using he
        · intro site hne
          rw [lines_read_append, hl site hne, hone site hne]
          rfl
        · intro chars h
          split at h
          · cases h
          · rename_i rest s2 heq
            cases h
            have := hc rest (by rw [heq])
            simp only [char_records, lines_read_append, lines_read_getline, if_true,
              List.filterMap_append] at this ⊢
            simp only [hrec, Except.toOption, List.filterMap_cons, List.filterMap_nil,
              List.singleton_append]
            rw [← this]
            rfl

/-- The kerning loop reads only kerning lines, and the map it returns holds,
for each pair, the amount of the last line read with that pair, or else what
the map held before. -/
theorem read_kernings_log :
    ∀ (n : Nat) (kernings : Kernings) (s : Stream), ∃ evs,
      (read_kernings n kernings s).2.log = s.log ++ evs ∧
      (∀ site, site ≠ .kerning → lines_read site evs = []) ∧
      ∀ result, (read_kernings n kernings s).1 = .ok result →
        ∀ f sec, kerning_amount result f sec =
          (last_amount (kerning_records evs) f sec).or (kerning_amount kernings f sec) := by
  intro n
  induction n with
  | zero =>
    intro kernings s
    refine ⟨[], by simp [read_kernings], by simp [lines_read], ?_⟩
    intro result h f sec
    simp [read_kernings] at h
    simp [kerning_records, lines_read, last_amount, ← h]
  | succ n ih =>
    intro kernings s
    obtain ⟨r, hg, _⟩ := getline_eq .kerning s
    unfold read_kernings
    rw [hg]
    have hone : ∀ site, site ≠ Site.kerning →
        lines_read site [Event.getline .kerning r] = [] := by
      intro site hne
      rw [lines_read_getline]
      cases r with
      | none => rfl
      | some l => simp only; rw [if_neg (fun e => hne (Eq.symm e))]
    cases r with
    | none => exact ⟨_, rfl, hone, by intro result h; cases h⟩
    | some line =>
      simp only
      cases hrec : kerning_record line with
      | error e => exact ⟨_, rfl, hone, by intro result h; cases h⟩
      | ok rec =>
        obtain ⟨first, second, amount⟩ := rec
        simp only
        obtain ⟨evs, he, hl, hc⟩ := ih (insert_kerning kernings first second amount)
          { lines := s.lines.tail, log := s.log ++ [Event.getline .kerning (some line)] }
        refine ⟨[Event.getline .kerning (some line)] ++ evs, ?_, ?_, ?_⟩
        · simpa using he
        · intro site hne
          rw [lines_read_append, hl site hne, hone site hne]
          rfl
        · intro result h f sec
          have h1 := hc result h f sec
          have hrecs : kerning_records ([Event.getline .kerning (some line)] ++ evs) =
              (first, second, amount) :: kerning_records evs := by
            simp only [kerning_records, lines_read_append, lines_read_getline, if_true,
              List.filterMap_append]
            simp [hrec, Except.toOption]
          rw [hrecs, last_amount_cons, h1, kerning_amount_insert]
          cases last_amount (kerning_records evs) f sec with
          | some a => simp
          | none =>
            simp only [Option.none_or]
            split <;> simp

theorem lines_read_other (site site' : Site) (r : Option Str) (hne : site' ≠ site) :
    lines_read site [Event.getline site' r] = [] := by
  rw [lines_read_getline]
  cases r with
  | none => rfl
  | some l => simp only; rw [if_neg hne]

theorem char_records_of_no_lines (env : Env) (evs : List Event)
    (h : lines_read .char evs = []) : char_records env evs = [] := by
  simp [char_records, h]

theorem kerning_records_of_no_lines (evs : List Event)
    (h : lines_read .kerning evs = []) : kerning_records evs = [] := by
  simp [kerning_records, h]

theorem getline_log (site : Site) (s : Stream) :
    ∃ r s', getline site s = (r, s') ∧ s'.log = s.log ++ [Event.getline site r] := by
  unfold getline
  cases h : s.lines with
  | nil => exact ⟨none, _, rfl, rfl⟩
  | cons l rest => exact ⟨some l, _, rfl, rfl⟩

/-- After a successful `parse`, the glyph list holds the glyphs of the char
lines read, in order, and the kerning map holds for each pair the amount of
the last kerning line read with that pair. -/
theorem parse_records (env : Env) (lines : List Str) (d : FntInfo) (st : Stream)
    (h : parse env (Stream.of_lines lines) = (.ok d, st)) :
    d.chars = char_records env st.log ∧
    ∀ f s, kerning_amount d.kernings f s = last_amount (kerning_records st.log) f s := by
  unfold parse at h
  obtain ⟨r1, s1, hg1, hl1⟩ := getline_log .info (Stream.of_lines lines)
  rw [hg1] at h
  cases r1 with
  | none => simp at h
  | some line1 =>
  simp only at h
  cases hinfo : info_record line1 with
  | error e => rw [hinfo] at h; simp at h
  | ok info =>
  rw [hinfo] at h
  simp only at h
  obtain ⟨r2, s2, hg2, hl2⟩ := getline_log .common s1
  rw [hg2] at h
  cases r2 with
  | none => simp at h
  | some line2 =>
  simp only at h
  cases hcommon : common_record line2 with
  | error e => rw [hcommon] at h; simp at h
  | ok common =>
  rw [hcommon] at h
  simp only at h
  by_cases hps : resize_ok env.page_list_storage common.pages.toNat = true
  swap
  · simp [hps] at h
  simp only [hps, Bool.not_true, Bool.false_eq_true, if_false] at h
  obtain ⟨pevs, hpl, hpn⟩ := read_pages_log env common.scaleW common.scaleH
    common.pages.toNat s2
  cases hrp : read_pages env common.scaleW common.scaleH common.pages.toNat s2 with
  | mk pres s3 =>
  rw [hrp] at h hpl
  cases pres with
  | error e => simp at h
  | ok page_list =>
  simp only at h hpl
  obtain ⟨r4, s4, hg4, hl4⟩ := getline_log .chars s3
  rw [hg4] at h
  cases r4 with
  | none => simp at h
  | some line4 =>
  simp only at h
  cases hchars : chars_record line4 with
  | error e => rw [hchars] at h; simp at h
  | ok char_count =>
  rw [hchars] at h
  simp only at h
  by_cases hneg : char_count < 0
  · simp [hneg] at h
  · simp only [hneg, if_false] at h
    by_cases hcs : resize_ok env.chars_storage char_count.toNat = true
    swap
    · simp [hcs] at h
    simp only [hcs, Bool.not_true, Bool.false_eq_true, if_false] at h
    obtain ⟨cevs, hcl, hcn, hcc⟩ := read_chars_log env char_count.toNat s4
    cases hrc : read_chars env char_count.toNat s4 with
    | mk cres s5 =>
    rw [hrc] at h hcl hcc
    cases cres with
    | error e => simp at h
    | ok chars =>
    simp only at h hcl hcc
    have hchars_eq := hcc chars rfl
    obtain ⟨r6, s6, hg6, hl6⟩ := getline_log .kernings s5
    rw [hg6] at h
    have hlog5 : s5.log = [Event.getline .info (some line1)] ++
        [Event.getline .common (some line2)] ++ pevs ++
        [Event.getline .chars (some line4)] ++ cevs := by
      rw [hcl, hl4, hpl, hl2, hl1]
      simp [Stream.of_lines]
    have hchar5 : char_records env s5.log = chars := by
      rw [← hchars_eq, hlog5]
      simp only [char_records, lines_read_append]
      rw [lines_read_other .char .info _ (by decide), lines_read_other .char .common _ (by decide),
        lines_read_other .char .chars _ (by decide), hpn .char (by decide)]
      simp
    have hkern5 : lines_read .kerning s5.log = [] := by
      rw [hlog5]
      simp only [lines_read_append]
      rw [lines_read_other .kerning .info _ (by decide),
        lines_read_other .kerning .common _ (by decide),
        lines_read_other .kerning .chars _ (by decide), hpn .kerning (by decide),
        hcn .kerning (by decide)]
      simp
    cases r6 with
    | none =>
      simp only [Prod.mk.injEq, Except.ok.injEq] at h
      obtain ⟨hd, hst⟩ := h
      subst hd hst
      simp only
      rw [hl6]
      constructor
      · simp only [char_records, lines_read_append] at hchar5 ⊢
        rw [lines_read_other .char .kernings _ (by decide)]
        simpa using hchar5.symm
      · intro f s
        have : kerning_records (s5.log ++ [Event.getline .kernings none]) = [] := by
          apply kerning_records_of_no_lines
          rw [lines_read_append, hkern5, lines_read_other .kerning .kernings _ (by decide)]
          rfl
        rw [this]
        simp [kerning_amount, map_find, last_amount]
    | some line6 =>
      simp only at h
      cases hkh : kernings_record line6 with
      | error e => rw [hkh] at h; simp at h
      | ok kerning_count =>
      rw [hkh] at h
      simp only at h
      obtain ⟨kevs, hkl, hkn, hkc⟩ := read_kernings_log kerning_count.toNat [] s6
      cases hrk : read_kernings kerning_count.toNat [] s6 with
      | mk kres s7 =>
      rw [hrk] at h hkl hkc
      cases kres with
      | error e => simp at h
      | ok kernings =>
      simp only [Prod.mk.injEq, Except.ok.injEq] at h hkl hkc
      obtain ⟨hd, hst⟩ := h
      subst hd hst
      simp only
      have hlog7 : s7.log = s5.log ++ [Event.getline .kernings (some line6)] ++ kevs := by
        rw [hkl, hl6]
      constructor
      · rw [hlog7]
        simp only [char_records, lines_read_append] at hchar5 ⊢
        rw [lines_read_other .char .kernings _ (by decide), hkn .char (by decide)]
        simpa using hchar5.symm
      · intro f s
        have hk := hkc kernings rfl f s
        have : kerning_records s7.log = kerning_records kevs := by
          rw [hlog7]
          simp only [kerning_records, lines_read_append]
          rw [hkern5, lines_read_other .kerning .kernings _ (by decide)]
          simp
        rw [this, hk]
        simp [kerning_amount, map_find]

/-! ## `Page::read_data` -/

/-- Negative values are rejected by `is_pow2`. -/
theorem is_pow2_negative (x : Int) (h : x < 0) : is_pow2 x = false := by
  simp [is_pow2, h]

/-- C2 (the code at the failing input): `is_pow2` returns true for 0, and
`parse` accepts a common line with `scaleW=0 scaleH=0`, giving a document
whose single page is 0 by 0. On the other values of the claim `is_pow2`
answers as the claim says: 1, 2, 4, 256, 1024 are accepted, 3, 5, 1023 and -1
are rejected. -/
theorem is_pow2_accepts_zero :
    is_pow2 0 = true ∧
    ((parse sample_env (Stream.of_lines zero_size_lines)).1.toOption.map
      fun d => (d.scaleW, d.scaleH, d.page_list.map fun p => p.data)) =
      some (0, 0, [[]]) ∧
    [1, 2, 4, 256, 1024].map is_pow2 = [true, true, true, true, true] ∧
    [3, 5, 1023, -1].map is_pow2 = [false, false, false, false] := by
  refine ⟨by decide!, by decide!, by decide!, by decide!⟩

/-! ## Claims on the emitted lookups -/

theorem get_glyph_eq_map_find (init : List (Nat × GlyphInfo)) (c : Nat) :
    Font.get_glyph init c = map_find init c := by
  unfold Font.get_glyph
  simp only [map_find_unordered_map_of]
  cases map_find init c <;> rfl

theorem map_find_glyph_entries (chars : List CharInfo) (c : Nat) :
    map_find (chars.map glyph_entry) c =
      (chars.find? fun ch => decide (ch.id = c)).map fun ch => (glyph_entry ch).2 := by
  induction chars with
  | nil => simp [map_find]
  | cons ch rest ih =>
    by_cases h : ch.id = c
    · simp [map_find, glyph_entry, h]
    · simp only [List.map_cons, map_find, List.find?_cons]
      simp only [glyph_entry] at ih ⊢
      simp [h, ih]

theorem parse_sample_lines :
    parse sample_env (Stream.of_lines sample_lines) =
      (.ok sample_document, sample_stream_after) := by decide!

/-- C1 (counterexample): in `sample_lines` two char lines have code point 97;
the emitted `get_glyph(97)` does not yield the fields of the last of them. -/
theorem get_glyph_not_last_record :
    parse sample_env (Stream.of_lines sample_lines) =
      (.ok sample_document, sample_stream_after) ∧
    ((char_records sample_env sample_stream_after.log).filter
      fun ch => decide (ch.id = 97)).getLast? = some sample_second_glyph ∧
    Font.get_glyph (glyph_initializer sample_document) 97 ≠
      some (glyph_entry sample_second_glyph).2 := by
  refine ⟨parse_sample_lines, by decide!, by decide!⟩

/-- C1 (amended): after a successful `parse`, the emitted `get_glyph(c)` yields
the fields (page, x, y, width, height, xoffset, yoffset, xadvance) of the
first char line read with code point `c`, and `nullptr` exactly when no char
line read has code point `c`. -/
theorem get_glyph_first_record (env : Env) (lines : List Str) (d : FntInfo) (st : Stream)
    (h : parse env (Stream.of_lines lines) = (.ok d, st)) (c : Nat) :
    Font.get_glyph (glyph_initializer d) c =
        ((char_records env st.log).find? fun ch => decide (ch.id = c)).map
          (fun ch => (glyph_entry ch).2) ∧
    (Font.get_glyph (glyph_initializer d) c = none ↔
      ∀ ch ∈ char_records env st.log, ch.id ≠ c) := by
  have hchars := (parse_records env lines d st h).1
  have heq : Font.get_glyph (glyph_initializer d) c =
      ((char_records env st.log).find? fun ch => decide (ch.id = c)).map
        (fun ch => (glyph_entry ch).2) := by
    rw [get_glyph_eq_map_find, glyph_initializer, map_find_glyph_entries, hchars]
  refine ⟨heq, ?_⟩
  rw [heq]
  simp [List.find?_eq_none]

/-- An instance of `get_glyph_first_record` on `sample_lines`: code point 97
gives the fields of the first of the two char lines, code point 98 gives
`nullptr`. -/
theorem get_glyph_first_record_witness :
    parse sample_env (Stream.of_lines sample_lines) =
      (.ok sample_document, sample_stream_after) ∧
    Font.get_glyph (glyph_initializer sample_document) 97 =
      some { page_id := 0, page_x := 0, page_y := 0, width := 1, height := 1,
             offset_x := 0, offset_y := 0, advance_x := 1 } ∧
    Font.get_glyph (glyph_initializer sample_document) 98 = none :=
  ⟨parse_sample_lines,
    ((get_glyph_first_record sample_env sample_lines sample_document sample_stream_after parse_sample_lines 97).1).trans
      (by decide!),
    (get_glyph_first_record sample_env sample_lines sample_document sample_stream_after parse_sample_lines 98).2.mpr
      (by decide!)⟩

theorem map_find_map_snd {β γ : Type} (g : β → γ) (l : List (Nat × β)) (k : Nat) :
    map_find (l.map fun e => (e.1, g e.2)) k = (map_find l k).map g := by
  induction l with
  | nil => simp [map_find]
  | cons e rest ih =>
    obtain ⟨k0, v0⟩ := e
    by_cases h : k0 = k
    · simp [map_find, h]
    · simp [map_find, h, ih]

/-- The emitted `get_kerning` in terms of the kerning map it was written from. -/
theorem get_kerning_eq (kernings : Kernings) (left right : Nat) :
    Font.get_kerning kernings left right =
      if left = 0 ∨ right = 0 then 0 else (kerning_amount kernings left right).getD 0 := by
  unfold Font.get_kerning kerning_amount
  simp only [map_find_unordered_map_of, map_find_map_snd]
  by_cases h0 : left = 0 ∨ right = 0
  · simp only [h0, if_true]
  · simp only [h0, if_false]
    cases map_find kernings left with
    | none => rfl
    | some sub =>
      simp only [Option.map_some', map_find_unordered_map_of]
      cases map_find sub right <;> rfl

theorem last_amount_none (records : List (Int × Int × Int)) (f s : Nat)
    (h : ∀ r ∈ records, ¬ (to_char32 r.1 = f ∧ to_char32 r.2.1 = s)) :
    last_amount records f s = none := by
  unfold last_amount
  have : records.filter (fun r => decide (to_char32 r.1 = f ∧ to_char32 r.2.1 = s)) = [] := by
    rw [List.filter_eq_nil_iff]
    intro r hr
    simpa using h r hr
  rw [this]
  rfl

/-- C3: after a successful `parse`, the emitted `get_kerning(left, right)`
returns 0 whenever `left` or `right` is the null code point, and returns 0 for
every pair that is the (`first`, `second`), as code points, of no kerning line
read. -/
theorem get_kerning_zero (env : Env) (lines : List Str) (d : FntInfo) (st : Stream)
    (h : parse env (Stream.of_lines lines) = (.ok d, st)) (left right : Nat) :
    ((left = 0 ∨ right = 0) → Font.get_kerning (kerning_initializer d) left right = 0) ∧
    ((∀ r ∈ kerning_records st.log, ¬ (to_char32 r.1 = left ∧ to_char32 r.2.1 = right)) →
      Font.get_kerning (kerning_initializer d) left right = 0) := by
  constructor
  · intro h0
    rw [kerning_initializer, get_kerning_eq]
    simp only [h0, if_true]
  · intro hnone
    rw [kerning_initializer, get_kerning_eq, (parse_records env lines d st h).2,
      last_amount_none _ _ _ hnone]
    simp

/-- An instance of `get_kerning_zero` on `sample_lines`: the pair (0, 98) has a
kerning line of amount 7 and resolves to 0; the pair (98, 97) has no kerning
line and resolves to 0. -/
theorem get_kerning_zero_witness :
    parse sample_env (Stream.of_lines sample_lines) =
      (.ok sample_document, sample_stream_after) ∧
    (0, 98, 7) ∈ kerning_records sample_stream_after.log ∧
    Font.get_kerning (kerning_initializer sample_document) 0 98 = 0 ∧
    Font.get_kerning (kerning_initializer sample_document) 98 97 = 0 :=
  ⟨parse_sample_lines, by decide!,
    (get_kerning_zero sample_env sample_lines sample_document sample_stream_after parse_sample_lines 0 98).1
      (Or.inl rfl),
    (get_kerning_zero sample_env sample_lines sample_document sample_stream_after parse_sample_lines 98 97).2
      (by decide!)⟩

/-- C4: after a successful `parse`, the two-level kerning map holds, for each
pair of code points, the amount of the last kerning line read whose
(`first`, `second`) is that pair, and no entry when no kerning line read has
that pair; an amount of 0 is held like any other. -/
theorem parse_kernings_last_record (env : Env) (lines : List Str) (d : FntInfo)
    (st : Stream) (h : parse env (Stream.of_lines lines) = (.ok d, st))
    (first second : Nat) :
    kerning_amount d.kernings first second =
      last_amount (kerning_records st.log) first second :=
  (parse_records env lines d st h).2 first second

/-- An instance of `parse_kernings_last_record` on `sample_lines`: the pair
(97, 98) occurs twice, with amounts -1 and 0, and the map holds 0; the pair
(98, 97) occurs in no line and has no entry. -/
theorem parse_kernings_last_record_witness :
    parse sample_env (Stream.of_lines sample_lines) =
      (.ok sample_document, sample_stream_after) ∧
    kerning_records sample_stream_after.log =
      [(97, 98, -1), (0, 98, 7), (97, 98, 0)] ∧
    kerning_amount sample_document.kernings 97 98 = some 0 ∧
    kerning_amount sample_document.kernings 98 97 = none :=
  ⟨parse_sample_lines, by decide!,
    (parse_kernings_last_record sample_env sample_lines sample_document sample_stream_after parse_sample_lines
      97 98).trans (by decide!),
    (parse_kernings_last_record sample_env sample_lines sample_document sample_stream_after parse_sample_lines
      98 97).trans (by decide!)⟩

/-! ## Claims on `Page::read_data` -/

theorem not_after_of_not_mem (line : Str) (p : Nat) (ch : Char)
    (h : ch ∉ line.drop (p + 1)) : ∀ j, p < j → line.get? j ≠ some ch := by
  intro j hj hget
  apply h
  have : (line.drop (p + 1))[j - (p + 1)]? = some ch := by
    rw [List.getElem?_drop]
    have : p + 1 + (j - (p + 1)) = j := by omega
    rw [this, ← List.get?_eq_getElem?]
    exact hget
  obtain ⟨hlt, heq⟩ := List.getElem?_eq_some_iff.mp this
  rw [← heq]
  exact List.getElem_mem hlt

/-- Instances of `parse_line_keyword_not_found_iff`: a first token that only
starts with the keyword, and a line that starts with a space. -/
theorem parse_line_keyword_not_found_iff_witness :
    "information size=1".toList ≠ [] ∧ "info".toList ≠ [] ∧
    parse_line "information size=1".toList "info".toList =
      .error (.runtime_error "Keyword not found: \"info\"".toList) ∧
    parse_line " info size=1".toList "info".toList =
      .error (.runtime_error "Keyword not found: \"info\"".toList) :=
  ⟨by decide, by decide,
    (parse_line_keyword_not_found_iff "information size=1".toList "info".toList
      (by decide) (by decide)).mpr (by decide!),
    (parse_line_keyword_not_found_iff " info size=1".toList "info".toList
      (by decide) (by decide)).mpr (by decide!)⟩

/-- An instance of `parse_line_unterminated_string`: the pair `a=1` is well
formed, the value of `b` opens a quote that is not closed. -/
theorem parse_line_unterminated_string_witness :
    scan_after unterminated_line "info".toList 9 = some unterminated_line_scan ∧
    parse_line "info a=1 b=\"x".toList "info".toList =
      .error (.runtime_error "Unexpected end of string value.".toList) :=
  ⟨by decide!,
    parse_line_unterminated_string unterminated_line "info".toList 9 unterminated_line_scan
      (by decide!) (by decide!) (by decide!)
      (not_after_of_not_mem _ _ _ (by decide!))⟩

/-- An instance of `parse_line_quoted_value`: the value of `a` in
`quoted_line` keeps its space and loses its quotes. -/
theorem parse_line_quoted_value_witness :
    parse_line quoted_line "info".toList =
      .ok [("a".toList, "x y".toList), ("b".toList, "1".toList)] ∧
    scan_after quoted_line "info".toList 4 = some quoted_line_scan ∧
    ∃ q, 7 < q ∧ quoted_line.get? q = some '"' ∧
      scan_after quoted_line "info".toList 6 = some
        { state := .find_key_begin, key := "a".toList,
          value := (quoted_line.drop 8).take (q - 8),
          line_parts := LineParts.assign [] "a".toList ((quoted_line.drop 8).take (q - 8)),
          is_string_value := true, char_it := q + 1, char_begin_it := 7 } := by
  refine ⟨by decide!, by decide!, ?_⟩
  obtain ⟨q, h1, h2, _, h4⟩ :=
    parse_line_quoted_value quoted_line "info".toList _ 4 quoted_line_scan
      (show parse_line quoted_line "info".toList =
        .ok [("a".toList, "x y".toList), ("b".toList, "1".toList)] by decide!)
      (by decide!) (by decide!) (by decide!)
  have hp : advance_while (fun c => c == ' ') (quoted_line.drop quoted_line_scan.char_it)
      quoted_line_scan.char_it = 7 := by decide!
  rw [hp] at h1 h4
  exact ⟨q, h1, h2, h4⟩

/-! ## More claims on `parse_line` -/

theorem step_find_equal_sign_none (line keyword : Str) {m : Scan}
    (hs : m.state = .find_equal_sign)
    (hno : ∀ j, m.char_it ≤ j → line.get? j ≠ some '=') :
    step line keyword m = .error (.runtime_error "Equal sign expected.".toList) := by
  unfold step
  rw [hs]
  simp only
  split
  · rfl
  · rename_i c hc
    exfalso
    have hstop := advance_while_stop _ _ _ _ hc
    have hceq : c = '=' := by simpa using hstop
    subst hceq
    exact hno _ (advance_while_ge _ line m.char_it) hc

/-- C11: when the scan of `parse_line` has scanned a key
(`State::find_equal_sign`) and no `=` occurs from the scan position to the end
of the line, `parse_line` throws `Equal sign expected.`. -/
theorem parse_line_equal_sign_expected (line keyword : Str) (n : Nat) (m : Scan)
    (hscan : scan_after line keyword n = some m)
    (hs : m.state = .find_equal_sign)
    (hno : ∀ j, m.char_it ≤ j → line.get? j ≠ some '=') :
    parse_line line keyword = .error (.runtime_error "Equal sign expected.".toList) :=
  parse_line_step_error hscan (by rw [hs]; decide)
    (step_find_equal_sign_none line keyword hs hno)

theorem not_from_of_not_mem (line : Str) (p : Nat) (ch : Char)
    (h : ch ∉ line.drop p) : ∀ j, p ≤ j → line.get? j ≠ some ch := by
  intro j hj hget
  apply h
  have : (line.drop p)[j - p]? = some ch := by
    rw [List.getElem?_drop]
    have : p + (j - p) = j := by omega
    rw [this, ← List.get?_eq_getElem?]
    exact hget
  obtain ⟨hlt, heq⟩ := List.getElem?_eq_some_iff.mp this
  rw [← heq]
  exact List.getElem_mem hlt

/-- An instance of `parse_line_equal_sign_expected`: in `info face` the key
`face` is scanned and no `=` follows. -/
theorem parse_line_equal_sign_expected_witness :
    scan_after "info face".toList "info".toList 3 = some
      { state := .find_equal_sign, key := "face".toList, value := [], line_parts := [],
        is_string_value := false, char_it := 9, char_begin_it := 5 } ∧
    parse_line "info face".toList "info".toList =
      .error (.runtime_error "Equal sign expected.".toList) :=
  ⟨by decide!,
    parse_line_equal_sign_expected "info face".toList "info".toList 3
      { state := .find_equal_sign, key := "face".toList, value := [], line_parts := [],
        is_string_value := false, char_it := 9, char_begin_it := 5 }
      (by decide!) (by decide!) (not_from_of_not_mem _ _ _ (by decide!))⟩

theorem step_find_value_begin_none (line keyword : Str) {m : Scan}
    (hs : m.state = .find_value_begin)
    (hsp : ∀ j c, m.char_it ≤ j → line.get? j = some c → c = ' ') :
    step line keyword m = .error (.runtime_error "Value expected.".toList) := by
  unfold step
  rw [hs]
  simp only
  split
  · rfl
  · rename_i c hc
    exfalso
    have hstop := advance_while_stop _ _ _ _ hc
    have hceq := hsp _ c (advance_while_ge _ line m.char_it) hc
    subst hceq
    simp at hstop

/-- C12: when the scan of `parse_line` has passed the `=` of a key
(`State::find_value_begin`) and only space characters, or none, remain from
the scan position to the end of the line, `parse_line` throws
`Value expected.`. -/
theorem parse_line_value_expected (line keyword : Str) (n : Nat) (m : Scan)
    (hscan : scan_after line keyword n = some m)
    (hs : m.state = .find_value_begin)
    (hsp : ∀ j c, m.char_it ≤ j → line.get? j = some c → c = ' ') :
    parse_line line keyword = .error (.runtime_error "Value expected.".toList) :=
  parse_line_step_error hscan (by rw [hs]; decide)
    (step_find_value_begin_none line keyword hs hsp)

theorem all_from_of_all_drop (line : Str) (p : Nat) (ch : Char)
    (h : ∀ c ∈ line.drop p, c = ch) : ∀ j c, p ≤ j → line.get? j = some c → c = ch := by
  intro j c hj hget
  apply h
  have : (line.drop p)[j - p]? = some c := by
    rw [List.getElem?_drop]
    have : p + (j - p) = j := by omega
    rw [this, ← List.get?_eq_getElem?]
    exact hget
  obtain ⟨hlt, heq⟩ := List.getElem?_eq_some_iff.mp this
  rw [← heq]
  exact List.getElem_mem hlt

/-- Instances of `parse_line_value_expected`: nothing, and three spaces, after
the `=` of `size`. -/
theorem parse_line_value_expected_witness :
    scan_after "info size=".toList "info".toList 4 = some
      { state := .find_value_begin, key := "size".toList, value := [], line_parts := [],
        is_string_value := false, char_it := 10, char_begin_it := 5 } ∧
    parse_line "info size=".toList "info".toList =
      .error (.runtime_error "Value expected.".toList) ∧
    parse_line "info size=   ".toList "info".toList =
      .error (.runtime_error "Value expected.".toList) :=
  ⟨by decide!,
    parse_line_value_expected "info size=".toList "info".toList 4
      { state := .find_value_begin, key := "size".toList, value := [], line_parts := [],
        is_string_value := false, char_it := 10, char_begin_it := 5 }
      (by decide!) (by decide!) (all_from_of_all_drop _ _ _ (by decide!)),
    parse_line_value_expected "info size=   ".toList "info".toList 4
      { state := .find_value_begin, key := "size".toList, value := [], line_parts := [],
        is_string_value := false, char_it := 10, char_begin_it := 5 }
      (by decide!) (by decide!) (all_from_of_all_drop _ _ _ (by decide!))⟩

/-! ## Further facts on the scan -/

theorem drop_eq_cons_of_get? {line : Str} {i : Nat} {c : Char} (h : line.get? i = some c) :
    line.drop i = c :: line.drop (i + 1) := by
  rw [List.get?_eq_getElem?] at h
  obtain ⟨hlt, heq⟩ := List.getElem?_eq_some_iff.mp h
  rw [← heq]
  exact List.drop_eq_getElem_cons hlt

/-- A scanning loop does not move from a character that fails its condition. -/
theorem advance_while_here (p : Char → Bool) {line : Str} {i : Nat} {c : Char}
    (h : line.get? i = some c) (hp : p c = false) :
    advance_while p (line.drop i) i = i := by
  rw [drop_eq_cons_of_get? h]
  simp [advance_while, hp]

/-- A scanning loop passes a character that satisfies its condition. -/
theorem advance_while_next (p : Char → Bool) {line : Str} {i : Nat} {c : Char}
    (h : line.get? i = some c) (hp : p c = true) :
    advance_while p (line.drop i) i = advance_while p (line.drop (i + 1)) (i + 1) := by
  rw [drop_eq_cons_of_get? h]
  simp [advance_while, hp]

/-- The string assigned from where a scanning loop starts to where it stops. -/
theorem assign_advance_while (p : Char → Bool) (line : Str) (i : Nat) :
    assign line i (advance_while p (line.drop i) i) = (line.drop i).takeWhile p := by
  unfold assign
  rw [advance_while_eq]
  have : i + (List.takeWhile p (List.drop i line)).length - i =
      (List.takeWhile p (List.drop i line)).length := by omega
  rw [this, take_takeWhile_length]

theorem steps_of_done (line keyword : Str) :
    ∀ (n : Nat) (m : Scan), m.state = .done → steps line keyword n m = .ok m := by
  intro n
  induction n with
  | zero => intro m _; rfl
  | succ n ih =>
    intro m hd
    have : step line keyword m = .ok m := by
      unfold step; rw [hd]
    rw [steps, this]
    exact ih m hd

/-- A record returned by the loop is the `line_parts` of locals in
`State::done` that the passes reach. -/
theorem run_ok_steps (line keyword : Str) :
    ∀ (b : Nat) (m0 : Scan) (parts : LineParts), run line keyword b m0 = .ok parts →
      ∃ m, steps line keyword b m0 = .ok m ∧ m.state = .done ∧ m.line_parts = parts := by
  intro b
  induction b with
  | zero =>
    intro m0 parts h
    unfold run at h
    split at h
    · rename_i hd
      cases h
      exact ⟨m0, rfl, hd, rfl⟩
    · cases h
  | succ n ih =>
    intro m0 parts h
    rw [run] at h
    split at h
    · rename_i hd
      cases h
      exact ⟨m0, steps_of_done line keyword _ m0 hd, hd, rfl⟩
    · cases hstep : step line keyword m0 with
      | error e => rw [hstep] at h; cases h
      | ok m1 =>
        rw [hstep] at h
        obtain ⟨m, h1, h2, h3⟩ := ih m1 parts h
        exact ⟨m, by rw [steps, hstep]; exact h1, h2, h3⟩

/-- An exception thrown by the loop is thrown by a pass from locals that the
passes reach. -/
theorem run_error_steps (line keyword : Str) :
    ∀ (b : Nat) (m0 : Scan) (e : Error), run line keyword b m0 = .error e →
      e ≠ .step_budget_exhausted →
      ∃ k m, steps line keyword k m0 = .ok m ∧ step line keyword m = .error e := by
  intro b
  induction b with
  | zero =>
    intro m0 e h hne
    unfold run at h
    split at h
    · cases h
    · cases h; exact absurd rfl hne
  | succ n ih =>
    intro m0 e h hne
    rw [run] at h
    split at h
    · cases h
    · cases hstep : step line keyword m0 with
      | error e' =>
        rw [hstep] at h
        cases h
        exact ⟨0, m0, rfl, hstep⟩
      | ok m1 =>
        rw [hstep] at h
        obtain ⟨k, m, h1, h2⟩ := ih m1 e h hne
        exact ⟨k + 1, m, by rw [steps, hstep]; exact h1, h2⟩

theorem scan_after_of_steps {line keyword : Str} {n : Nat} {m : Scan}
    (hl : line ≠ []) (hk : keyword ≠ []) (h : steps line keyword n Scan.start = .ok m) :
    scan_after line keyword n = some m := by
  unfold scan_after
  simp only [hl, hk, or_self, if_false]
  rw [h]
  rfl

/-- A record that `parse_line` returns is empty, for the empty line, or is the
`line_parts` of locals in `State::done` that the scan reaches within the step
budget. -/
theorem parse_line_ok_scan {line keyword : Str} {parts : LineParts}
    (h : parse_line line keyword = .ok parts) :
    (line = [] ∧ parts = []) ∨
    ∃ m, scan_after line keyword (step_budget line) = some m ∧ m.state = .done ∧
      m.line_parts = parts := by
  unfold parse_line at h
  split at h
  · rename_i hl
    cases h
    exact Or.inl ⟨hl, rfl⟩
  · rename_i hl
    split at h
    · cases h
    · rename_i hk
      obtain ⟨m, h1, h2, h3⟩ := run_ok_steps line keyword _ _ _ h
      exact Or.inr ⟨m, scan_after_of_steps hl hk h1, h2, h3⟩

/-- A `std::runtime_error` that `parse_line` throws is thrown by a pass from
locals that the scan reaches. -/
theorem parse_line_error_scan {line keyword : Str} {msg : Str}
    (h : parse_line line keyword = .error (.runtime_error msg)) :
    ∃ n m, scan_after line keyword n = some m ∧
      step line keyword m = .error (.runtime_error msg) := by
  unfold parse_line at h
  split at h
  · cases h
  · rename_i hl
    split at h
    · cases h
    · rename_i hk
      obtain ⟨k, m, h1, h2⟩ := run_error_steps line keyword _ _ _ h (by intro h'; cases h')
      exact ⟨k, m, scan_after_of_steps hl hk h1, h2⟩

theorem steps_succ_inv (line keyword : Str) :
    ∀ (n : Nat) (m0 m : Scan), steps line keyword (n + 1) m0 = .ok m →
      ∃ m', steps line keyword n m0 = .ok m' ∧ step line keyword m' = .ok m := by
  intro n
  induction n with
  | zero =>
    intro m0 m h
    rw [steps] at h
    cases hstep : step line keyword m0 with
    | error e => rw [hstep] at h; cases h
    | ok m1 =>
      rw [hstep] at h
      simp only [steps] at h
      cases h
      exact ⟨m0, rfl, hstep⟩
  | succ n ih =>
    intro m0 m h
    rw [steps] at h
    cases hstep : step line keyword m0 with
    | error e => rw [hstep] at h; cases h
    | ok m1 =>
      rw [hstep] at h
      obtain ⟨m', h1, h2⟩ := ih m1 m h
      exact ⟨m', by rw [steps, hstep]; exact h1, h2⟩

theorem scan_after_pred {line keyword : Str} {n : Nat} {m : Scan}
    (h : scan_after line keyword (n + 1) = some m) :
    ∃ m', scan_after line keyword n = some m' ∧ step line keyword m' = .ok m := by
  obtain ⟨hl, hk, hs⟩ := scan_after_some h
  obtain ⟨m', h1, h2⟩ := steps_succ_inv line keyword n _ m hs
  exact ⟨m', scan_after_of_steps hl hk h1, h2⟩

/-! ## Keys -/

theorem step_find_key_begin (line keyword : Str) {m : Scan} {c : Char}
    (hs : m.state = .find_key_begin)
    (hc : line.get? (advance_while (fun c => c == ' ') (line.drop m.char_it) m.char_it)
      = some c) :
    step line keyword m = .ok
      { m with
        char_it := advance_while (fun c => c == ' ') (line.drop m.char_it) m.char_it
        char_begin_it := advance_while (fun c => c == ' ') (line.drop m.char_it) m.char_it
        state := .find_key_end } := by
  unfold step
  rw [hs]
  simp only [hc]

/-- Locals in `State::find_key_end` come from a pass through
`State::find_key_begin` that stopped at a character of the line. -/
theorem step_to_find_key_end {line keyword : Str} {m' m : Scan}
    (h : step line keyword m' = .ok m) (hs : m.state = .find_key_end) :
    m'.state = .find_key_begin ∧
    m.char_it = advance_while (fun c => c == ' ') (line.drop m'.char_it) m'.char_it ∧
    m.char_begin_it = m.char_it ∧ ∃ c, line.get? m.char_it = some c := by
  unfold step at h
  cases hs' : m'.state <;> rw [hs'] at h <;> simp only at h
  · split at h
    · cases h
    · cases h; simp at hs
  · split at h
    · cases h; simp at hs
    · rename_i c hc
      cases h
      exact ⟨rfl, rfl, rfl, c, hc⟩
  · split at h
    · cases h
    · cases h; simp at hs
  · split at h
    · cases h
    · cases h; simp at hs
  · split at h
    · cases h
    · cases h; simp at hs
  · split at h
    · split at h
      · cases h
      · cases h; simp at hs
    · cases h; simp at hs
  · cases h; rw [hs'] at hs; cases hs

/-- Only `State::find_key_end` throws `Empty key.`, and it does so when the
key it assigns is empty. -/
theorem step_empty_key {line keyword : Str} {m : Scan}
    (h : step line keyword m = .error (.runtime_error "Empty key.".toList)) :
    m.state = .find_key_end ∧
    assign line m.char_begin_it
      (advance_while (fun c => c != ' ' && c != '=') (line.drop m.char_it) m.char_it) = [] := by
  unfold step at h
  cases hs : m.state <;> rw [hs] at h <;> simp only at h
  · split at h
    · exfalso
      injection h with h
      injection h with h
      have := congrArg List.head? h
      simp [String.toList] at this
    · cases h
  · split at h <;> cases h
  · split at h
    · rename_i hkey
      exact ⟨rfl, hkey⟩
    · cases h
  · split at h <;> cases h
  · split at h <;> cases h
  · split at h
    · split at h <;> cases h
    · cases h
  · cases h

theorem scan_after_zero_state {line keyword : Str} {m : Scan}
    (h : scan_after line keyword 0 = some m) : m.state = .find_keyword_end := by
  obtain ⟨_, _, hs⟩ := scan_after_some h
  simp only [steps] at hs
  cases hs
  rfl

theorem assign_mem {parts : LineParts} {key value : Str} {kv : Str × Str}
    (h : kv ∈ LineParts.assign parts key value) : kv ∈ parts ∨ kv.1 = key := by
  induction parts with
  | nil =>
    simp only [LineParts.assign, List.mem_singleton] at h
    rw [h]
    exact Or.inr rfl
  | cons e rest ih =>
    obtain ⟨k0, v0⟩ := e
    unfold LineParts.assign at h
    by_cases hk : k0 = key
    · simp only [hk, if_true, List.mem_cons] at h
      rcases h with h | h
      · rw [h]; exact Or.inr rfl
      · exact Or.inl (List.mem_cons_of_mem _ h)
    · simp only [hk, if_false, List.mem_cons] at h
      rcases h with h | h
      · rw [h]; exact Or.inl (List.mem_cons_self _ _)
      · rcases ih h with h' | h'
        · exact Or.inl (List.mem_cons_of_mem _ h')
        · exact Or.inr h'

/-- What holds of the keys at every point of a scan: the record has no empty
key, and the key last scanned is not empty while its value is being looked
for. -/
theorem step_keys_nonempty {line keyword : Str} {m m' : Scan}
    (h : step line keyword m = .ok m')
    (h1 : ∀ kv ∈ m.line_parts, kv.1 ≠ [])
    (h2 : m.state = .find_equal_sign ∨ m.state = .find_value_begin ∨
      m.state = .find_value_end → m.key ≠ []) :
    (∀ kv ∈ m'.line_parts, kv.1 ≠ []) ∧
    (m'.state = .find_equal_sign ∨ m'.state = .find_value_begin ∨
      m'.state = .find_value_end → m'.key ≠ []) := by
  unfold step at h
  cases hs : m.state <;> rw [hs] at h <;> simp only at h
  · split at h
    · cases h
    · cases h
      exact ⟨h1, by simp⟩
  · split at h <;> cases h <;> exact ⟨h1, by simp⟩
  · split at h
    · cases h
    · rename_i hkey
      cases h
      exact ⟨h1, fun _ => hkey⟩
  · have hk := h2 (Or.inl hs)
    split at h
    · cases h
    · cases h
      exact ⟨h1, fun _ => hk⟩
  · have hk := h2 (Or.inr (Or.inl hs))
    split at h
    · cases h
    · cases h
      exact ⟨h1, fun _ => hk⟩
  · have hk := h2 (Or.inr (Or.inr hs))
    split at h
    · split at h
      · cases h
      · cases h
        refine ⟨?_, by simp⟩
        intro kv hkv
        rcases assign_mem hkv with h' | h'
        · exact h1 kv h'
        · rw [h']; exact hk
    · cases h
      refine ⟨?_, by simp⟩
      intro kv hkv
      rcases assign_mem hkv with h' | h'
      · exact h1 kv h'
      · rw [h']; exact hk
  · cases h
    exact ⟨h1, h2⟩

theorem steps_keys_nonempty (line keyword : Str) :
    ∀ (n : Nat) (m0 m : Scan), steps line keyword n m0 = .ok m →
      (∀ kv ∈ m0.line_parts, kv.1 ≠ []) →
      (m0.state = .find_equal_sign ∨ m0.state = .find_value_begin ∨
        m0.state = .find_value_end → m0.key ≠ []) →
      ∀ kv ∈ m.line_parts, kv.1 ≠ [] := by
  intro n
  induction n with
  | zero =>
    intro m0 m h h1 _
    simp only [steps] at h
    cases h
    exact h1
  | succ n ih =>
    intro m0 m h h1 h2
    rw [steps] at h
    cases hstep : step line keyword m0 with
    | error e => rw [hstep] at h; cases h
    | ok m1 =>
      rw [hstep] at h
      obtain ⟨h1', h2'⟩ := step_keys_nonempty hstep h1 h2
      exact ih m1 m h h1' h2'

/-- C13: `parse_line` throws `Empty key.` exactly when its scan comes to a
place where a key is expected (`State::find_key_begin`: after the keyword or
after a stored value) and the first character after the spaces is `=`; and no
record that `parse_line` returns has the empty string as a key. -/
theorem parse_line_empty_key (line keyword : Str) :
    (parse_line line keyword = .error (.runtime_error "Empty key.".toList) ↔
      ∃ n m, scan_after line keyword n = some m ∧ m.state = .find_key_begin ∧
        line.get? (advance_while (fun c => c == ' ') (line.drop m.char_it) m.char_it)
          = some '=') ∧
    (∀ parts, parse_line line keyword = .ok parts → ∀ kv ∈ parts, kv.1 ≠ []) := by
  constructor
  · constructor
    · intro h
      obtain ⟨n, m, hscan, hstep⟩ := parse_line_error_scan h
      obtain ⟨hs, hkey⟩ := step_empty_key hstep
      cases n with
      | zero => rw [scan_after_zero_state hscan] at hs; cases hs
      | succ n =>
        obtain ⟨m', hscan', hstep'⟩ := scan_after_pred hscan
        obtain ⟨hs', hit, hbegin, c, hc⟩ := step_to_find_key_end hstep' hs
        refine ⟨n, m', hscan', hs', ?_⟩
        rw [← hit, hc]
        rw [hbegin, assign_advance_while] at hkey
        rw [drop_eq_cons_of_get? hc] at hkey
        have hstop : (c == ' ') = false := by
          apply advance_while_stop (fun c => c == ' ') line m'.char_it c
          rw [← hit]; exact hc
        have hsp : c ≠ ' ' := by simpa using hstop
        by_cases heq : c = '='
        · rw [heq]
        · exfalso
          have hq : (c != ' ' && c != '=') = true := by simp [hsp, heq]
          rw [List.takeWhile_cons, hq] at hkey
          simp at hkey
    · rintro ⟨n, m, hscan, hs, hc⟩
      have h1 := step_find_key_begin line keyword hs hc
      have hscan1 := scan_after_succ hscan h1
      apply parse_line_step_error hscan1 (by simp)
      unfold step
      simp only
      rw [advance_while_here _ hc (by decide)]
      simp [assign]
  · intro parts h
    rcases parse_line_ok_scan h with ⟨_, hp⟩ | ⟨m, hscan, _, hp⟩
    · rw [hp]; simp
    · obtain ⟨_, _, hs⟩ := scan_after_some hscan
      rw [← hp]
      exact steps_keys_nonempty line keyword _ _ m hs (by simp [Scan.start])
        (by simp [Scan.start])

/-- Instances of `parse_line_empty_key`: `=` right after the keyword, `=` after
a stored value, and an accepted line. -/
theorem parse_line_empty_key_witness :
    parse_line "info =5".toList "info".toList = .error (.runtime_error "Empty key.".toList) ∧
    parse_line "info a=1  =2".toList "info".toList =
      .error (.runtime_error "Empty key.".toList) ∧
    (∀ kv ∈ [("a".toList, "1".toList), ("b".toList, "2".toList)], kv.1 ≠ []) :=
  ⟨(parse_line_empty_key "info =5".toList "info".toList).1.mpr
      ⟨1, { state := .find_key_begin, key := "info".toList, value := [], line_parts := [],
            is_string_value := false, char_it := 4, char_begin_it := 0 },
        by decide!, by decide!, by decide!⟩,
    (parse_line_empty_key "info a=1  =2".toList "info".toList).1.mpr
      ⟨6, { state := .find_key_begin, key := "a".toList, value := "1".toList,
            line_parts := [("a".toList, "1".toList)], is_string_value := false,
            char_it := 8, char_begin_it := 7 },
        by decide!, by decide!, by decide!⟩,
    (parse_line_empty_key "info a=1 b=2".toList "info".toList).2
      [("a".toList, "1".toList), ("b".toList, "2".toList)] (by decide!)⟩

/-! ## Values -/

theorem value_continues_plain : value_continues false = fun c => c != ' ' := by
  funext c
  unfold value_continues
  by_cases h : c = ' '
  · simp [h]
  · simp [h]

/-- C14: when the scan of `parse_line` is about to read a value
(`State::find_value_begin`) and the first character after the spaces, at
offset `p`, is not a double quote, then two passes later the record maps the
key to the longest run of non-space characters of the line from offset `p`
on, with the scan in `State::find_key_begin` just after that run; the run
starts with that first character, so it is not empty, and it is followed by a
space or by the end of the line. -/
theorem parse_line_plain_value (line keyword : Str) (n : Nat) (m : Scan) (c : Char)
    (hscan : scan_after line keyword n = some m)
    (hs : m.state = .find_value_begin)
    (hc : line.get? (advance_while (fun c => c == ' ') (line.drop m.char_it) m.char_it)
      = some c)
    (hq : c ≠ '"') :
    scan_after line keyword (n + 2) = some
      { state := .find_key_begin
        key := m.key
        value := (line.drop
          (advance_while (fun c => c == ' ') (line.drop m.char_it) m.char_it)).takeWhile
            (fun c => c != ' ')
        line_parts := LineParts.assign m.line_parts m.key
          ((line.drop
            (advance_while (fun c => c == ' ') (line.drop m.char_it) m.char_it)).takeWhile
              (fun c => c != ' '))
        is_string_value := false
        char_it := advance_while (fun c => c == ' ') (line.drop m.char_it) m.char_it +
          ((line.drop
            (advance_while (fun c => c == ' ') (line.drop m.char_it) m.char_it)).takeWhile
              (fun c => c != ' ')).length
        char_begin_it := advance_while (fun c => c == ' ') (line.drop m.char_it) m.char_it } ∧
    ((line.drop
      (advance_while (fun c => c == ' ') (line.drop m.char_it) m.char_it)).takeWhile
        (fun c => c != ' ')).head? = some c ∧
    (line.get? (advance_while (fun c => c == ' ') (line.drop m.char_it) m.char_it +
        ((line.drop
          (advance_while (fun c => c == ' ') (line.drop m.char_it) m.char_it)).takeWhile
            (fun c => c != ' ')).length) = none ∨
      line.get? (advance_while (fun c => c == ' ') (line.drop m.char_it) m.char_it +
        ((line.drop
          (advance_while (fun c => c == ' ') (line.drop m.char_it) m.char_it)).takeWhile
            (fun c => c != ' ')).length) = some ' ') := by
  have h1 := step_find_value_begin line keyword hs hc
  have hscan1 := scan_after_succ hscan h1
  have hstop : (c == ' ') = false :=
    advance_while_stop (fun c => c == ' ') line m.char_it c hc
  have hsp : c ≠ ' ' := by simpa using hstop
  generalize hp : advance_while (fun c => c == ' ') (line.drop m.char_it) m.char_it = p
    at h1 hscan1 hc ⊢
  have hcq : (c == '"') = false := by simpa using hq
  rw [hcq] at h1 hscan1
  have hnext : advance_while (fun c => c != ' ') (line.drop (p + 1)) (p + 1) =
      p + ((line.drop p).takeWhile (fun c => c != ' ')).length := by
    rw [← advance_while_next (fun c => c != ' ') hc (by simpa using hsp), advance_while_eq]
  refine ⟨?_, ?_, ?_⟩
  · apply scan_after_succ hscan1
    unfold step
    simp only [value_continues_plain, Bool.false_eq_true, if_false]
    rw [hnext, ← advance_while_eq, assign_advance_while]
  · rw [drop_eq_cons_of_get? hc, List.takeWhile_cons]
    simp [hsp]
  · rw [← advance_while_eq]
    cases hend : line.get? (advance_while (fun c => c != ' ') (line.drop p) p) with
    | none => exact Or.inl rfl
    | some d =>
      right
      have := advance_while_stop (fun c => c != ' ') line p d hend
      have hd : d = ' ' := by simpa using this
      rw [hd]

/-- An instance of `parse_line_plain_value`: the value of `a` in
`info a=b=c"d e=1` is `b=c"d`. -/
theorem parse_line_plain_value_witness :
    scan_after "info a=b=c\"d e=1".toList "info".toList 4 = some
      { state := .find_value_begin, key := "a".toList, value := [], line_parts := [],
        is_string_value := false, char_it := 7, char_begin_it := 5 } ∧
    scan_after "info a=b=c\"d e=1".toList "info".toList 6 = some
      { state := .find_key_begin, key := "a".toList, value := "b=c\"d".toList,
        line_parts := [("a".toList, "b=c\"d".toList)], is_string_value := false,
        char_it := 12, char_begin_it := 7 } :=
  ⟨by decide!,
    (parse_line_plain_value "info a=b=c\"d e=1".toList "info".toList 4
      { state := .find_value_begin, key := "a".toList, value := [], line_parts := [],
        is_string_value := false, char_it := 7, char_begin_it := 5 } 'b'
      (by decide!) (by decide!) (by decide!) (by decide)).1.trans (by decide!)⟩

/-! ## The record as the pairs stored -/

theorem find_assign (parts : LineParts) (k v key : Str) :
    LineParts.find (LineParts.assign parts k v) key =
      if k = key then some v else LineParts.find parts key := by
  induction parts with
  | nil => simp [LineParts.assign, LineParts.find]
  | cons e rest ih =>
    obtain ⟨k0, v0⟩ := e
    unfold LineParts.assign
    by_cases h0 : k0 = k
    · subst h0
      simp only [if_true]
      by_cases h : k0 = key
      · simp [LineParts.find, h]
      · simp [LineParts.find, h]
    · simp only [h0, if_false]
      by_cases h : k0 = key
      · subst h
        have h0' : ¬ k = k0 := fun e => h0 e.symm
        simp [LineParts.find, h0']
      · simp [LineParts.find, h, ih]

theorem keys_assign (parts : LineParts) (k v : Str) :
    (LineParts.assign parts k v).map (fun kv => kv.1) =
      if k ∈ parts.map (fun kv => kv.1) then parts.map (fun kv => kv.1)
      else parts.map (fun kv => kv.1) ++ [k] := by
  induction parts with
  | nil => simp [LineParts.assign]
  | cons e rest ih =>
    obtain ⟨k0, v0⟩ := e
    unfold LineParts.assign
    by_cases h0 : k0 = k
    · subst h0
      simp
    · have h0' : ¬ k = k0 := fun e => h0 e.symm
      simp only [h0, if_false, List.map_cons, List.mem_cons, h0', false_or, ih]
      split <;> simp

theorem step_line_parts {line keyword : Str} {m m' : Scan}
    (h : step line keyword m = .ok m') :
    m'.line_parts =
      if m.state = .find_value_end then LineParts.assign m.line_parts m'.key m'.value
      else m.line_parts := by
  unfold step at h
  cases hs : m.state <;> rw [hs] at h <;> simp only at h
  · split at h
    · cases h
    · cases h; simp
  · split at h <;> cases h <;> simp
  · split at h
    · cases h
    · cases h; simp
  · split at h
    · cases h
    · cases h; simp
  · split at h
    · cases h
    · cases h; simp
  · split at h
    · split at h
      · cases h
      · cases h; simp
    · cases h; simp
  · cases h; simp [hs]

/-- The record after some passes is the record before them with the pairs
stored by those passes assigned in order. -/
theorem steps_line_parts (line keyword : Str) :
    ∀ (n : Nat) (m0 m : Scan), steps line keyword n m0 = .ok m →
      m.line_parts =
        (stored_pairs line keyword n m0).foldl (fun acc kv => LineParts.assign acc kv.1 kv.2)
          m0.line_parts := by
  intro n
  induction n with
  | zero =>
    intro m0 m h
    simp only [steps] at h
    cases h
    rfl
  | succ n ih =>
    intro m0 m h
    rw [steps] at h
    cases hstep : step line keyword m0 with
    | error e => rw [hstep] at h; cases h
    | ok m1 =>
      rw [hstep] at h
      rw [stored_pairs, hstep]
      simp only [List.foldl_append]
      rw [ih m1 m h, step_line_parts hstep]
      by_cases hs : m0.state = .find_value_end
      · simp [hs]
      · simp [hs]

theorem last_value_cons (kv : Str × Str) (pairs : List (Str × Str)) (key : Str) :
    last_value (kv :: pairs) key =
      (last_value pairs key).or (if kv.1 = key then some kv.2 else none) := by
  unfold last_value
  by_cases h : kv.1 = key
  · simp only [List.filter_cons, h, decide_True, if_true]
    cases hrest : List.filter (fun kv => decide (kv.1 = key)) pairs with
    | nil => simp
    | cons a l =>
      have hx : (a :: l).getLast? = some ((a :: l).getLast (List.cons_ne_nil a l)) :=
        List.getLast?_eq_getLast _ _
      simp only [List.getLast?_cons_cons]
      rw [hx]
      simp
  · simp [List.filter_cons, h]

theorem find_foldl_assign (pairs : List (Str × Str)) :
    ∀ (acc : LineParts) (key : Str),
      LineParts.find (pairs.foldl (fun acc kv => LineParts.assign acc kv.1 kv.2) acc) key =
        (last_value pairs key).or (LineParts.find acc key) := by
  induction pairs with
  | nil => intro acc key; simp [last_value]
  | cons kv rest ih =>
    intro acc key
    simp only [List.foldl_cons]
    rw [ih, find_assign, last_value_cons]
    cases last_value rest key with
    | some v => simp
    | none =>
      simp only [Option.none_or]
      split <;> simp

theorem keys_foldl_assign (pairs : List (Str × Str)) :
    ∀ (acc : LineParts), (acc.map fun kv => kv.1).Nodup →
      ((pairs.foldl (fun acc kv => LineParts.assign acc kv.1 kv.2) acc).map
          fun kv => kv.1).Nodup ∧
      ∀ key, key ∈ (pairs.foldl (fun acc kv => LineParts.assign acc kv.1 kv.2) acc).map
          (fun kv => kv.1) ↔
        key ∈ acc.map (fun kv => kv.1) ∨ key ∈ pairs.map (fun kv => kv.1) := by
  induction pairs with
  | nil => intro acc h; simp [h]
  | cons kv rest ih =>
    intro acc h
    simp only [List.foldl_cons]
    have hnd : ((LineParts.assign acc kv.1 kv.2).map fun kv => kv.1).Nodup := by
      rw [keys_assign]
      split
      · exact h
      · rename_i hk
        exact List.Nodup.append h (List.nodup_singleton _) (by simpa using hk)
    obtain ⟨h1, h2⟩ := ih (LineParts.assign acc kv.1 kv.2) hnd
    refine ⟨h1, ?_⟩
    intro key
    rw [h2, keys_assign]
    split
    · rename_i hk
      simp only [List.map_cons, List.mem_cons]
      constructor
      · rintro (h' | h')
        · exact Or.inl h'
        · exact Or.inr (Or.inr h')
      · rintro (h' | h' | h')
        · exact Or.inl h'
        · rw [h']; exact Or.inl hk
        · exact Or.inr h'
    · simp only [List.mem_append, List.mem_cons, List.map_cons, List.not_mem_nil, or_false]
      tauto

/-- C15: a record that `parse_line` returns maps each key to the value of the
last `key=value` pair of the line with that key, has no key twice, and has
exactly the keys of the pairs of the line. -/
theorem parse_line_last_occurrence (line keyword : Str) (parts : LineParts)
    (h : parse_line line keyword = .ok parts) :
    (∀ key, LineParts.find parts key = last_value (line_pairs line keyword) key) ∧
    (parts.map fun kv => kv.1).Nodup ∧
    (∀ key, key ∈ parts.map (fun kv => kv.1) ↔
      key ∈ (line_pairs line keyword).map (fun kv => kv.1)) := by
  rcases parse_line_ok_scan h with ⟨hl, hp⟩ | ⟨m, hscan, _, hp⟩
  · subst hp
    simp [line_pairs, hl, last_value, LineParts.find]
  · obtain ⟨hl, hk, hs⟩ := scan_after_some hscan
    have hparts := steps_line_parts line keyword _ _ m hs
    rw [hp] at hparts
    have hpairs : line_pairs line keyword =
        stored_pairs line keyword (step_budget line) Scan.start := by
      simp [line_pairs, hl, hk]
    rw [hpairs, hparts]
    obtain ⟨h1, h2⟩ := keys_foldl_assign
      (stored_pairs line keyword (step_budget line) Scan.start) Scan.start.line_parts
      (by simp [Scan.start])
    refine ⟨?_, h1, ?_⟩
    · intro key
      rw [find_foldl_assign]
      simp [Scan.start, LineParts.find]
    · intro key
      rw [h2]
      simp [Scan.start]

/-- An instance of `parse_line_last_occurrence`: in `info a=1 b=2 a=3` the key
`a` occurs twice; the record maps it to `3` and has the two keys `a` and `b`. -/
theorem parse_line_last_occurrence_witness :
    parse_line "info a=1 b=2 a=3".toList "info".toList =
      .ok [("a".toList, "3".toList), ("b".toList, "2".toList)] ∧
    line_pairs "info a=1 b=2 a=3".toList "info".toList =
      [("a".toList, "1".toList), ("b".toList, "2".toList), ("a".toList, "3".toList)] ∧
    LineParts.find [("a".toList, "3".toList), ("b".toList, "2".toList)] "a".toList =
      some "3".toList :=
  ⟨by decide!, by decide!,
    ((parse_line_last_occurrence "info a=1 b=2 a=3".toList "info".toList
      [("a".toList, "3".toList), ("b".toList, "2".toList)] (by decide!)).1 "a".toList).trans
      (by decide!)⟩

/-! ## The validation blocks of `parse` -/

theorem getline_cons (site : Site) (line : Str) (rest : List Str) (log : List Event) :
    getline site { lines := line :: rest, log := log } =
      (some line, { lines := rest, log := log ++ [Event.getline site (some line)] }) := rfl

theorem getline_nil (site : Site) (log : List Event) :
    getline site { lines := [], log := log } =
      (none, { lines := [], log := log ++ [Event.getline site none] }) := rfl

/-- The `// info` block on a line whose record and three numbers are given. -/
theorem info_record_eq (line : Str) (parts : LineParts) (size stretchH outline : Int)
    (hparts : parse_line line "info".toList = .ok parts)
    (hsize : stoi (parts.at "size") = .ok size)
    (hstretch : stoi (parts.at "stretchH") = .ok stretchH)
    (houtline : stoi (parts.at "outline") = .ok outline) :
    info_record line =
      if size ≥ 0 then .error (.runtime_error "Positive size.".toList)
      else if stretchH ≠ 100 then .error (.runtime_error "Stretch is not 100%.".toList)
      else if outline ≠ 0 then .error (.runtime_error "Outline not allowed.".toList)
      else .ok { face := parts.at "face", size := size, stretchH := stretchH,
                 outline := outline } := by
  unfold info_record
  simp only [bind, Except.bind, hparts, hsize, hstretch, houtline]

/-- When the `// info` block throws, `parse` throws the same and has read the
info line only. -/
theorem parse_info_error (env : Env) (line : Str) (rest : List Str) (e : Error)
    (h : info_record line = .error e) :
    parse env (Stream.of_lines (line :: rest)) =
      (.error e, { lines := rest, log := [Event.getline .info (some line)] }) := by
  unfold parse
  simp only [Stream.of_lines, getline_cons, h, List.nil_append]

/-- When the `// common` block throws, `parse` throws the same and has read the
info and common lines only. -/
theorem parse_common_error (env : Env) (l1 l2 : Str) (rest : List Str) (info : InfoFields)
    (e : Error) (hinfo : info_record l1 = .ok info) (h : common_record l2 = .error e) :
    parse env (Stream.of_lines (l1 :: l2 :: rest)) =
      (.error e, { lines := rest,
                   log := [Event.getline .info (some l1), Event.getline .common (some l2)] }) := by
  unfold parse
  simp only [Stream.of_lines, getline_cons, hinfo, h, List.nil_append, List.singleton_append]

/-- After the info and common blocks, `parse` only adds to the input actions. -/
theorem parse_log_after_common (env : Env) (l1 l2 : Str) (rest : List Str)
    (info : InfoFields) (common : CommonFields)
    (hinfo : info_record l1 = .ok info) (hcommon : common_record l2 = .ok common) :
    ∃ evs, (parse env (Stream.of_lines (l1 :: l2 :: rest))).2.log =
      [Event.getline .info (some l1), Event.getline .common (some l2)] ++ evs := by
  unfold parse
  simp only [Stream.of_lines, getline_cons, hinfo, hcommon, List.nil_append,
    List.singleton_append]
  generalize hs2 :
    ({ lines := rest,
       log := [Event.getline .info (some l1), Event.getline .common (some l2)] } : Stream) = s2
  have hl2 : s2.log = [Event.getline .info (some l1), Event.getline .common (some l2)] := by
    rw [← hs2]
  by_cases hps : resize_ok env.page_list_storage common.pages.toNat = true
  swap
  · simp only [Bool.not_eq_true] at hps
    simp only [hps, Bool.not_false, if_true]
    exact ⟨[], by rw [hl2]; simp⟩
  simp only [hps, Bool.not_true, Bool.false_eq_true, if_false]
  obtain ⟨pevs, hpl, _⟩ := read_pages_log env common.scaleW common.scaleH
    common.pages.toNat s2
  cases hrp : read_pages env common.scaleW common.scaleH common.pages.toNat s2 with
  | mk pres s3 =>
  rw [hrp] at hpl
  simp only at hpl
  cases pres with
  | error e => exact ⟨pevs, by simp only; rw [hpl, hl2]⟩
  | ok page_list =>
  simp only
  obtain ⟨r4, s4, hg4, hl4⟩ := getline_log .chars s3
  rw [hg4]
  cases r4 with
  | none => exact ⟨pevs ++ [Event.getline .chars none], by simp only; rw [hl4, hpl, hl2]; simp⟩
  | some line4 =>
  simp only
  cases hchars : chars_record line4 with
  | error e =>
    exact ⟨pevs ++ [Event.getline .chars (some line4)], by simp only; rw [hl4, hpl, hl2]; simp⟩
  | ok char_count =>
  simp only
  by_cases hneg : char_count < 0
  · simp only [hneg, if_true]
    exact ⟨pevs ++ [Event.getline .chars (some line4)], by rw [hl4, hpl, hl2]; simp⟩
  · simp only [hneg, if_false]
    by_cases hcs : resize_ok env.chars_storage char_count.toNat = true
    swap
    · simp only [Bool.not_eq_true] at hcs
      simp only [hcs, Bool.not_false, if_true]
      exact ⟨pevs ++ [Event.getline .chars (some line4)], by rw [hl4, hpl, hl2]; simp⟩
    simp only [hcs, Bool.not_true, Bool.false_eq_true, if_false]
    obtain ⟨cevs, hcl, _, _⟩ := read_chars_log env char_count.toNat s4
    cases hrc : read_chars env char_count.toNat s4 with
    | mk cres s5 =>
    rw [hrc] at hcl
    simp only at hcl
    have hl5 : s5.log = [Event.getline .info (some l1), Event.getline .common (some l2)] ++
        (pevs ++ [Event.getline .chars (some line4)] ++ cevs) := by
      rw [hcl, hl4, hpl, hl2]; simp
    cases cres with
    | error e => exact ⟨_, hl5⟩
    | ok chars =>
    simp only
    obtain ⟨r6, s6, hg6, hl6⟩ := getline_log .kernings s5
    rw [hg6]
    have hl6' : s6.log = [Event.getline .info (some l1), Event.getline .common (some l2)] ++
        (pevs ++ [Event.getline .chars (some line4)] ++ cevs ++ [Event.getline .kernings r6]) := by
      rw [hl6, hl5]; simp
    cases r6 with
    | none => exact ⟨_, hl6'⟩
    | some line6 =>
    simp only
    cases hkh : kernings_record line6 with
    | error e => exact ⟨_, hl6'⟩
    | ok kerning_count =>
    simp only
    obtain ⟨kevs, hkl, _, _⟩ := read_kernings_log kerning_count.toNat [] s6
    cases hrk : read_kernings kerning_count.toNat [] s6 with
    | mk kres s7 =>
    rw [hrk] at hkl
    simp only at hkl
    have hl7 : s7.log = [Event.getline .info (some l1), Event.getline .common (some l2)] ++
        (pevs ++ [Event.getline .chars (some line4)] ++ cevs ++
          [Event.getline .kernings (some line6)] ++ kevs) := by
      rw [hkl, hl6']; simp
    cases kres with
    | error e => exact ⟨_, hl7⟩
    | ok kernings => exact ⟨_, hl7⟩

/-- After a passed info block, `parse` goes on to read the common line. -/
theorem parse_log_after_info (env : Env) (line : Str) (rest : List Str) (info : InfoFields)
    (hinfo : info_record line = .ok info) :
    ∃ evs, (parse env (Stream.of_lines (line :: rest))).2.log =
      [Event.getline .info (some line), Event.getline .common rest.head?] ++ evs := by
  cases rest with
  | nil =>
    refine ⟨[], ?_⟩
    unfold parse
    simp only [Stream.of_lines, getline_cons, getline_nil, hinfo, List.nil_append,
      List.singleton_append, List.head?_nil, List.append_nil]
  | cons l2 rest =>
    cases hcommon : common_record l2 with
    | error e =>
      refine ⟨[], ?_⟩
      rw [parse_common_error env line l2 rest info e hinfo hcommon]
      simp
    | ok common =>
      obtain ⟨evs, h⟩ := parse_log_after_common env line l2 rest info common hinfo hcommon
      exact ⟨evs, by rw [h]; simp⟩

/-- C16: for a metrics stream whose first line is an info record with integer
`size`, `stretchH` and `outline`, `parse` throws `Positive size.` when
`size >= 0`, else `Stretch is not 100%.` when `stretchH != 100`, else
`Outline not allowed.` when `outline != 0`, each time having read the info
line only; otherwise the info block passes and `parse` goes on to read the
common line. The three messages differ from each other. -/
theorem parse_info_validation (env : Env) (line : Str) (rest : List Str) (parts : LineParts)
    (size stretchH outline : Int)
    (hparts : parse_line line "info".toList = .ok parts)
    (hsize : stoi (parts.at "size") = .ok size)
    (hstretch : stoi (parts.at "stretchH") = .ok stretchH)
    (houtline : stoi (parts.at "outline") = .ok outline) :
    (0 ≤ size →
      parse env (Stream.of_lines (line :: rest)) =
        (.error (.runtime_error "Positive size.".toList),
          { lines := rest, log := [Event.getline .info (some line)] })) ∧
    (size < 0 → stretchH ≠ 100 →
      parse env (Stream.of_lines (line :: rest)) =
        (.error (.runtime_error "Stretch is not 100%.".toList),
          { lines := rest, log := [Event.getline .info (some line)] })) ∧
    (size < 0 → stretchH = 100 → outline ≠ 0 →
      parse env (Stream.of_lines (line :: rest)) =
        (.error (.runtime_error "Outline not allowed.".toList),
          { lines := rest, log := [Event.getline .info (some line)] })) ∧
    (size < 0 → stretchH = 100 → outline = 0 →
      info_record line = .ok { face := parts.at "face", size := size, stretchH := stretchH,
                               outline := outline } ∧
      ∃ evs, (parse env (Stream.of_lines (line :: rest))).2.log =
        [Event.getline .info (some line), Event.getline .common rest.head?] ++ evs) ∧
    ("Positive size.".toList ≠ "Stretch is not 100%.".toList ∧
      "Positive size.".toList ≠ "Outline not allowed.".toList ∧
      "Stretch is not 100%.".toList ≠ "Outline not allowed.".toList) := by
  have heq := info_record_eq line parts size stretchH outline hparts hsize hstretch houtline
  refine ⟨?_, ?_, ?_, ?_, by decide⟩
  · intro h
    apply parse_info_error
    rw [heq, if_pos h]
  · intro h1 h2
    apply parse_info_error
    rw [heq, if_neg (by omega), if_pos h2]
  · intro h1 h2 h3
    apply parse_info_error
    rw [heq, if_neg (by omega), if_neg (by simp [h2]), if_pos h3]
  · intro h1 h2 h3
    have hok : info_record line =
        .ok { face := parts.at "face", size := size, stretchH := stretchH,
              outline := outline } := by
      rw [heq, if_neg (by omega), if_neg (by simp [h2]), if_neg (by simp [h3])]
    exact ⟨hok, parse_log_after_info env line rest _ hok⟩

/-- An instance of `parse_info_validation`: `size=12` is rejected with
`Positive size.` after the info line, whatever follows. -/
theorem parse_info_validation_witness :
    parse_line positive_size_line "info".toList = .ok positive_size_parts ∧
    stoi (positive_size_parts.at "size") = .ok 12 ∧
    stoi (positive_size_parts.at "stretchH") = .ok 100 ∧
    stoi (positive_size_parts.at "outline") = .ok 0 ∧
    parse sample_env (Stream.of_lines (positive_size_line :: sample_lines)) =
      (.error (.runtime_error "Positive size.".toList),
        { lines := sample_lines, log := [Event.getline .info (some positive_size_line)] }) :=
  ⟨by decide!, by decide!, by decide!, by decide!,
    (parse_info_validation sample_env positive_size_line sample_lines positive_size_parts
      12 100 0 (by decide!) (by decide!) (by decide!) (by decide!)).1 (by decide)⟩

/-- The `// common` block on a line whose record and ten numbers are given. -/
theorem common_record_eq (line : Str) (parts : LineParts)
    (lineHeight base scaleW scaleH pages packed alphaChnl redChnl greenChnl blueChnl : Int)
    (hparts : parse_line line "common".toList = .ok parts)
    (h1 : stoi (parts.at "lineHeight") = .ok lineHeight)
    (h2 : stoi (parts.at "base") = .ok base)
    (h3 : stoi (parts.at "scaleW") = .ok scaleW)
    (h4 : stoi (parts.at "scaleH") = .ok scaleH)
    (h5 : stoi (parts.at "pages") = .ok pages)
    (h6 : stoi (parts.at "packed") = .ok packed)
    (h7 : stoi (parts.at "alphaChnl") = .ok alphaChnl)
    (h8 : stoi (parts.at "redChnl") = .ok redChnl)
    (h9 : stoi (parts.at "greenChnl") = .ok greenChnl)
    (h10 : stoi (parts.at "blueChnl") = .ok blueChnl) :
    common_record line =
      if base ≤ 0 then .error (.runtime_error "Invalid base.".toList)
      else if (!is_pow2 scaleW || !is_pow2 scaleH) = true then
        .error (.runtime_error "Non power of two dimensions.".toList)
      else if pages ≤ 0 then .error (.runtime_error "Invalid page count.".toList)
      else if packed ≠ 0 then .error (.runtime_error "Packed data not supported.".toList)
      else if (!is_channels_valid alphaChnl redChnl greenChnl blueChnl) = true then
        .error (.runtime_error "Unexpected channel configuration.".toList)
      else
        .ok { lineHeight := lineHeight, base := base, scaleW := scaleW, scaleH := scaleH,
              pages := pages, packed := packed, alphaChnl := alphaChnl, redChnl := redChnl,
              greenChnl := greenChnl, blueChnl := blueChnl } := by
  unfold common_record
  simp only [bind, Except.bind, hparts, h1, h2, h3, h4, h5, h6, h7, h8, h9, h10]

theorem is_channels_valid_iff (a r g b : Int) :
    is_channels_valid a r g b = true ↔
      (a = 0 ∧ r = 3 ∧ g = 3 ∧ b = 3) ∨ (a = 0 ∧ r = 4 ∧ g = 4 ∧ b = 4) := by
  unfold is_channels_valid
  by_cases h3 : a = 0 ∧ r = 3 ∧ g = 3 ∧ b = 3
  · obtain ⟨rfl, rfl, rfl, rfl⟩ := h3
    simp
  · by_cases h4 : a = 0 ∧ r = 4 ∧ g = 4 ∧ b = 4
    · obtain ⟨rfl, rfl, rfl, rfl⟩ := h4
      simp
    · simp only [h3, h4, or_self, iff_false]
      simp only [not_and] at h3 h4
      simp
      split <;> tauto

/-- C17: for a metrics stream with a valid info line and a common line whose
ten fields are integers, when `base <= 0`, or `pages <= 0`, or `packed != 0`,
`parse` throws after the common line, with no page line read: the message is
that of the first failing check in the order base, page dimensions, page
count, packing. When `base > 0`, `pages > 0` and `packed = 0`, these three
checks let the line through: the common block is decided by the dimension and
channel checks alone. -/
theorem parse_common_validation (env : Env) (l1 l2 : Str) (rest : List Str)
    (info : InfoFields) (parts : LineParts)
    (lineHeight base scaleW scaleH pages packed alphaChnl redChnl greenChnl blueChnl : Int)
    (hinfo : info_record l1 = .ok info)
    (hparts : parse_line l2 "common".toList = .ok parts)
    (h1 : stoi (parts.at "lineHeight") = .ok lineHeight)
    (h2 : stoi (parts.at "base") = .ok base)
    (h3 : stoi (parts.at "scaleW") = .ok scaleW)
    (h4 : stoi (parts.at "scaleH") = .ok scaleH)
    (h5 : stoi (parts.at "pages") = .ok pages)
    (h6 : stoi (parts.at "packed") = .ok packed)
    (h7 : stoi (parts.at "alphaChnl") = .ok alphaChnl)
    (h8 : stoi (parts.at "redChnl") = .ok redChnl)
    (h9 : stoi (parts.at "greenChnl") = .ok greenChnl)
    (h10 : stoi (parts.at "blueChnl") = .ok blueChnl) :
    (base ≤ 0 ∨ pages ≤ 0 ∨ packed ≠ 0 →
      parse env (Stream.of_lines (l1 :: l2 :: rest)) =
        (.error (.runtime_error
          (if base ≤ 0 then "Invalid base.".toList
           else if (!is_pow2 scaleW || !is_pow2 scaleH) = true then
             "Non power of two dimensions.".toList
           else if pages ≤ 0 then "Invalid page count.".toList
           else "Packed data not supported.".toList)),
          { lines := rest,
            log := [Event.getline .info (some l1), Event.getline .common (some l2)] })) ∧
    (0 < base → 0 < pages → packed = 0 →
      common_record l2 =
        if (!is_pow2 scaleW || !is_pow2 scaleH) = true then
          .error (.runtime_error "Non power of two dimensions.".toList)
        else if (!is_channels_valid alphaChnl redChnl greenChnl blueChnl) = true then
          .error (.runtime_error "Unexpected channel configuration.".toList)
        else
          .ok { lineHeight := lineHeight, base := base, scaleW := scaleW, scaleH := scaleH,
                pages := pages, packed := packed, alphaChnl := alphaChnl,
                redChnl := redChnl, greenChnl := greenChnl, blueChnl := blueChnl }) := by
  have heq := common_record_eq l2 parts lineHeight base scaleW scaleH pages packed alphaChnl
    redChnl greenChnl blueChnl hparts h1 h2 h3 h4 h5 h6 h7 h8 h9 h10
  constructor
  · intro hbad
    apply parse_common_error env l1 l2 rest info _ hinfo
    rw [heq]
    by_cases hb : base ≤ 0
    · rw [if_pos hb, if_pos hb]
    · rw [if_neg hb, if_neg hb]
      by_cases hp : (!is_pow2 scaleW || !is_pow2 scaleH) = true
      · rw [if_pos hp, if_pos hp]
      · rw [if_neg hp, if_neg hp]
        by_cases hpg : pages ≤ 0
        · rw [if_pos hpg, if_pos hpg]
        · rw [if_neg hpg, if_neg hpg]
          have hk : packed ≠ 0 := by
            rcases hbad with h | h | h
            · exact absurd h hb
            · exact absurd h hpg
            · exact h
          rw [if_pos hk]
  · intro hb hpg hk
    rw [heq, if_neg (by omega)]
    by_cases hp : (!is_pow2 scaleW || !is_pow2 scaleH) = true
    · rw [if_pos hp, if_pos hp]
    · rw [if_neg hp, if_neg hp, if_neg (by omega), if_neg (by simp [hk])]

/-- An instance of `parse_common_validation`: `base=0` is rejected with
`Invalid base.` after the common line, whatever follows. -/
theorem parse_common_validation_witness :
    info_record info_line = .ok info_line_fields ∧
    parse_line (common_line 14 0 256 256 1 0 0 4 4 4) "common".toList =
      .ok (common_line_parts 14 0 256 256 1 0 0 4 4 4) ∧
    parse sample_env
        (Stream.of_lines (info_line :: common_line 14 0 256 256 1 0 0 4 4 4 :: sample_lines)) =
      (.error (.runtime_error "Invalid base.".toList),
        { lines := sample_lines,
          log := [Event.getline .info (some info_line),
            Event.getline .common (some (common_line 14 0 256 256 1 0 0 4 4 4))] }) :=
  ⟨by decide!, by decide!,
    ((parse_common_validation sample_env info_line (common_line 14 0 256 256 1 0 0 4 4 4)
      sample_lines info_line_fields (common_line_parts 14 0 256 256 1 0 0 4 4 4)
      14 0 256 256 1 0 0 4 4 4 (by decide!) (by decide!) (by decide!) (by decide!) (by decide!)
      (by decide!) (by decide!) (by decide!) (by decide!) (by decide!) (by decide!)
      (by decide!)).1 (Or.inl (by decide))).trans (by decide!)⟩

/-- C18: for a metrics stream that passes the info block and the base,
dimension, page-count and packing checks of the common block, the channel
check passes exactly when (alphaChnl, redChnl, greenChnl, blueChnl) is
(0, 3, 3, 3) or (0, 4, 4, 4); with any other four integers `parse` throws
`Unexpected channel configuration.` after the common line, and this message
differs from the message of every other validation check. -/
theorem parse_channel_check (env : Env) (l1 l2 : Str) (rest : List Str)
    (info : InfoFields) (parts : LineParts)
    (lineHeight base scaleW scaleH pages packed alphaChnl redChnl greenChnl blueChnl : Int)
    (hinfo : info_record l1 = .ok info)
    (hparts : parse_line l2 "common".toList = .ok parts)
    (h1 : stoi (parts.at "lineHeight") = .ok lineHeight)
    (h2 : stoi (parts.at "base") = .ok base)
    (h3 : stoi (parts.at "scaleW") = .ok scaleW)
    (h4 : stoi (parts.at "scaleH") = .ok scaleH)
    (h5 : stoi (parts.at "pages") = .ok pages)
    (h6 : stoi (parts.at "packed") = .ok packed)
    (h7 : stoi (parts.at "alphaChnl") = .ok alphaChnl)
    (h8 : stoi (parts.at "redChnl") = .ok redChnl)
    (h9 : stoi (parts.at "greenChnl") = .ok greenChnl)
    (h10 : stoi (parts.at "blueChnl") = .ok blueChnl)
    (hbase : 0 < base) (hw : is_pow2 scaleW = true) (hh : is_pow2 scaleH = true)
    (hpages : 0 < pages) (hpacked : packed = 0) :
    (common_record l2 =
        .ok { lineHeight := lineHeight, base := base, scaleW := scaleW, scaleH := scaleH,
              pages := pages, packed := packed, alphaChnl := alphaChnl, redChnl := redChnl,
              greenChnl := greenChnl, blueChnl := blueChnl } ↔
      (alphaChnl = 0 ∧ redChnl = 3 ∧ greenChnl = 3 ∧ blueChnl = 3) ∨
      (alphaChnl = 0 ∧ redChnl = 4 ∧ greenChnl = 4 ∧ blueChnl = 4)) ∧
    (¬ ((alphaChnl = 0 ∧ redChnl = 3 ∧ greenChnl = 3 ∧ blueChnl = 3) ∨
        (alphaChnl = 0 ∧ redChnl = 4 ∧ greenChnl = 4 ∧ blueChnl = 4)) →
      parse env (Stream.of_lines (l1 :: l2 :: rest)) =
        (.error (.runtime_error "Unexpected channel configuration.".toList),
          { lines := rest,
            log := [Event.getline .info (some l1), Event.getline .common (some l2)] })) ∧
    ("Unexpected channel configuration.".toList ≠ "Positive size.".toList ∧
      "Unexpected channel configuration.".toList ≠ "Stretch is not 100%.".toList ∧
      "Unexpected channel configuration.".toList ≠ "Outline not allowed.".toList ∧
      "Unexpected channel configuration.".toList ≠ "Invalid base.".toList ∧
      "Unexpected channel configuration.".toList ≠ "Non power of two dimensions.".toList ∧
      "Unexpected channel configuration.".toList ≠ "Invalid page count.".toList ∧
      "Unexpected channel configuration.".toList ≠ "Packed data not supported.".toList) := by
  have heq := common_record_eq l2 parts lineHeight base scaleW scaleH pages packed alphaChnl
    redChnl greenChnl blueChnl hparts h1 h2 h3 h4 h5 h6 h7 h8 h9 h10
  have hpow : ¬ (!is_pow2 scaleW || !is_pow2 scaleH) = true := by simp [hw, hh]
  rw [if_neg (by omega), if_neg hpow, if_neg (by omega), if_neg (by simp [hpacked])] at heq
  have hv := is_channels_valid_iff alphaChnl redChnl greenChnl blueChnl
  refine ⟨?_, ?_, by decide⟩
  · rw [heq, ← hv]
    cases hc : is_channels_valid alphaChnl redChnl greenChnl blueChnl
    · simp
    · simp
  · intro hbad
    apply parse_common_error env l1 l2 rest info _ hinfo
    rw [heq]
    have : is_channels_valid alphaChnl redChnl greenChnl blueChnl = false := by
      cases hc : is_channels_valid alphaChnl redChnl greenChnl blueChnl
      · rfl
      · exact absurd (hv.mp hc) hbad
    simp [this]

/-- Instances of `parse_channel_check`: the channels (1, 4, 4, 4) are rejected
after the common line, the channels (0, 3, 3, 3) pass the common block. -/
theorem parse_channel_check_witness :
    parse sample_env
        (Stream.of_lines (info_line :: common_line 14 11 256 256 1 0 1 4 4 4 :: sample_lines)) =
      (.error (.runtime_error "Unexpected channel configuration.".toList),
        { lines := sample_lines,
          log := [Event.getline .info (some info_line),
            Event.getline .common (some (common_line 14 11 256 256 1 0 1 4 4 4))] }) ∧
    common_record (common_line 14 11 256 256 1 0 0 3 3 3) =
      .ok { lineHeight := 14, base := 11, scaleW := 256, scaleH := 256, pages := 1,
            packed := 0, alphaChnl := 0, redChnl := 3, greenChnl := 3, blueChnl := 3 } :=
  ⟨(parse_channel_check sample_env info_line (common_line 14 11 256 256 1 0 1 4 4 4)
      sample_lines info_line_fields (common_line_parts 14 11 256 256 1 0 1 4 4 4)
      14 11 256 256 1 0 1 4 4 4 (by decide!) (by decide!) (by decide!) (by decide!) (by decide!)
      (by decide!) (by decide!) (by decide!) (by decide!) (by decide!) (by decide!)
      (by decide!) (by decide) (by decide!) (by decide!) (by decide) (by decide)).2.1
      (by decide),
    (parse_channel_check sample_env info_line (common_line 14 11 256 256 1 0 0 3 3 3)
      sample_lines info_line_fields (common_line_parts 14 11 256 256 1 0 0 3 3 3)
      14 11 256 256 1 0 0 3 3 3 (by decide!) (by decide!) (by decide!) (by decide!) (by decide!)
      (by decide!) (by decide!) (by decide!) (by decide!) (by decide!) (by decide!)
      (by decide!) (by decide) (by decide!) (by decide!) (by decide) (by decide)).1.mpr
      (Or.inl ⟨rfl, rfl, rfl, rfl⟩)⟩

/-- For a valid info line and a common line with integer fields and
`base > 0`, a page width or height that `is_pow2` rejects makes `parse` throw
`Non power of two dimensions.` right after the common line: the lines that
follow are left unread, no page line is read and `read_data` is not called. -/
theorem parse_rejects_non_pow2 (env : Env) (l1 l2 : Str) (rest : List Str)
    (info : InfoFields) (parts : LineParts)
    (lineHeight base scaleW scaleH pages packed alphaChnl redChnl greenChnl blueChnl : Int)
    (hinfo : info_record l1 = .ok info)
    (hparts : parse_line l2 "common".toList = .ok parts)
    (h1 : stoi (parts.at "lineHeight") = .ok lineHeight)
    (h2 : stoi (parts.at "base") = .ok base)
    (h3 : stoi (parts.at "scaleW") = .ok scaleW)
    (h4 : stoi (parts.at "scaleH") = .ok scaleH)
    (h5 : stoi (parts.at "pages") = .ok pages)
    (h6 : stoi (parts.at "packed") = .ok packed)
    (h7 : stoi (parts.at "alphaChnl") = .ok alphaChnl)
    (h8 : stoi (parts.at "redChnl") = .ok redChnl)
    (h9 : stoi (parts.at "greenChnl") = .ok greenChnl)
    (h10 : stoi (parts.at "blueChnl") = .ok blueChnl)
    (hbase : 0 < base) (hpow : is_pow2 scaleW = false ∨ is_pow2 scaleH = false) :
    parse env (Stream.of_lines (l1 :: l2 :: rest)) =
      (.error (.runtime_error "Non power of two dimensions.".toList),
        { lines := rest,
          log := [Event.getline .info (some l1), Event.getline .common (some l2)] }) := by
  apply parse_common_error env l1 l2 rest info _ hinfo
  rw [common_record_eq l2 parts lineHeight base scaleW scaleH pages packed alphaChnl
    redChnl greenChnl blueChnl hparts h1 h2 h3 h4 h5 h6 h7 h8 h9 h10, if_neg (by omega)]
  have : (!is_pow2 scaleW || !is_pow2 scaleH) = true := by
    rcases hpow with h | h <;> simp [h]
  rw [if_pos this]

/-- The loop of `is_pow2` counts the halvings: it adds the binary logarithm. -/
theorem is_pow2_loop_eq :
    ∀ (fuel n power : Nat), n ≤ fuel →
      is_pow2_loop fuel (n : Int) power = power + Nat.log 2 n := by
  intro fuel
  induction fuel with
  | zero =>
    intro n power h
    have : n = 0 := by omega
    subst this
    simp [is_pow2_loop]
  | succ f ih =>
    intro n power h
    unfold is_pow2_loop
    by_cases h1 : 1 < n
    · have h1' : (n : Int) > 1 := by omega
      have hdiv : (n : Int) / 2 = ((n / 2 : Nat) : Int) := by norm_cast
      rw [if_pos h1', hdiv, ih (n / 2) (power + 1) (by omega),
        Nat.log_of_one_lt_of_le (by decide) (by omega : 2 ≤ n)]
      omega
    · have h1' : ¬ (n : Int) > 1 := by omega
      rw [if_neg h1', Nat.log_of_lt (by omega)]
      rfl

/-- On the positive integers `is_pow2` accepts exactly the powers of two. -/
theorem is_pow2_iff_of_pos (x : Int) (hx : 0 < x) :
    is_pow2 x = true ↔ ∃ k : Nat, x = 2 ^ k := by
  obtain ⟨n, rfl⟩ : ∃ n : Nat, x = (n : Int) := ⟨x.toNat, by omega⟩
  have hn : 0 < n := by omega
  unfold is_pow2
  rw [if_neg (by omega)]
  by_cases h1 : (n : Int) ≤ 1
  · rw [if_pos h1]
    have : n = 1 := by omega
    subst this
    simp only [true_iff]
    exact ⟨0, by simp⟩
  · rw [if_neg h1]
    simp only [Int.toNat_ofNat]
    rw [is_pow2_loop_eq n n 0 (le_refl n)]
    simp only [Nat.zero_add, beq_iff_eq]
    constructor
    · intro h; exact ⟨Nat.log 2 n, h⟩
    · rintro ⟨k, hk⟩
      have hk' : n = 2 ^ k := by exact_mod_cast hk
      rw [hk', Nat.log_pow (by decide)]
      push_cast
      rfl

/-- The numbers that are negative, or positive and not a power of two, are
rejected by `is_pow2`. -/
theorem is_pow2_rejects (x : Int)
    (h : x < 0 ∨ (0 < x ∧ ∀ k : Nat, x ≠ 2 ^ k)) : is_pow2 x = false := by
  rcases h with h | ⟨h1, h2⟩
  · exact is_pow2_negative x h
  · cases hp : is_pow2 x
    · rfl
    · obtain ⟨k, hk⟩ := (is_pow2_iff_of_pos x h1).mp hp
      exact absurd hk (h2 k)

/-- C19 (counterexample): a common line that declares `scaleW=300` with
`base=11`, but whose `pages` value is not a number, does not make `parse`
throw the non-power-of-two error: the conversion of the fields comes before
every check and throws `std::invalid_argument`. -/
theorem parse_non_integer_common_field :
    parse sample_env (Stream.of_lines [info_line, non_integer_common_line]) =
      (.error (.invalid_argument "stoi".toList),
        { lines := [],
          log := [Event.getline .info (some info_line),
            Event.getline .common (some non_integer_common_line)] }) ∧
    (parse sample_env (Stream.of_lines [info_line, non_integer_common_line])).1 ≠
      .error (.runtime_error "Non power of two dimensions.".toList) := by
  constructor <;> decide!

/-- C19 (amended): for a metrics stream with a valid info line and a common
line whose ten fields are integers, with `base > 0` and a `scaleW` or `scaleH`
that is negative, or positive and not a power of two, `parse` throws
`Non power of two dimensions.` right after the common line: the outcome is the
same whatever lines follow, they are left unread, no page line is read and
`read_data` is not called. -/
theorem parse_non_power_of_two (env : Env) (l1 l2 : Str) (rest : List Str)
    (info : InfoFields) (parts : LineParts)
    (lineHeight base scaleW scaleH pages packed alphaChnl redChnl greenChnl blueChnl : Int)
    (hinfo : info_record l1 = .ok info)
    (hparts : parse_line l2 "common".toList = .ok parts)
    (h1 : stoi (parts.at "lineHeight") = .ok lineHeight)
    (h2 : stoi (parts.at "base") = .ok base)
    (h3 : stoi (parts.at "scaleW") = .ok scaleW)
    (h4 : stoi (parts.at "scaleH") = .ok scaleH)
    (h5 : stoi (parts.at "pages") = .ok pages)
    (h6 : stoi (parts.at "packed") = .ok packed)
    (h7 : stoi (parts.at "alphaChnl") = .ok alphaChnl)
    (h8 : stoi (parts.at "redChnl") = .ok redChnl)
    (h9 : stoi (parts.at "greenChnl") = .ok greenChnl)
    (h10 : stoi (parts.at "blueChnl") = .ok blueChnl)
    (hbase : 0 < base)
    (hdim : (scaleW < 0 ∨ (0 < scaleW ∧ ∀ k : Nat, scaleW ≠ 2 ^ k)) ∨
      (scaleH < 0 ∨ (0 < scaleH ∧ ∀ k : Nat, scaleH ≠ 2 ^ k))) :
    parse env (Stream.of_lines (l1 :: l2 :: rest)) =
      (.error (.runtime_error "Non power of two dimensions.".toList),
        { lines := rest,
          log := [Event.getline .info (some l1), Event.getline .common (some l2)] }) := by
  apply parse_rejects_non_pow2 env l1 l2 rest info parts lineHeight base scaleW scaleH pages
    packed alphaChnl redChnl greenChnl blueChnl hinfo hparts h1 h2 h3 h4 h5 h6 h7 h8 h9 h10 hbase
  rcases hdim with h | h
  · exact Or.inl (is_pow2_rejects scaleW h)
  · exact Or.inr (is_pow2_rejects scaleH h)

theorem not_pow2_300 : ∀ k : Nat, (300 : Int) ≠ 2 ^ k := by
  intro k hk
  have h1 : (300 : Nat) = 2 ^ k := by exact_mod_cast hk
  have h2 : k < 9 := by
    by_contra hge
    have : 2 ^ 9 ≤ 2 ^ k := Nat.pow_le_pow_right (by decide) (by omega)
    omega
  interval_cases k <;> omega

/-- An instance of `parse_non_power_of_two`: `scaleW=300` is rejected after the
common line, with the lines of `sample_lines` left unread. -/
theorem parse_non_power_of_two_witness :
    info_record info_line = .ok info_line_fields ∧
    parse_line (common_line 14 11 300 256 1 0 0 4 4 4) "common".toList =
      .ok (common_line_parts 14 11 300 256 1 0 0 4 4 4) ∧
    parse sample_env
        (Stream.of_lines (info_line :: common_line 14 11 300 256 1 0 0 4 4 4 :: sample_lines)) =
      (.error (.runtime_error "Non power of two dimensions.".toList),
        { lines := sample_lines,
          log := [Event.getline .info (some info_line),
            Event.getline .common (some (common_line 14 11 300 256 1 0 0 4 4 4))] }) :=
  ⟨by decide!, by decide!,
    parse_non_power_of_two sample_env info_line (common_line 14 11 300 256 1 0 0 4 4 4)
      sample_lines info_line_fields (common_line_parts 14 11 300 256 1 0 0 4 4 4)
      14 11 300 256 1 0 0 4 4 4 (by decide!) (by decide!) (by decide!) (by decide!) (by decide!)
      (by decide!) (by decide!) (by decide!) (by decide!) (by decide!) (by decide!)
      (by decide!) (by decide) (Or.inl (Or.inr ⟨by decide, not_pow2_300⟩))⟩

/-! ## A stream without kerning section -/

theorem page_events_cons (w h : Int) (l : Str) (ls : List Str) (p : Page) (ps : List Page) :
    page_events w h (l :: ls) (p :: ps) =
      Event.getline .page (some l) :: Event.read_data p.file w h :: page_events w h ls ps := rfl

/-- The page loop on as many acceptable page lines as it has iterations. -/
theorem read_pages_run (env : Env) (w h : Int) (plines : List Str) (pages : List Page)
    (hp : List.Forall₂ (page_line_ok env w h) plines pages) :
    ∀ (rest : List Str) (log : List Event),
      read_pages env w h plines.length { lines := plines ++ rest, log := log } =
        (.ok pages, { lines := rest, log := log ++ page_events w h plines pages }) := by
  induction hp with
  | nil => intro rest log; simp [read_pages, page_events]
  | @cons l p ls ps hhead _ ih =>
    intro rest log
    obtain ⟨h1, h2⟩ := hhead
    simp only [List.length_cons, List.cons_append, read_pages, getline_cons, h1, h2, ih,
      page_events_cons]
    simp

/-- The page loop on a stream that ends before the last of its iterations. -/
theorem read_pages_short (env : Env) (w h : Int) (plines : List Str) (pages : List Page)
    (hp : List.Forall₂ (page_line_ok env w h) plines pages) :
    ∀ (n : Nat) (log : List Event), plines.length < n →
      read_pages env w h n { lines := plines, log := log } =
        (.error failed_to_read_a_line,
          { lines := [],
            log := log ++ page_events w h plines pages ++ [Event.getline .page none] }) := by
  induction hp with
  | nil =>
    intro n log hn
    obtain ⟨m, rfl⟩ : ∃ m, n = m + 1 := ⟨n - 1, by simp at hn; omega⟩
    simp [read_pages, page_events, getline_nil]
  | @cons l p ls ps hhead _ ih =>
    intro n log hn
    obtain ⟨m, rfl⟩ : ∃ m, n = m + 1 := ⟨n - 1, by simp at hn; omega⟩
    obtain ⟨h1, h2⟩ := hhead
    have hm : ls.length < m := by simp at hn; omega
    simp only [read_pages, getline_cons, h1, h2, ih m _ hm, page_events_cons]
    simp

/-- When the page loop ends normally, it has read one acceptable line per
iteration and has done the input actions of these lines, nothing else. -/
theorem read_pages_inv (env : Env) (w h : Int) :
    ∀ (n : Nat) (s : Stream) (pages : List Page) (s' : Stream),
      read_pages env w h n s = (.ok pages, s') →
      ∃ plines, plines.length = n ∧ s.lines = plines ++ s'.lines ∧
        List.Forall₂ (page_line_ok env w h) plines pages ∧
        s'.log = s.log ++ page_events w h plines pages := by
  intro n
  induction n with
  | zero =>
    intro s pages s' hr
    simp only [read_pages, Prod.mk.injEq, Except.ok.injEq] at hr
    obtain ⟨rfl, rfl⟩ := hr
    exact ⟨[], rfl, rfl, List.Forall₂.nil, by simp [page_events]⟩
  | succ n ih =>
    intro s pages s' hr
    obtain ⟨lines, log⟩ := s
    cases lines with
    | nil => simp [read_pages, getline_nil] at hr
    | cons l rest =>
      simp only [read_pages, getline_cons] at hr
      cases hrec : page_record l with
      | error e => rw [hrec] at hr; simp at hr
      | ok rec =>
        obtain ⟨id, file⟩ := rec
        rw [hrec] at hr
        simp only at hr
        cases hdata : Page.read_data env file w h with
        | error e => rw [hdata] at hr; simp at hr
        | ok data =>
          rw [hdata] at hr
          simp only at hr
          cases hrest : read_pages env w h n
              { lines := rest,
                log := log ++ [Event.getline .page (some l)] ++ [Event.read_data file w h] } with
          | mk res s3 =>
            rw [hrest] at hr
            cases res with
            | error e => simp at hr
            | ok ps =>
              simp only [Prod.mk.injEq, Except.ok.injEq] at hr
              obtain ⟨rfl, rfl⟩ := hr
              obtain ⟨plines, hlen, hlines, hall, hlog⟩ := ih _ _ _ hrest
              refine ⟨l :: plines, by simp [hlen], by simpa using hlines,
                List.Forall₂.cons ⟨hrec, hdata⟩ hall, ?_⟩
              rw [hlog, page_events_cons]
              simp

/-- When the page loop throws, it has done the input actions of the
acceptable lines before, and then either a `std::getline` that failed, or the
`std::getline` of a line whose `// page` block throws, or the `std::getline`
of a line and the `read_data` call that throws. -/
theorem read_pages_fail (env : Env) (w h : Int) :
    ∀ (n : Nat) (s : Stream) (e : Error) (s' : Stream),
      read_pages env w h n s = (.error e, s') →
      ∃ plines pages tail, plines.length < n ∧
        List.Forall₂ (page_line_ok env w h) plines pages ∧
        s'.log = s.log ++ page_events w h plines pages ++ tail ∧
        ((tail = [Event.getline .page none] ∧ e = failed_to_read_a_line ∧ s.lines = plines) ∨
         (∃ l, tail = [Event.getline .page (some l)] ∧ page_record l = .error e ∧
            s.lines = plines ++ l :: s'.lines) ∨
         (∃ l id file, tail = [Event.getline .page (some l), Event.read_data file w h] ∧
            page_record l = .ok (id, file) ∧ Page.read_data env file w h = .error e ∧
            s.lines = plines ++ l :: s'.lines)) := by
  intro n
  induction n with
  | zero => intro s e s' hr; simp [read_pages] at hr
  | succ n ih =>
    intro s e s' hr
    obtain ⟨lines, log⟩ := s
    cases lines with
    | nil =>
      simp only [read_pages, getline_nil, Prod.mk.injEq, Except.error.injEq] at hr
      obtain ⟨rfl, rfl⟩ := hr
      exact ⟨[], [], _, by simp, List.Forall₂.nil, by simp [page_events],
        Or.inl ⟨rfl, rfl, rfl⟩⟩
    | cons l rest =>
      simp only [read_pages, getline_cons] at hr
      cases hrec : page_record l with
      | error e1 =>
        rw [hrec] at hr
        simp only [Prod.mk.injEq, Except.error.injEq] at hr
        obtain ⟨rfl, rfl⟩ := hr
        exact ⟨[], [], _, by simp, List.Forall₂.nil, by simp [page_events],
          Or.inr (Or.inl ⟨l, rfl, hrec, rfl⟩)⟩
      | ok rec =>
        obtain ⟨id, file⟩ := rec
        rw [hrec] at hr
        simp only at hr
        cases hdata : Page.read_data env file w h with
        | error e1 =>
          rw [hdata] at hr
          simp only [Prod.mk.injEq, Except.error.injEq] at hr
          obtain ⟨rfl, rfl⟩ := hr
          exact ⟨[], [], _, by simp, List.Forall₂.nil, by simp [page_events],
            Or.inr (Or.inr ⟨l, id, file, rfl, hrec, hdata, rfl⟩)⟩
        | ok data =>
          rw [hdata] at hr
          simp only at hr
          cases hrest : read_pages env w h n
              { lines := rest,
                log := log ++ [Event.getline .page (some l)] ++ [Event.read_data file w h] } with
          | mk res s3 =>
            rw [hrest] at hr
            cases res with
            | ok ps => simp at hr
            | error e1 =>
              simp only [Prod.mk.injEq, Except.error.injEq] at hr
              obtain ⟨rfl, rfl⟩ := hr
              obtain ⟨plines, pages, tail, hlen, hall, hlog, hcase⟩ := ih _ _ _ hrest
              refine ⟨l :: plines, { id := id, file := file, data := data } :: pages, tail,
                by simp [hlen], List.Forall₂.cons ⟨hrec, hdata⟩ hall, ?_, ?_⟩
              · rw [hlog, page_events_cons]
                simp
              · rcases hcase with ⟨h1, h2, h3⟩ | ⟨l', h1, h2, h3⟩ | ⟨l', id', file', h1, h2, h3, h4⟩
                · exact Or.inl ⟨h1, h2, by simpa using h3⟩
                · exact Or.inr (Or.inl ⟨l', h1, h2, by simpa using h3⟩)
                · exact Or.inr (Or.inr ⟨l', id', file', h1, h2, h3, by simpa using h4⟩)
theorem line_events_cons (site : Site) (l : Str) (ls : List Str) :
    line_events site (l :: ls) = Event.getline site (some l) :: line_events site ls := rfl

/-- The char loop on as many valid char lines as it has iterations. -/
theorem read_chars_run (env : Env) (clines : List Str) (chars : List CharInfo)
    (hc : List.Forall₂ (fun l ch => char_record env l = .ok ch) clines chars) :
    ∀ (rest : List Str) (log : List Event),
      read_chars env clines.length { lines := clines ++ rest, log := log } =
        (.ok chars, { lines := rest, log := log ++ line_events .char clines }) := by
  induction hc with
  | nil => intro rest log; simp [read_chars, line_events]
  | @cons l ch ls chs hhead _ ih =>
    intro rest log
    simp only [List.length_cons, List.cons_append, read_chars, getline_cons, hhead, ih,
      line_events_cons]
    simp

/-- The char loop on a stream that ends before the last of its iterations. -/
theorem read_chars_short (env : Env) (clines : List Str) (chars : List CharInfo)
    (hc : List.Forall₂ (fun l ch => char_record env l = .ok ch) clines chars) :
    ∀ (n : Nat) (log : List Event), clines.length < n →
      read_chars env n { lines := clines, log := log } =
        (.error failed_to_read_a_line,
          { lines := [],
            log := log ++ line_events .char clines ++ [Event.getline .char none] }) := by
  induction hc with
  | nil =>
    intro n log hn
    obtain ⟨m, rfl⟩ : ∃ m, n = m + 1 := ⟨n - 1, by simp at hn; omega⟩
    simp [read_chars, line_events, getline_nil]
  | @cons l ch ls chs hhead _ ih =>
    intro n log hn
    obtain ⟨m, rfl⟩ : ∃ m, n = m + 1 := ⟨n - 1, by simp at hn; omega⟩
    have hm : ls.length < m := by simp at hn; omega
    simp only [read_chars, getline_cons, hhead, ih m _ hm, line_events_cons]
    simp

/-- When the char loop ends normally, it has read one valid line per
iteration and nothing else. -/
theorem read_chars_inv (env : Env) :
    ∀ (n : Nat) (s : Stream) (chars : List CharInfo) (s' : Stream),
      read_chars env n s = (.ok chars, s') →
      ∃ clines, clines.length = n ∧ s.lines = clines ++ s'.lines ∧
        List.Forall₂ (fun l ch => char_record env l = .ok ch) clines chars ∧
        s'.log = s.log ++ line_events .char clines := by
  intro n
  induction n with
  | zero =>
    intro s chars s' hr
    simp only [read_chars, Prod.mk.injEq, Except.ok.injEq] at hr
    obtain ⟨rfl, rfl⟩ := hr
    exact ⟨[], rfl, rfl, List.Forall₂.nil, by simp [line_events]⟩
  | succ n ih =>
    intro s chars s' hr
    obtain ⟨lines, log⟩ := s
    cases lines with
    | nil => simp [read_chars, getline_nil] at hr
    | cons l rest =>
      simp only [read_chars, getline_cons] at hr
      cases hrec : char_record env l with
      | error e => rw [hrec] at hr; simp at hr
      | ok ch =>
        rw [hrec] at hr
        simp only at hr
        cases hrest : read_chars env n
            { lines := rest, log := log ++ [Event.getline .char (some l)] } with
        | mk res s3 =>
          rw [hrest] at hr
          cases res with
          | error e => simp at hr
          | ok chs =>
            simp only [Prod.mk.injEq, Except.ok.injEq] at hr
            obtain ⟨rfl, rfl⟩ := hr
            obtain ⟨clines, hlen, hlines, hall, hlog⟩ := ih _ _ _ hrest
            refine ⟨l :: clines, by simp [hlen], by simpa using hlines,
              List.Forall₂.cons hrec hall, ?_⟩
            rw [hlog, line_events_cons]
            simp

theorem insert_kernings_cons (kernings : Kernings) (r : Int × Int × Int)
    (rs : List (Int × Int × Int)) :
    insert_kernings kernings (r :: rs) =
      insert_kernings (insert_kerning kernings r.1 r.2.1 r.2.2) rs := rfl

/-- The kerning loop on as many valid kerning lines as it has iterations. -/
theorem read_kernings_run (klines : List Str) (records : List (Int × Int × Int))
    (hk : List.Forall₂ (fun l r => kerning_record l = .ok r) klines records) :
    ∀ (kernings : Kernings) (rest : List Str) (log : List Event),
      read_kernings klines.length kernings { lines := klines ++ rest, log := log } =
        (.ok (insert_kernings kernings records),
          { lines := rest, log := log ++ line_events .kerning klines }) := by
  induction hk with
  | nil => intro kernings rest log; simp [read_kernings, line_events, insert_kernings]
  | @cons l r ls rs hhead _ ih =>
    intro kernings rest log
    obtain ⟨first, second, amount⟩ := r
    simp only [List.length_cons, List.cons_append, read_kernings, getline_cons, hhead, ih,
      line_events_cons, insert_kernings_cons]
    simp

/-- The kerning loop on a stream that ends before the last of its iterations. -/
theorem read_kernings_short (klines : List Str) (records : List (Int × Int × Int))
    (hk : List.Forall₂ (fun l r => kerning_record l = .ok r) klines records) :
    ∀ (n : Nat) (kernings : Kernings) (log : List Event), klines.length < n →
      read_kernings n kernings { lines := klines, log := log } =
        (.error failed_to_read_a_line,
          { lines := [],
            log := log ++ line_events .kerning klines ++ [Event.getline .kerning none] }) := by
  induction hk with
  | nil =>
    intro n kernings log hn
    obtain ⟨m, rfl⟩ : ∃ m, n = m + 1 := ⟨n - 1, by simp at hn; omega⟩
    simp [read_kernings, line_events, getline_nil]
  | @cons l r ls rs hhead _ ih =>
    intro n kernings log hn
    obtain ⟨m, rfl⟩ : ∃ m, n = m + 1 := ⟨n - 1, by simp at hn; omega⟩
    obtain ⟨first, second, amount⟩ := r
    have hm : ls.length < m := by simp at hn; omega
    simp only [read_kernings, getline_cons, hhead, ih m _ _ hm, line_events_cons]
    simp

/-- When the kerning loop ends normally, it has read one valid line per
iteration and nothing else, and its map is the map it started from after the
insertions of these lines, in order. -/
theorem read_kernings_inv :
    ∀ (n : Nat) (kernings : Kernings) (s : Stream) (result : Kernings) (s' : Stream),
      read_kernings n kernings s = (.ok result, s') →
      ∃ klines records, klines.length = n ∧ s.lines = klines ++ s'.lines ∧
        List.Forall₂ (fun l r => kerning_record l = .ok r) klines records ∧
        result = insert_kernings kernings records ∧
        s'.log = s.log ++ line_events .kerning klines := by
  intro n
  induction n with
  | zero =>
    intro kernings s result s' hr
    simp only [read_kernings, Prod.mk.injEq, Except.ok.injEq] at hr
    obtain ⟨rfl, rfl⟩ := hr
    exact ⟨[], [], rfl, rfl, List.Forall₂.nil, rfl, by simp [line_events]⟩
  | succ n ih =>
    intro kernings s result s' hr
    obtain ⟨lines, log⟩ := s
    cases lines with
    | nil => simp [read_kernings, getline_nil] at hr
    | cons l rest =>
      simp only [read_kernings, getline_cons] at hr
      cases hrec : kerning_record l with
      | error e => rw [hrec] at hr; simp at hr
      | ok rec =>
        obtain ⟨first, second, amount⟩ := rec
        rw [hrec] at hr
        simp only at hr
        obtain ⟨klines, records, hlen, hlines, hall, hres, hlog⟩ := ih _ _ _ _ hr
        refine ⟨l :: klines, (first, second, amount) :: records, by simp [hlen],
          by simpa using hlines, List.Forall₂.cons hrec hall, ?_, ?_⟩
        · rw [hres, insert_kernings_cons]
        · rw [hlog, line_events_cons]
          simp
/-! ## `parse` on a stream given record by record -/

/-- The run of `parse` on a stream with valid records and a kerning section
that is complete: the document, the lines left and the input actions. -/
theorem parse_run_kernings (env : Env) (l1 l2 lc lk : Str) (plines clines klines rest : List Str)
    (info : InfoFields) (common : CommonFields) (pages : List Page) (count : Int)
    (chars : List CharInfo) (kcount : Int) (records : List (Int × Int × Int))
    (hinfo : info_record l1 = .ok info)
    (hcommon : common_record l2 = .ok common)
    (hpn : plines.length = common.pages.toNat)
    (hpages : List.Forall₂ (page_line_ok env common.scaleW common.scaleH) plines pages)
    (hcount : chars_record lc = .ok count) (hnn : 0 ≤ count)
    (hcn : clines.length = count.toNat)
    (hchars : List.Forall₂ (fun l ch => char_record env l = .ok ch) clines chars)
    (hkcount : kernings_record lk = .ok kcount)
    (hkn : klines.length = kcount.toNat)
    (hrecords : List.Forall₂ (fun l r => kerning_record l = .ok r) klines records)
    (hps : resize_ok env.page_list_storage common.pages.toNat = true)
    (hcs : resize_ok env.chars_storage count.toNat = true) :
    parse env (Stream.of_lines (l1 :: l2 :: (plines ++ lc :: (clines ++ lk :: (klines ++ rest))))) =
      (.ok (document_of info common pages chars (insert_kernings [] records)),
        { lines := rest,
          log := head_events l1 l2 common.scaleW common.scaleH plines pages lc clines ++
            [Event.getline .kernings (some lk)] ++ line_events .kerning klines }) := by
  have hrp := read_pages_run env common.scaleW common.scaleH plines pages hpages
    (lc :: (clines ++ lk :: (klines ++ rest)))
    [Event.getline .info (some l1), Event.getline .common (some l2)]
  have hrc := read_chars_run env clines chars hchars (lk :: (klines ++ rest))
    ([Event.getline .info (some l1), Event.getline .common (some l2)] ++
      page_events common.scaleW common.scaleH plines pages ++ [Event.getline .chars (some lc)])
  have hrk := read_kernings_run klines records hrecords [] rest
    ([Event.getline .info (some l1), Event.getline .common (some l2)] ++
      page_events common.scaleW common.scaleH plines pages ++ [Event.getline .chars (some lc)] ++
      line_events .char clines ++ [Event.getline .kernings (some lk)])
  rw [hpn] at hrp
  rw [hcn] at hrc
  rw [hkn] at hrk
  unfold parse
  simp only [Stream.of_lines, getline_cons, hinfo, hcommon, List.nil_append,
    List.singleton_append, hps, hcs, Bool.not_true, Bool.false_eq_true, hrp, hcount,
    not_lt.mpr hnn, if_false, hrc, hkcount, hrk]
  rfl

/-- The run of `parse` on a stream with valid records that ends after the
last char line. -/
theorem parse_run_end (env : Env) (l1 l2 lc : Str) (plines clines : List Str)
    (info : InfoFields) (common : CommonFields) (pages : List Page) (count : Int)
    (chars : List CharInfo)
    (hinfo : info_record l1 = .ok info)
    (hcommon : common_record l2 = .ok common)
    (hpn : plines.length = common.pages.toNat)
    (hpages : List.Forall₂ (page_line_ok env common.scaleW common.scaleH) plines pages)
    (hcount : chars_record lc = .ok count) (hnn : 0 ≤ count)
    (hcn : clines.length = count.toNat)
    (hchars : List.Forall₂ (fun l ch => char_record env l = .ok ch) clines chars)
    (hps : resize_ok env.page_list_storage common.pages.toNat = true)
    (hcs : resize_ok env.chars_storage count.toNat = true) :
    parse env (Stream.of_lines (l1 :: l2 :: (plines ++ lc :: clines))) =
      (.ok (document_of info common pages chars []),
        { lines := [],
          log := head_events l1 l2 common.scaleW common.scaleH plines pages lc clines ++
            [Event.getline .kernings none] }) := by
  have hrp := read_pages_run env common.scaleW common.scaleH plines pages hpages
    (lc :: clines) [Event.getline .info (some l1), Event.getline .common (some l2)]
  have hrc := read_chars_run env clines chars hchars []
    ([Event.getline .info (some l1), Event.getline .common (some l2)] ++
      page_events common.scaleW common.scaleH plines pages ++ [Event.getline .chars (some lc)])
  rw [hpn] at hrp
  rw [hcn, List.append_nil] at hrc
  unfold parse
  simp only [Stream.of_lines, getline_cons, hinfo, hcommon, List.nil_append,
    List.singleton_append, hps, hcs, Bool.not_true, Bool.false_eq_true, hrp, hcount,
    not_lt.mpr hnn, if_false, hrc, getline_nil]
  rfl

/-- What a successful `parse` has read: an info line, a common line, one
acceptable page line per declared page, a chars line, one valid char line per
declared glyph, and then either the end of the stream, or a kernings line and
one valid kerning line per declared kerning; with the document built from
these lines and the input actions done. -/
theorem parse_ok_inv_full (env : Env) (lines : List Str) (d : FntInfo) (st : Stream)
    (h : parse env (Stream.of_lines lines) = (.ok d, st)) :
    ∃ l1 l2 plines lc clines info common pages count chars,
      info_record l1 = .ok info ∧
      common_record l2 = .ok common ∧
      plines.length = common.pages.toNat ∧
      List.Forall₂ (page_line_ok env common.scaleW common.scaleH) plines pages ∧
      chars_record lc = .ok count ∧ 0 ≤ count ∧
      clines.length = count.toNat ∧
      List.Forall₂ (fun l ch => char_record env l = .ok ch) clines chars ∧
      resize_ok env.page_list_storage common.pages.toNat = true ∧
      resize_ok env.chars_storage count.toNat = true ∧
      ((lines = l1 :: l2 :: (plines ++ lc :: clines) ∧
        d = document_of info common pages chars [] ∧
        st = { lines := [],
               log := head_events l1 l2 common.scaleW common.scaleH plines pages lc clines ++
                 [Event.getline .kernings none] }) ∨
       (∃ lk klines kcount records,
        kernings_record lk = .ok kcount ∧
        klines.length = kcount.toNat ∧
        List.Forall₂ (fun l r => kerning_record l = .ok r) klines records ∧
        lines = l1 :: l2 :: (plines ++ lc :: (clines ++ lk :: (klines ++ st.lines))) ∧
        d = document_of info common pages chars (insert_kernings [] records) ∧
        st.log = head_events l1 l2 common.scaleW common.scaleH plines pages lc clines ++
          [Event.getline .kernings (some lk)] ++ line_events .kerning klines)) := by
  unfold parse at h
  cases lines with
  | nil => simp [Stream.of_lines, getline_nil] at h
  | cons l1 lines1 =>
  simp only [Stream.of_lines, getline_cons, List.nil_append] at h
  cases hinfo : info_record l1 with
  | error e => rw [hinfo] at h; simp at h
  | ok info =>
  rw [hinfo] at h
  simp only at h
  cases lines1 with
  | nil => simp [getline_nil] at h
  | cons l2 lines2 =>
  simp only [getline_cons, List.singleton_append] at h
  cases hcommon : common_record l2 with
  | error e => rw [hcommon] at h; simp at h
  | ok common =>
  rw [hcommon] at h
  simp only at h
  by_cases hps : resize_ok env.page_list_storage common.pages.toNat = true
  swap
  · simp [hps] at h
  simp only [hps, Bool.not_true, Bool.false_eq_true, if_false] at h
  cases hrp : read_pages env common.scaleW common.scaleH common.pages.toNat
      { lines := lines2,
        log := [Event.getline .info (some l1), Event.getline .common (some l2)] } with
  | mk pres s3 =>
  rw [hrp] at h
  cases pres with
  | error e => simp at h
  | ok pages =>
  simp only at h
  obtain ⟨plines, hpn, hplines, hpages, hplog⟩ := read_pages_inv env _ _ _ _ _ _ hrp
  obtain ⟨lines3, log3⟩ := s3
  simp only at hplines hplog
  cases lines3 with
  | nil => simp [getline_nil] at h
  | cons lc lines4 =>
  simp only [getline_cons] at h
  cases hcount : chars_record lc with
  | error e => rw [hcount] at h; simp at h
  | ok count =>
  rw [hcount] at h
  simp only at h
  by_cases hneg : count < 0
  · simp [hneg] at h
  · simp only [hneg, if_false] at h
    by_cases hcs : resize_ok env.chars_storage count.toNat = true
    swap
    · simp [hcs] at h
    simp only [hcs, Bool.not_true, Bool.false_eq_true, if_false] at h
    cases hrc : read_chars env count.toNat
        { lines := lines4, log := log3 ++ [Event.getline .chars (some lc)] } with
    | mk cres s5 =>
    rw [hrc] at h
    cases cres with
    | error e => simp at h
    | ok chars =>
    simp only at h
    obtain ⟨clines, hcn, hclines, hchars, hclog⟩ := read_chars_inv env _ _ _ _ hrc
    obtain ⟨lines5, log5⟩ := s5
    simp only at hclines hclog
    have hlog5 : log5 = head_events l1 l2 common.scaleW common.scaleH plines pages lc clines := by
      rw [hclog, hplog]
      simp [head_events]
    refine ⟨l1, l2, plines, lc, clines, info, common, pages, count, chars, hinfo, hcommon,
      hpn, hpages, hcount, not_lt.mp hneg, hcn, hchars, hps, hcs, ?_⟩
    cases lines5 with
    | nil =>
      simp only [getline_nil, Prod.mk.injEq, Except.ok.injEq] at h
      obtain ⟨hd, hst⟩ := h
      left
      refine ⟨?_, hd.symm, ?_⟩
      · rw [hplines, hclines]
        simp
      · rw [← hst, hlog5]
    | cons lk lines6 =>
      simp only [getline_cons] at h
      cases hkcount : kernings_record lk with
      | error e => rw [hkcount] at h; simp at h
      | ok kcount =>
      rw [hkcount] at h
      simp only at h
      cases hrk : read_kernings kcount.toNat []
          { lines := lines6, log := log5 ++ [Event.getline .kernings (some lk)] } with
      | mk kres s7 =>
      rw [hrk] at h
      cases kres with
      | error e => simp at h
      | ok kernings =>
      simp only [Prod.mk.injEq, Except.ok.injEq] at h
      obtain ⟨hd, hst⟩ := h
      obtain ⟨klines, records, hkn, hklines, hrecords, hres, hklog⟩ :=
        read_kernings_inv _ _ _ _ _ hrk
      simp only at hklines hklog
      right
      refine ⟨lk, klines, kcount, records, hkcount, hkn, hrecords, ?_, ?_, ?_⟩
      · rw [hplines, hclines, hklines, ← hst]
      · rw [← hd, hres]
        rfl
      · rw [← hst, hklog, hlog5]

/-- What a successful `parse` has read, without the two facts on storage. -/
theorem parse_ok_inv (env : Env) (lines : List Str) (d : FntInfo) (st : Stream)
    (h : parse env (Stream.of_lines lines) = (.ok d, st)) :
    ∃ l1 l2 plines lc clines info common pages count chars,
      info_record l1 = .ok info ∧
      common_record l2 = .ok common ∧
      plines.length = common.pages.toNat ∧
      List.Forall₂ (page_line_ok env common.scaleW common.scaleH) plines pages ∧
      chars_record lc = .ok count ∧ 0 ≤ count ∧
      clines.length = count.toNat ∧
      List.Forall₂ (fun l ch => char_record env l = .ok ch) clines chars ∧
      ((lines = l1 :: l2 :: (plines ++ lc :: clines) ∧
        d = document_of info common pages chars [] ∧
        st = { lines := [],
               log := head_events l1 l2 common.scaleW common.scaleH plines pages lc clines ++
                 [Event.getline .kernings none] }) ∨
       (∃ lk klines kcount records,
        kernings_record lk = .ok kcount ∧
        klines.length = kcount.toNat ∧
        List.Forall₂ (fun l r => kerning_record l = .ok r) klines records ∧
        lines = l1 :: l2 :: (plines ++ lc :: (clines ++ lk :: (klines ++ st.lines))) ∧
        d = document_of info common pages chars (insert_kernings [] records) ∧
        st.log = head_events l1 l2 common.scaleW common.scaleH plines pages lc clines ++
          [Event.getline .kernings (some lk)] ++ line_events .kerning klines)) := by
  obtain ⟨l1, l2, plines, lc, clines, info, common, pages, count, chars, hinfo, hcommon, hpn,
    hpages, hcount, hnn, hcn, hchars, _, _, hcase⟩ := parse_ok_inv_full env lines d st h
  exact ⟨l1, l2, plines, lc, clines, info, common, pages, count, chars, hinfo, hcommon, hpn,
    hpages, hcount, hnn, hcn, hchars, hcase⟩

/-! ## The end of the stream -/

/-- C21 (amended): a metrics stream that ends where `parse` needs a record
makes it throw `Failed to read a line.`, when `page_list.resize` and
`chars.resize` have obtained their storage before the loop that meets the
end. With valid
records before the end (an info line, a common line, acceptable page lines, a
chars line, valid char lines, a kernings line, valid kerning lines), this
holds for the stream that is empty, the stream that ends after the info line,
the stream that ends after fewer page lines than the common line declares,
the stream that ends after the last page line, the stream that ends after
fewer char lines than the chars line declares, and the stream that ends after
fewer kerning lines than the kernings line declares. In each case `parse`
throws at the `std::getline` that finds the end, so no document is returned.
When the storage for the declared pages, or for the declared glyphs, is not
obtained, `parse` throws `std::bad_alloc` at the `resize`, before it reads a
page line, or a char line, whatever the stream holds there. -/
theorem parse_end_of_input (env : Env) (l1 l2 lc lk : Str) (plines clines klines : List Str)
    (info : InfoFields) (common : CommonFields) (pages : List Page) (count : Int)
    (chars : List CharInfo) (kcount : Int) (records : List (Int × Int × Int))
    (hinfo : info_record l1 = .ok info)
    (hcommon : common_record l2 = .ok common)
    (hpages : List.Forall₂ (page_line_ok env common.scaleW common.scaleH) plines pages)
    (hcount : chars_record lc = .ok count)
    (hchars : List.Forall₂ (fun l ch => char_record env l = .ok ch) clines chars)
    (hkcount : kernings_record lk = .ok kcount)
    (hrecords : List.Forall₂ (fun l r => kerning_record l = .ok r) klines records) :
    parse env (Stream.of_lines []) =
      (.error failed_to_read_a_line, { lines := [], log := [Event.getline .info none] }) ∧
    parse env (Stream.of_lines [l1]) =
      (.error failed_to_read_a_line,
        { lines := [],
          log := [Event.getline .info (some l1), Event.getline .common none] }) ∧
    (resize_ok env.page_list_storage common.pages.toNat = true →
      plines.length < common.pages.toNat →
      parse env (Stream.of_lines (l1 :: l2 :: plines)) =
        (.error failed_to_read_a_line,
          { lines := [],
            log := [Event.getline .info (some l1), Event.getline .common (some l2)] ++
              page_events common.scaleW common.scaleH plines pages ++
              [Event.getline .page none] })) ∧
    (resize_ok env.page_list_storage common.pages.toNat = true →
      plines.length = common.pages.toNat →
      parse env (Stream.of_lines (l1 :: l2 :: plines)) =
        (.error failed_to_read_a_line,
          { lines := [],
            log := [Event.getline .info (some l1), Event.getline .common (some l2)] ++
              page_events common.scaleW common.scaleH plines pages ++
              [Event.getline .chars none] })) ∧
    (resize_ok env.page_list_storage common.pages.toNat = true →
      resize_ok env.chars_storage count.toNat = true →
      plines.length = common.pages.toNat → clines.length < count.toNat →
      parse env (Stream.of_lines (l1 :: l2 :: (plines ++ lc :: clines))) =
        (.error failed_to_read_a_line,
          { lines := [],
            log := head_events l1 l2 common.scaleW common.scaleH plines pages lc clines ++
              [Event.getline .char none] })) ∧
    (resize_ok env.page_list_storage common.pages.toNat = true →
      resize_ok env.chars_storage count.toNat = true →
      plines.length = common.pages.toNat → 0 ≤ count → clines.length = count.toNat →
      klines.length < kcount.toNat →
      parse env (Stream.of_lines (l1 :: l2 :: (plines ++ lc :: (clines ++ lk :: klines)))) =
        (.error failed_to_read_a_line,
          { lines := [],
            log := head_events l1 l2 common.scaleW common.scaleH plines pages lc clines ++
              [Event.getline .kernings (some lk)] ++ line_events .kerning klines ++
              [Event.getline .kerning none] })) ∧
    (∀ rest : List Str, resize_ok env.page_list_storage common.pages.toNat = false →
      parse env (Stream.of_lines (l1 :: l2 :: rest)) =
        (.error .bad_alloc,
          { lines := rest,
            log := [Event.getline .info (some l1), Event.getline .common (some l2)] })) ∧
    (∀ rest : List Str, resize_ok env.page_list_storage common.pages.toNat = true →
      resize_ok env.chars_storage count.toNat = false →
      plines.length = common.pages.toNat → 0 ≤ count →
      parse env (Stream.of_lines (l1 :: l2 :: (plines ++ lc :: rest))) =
        (.error .bad_alloc,
          { lines := rest,
            log := [Event.getline .info (some l1), Event.getline .common (some l2)] ++
              page_events common.scaleW common.scaleH plines pages ++
              [Event.getline .chars (some lc)] })) := by
  refine ⟨rfl, ?_, ?_, ?_, ?_, ?_, ?_, ?_⟩
  · unfold parse
    simp only [Stream.of_lines, getline_cons, hinfo, getline_nil, List.nil_append,
      List.singleton_append]
  · intro hps hlt
    have hrp := read_pages_short env common.scaleW common.scaleH plines pages hpages
      common.pages.toNat [Event.getline .info (some l1), Event.getline .common (some l2)] hlt
    unfold parse
    simp only [Stream.of_lines, getline_cons, hinfo, hcommon, List.nil_append,
      List.singleton_append, hps, Bool.not_true, Bool.false_eq_true, if_false, hrp]
  · intro hps hpn
    have hrp := read_pages_run env common.scaleW common.scaleH plines pages hpages []
      [Event.getline .info (some l1), Event.getline .common (some l2)]
    rw [hpn, List.append_nil] at hrp
    unfold parse
    simp only [Stream.of_lines, getline_cons, hinfo, hcommon, List.nil_append,
      List.singleton_append, hps, Bool.not_true, Bool.false_eq_true, if_false, hrp,
      getline_nil]
  · intro hps hcs hpn hlt
    have hrp := read_pages_run env common.scaleW common.scaleH plines pages hpages
      (lc :: clines) [Event.getline .info (some l1), Event.getline .common (some l2)]
    have hrc := read_chars_short env clines chars hchars count.toNat
      ([Event.getline .info (some l1), Event.getline .common (some l2)] ++
        page_events common.scaleW common.scaleH plines pages ++
        [Event.getline .chars (some lc)]) hlt
    have hnn : ¬ count < 0 := by omega
    rw [hpn] at hrp
    unfold parse
    simp only [Stream.of_lines, getline_cons, hinfo, hcommon, List.nil_append,
      List.singleton_append, hps, hcs, Bool.not_true, Bool.false_eq_true, hrp, hcount, hnn,
      if_false, hrc]
    rfl
  · intro hps hcs hpn hnn hcn hlt
    have hrp := read_pages_run env common.scaleW common.scaleH plines pages hpages
      (lc :: (clines ++ lk :: klines))
      [Event.getline .info (some l1), Event.getline .common (some l2)]
    have hrc := read_chars_run env clines chars hchars (lk :: klines)
      ([Event.getline .info (some l1), Event.getline .common (some l2)] ++
        page_events common.scaleW common.scaleH plines pages ++
        [Event.getline .chars (some lc)])
    have hrk := read_kernings_short klines records hrecords kcount.toNat []
      ([Event.getline .info (some l1), Event.getline .common (some l2)] ++
        page_events common.scaleW common.scaleH plines pages ++
        [Event.getline .chars (some lc)] ++ line_events .char clines ++
        [Event.getline .kernings (some lk)]) hlt
    rw [hpn] at hrp
    rw [hcn] at hrc
    unfold parse
    simp only [Stream.of_lines, getline_cons, hinfo, hcommon, List.nil_append,
      List.singleton_append, hps, hcs, Bool.not_true, Bool.false_eq_true, hrp, hcount,
      not_lt.mpr hnn, if_false, hrc, hkcount, hrk]
    rfl
  · intro rest hps
    unfold parse
    simp only [Stream.of_lines, getline_cons, hinfo, hcommon, List.nil_append,
      List.singleton_append, hps, Bool.not_false, if_true]
  · intro rest hps hcs hpn hnn
    have hrp := read_pages_run env common.scaleW common.scaleH plines pages hpages
      (lc :: rest) [Event.getline .info (some l1), Event.getline .common (some l2)]
    rw [hpn] at hrp
    unfold parse
    simp only [Stream.of_lines, getline_cons, hinfo, hcommon, List.nil_append,
      List.singleton_append, hps, hcs, Bool.not_true, Bool.false_eq_true, Bool.not_false,
      hrp, hcount, not_lt.mpr hnn, if_false, if_true]

/-- An instance of `parse_end_of_input`: a stream that declares two pages, two
glyphs and two kernings, cut after the first page line, and cut after the
first kerning line. -/
theorem parse_end_of_input_witness :
    info_record info_line = .ok info_line_fields ∧
    common_record two_page_common_line = .ok two_page_common ∧
    page_line_ok sample_env 2 2 sample_page_line sample_page ∧
    (parse sample_env
        (Stream.of_lines [info_line, two_page_common_line, sample_page_line])).1 =
      .error failed_to_read_a_line ∧
    (parse sample_env
        (Stream.of_lines [info_line, common_line 14 11 2 2 1 0 0 4 4 4, sample_page_line,
          "chars count=1".toList, sample_char_line, "kernings count=2".toList,
          sample_kerning_line])).1 =
      .error failed_to_read_a_line := by
  refine ⟨by decide!, by decide!, by decide!, ?_, ?_⟩
  · have h := (parse_end_of_input sample_env info_line two_page_common_line
      "chars count=1".toList "kernings count=2".toList [sample_page_line] [] []
      info_line_fields two_page_common [sample_page] 1 [] 2 []
      (by decide!) (by decide!)
      (List.Forall₂.cons (by decide!) List.Forall₂.nil)
      (by decide!) List.Forall₂.nil (by decide!) List.Forall₂.nil).2.2.1 (by decide!)
      (by decide)
    rw [h]
  · have h := (parse_end_of_input sample_env info_line (common_line 14 11 2 2 1 0 0 4 4 4)
      "chars count=1".toList "kernings count=2".toList [sample_page_line] [sample_char_line]
      [sample_kerning_line] info_line_fields
      { lineHeight := 14, base := 11, scaleW := 2, scaleH := 2, pages := 1, packed := 0,
        alphaChnl := 0, redChnl := 4, greenChnl := 4, blueChnl := 4 }
      [sample_page] 1 [sample_glyph] 2 [(97, 98, -1)]
      (by decide!) (by decide!)
      (List.Forall₂.cons (by decide!) List.Forall₂.nil)
      (by decide!) (List.Forall₂.cons (by decide!) List.Forall₂.nil) (by decide!)
      (List.Forall₂.cons (by decide!) List.Forall₂.nil)).2.2.2.2.2.1
      (by decide!) (by decide!) (by decide) (by decide) (by decide) (by decide)
    exact congrArg Prod.fst h

/-- C21 (counterexample): the stream `huge_chars_lines` has a valid info
line, a valid common line, its one page line, whose page loads, and a valid
chars line that declares 2147483647 glyphs, and it ends there,
before any of the declared char lines. In `sample_env`, which has no storage
for so many glyphs, `parse` throws `std::bad_alloc` at `chars.resize`, not
`Failed to read a line.`; it has not called `std::getline` for a char line. -/
theorem parse_end_of_input_bad_alloc :
    info_record info_line = .ok info_line_fields ∧
    common_record (common_line 14 11 2 2 1 0 0 4 4 4) = .ok
      { lineHeight := 14, base := 11, scaleW := 2, scaleH := 2, pages := 1, packed := 0,
        alphaChnl := 0, redChnl := 4, greenChnl := 4, blueChnl := 4 } ∧
    page_line_ok sample_env 2 2 sample_page_line sample_page ∧
    chars_record "chars count=2147483647".toList = .ok 2147483647 ∧
    huge_chars_lines = [info_line, common_line 14 11 2 2 1 0 0 4 4 4, sample_page_line,
      "chars count=2147483647".toList] ∧
    sample_env.chars_storage 2147483647 = false ∧
    parse sample_env (Stream.of_lines huge_chars_lines) =
      (.error .bad_alloc,
        { lines := [],
          log := [Event.getline .info (some info_line),
            Event.getline .common (some (common_line 14 11 2 2 1 0 0 4 4 4)),
            Event.getline .page (some sample_page_line),
            Event.read_data "a.dds".toList 2 2,
            Event.getline .chars (some "chars count=2147483647".toList)] }) ∧
    (parse sample_env (Stream.of_lines huge_chars_lines)).1 ≠ .error failed_to_read_a_line := by
  refine ⟨by decide!, by decide!, by decide!, by decide!, rfl, by decide!, by decide!,
    by decide!⟩

/-! ## What a successful `parse` has read -/

theorem forall₂_length_eq {α β : Type} {R : α → β → Prop} {l1 : List α} {l2 : List β}
    (h : List.Forall₂ R l1 l2) : l1.length = l2.length := by
  induction h with
  | nil => rfl
  | cons _ _ ih => simp [ih]

/-- The checks that a common line has passed when its block does not throw. -/
theorem common_record_checks (line : Str) (common : CommonFields)
    (h : common_record line = .ok common) :
    0 < common.base ∧ is_pow2 common.scaleW = true ∧ is_pow2 common.scaleH = true ∧
      0 < common.pages ∧ common.packed = 0 := by
  unfold common_record at h
  simp only [bind, Except.bind] at h
  repeat' split at h
  all_goals try cases h
  rename_i h1 h2 h3 h4 h5
  simp only [Bool.or_eq_true, Bool.not_eq_true', not_or, Bool.not_eq_false] at h2
  refine ⟨?_, h2.1, h2.2, ?_, ?_⟩
  · dsimp only; omega
  · dsimp only; omega
  · simpa using h4

/-- C22 (amended): when `parse` succeeds on a stream, the stream starts with
an info line, a common line, as many page lines as the document's `pages`
(the count of the common line), a chars line and as many char lines as its
count; the document has one page per page line and one glyph per char line,
the i-th from the i-th line; and then either the stream is at its end, or it
goes on with a kernings line and as many kerning lines as its count (none
when the count is negative), the lines after them are left unread, and with
any other lines in their place `parse` returns the same document after the
same input actions. -/
theorem parse_consumes (env : Env) (lines : List Str) (d : FntInfo) (st : Stream)
    (h : parse env (Stream.of_lines lines) = (.ok d, st)) :
    ∃ l1 l2 plines lc clines count,
      chars_record lc = .ok count ∧
      (plines.length : Int) = d.pages ∧
      (clines.length : Int) = count ∧
      d.page_list.length = plines.length ∧
      d.chars.length = clines.length ∧
      List.Forall₂ (page_line_ok env d.scaleW d.scaleH) plines d.page_list ∧
      List.Forall₂ (fun l ch => char_record env l = .ok ch) clines d.chars ∧
      ((lines = l1 :: l2 :: (plines ++ lc :: clines) ∧
        st.lines = [] ∧
        st.log = head_events l1 l2 d.scaleW d.scaleH plines d.page_list lc clines ++
          [Event.getline .kernings none]) ∨
       (∃ lk klines kcount,
        kernings_record lk = .ok kcount ∧
        (klines.length : Int) = max kcount 0 ∧
        lines = l1 :: l2 :: (plines ++ lc :: (clines ++ lk :: (klines ++ st.lines))) ∧
        st.log = head_events l1 l2 d.scaleW d.scaleH plines d.page_list lc clines ++
          [Event.getline .kernings (some lk)] ++ line_events .kerning klines ∧
        ∀ rest : List Str,
          parse env
              (Stream.of_lines (l1 :: l2 :: (plines ++ lc :: (clines ++ lk :: (klines ++ rest))))) =
            (.ok d, { lines := rest, log := st.log }))) := by
  obtain ⟨l1, l2, plines, lc, clines, info, common, pages, count, chars, hinfo, hcommon, hpn,
    hpages, hcount, hnn, hcn, hchars, hps, hcs, hcase⟩ := parse_ok_inv_full env lines d st h
  have hpos : 0 < common.pages := (common_record_checks l2 common hcommon).2.2.2.1
  have hd : d.pages = common.pages ∧ d.scaleW = common.scaleW ∧ d.scaleH = common.scaleH ∧
      d.page_list = pages ∧ d.chars = chars := by
    rcases hcase with ⟨_, hd, _⟩ | ⟨_, _, _, _, _, _, _, _, hd, _⟩ <;> rw [hd] <;>
      exact ⟨rfl, rfl, rfl, rfl, rfl⟩
  obtain ⟨hd1, hd2, hd3, hd4, hd5⟩ := hd
  rw [hd1, hd2, hd3, hd4, hd5]
  refine ⟨l1, l2, plines, lc, clines, count, hcount, by omega, by omega,
    (forall₂_length_eq hpages).symm, (forall₂_length_eq hchars).symm, hpages, hchars, ?_⟩
  rcases hcase with ⟨hl, _, hst⟩ | ⟨lk, klines, kcount, records, hkcount, hkn, hrecords, hl,
    hdoc, hlog⟩
  · left
    rw [hst]
    exact ⟨hl, rfl, rfl⟩
  · right
    refine ⟨lk, klines, kcount, hkcount, by omega, hl, hlog, ?_⟩
    intro rest
    rw [hdoc, hlog]
    exact parse_run_kernings env l1 l2 lc lk plines clines klines rest info common pages count
      chars kcount records hinfo hcommon hpn hpages hcount hnn hcn hchars hkcount hkn hrecords
      hps hcs

/-- An instance of `parse_consumes`: the run of `parse` on `sample_lines`. -/
theorem parse_consumes_witness :
    parse sample_env (Stream.of_lines sample_lines) = (.ok sample_document, sample_stream_after) ∧
    ∃ l1 l2 plines lc clines count,
      chars_record lc = .ok count ∧
      (plines.length : Int) = sample_document.pages ∧
      (clines.length : Int) = count ∧
      sample_document.page_list.length = plines.length ∧
      sample_document.chars.length = clines.length ∧
      List.Forall₂ (page_line_ok sample_env sample_document.scaleW sample_document.scaleH)
        plines sample_document.page_list ∧
      List.Forall₂ (fun l ch => char_record sample_env l = .ok ch) clines
        sample_document.chars ∧
      ((sample_lines = l1 :: l2 :: (plines ++ lc :: clines) ∧
        sample_stream_after.lines = [] ∧
        sample_stream_after.log =
          head_events l1 l2 sample_document.scaleW sample_document.scaleH plines
            sample_document.page_list lc clines ++ [Event.getline .kernings none]) ∨
       (∃ lk klines kcount,
        kernings_record lk = .ok kcount ∧
        (klines.length : Int) = max kcount 0 ∧
        sample_lines =
          l1 :: l2 :: (plines ++ lc :: (clines ++ lk :: (klines ++ sample_stream_after.lines))) ∧
        sample_stream_after.log =
          head_events l1 l2 sample_document.scaleW sample_document.scaleH plines
            sample_document.page_list lc clines ++
          [Event.getline .kernings (some lk)] ++ line_events .kerning klines ∧
        ∀ rest : List Str,
          parse sample_env
              (Stream.of_lines (l1 :: l2 :: (plines ++ lc :: (clines ++ lk :: (klines ++ rest))))) =
            (.ok sample_document, { lines := rest, log := sample_stream_after.log }))) :=
  ⟨parse_sample_lines,
    parse_consumes sample_env sample_lines sample_document sample_stream_after
      parse_sample_lines⟩
/-! ## Char records -/

theorem page_events_mem (w h : Int) (ev : Event) :
    ∀ (plines : List Str) (pages : List Page), ev ∈ page_events w h plines pages →
      (∃ l, l ∈ plines ∧ ev = Event.getline .page (some l)) ∨
      (∃ p, p ∈ pages ∧ ev = Event.read_data p.file w h) := by
  intro plines
  induction plines with
  | nil => intro pages hm; simp [page_events] at hm
  | cons l ls ih =>
    intro pages hm
    cases pages with
    | nil => simp [page_events] at hm
    | cons p ps =>
      rw [page_events_cons] at hm
      simp only [List.mem_cons] at hm
      rcases hm with rfl | rfl | hm
      · exact Or.inl ⟨l, by simp, rfl⟩
      · exact Or.inr ⟨p, by simp, rfl⟩
      · rcases ih ps hm with ⟨l', h1, h2⟩ | ⟨p', h1, h2⟩
        · exact Or.inl ⟨l', by simp [h1], h2⟩
        · exact Or.inr ⟨p', by simp [h1], h2⟩

theorem line_events_mem (site : Site) (ev : Event) (ls : List Str) :
    ev ∈ line_events site ls ↔ ∃ l, l ∈ ls ∧ ev = Event.getline site (some l) := by
  simp only [line_events, List.mem_map]
  constructor
  · rintro ⟨l, h1, h2⟩; exact ⟨l, h1, h2.symm⟩
  · rintro ⟨l, h1, h2⟩; exact ⟨l, h1, h2.symm⟩

theorem forall₂_of_mem_left {α β : Type} {R : α → β → Prop} {l1 : List α} {l2 : List β}
    (h : List.Forall₂ R l1 l2) (a : α) (ha : a ∈ l1) : ∃ b, b ∈ l2 ∧ R a b := by
  induction h with
  | nil => cases ha
  | cons hhead _ ih =>
    rcases List.mem_cons.mp ha with rfl | ha'
    · exact ⟨_, by simp, hhead⟩
    · obtain ⟨b, hb, hr⟩ := ih ha'
      exact ⟨b, by simp [hb], hr⟩

theorem forall₂_of_mem_right {α β : Type} {R : α → β → Prop} {l1 : List α} {l2 : List β}
    (h : List.Forall₂ R l1 l2) (b : β) (hb : b ∈ l2) : ∃ a, a ∈ l1 ∧ R a b := by
  induction h with
  | nil => cases hb
  | cons hhead _ ih =>
    rcases List.mem_cons.mp hb with rfl | hb'
    · exact ⟨_, by simp, hhead⟩
    · obtain ⟨a, ha, hr⟩ := ih hb'
      exact ⟨a, by simp [ha], hr⟩

/-- The char lines that a successful `parse` has read are valid. -/
theorem parse_ok_char_lines (env : Env) (lines : List Str) (d : FntInfo) (st : Stream)
    (h : parse env (Stream.of_lines lines) = (.ok d, st)) (line : Str)
    (hm : Event.getline .char (some line) ∈ st.log) :
    ∃ ch, char_record env line = .ok ch := by
  obtain ⟨l1, l2, plines, lc, clines, info, common, pages, count, chars, _, _, _, _, _, _, _,
    hchars, hcase⟩ := parse_ok_inv env lines d st h
  have hin : line ∈ clines := by
    have hlog : Event.getline .char (some line) ∈
        head_events l1 l2 common.scaleW common.scaleH plines pages lc clines := by
      rcases hcase with ⟨_, _, hst⟩ | ⟨lk, klines, _, _, _, _, _, _, _, hlog⟩
      · rw [hst] at hm
        simpa using hm
      · rw [hlog] at hm
        simp only [List.mem_append, List.mem_singleton, line_events_mem] at hm
        rcases hm with (hm | hm) | ⟨l, _, hm⟩
        · exact hm
        · cases hm
        · cases hm
    simp only [head_events, List.mem_append, List.mem_cons, List.mem_singleton,
      List.not_mem_nil, or_false, line_events_mem] at hlog
    rcases hlog with ((((hm | hm) | hm) | hm) | ⟨l, hl, hm⟩)
    · cases hm
    · cases hm
    · rcases page_events_mem _ _ _ _ _ hm with ⟨l, _, he⟩ | ⟨p, _, he⟩ <;> cases he
    · cases hm
    · cases hm
      exact hl
  obtain ⟨ch, _, hch⟩ := forall₂_of_mem_left hchars line hin
  exact ⟨ch, hch⟩

/-- The `// char` block throws on a line one of whose ten conversions throws. -/
theorem char_record_field_error (env : Env) (line : Str) (parts : LineParts)
    (hparts : parse_line line "char".toList = .ok parts)
    (hbad : (∃ e, stoul env.ulong_bits (parts.at "id") = .error e) ∨
      ∃ key ∈ ["x", "y", "width", "height", "xoffset", "yoffset", "xadvance", "page", "chnl"],
        ∃ e, stoi (parts.at key) = .error e) :
    ∃ e, char_record env line = .error e := by
  unfold char_record
  simp only [bind, Except.bind, hparts]
  cases h0 : stoul env.ulong_bits (parts.at "id") with
  | error e => exact ⟨e, rfl⟩
  | ok v0 =>
  cases h1 : stoi (parts.at "x") with
  | error e => exact ⟨e, rfl⟩
  | ok v1 =>
  cases h2 : stoi (parts.at "y") with
  | error e => exact ⟨e, rfl⟩
  | ok v2 =>
  cases h3 : stoi (parts.at "width") with
  | error e => exact ⟨e, rfl⟩
  | ok v3 =>
  cases h4 : stoi (parts.at "height") with
  | error e => exact ⟨e, rfl⟩
  | ok v4 =>
  cases h5 : stoi (parts.at "xoffset") with
  | error e => exact ⟨e, rfl⟩
  | ok v5 =>
  cases h6 : stoi (parts.at "yoffset") with
  | error e => exact ⟨e, rfl⟩
  | ok v6 =>
  cases h7 : stoi (parts.at "xadvance") with
  | error e => exact ⟨e, rfl⟩
  | ok v7 =>
  cases h8 : stoi (parts.at "page") with
  | error e => exact ⟨e, rfl⟩
  | ok v8 =>
  cases h9 : stoi (parts.at "chnl") with
  | error e => exact ⟨e, rfl⟩
  | ok v9 =>
  exfalso
  rcases hbad with ⟨e, he⟩ | ⟨key, hkey, e, he⟩
  · rw [h0] at he; cases he
  · simp only [List.mem_cons, List.mem_singleton, List.not_mem_nil, or_false] at hkey
    rcases hkey with rfl | rfl | rfl | rfl | rfl | rfl | rfl | rfl | rfl
    · rw [h1] at he; cases he
    · rw [h2] at he; cases he
    · rw [h3] at he; cases he
    · rw [h4] at he; cases he
    · rw [h5] at he; cases he
    · rw [h6] at he; cases he
    · rw [h7] at he; cases he
    · rw [h8] at he; cases he
    · rw [h9] at he; cases he

/-- C23: when `parse` has read a line at the char position, and in the record
of that line one of the ten fields `id`, `x`, `y`, `width`, `height`,
`xoffset`, `yoffset`, `xadvance`, `page`, `chnl` is missing or has a value
whose conversion (`std::stoul` for `id`, `std::stoi` for the others) throws,
then `parse` throws: it returns no document. A field that is missing reads as
the empty string, and both conversions throw `std::invalid_argument` on it. -/
theorem parse_char_field_error (env : Env) (lines : List Str) (line : Str) (parts : LineParts)
    (hreached : Event.getline .char (some line) ∈ (parse env (Stream.of_lines lines)).2.log)
    (hparts : parse_line line "char".toList = .ok parts)
    (hbad : (∃ e, stoul env.ulong_bits (parts.at "id") = .error e) ∨
      ∃ key ∈ ["x", "y", "width", "height", "xoffset", "yoffset", "xadvance", "page", "chnl"],
        ∃ e, stoi (parts.at key) = .error e) :
    (∃ e, (parse env (Stream.of_lines lines)).1 = .error e) ∧
    ∀ key : String, parts.find key.toList = none →
      stoi (parts.at key) = .error (.invalid_argument "stoi".toList) ∧
      stoul env.ulong_bits (parts.at key) = .error (.invalid_argument "stoul".toList) := by
  constructor
  · cases hp : parse env (Stream.of_lines lines) with
    | mk res st =>
    rw [hp] at hreached
    cases res with
    | error e => exact ⟨e, rfl⟩
    | ok d =>
      exfalso
      obtain ⟨ch, hch⟩ := parse_ok_char_lines env lines d st hp line hreached
      obtain ⟨e, he⟩ := char_record_field_error env line parts hparts hbad
      rw [hch] at he
      cases he
  · intro key hkey
    have : parts.at key = [] := by
      unfold LineParts.at
      rw [hkey]
      rfl
    rw [this]
    exact ⟨rfl, rfl⟩
/-- An instance of `parse_char_field_error`: a char line without `chnl`. -/
theorem parse_char_field_error_witness :
    Event.getline .char (some short_char_line) ∈
      (parse sample_env (Stream.of_lines short_char_lines)).2.log ∧
    parse_line short_char_line "char".toList = .ok short_char_parts ∧
    short_char_parts.find "chnl".toList = none ∧
    stoi (short_char_parts.at "chnl") = .error (.invalid_argument "stoi".toList) ∧
    ∃ e, (parse sample_env (Stream.of_lines short_char_lines)).1 = .error e :=
  ⟨by decide!, by decide!, by decide!, by decide!,
    (parse_char_field_error sample_env short_char_lines short_char_line short_char_parts
      (by decide!) (by decide!)
      (Or.inr ⟨"chnl", by simp, .invalid_argument "stoi".toList, by decide!⟩)).1⟩
/-! ## Page ids -/

theorem lines_read_line_events (site site' : Site) (ls : List Str) :
    lines_read site (line_events site' ls) = if site' = site then ls else [] := by
  induction ls with
  | nil => simp [line_events, lines_read]
  | cons l ls ih =>
    rw [line_events_cons, ← List.singleton_append, lines_read_append, ih, lines_read_getline]
    by_cases h : site' = site <;> simp [h]

theorem lines_read_page_events (site : Site) (w h : Int) (plines : List Str)
    (pages : List Page) (hlen : plines.length = pages.length) :
    lines_read site (page_events w h plines pages) = if Site.page = site then plines else [] := by
  induction plines generalizing pages with
  | nil => simp [page_events, lines_read]
  | cons l ls ih =>
    cases pages with
    | nil => simp at hlen
    | cons p ps =>
      have hlen' : ls.length = ps.length := by simpa using hlen
      have e : page_events w h (l :: ls) (p :: ps) =
          [Event.getline .page (some l)] ++ ([Event.read_data p.file w h] ++
            page_events w h ls ps) := rfl
      rw [e, lines_read_append, lines_read_append, ih ps hlen', lines_read_getline,
        lines_read_read_data]
      by_cases hs : Site.page = site <;> simp [hs]

/-- The page lines and the char lines that a successful `parse` has read, with
the pages and glyphs of the document: line by line. -/
theorem parse_ok_lines_read (env : Env) (lines : List Str) (d : FntInfo) (st : Stream)
    (h : parse env (Stream.of_lines lines) = (.ok d, st)) :
    List.Forall₂ (page_line_ok env d.scaleW d.scaleH) (lines_read .page st.log) d.page_list ∧
    List.Forall₂ (fun l ch => char_record env l = .ok ch) (lines_read .char st.log) d.chars := by
  obtain ⟨l1, l2, plines, lc, clines, info, common, pages, count, chars, _, _, _, hpages, _, _,
    _, hchars, hcase⟩ := parse_ok_inv env lines d st h
  have hhead : ∀ site, site = Site.page ∨ site = Site.char →
      lines_read site (head_events l1 l2 common.scaleW common.scaleH plines pages lc clines) =
        if site = Site.page then plines else clines := by
    intro site hs
    simp only [head_events, lines_read_append, lines_read_line_events,
      lines_read_page_events site _ _ plines pages (forall₂_length_eq hpages)]
    rcases hs with rfl | rfl
    · simp [lines_read]
    · simp [lines_read]
  rcases hcase with ⟨_, hd, hst⟩ | ⟨lk, klines, _, _, _, _, _, _, hd, hlog⟩
  · rw [hd, hst]
    simp only [lines_read_append, hhead _ (Or.inl rfl), hhead _ (Or.inr rfl)]
    simp only [lines_read_other .page .kernings _ (by decide),
      lines_read_other .char .kernings _ (by decide), List.append_nil]
    exact ⟨hpages, hchars⟩
  · rw [hd, hlog]
    simp only [lines_read_append, hhead _ (Or.inl rfl), hhead _ (Or.inr rfl),
      lines_read_line_events]
    simp only [lines_read_other .page .kernings _ (by decide),
      lines_read_other .char .kernings _ (by decide), List.append_nil,
      if_neg (by decide : ¬ Site.kerning = Site.page),
      if_neg (by decide : ¬ Site.kerning = Site.char), if_true,
      if_neg (by decide : ¬ Site.char = Site.page)]
    exact ⟨hpages, hchars⟩

/-- C24 (counterexample): `parse` succeeds on `stray_page_lines`, whose only
page has id 0 and whose only glyph names page 7; the glyph's page id is the id
of no page of the document. -/
theorem parse_stray_page_id :
    ∃ st, parse sample_env (Stream.of_lines stray_page_lines) = (.ok stray_page_document, st) ∧
      ¬ ∀ ch ∈ stray_page_document.chars,
          ∃ p ∈ stray_page_document.page_list, p.id = ch.page :=
  ⟨(parse sample_env (Stream.of_lines stray_page_lines)).2, by decide!, by decide⟩

/-- C24 (amended): for a document returned by a successful `parse` of a
stream in which the `page` value of every char line read is the `id` value of
some page line read, every glyph's page id is the id of some page in the
document's page list. -/
theorem parse_glyph_pages (env : Env) (lines : List Str) (d : FntInfo) (st : Stream)
    (h : parse env (Stream.of_lines lines) = (.ok d, st))
    (hrefs : ∀ lc ∈ lines_read .char st.log, ∀ ch, char_record env lc = .ok ch →
      ∃ lp ∈ lines_read .page st.log, ∃ id file,
        page_record lp = .ok (id, file) ∧ id = ch.page) :
    ∀ ch ∈ d.chars, ∃ p ∈ d.page_list, p.id = ch.page := by
  obtain ⟨hpages, hchars⟩ := parse_ok_lines_read env lines d st h
  intro ch hch
  obtain ⟨lc, hlc, hrec⟩ := forall₂_of_mem_right hchars ch hch
  obtain ⟨lp, hlp, id, file, hprec, hid⟩ := hrefs lc hlc ch hrec
  obtain ⟨p, hp, hok⟩ := forall₂_of_mem_left hpages lp hlp
  refine ⟨p, hp, ?_⟩
  have := hok.1
  rw [hprec] at this
  simp only [Except.ok.injEq, Prod.mk.injEq] at this
  rw [← this.1, hid]

/-- An instance of `parse_glyph_pages`: in `sample_lines` both char lines name
page 0, the id of the page line. -/
theorem parse_glyph_pages_witness :
    parse sample_env (Stream.of_lines sample_lines) = (.ok sample_document, sample_stream_after) ∧
    (∀ lc ∈ lines_read .char sample_stream_after.log, ∀ ch,
      char_record sample_env lc = .ok ch →
      ∃ lp ∈ lines_read .page sample_stream_after.log, ∃ id file,
        page_record lp = .ok (id, file) ∧ id = ch.page) ∧
    ∀ ch ∈ sample_document.chars, ∃ p ∈ sample_document.page_list, p.id = ch.page := by
  have hrefs : ∀ lc ∈ lines_read .char sample_stream_after.log, ∀ ch,
      char_record sample_env lc = .ok ch →
      ∃ lp ∈ lines_read .page sample_stream_after.log, ∃ id file,
        page_record lp = .ok (id, file) ∧ id = ch.page := by
    intro lc hlc ch hch
    have hl : lines_read .char sample_stream_after.log =
        [ "char id=97 x=0 y=0 width=1 height=1 xoffset=0 yoffset=0 xadvance=1 page=0 chnl=15".toList,
          "char id=97 x=1 y=1 width=2 height=2 xoffset=3 yoffset=4 xadvance=5 page=0 chnl=15".toList ] := by
      decide!
    have hp : "page id=0 file=\"a.dds\"".toList ∈ lines_read .page sample_stream_after.log := by
      decide!
    have hpr : page_record "page id=0 file=\"a.dds\"".toList = .ok (0, "a.dds".toList) := by
      decide!
    rw [hl] at hlc
    simp only [List.mem_cons, List.mem_singleton, List.not_mem_nil, or_false] at hlc
    rcases hlc with rfl | rfl
    · have : char_record sample_env
          "char id=97 x=0 y=0 width=1 height=1 xoffset=0 yoffset=0 xadvance=1 page=0 chnl=15".toList =
          .ok { id := 97, x := 0, y := 0, width := 1, height := 1, xoffset := 0, yoffset := 0,
                xadvance := 1, page := 0, chnl := 15 } := by decide!
      rw [this] at hch
      cases hch
      exact ⟨_, hp, 0, "a.dds".toList, hpr, rfl⟩
    · have : char_record sample_env
          "char id=97 x=1 y=1 width=2 height=2 xoffset=3 yoffset=4 xadvance=5 page=0 chnl=15".toList =
          .ok { id := 97, x := 1, y := 1, width := 2, height := 2, xoffset := 3, yoffset := 4,
                xadvance := 5, page := 0, chnl := 15 } := by decide!
      rw [this] at hch
      cases hch
      exact ⟨_, hp, 0, "a.dds".toList, hpr, rfl⟩
  exact ⟨parse_sample_lines, hrefs,
    parse_glyph_pages sample_env sample_lines sample_document sample_stream_after
      parse_sample_lines hrefs⟩
/-! ## The calls of `read_data` -/

/-- The char loop only calls `std::getline` at the char position. -/
theorem read_chars_events (env : Env) :
    ∀ (n : Nat) (s : Stream), ∃ evs,
      (read_chars env n s).2.log = s.log ++ evs ∧
      ∀ ev ∈ evs, ∃ r, ev = Event.getline .char r := by
  intro n
  induction n with
  | zero => intro s; exact ⟨[], by simp [read_chars], by simp⟩
  | succ n ih =>
    intro s
    obtain ⟨lines, log⟩ := s
    cases lines with
    | nil =>
      refine ⟨[Event.getline .char none], by simp [read_chars, getline_nil], ?_⟩
      intro ev hev
      exact ⟨none, by simpa using hev⟩
    | cons l rest =>
      simp only [read_chars, getline_cons]
      cases hrec : char_record env l with
      | error e =>
        refine ⟨[Event.getline .char (some l)], rfl, ?_⟩
        intro ev hev
        exact ⟨some l, by simpa using hev⟩
      | ok ch =>
        simp only
        obtain ⟨evs, hlog, hall⟩ := ih
          { lines := rest, log := log ++ [Event.getline .char (some l)] }
        refine ⟨Event.getline .char (some l) :: evs, ?_, ?_⟩
        · split <;> rename_i heq <;> rw [heq] at hlog <;> simpa using hlog
        · intro ev hev
          rcases List.mem_cons.mp hev with rfl | hev'
          · exact ⟨some l, rfl⟩
          · exact hall ev hev'

/-- The kerning loop only calls `std::getline` at the kerning position. -/
theorem read_kernings_events :
    ∀ (n : Nat) (kernings : Kernings) (s : Stream), ∃ evs,
      (read_kernings n kernings s).2.log = s.log ++ evs ∧
      ∀ ev ∈ evs, ∃ r, ev = Event.getline .kerning r := by
  intro n
  induction n with
  | zero => intro kernings s; exact ⟨[], by simp [read_kernings], by simp⟩
  | succ n ih =>
    intro kernings s
    obtain ⟨lines, log⟩ := s
    cases lines with
    | nil =>
      refine ⟨[Event.getline .kerning none], by simp [read_kernings, getline_nil], ?_⟩
      intro ev hev
      exact ⟨none, by simpa using hev⟩
    | cons l rest =>
      simp only [read_kernings, getline_cons]
      cases hrec : kerning_record l with
      | error e =>
        refine ⟨[Event.getline .kerning (some l)], rfl, ?_⟩
        intro ev hev
        exact ⟨some l, by simpa using hev⟩
      | ok rec =>
        obtain ⟨first, second, amount⟩ := rec
        simp only
        obtain ⟨evs, hlog, hall⟩ := ih (insert_kerning kernings first second amount)
          { lines := rest, log := log ++ [Event.getline .kerning (some l)] }
        refine ⟨Event.getline .kerning (some l) :: evs, by simpa using hlog, ?_⟩
        intro ev hev
        rcases List.mem_cons.mp hev with rfl | hev'
        · exact ⟨some l, rfl⟩
        · exact hall ev hev'

/-- C25: after a valid info line and a valid common line, the input actions
of `parse` go on with, for each page line whose `// page` block succeeds and
whose page loads, the `std::getline` of that line followed at once by one call
of `read_data` with the file of that line and the `scaleW` and `scaleH` of
the common line, in the order of the lines. Then either every declared page
is loaded and all that follows is `std::getline` calls at the chars, char,
kernings and kerning positions; or a `std::getline` finds the end of the
stream, or the `// page` block of the next line throws, and `parse` throws;
or the `read_data` call of the next line throws `e`, and then `parse` throws
`e` and this call is its last input action: no other call of `read_data`, no
chars or char line; or `page_list.resize` has not obtained its storage, and
then `parse` throws `std::bad_alloc` before the page loop: it reads no page
line and calls `read_data` for none. -/
theorem parse_page_loads (env : Env) (l1 l2 : Str) (rest : List Str) (info : InfoFields)
    (common : CommonFields)
    (hinfo : info_record l1 = .ok info) (hcommon : common_record l2 = .ok common) :
    ∃ plines pages tail,
      plines <+: rest ∧
      List.Forall₂ (page_line_ok env common.scaleW common.scaleH) plines pages ∧
      (parse env (Stream.of_lines (l1 :: l2 :: rest))).2.log =
        [Event.getline .info (some l1), Event.getline .common (some l2)] ++
          page_events common.scaleW common.scaleH plines pages ++ tail ∧
      (((plines.length : Int) = common.pages ∧
          ∀ ev ∈ tail, ∃ site r, ev = Event.getline site r ∧
            (site = .chars ∨ site = .char ∨ site = .kernings ∨ site = .kerning)) ∨
       ((plines.length : Int) < common.pages ∧ plines = rest ∧
          tail = [Event.getline .page none] ∧
          (parse env (Stream.of_lines (l1 :: l2 :: rest))).1 = .error failed_to_read_a_line) ∨
       (∃ l e, (plines.length : Int) < common.pages ∧ plines ++ [l] <+: rest ∧
          tail = [Event.getline .page (some l)] ∧ page_record l = .error e ∧
          (parse env (Stream.of_lines (l1 :: l2 :: rest))).1 = .error e) ∨
       (∃ l id file e, (plines.length : Int) < common.pages ∧ plines ++ [l] <+: rest ∧
          tail = [Event.getline .page (some l),
            Event.read_data file common.scaleW common.scaleH] ∧
          page_record l = .ok (id, file) ∧
          Page.read_data env file common.scaleW common.scaleH = .error e ∧
          (parse env (Stream.of_lines (l1 :: l2 :: rest))).1 = .error e) ∨
       (resize_ok env.page_list_storage common.pages.toNat = false ∧
          plines = [] ∧ tail = [] ∧
          (parse env (Stream.of_lines (l1 :: l2 :: rest))).1 = .error .bad_alloc)) := by
  have hpos : 0 < common.pages := (common_record_checks l2 common hcommon).2.2.2.1
  by_cases hps : resize_ok env.page_list_storage common.pages.toNat = true
  swap
  · simp only [Bool.not_eq_true] at hps
    have hparse : parse env (Stream.of_lines (l1 :: l2 :: rest)) =
        (.error .bad_alloc,
          { lines := rest,
            log := [Event.getline .info (some l1), Event.getline .common (some l2)] }) := by
      unfold parse
      simp only [Stream.of_lines, getline_cons, hinfo, hcommon, List.nil_append,
        List.singleton_append, hps, Bool.not_false, if_true]
    rw [hparse]
    exact ⟨[], [], [], List.nil_prefix, List.Forall₂.nil, by simp [page_events],
      Or.inr (Or.inr (Or.inr (Or.inr ⟨hps, rfl, rfl, rfl⟩)))⟩
  cases hrp : read_pages env common.scaleW common.scaleH common.pages.toNat
      { lines := rest,
        log := [Event.getline .info (some l1), Event.getline .common (some l2)] } with
  | mk pres s3 =>
  cases pres with
  | error e =>
    have hparse : parse env (Stream.of_lines (l1 :: l2 :: rest)) = (.error e, s3) := by
      unfold parse
      simp only [Stream.of_lines, getline_cons, hinfo, hcommon, List.nil_append,
        List.singleton_append, hps, Bool.not_true, Bool.false_eq_true, if_false, hrp]
    rw [hparse]
    obtain ⟨plines, pages, tail, hlen, hall, hlog, hcase⟩ := read_pages_fail env _ _ _ _ _ _ hrp
    simp only at hlog hcase
    refine ⟨plines, pages, tail, ?_, hall, hlog, Or.inr ?_⟩
    · rcases hcase with ⟨_, _, h3⟩ | ⟨l, _, _, h3⟩ | ⟨l, id, file, _, _, _, h3⟩
      · rw [h3]
      · exact ⟨_, h3.symm⟩
      · exact ⟨_, h3.symm⟩
    · rcases hcase with ⟨h1, h2, h3⟩ | ⟨l, h1, h2, h3⟩ | ⟨l, id, file, h1, h2, h3, h4⟩
      · exact Or.inl ⟨by omega, h3.symm, h1, by rw [h2]⟩
      · exact Or.inr (Or.inl ⟨l, e, by omega, ⟨s3.lines, by rw [h3]; simp⟩, h1, h2, rfl⟩)
      · exact Or.inr (Or.inr (Or.inl ⟨l, id, file, e, by omega, ⟨s3.lines, by rw [h4]; simp⟩,
          h1, h2, h3, rfl⟩))
  | ok pages =>
    obtain ⟨plines, hpn, hplines, hpages, hplog⟩ := read_pages_inv env _ _ _ _ _ _ hrp
    obtain ⟨lines3, log3⟩ := s3
    simp only at hplines hplog
    have key : ∀ (r : Except Error FntInfo × Stream) (tail : List Event),
        parse env (Stream.of_lines (l1 :: l2 :: rest)) = r →
        r.2.log = log3 ++ tail →
        (∀ ev ∈ tail, ∃ site r, ev = Event.getline site r ∧
            (site = .chars ∨ site = .char ∨ site = .kernings ∨ site = .kerning)) →
        ∃ plines pages tail,
          plines <+: rest ∧
          List.Forall₂ (page_line_ok env common.scaleW common.scaleH) plines pages ∧
          (parse env (Stream.of_lines (l1 :: l2 :: rest))).2.log =
            [Event.getline .info (some l1), Event.getline .common (some l2)] ++
              page_events common.scaleW common.scaleH plines pages ++ tail ∧
          (((plines.length : Int) = common.pages ∧
              ∀ ev ∈ tail, ∃ site r, ev = Event.getline site r ∧
                (site = .chars ∨ site = .char ∨ site = .kernings ∨ site = .kerning)) ∨
           ((plines.length : Int) < common.pages ∧ plines = rest ∧
              tail = [Event.getline .page none] ∧
              (parse env (Stream.of_lines (l1 :: l2 :: rest))).1 =
                .error failed_to_read_a_line) ∨
           (∃ l e, (plines.length : Int) < common.pages ∧ plines ++ [l] <+: rest ∧
              tail = [Event.getline .page (some l)] ∧ page_record l = .error e ∧
              (parse env (Stream.of_lines (l1 :: l2 :: rest))).1 = .error e) ∨
           (∃ l id file e, (plines.length : Int) < common.pages ∧ plines ++ [l] <+: rest ∧
              tail = [Event.getline .page (some l),
                Event.read_data file common.scaleW common.scaleH] ∧
              page_record l = .ok (id, file) ∧
              Page.read_data env file common.scaleW common.scaleH = .error e ∧
              (parse env (Stream.of_lines (l1 :: l2 :: rest))).1 = .error e) ∨
           (resize_ok env.page_list_storage common.pages.toNat = false ∧
              plines = [] ∧ tail = [] ∧
              (parse env (Stream.of_lines (l1 :: l2 :: rest))).1 = .error .bad_alloc)) := by
      intro r tail hr hlog hshape
      exact ⟨plines, pages, tail, ⟨lines3, hplines.symm⟩, hpages, by rw [hr, hlog, hplog],
        Or.inl ⟨by omega, hshape⟩⟩
    cases lines3 with
    | nil =>
      refine key (.error failed_to_read_a_line,
        { lines := [], log := log3 ++ [Event.getline .chars none] })
        [Event.getline .chars none] ?_ rfl
        (by intro ev hev; exact ⟨.chars, none, by simpa using hev, Or.inl rfl⟩)
      unfold parse
      simp only [Stream.of_lines, getline_cons, hinfo, hcommon, List.nil_append,
        List.singleton_append, hps, Bool.not_true, Bool.false_eq_true, if_false, hrp, getline_nil]
    | cons lc lines4 =>
    have hone : ∀ ev ∈ [Event.getline .chars (some lc)], ∃ site r, ev = Event.getline site r ∧
        (site = Site.chars ∨ site = .char ∨ site = .kernings ∨ site = .kerning) := by
      intro ev hev; exact ⟨.chars, some lc, by simpa using hev, Or.inl rfl⟩
    cases hcount : chars_record lc with
    | error e =>
      refine key (.error e,
        { lines := lines4, log := log3 ++ [Event.getline .chars (some lc)] })
        [Event.getline .chars (some lc)] ?_ rfl hone
      unfold parse
      simp only [Stream.of_lines, getline_cons, hinfo, hcommon, List.nil_append,
        List.singleton_append, hps, Bool.not_true, Bool.false_eq_true, if_false, hrp, hcount]
    | ok count =>
    by_cases hneg : count < 0
    · refine key (.error (.length_error "vector::_M_default_append".toList),
        { lines := lines4, log := log3 ++ [Event.getline .chars (some lc)] })
        [Event.getline .chars (some lc)] ?_ rfl hone
      unfold parse
      simp only [Stream.of_lines, getline_cons, hinfo, hcommon, List.nil_append,
        List.singleton_append, hps, Bool.not_true, Bool.false_eq_true, if_false, hrp, hcount, hneg, if_true]
    · by_cases hcs : resize_ok env.chars_storage count.toNat = true
      swap
      · simp only [Bool.not_eq_true] at hcs
        refine key (.error .bad_alloc,
          { lines := lines4, log := log3 ++ [Event.getline .chars (some lc)] })
          [Event.getline .chars (some lc)] ?_ rfl hone
        unfold parse
        simp only [Stream.of_lines, getline_cons, hinfo, hcommon, List.nil_append,
          List.singleton_append, hps, Bool.not_true, Bool.false_eq_true, if_false, hrp, hcount,
          hneg, hcs, Bool.not_false, if_true]
      obtain ⟨cevs, hclog, hcall⟩ := read_chars_events env count.toNat
        { lines := lines4, log := log3 ++ [Event.getline .chars (some lc)] }
      cases hrc : read_chars env count.toNat
          { lines := lines4, log := log3 ++ [Event.getline .chars (some lc)] } with
      | mk cres s5 =>
      rw [hrc] at hclog
      simp only at hclog
      have hshape5 : ∀ ev ∈ Event.getline .chars (some lc) :: cevs, ∃ site r,
          ev = Event.getline site r ∧
          (site = Site.chars ∨ site = .char ∨ site = .kernings ∨ site = .kerning) := by
        intro ev hev
        rcases List.mem_cons.mp hev with rfl | hev'
        · exact ⟨.chars, some lc, rfl, Or.inl rfl⟩
        · obtain ⟨r, hr⟩ := hcall ev hev'
          exact ⟨.char, r, hr, Or.inr (Or.inl rfl)⟩
      cases cres with
      | error e =>
        refine key (.error e, s5) (Event.getline .chars (some lc) :: cevs) ?_
          (by simp [hclog]) hshape5
        unfold parse
        simp only [Stream.of_lines, getline_cons, hinfo, hcommon, List.nil_append,
          List.singleton_append, hps, Bool.not_true, Bool.false_eq_true, if_false, hrp, hcount, hneg, if_false, hcs, hrc]
      | ok chars =>
      obtain ⟨lines5, log5⟩ := s5
      simp only at hclog
      cases lines5 with
      | nil =>
        refine key (.ok (document_of info common pages chars []),
          { lines := [], log := log5 ++ [Event.getline .kernings none] })
          (Event.getline .chars (some lc) :: cevs ++ [Event.getline .kernings none]) ?_
          (by simp [hclog]) ?_
        · unfold parse
          simp only [Stream.of_lines, getline_cons, hinfo, hcommon, List.nil_append,
            List.singleton_append, hps, Bool.not_true, Bool.false_eq_true, if_false, hrp, hcount, hneg, if_false, hcs, hrc, getline_nil]
          rfl
        · intro ev hev
          rcases List.mem_append.mp hev with hev' | hev'
          · exact hshape5 ev hev'
          · exact ⟨.kernings, none, by simpa using hev', Or.inr (Or.inr (Or.inl rfl))⟩
      | cons lk lines6 =>
      have hshape6 : ∀ ev ∈ Event.getline .chars (some lc) :: cevs ++
          [Event.getline .kernings (some lk)], ∃ site r,
          ev = Event.getline site r ∧
          (site = Site.chars ∨ site = .char ∨ site = .kernings ∨ site = .kerning) := by
        intro ev hev
        rcases List.mem_append.mp hev with hev' | hev'
        · exact hshape5 ev hev'
        · exact ⟨.kernings, some lk, by simpa using hev', Or.inr (Or.inr (Or.inl rfl))⟩
      cases hkcount : kernings_record lk with
      | error e =>
        refine key (.error e,
          { lines := lines6, log := log5 ++ [Event.getline .kernings (some lk)] })
          (Event.getline .chars (some lc) :: cevs ++ [Event.getline .kernings (some lk)]) ?_
          (by simp [hclog]) hshape6
        unfold parse
        simp only [Stream.of_lines, getline_cons, hinfo, hcommon, List.nil_append,
          List.singleton_append, hps, Bool.not_true, Bool.false_eq_true, if_false, hrp, hcount, hneg, if_false, hcs, hrc, hkcount]
      | ok kcount =>
      obtain ⟨kevs, hklog, hkall⟩ := read_kernings_events kcount.toNat []
        { lines := lines6, log := log5 ++ [Event.getline .kernings (some lk)] }
      cases hrk : read_kernings kcount.toNat []
          { lines := lines6, log := log5 ++ [Event.getline .kernings (some lk)] } with
      | mk kres s7 =>
      rw [hrk] at hklog
      simp only at hklog
      have hshape7 : ∀ ev ∈ Event.getline .chars (some lc) :: cevs ++
          [Event.getline .kernings (some lk)] ++ kevs, ∃ site r,
          ev = Event.getline site r ∧
          (site = Site.chars ∨ site = .char ∨ site = .kernings ∨ site = .kerning) := by
        intro ev hev
        rcases List.mem_append.mp hev with hev' | hev'
        · exact hshape6 ev hev'
        · obtain ⟨r, hr⟩ := hkall ev hev'
          exact ⟨.kerning, r, hr, Or.inr (Or.inr (Or.inr rfl))⟩
      cases kres with
      | error e =>
        refine key (.error e, s7) (Event.getline .chars (some lc) :: cevs ++
          [Event.getline .kernings (some lk)] ++ kevs) ?_ (by simp [hklog, hclog]) hshape7
        unfold parse
        simp only [Stream.of_lines, getline_cons, hinfo, hcommon, List.nil_append,
          List.singleton_append, hps, Bool.not_true, Bool.false_eq_true, if_false, hrp, hcount, hneg, if_false, hcs, hrc, hkcount, hrk]
      | ok kernings =>
        refine key (.ok (document_of info common pages chars kernings), s7)
          (Event.getline .chars (some lc) :: cevs ++
          [Event.getline .kernings (some lk)] ++ kevs) ?_ (by simp [hklog, hclog]) hshape7
        unfold parse
        simp only [Stream.of_lines, getline_cons, hinfo, hcommon, List.nil_append,
          List.singleton_append, hps, Bool.not_true, Bool.false_eq_true, if_false, hrp, hcount, hneg, if_false, hcs, hrc, hkcount, hrk]
        rfl
/-- An instance of `parse_page_loads`: the second of two declared pages names
a file that cannot be opened; the first page is loaded, the call for the
second throws, and nothing is read after it. -/
theorem parse_page_loads_witness :
    info_record info_line = .ok info_line_fields ∧
    common_record two_page_common_line = .ok two_page_common ∧
    parse sample_env (Stream.of_lines (info_line :: two_page_common_line :: missing_page_lines)) =
      (.error (.runtime_error "Failed to open page: \"b.dds".toList),
        { lines := ["chars count=1".toList, sample_char_line],
          log := [Event.getline .info (some info_line),
            Event.getline .common (some two_page_common_line),
            Event.getline .page (some sample_page_line),
            Event.read_data "a.dds".toList 2 2,
            Event.getline .page (some "page id=1 file=\"b.dds\"".toList),
            Event.read_data "b.dds".toList 2 2] }) ∧
    ∃ plines pages tail,
      plines <+: missing_page_lines ∧
      List.Forall₂ (page_line_ok sample_env two_page_common.scaleW two_page_common.scaleH)
        plines pages ∧
      (parse sample_env
          (Stream.of_lines (info_line :: two_page_common_line :: missing_page_lines))).2.log =
        [Event.getline .info (some info_line),
          Event.getline .common (some two_page_common_line)] ++
          page_events two_page_common.scaleW two_page_common.scaleH plines pages ++ tail := by
  refine ⟨by decide!, by decide!, by decide!, ?_⟩
  obtain ⟨plines, pages, tail, h1, h2, h3, _⟩ :=
    parse_page_loads sample_env info_line two_page_common_line missing_page_lines
      info_line_fields two_page_common (by decide!) (by decide!)
  exact ⟨plines, pages, tail, h1, h2, h3⟩

/-! ## The order of the kerning map -/

theorem mem_map_assign {β : Type} (m : List (Nat × β)) (key : Nat) (value : β)
    (e : Nat × β) (h : e ∈ map_assign m key value) : e = (key, value) ∨ e ∈ m := by
  induction m with
  | nil => simp [map_assign] at h; exact Or.inl h
  | cons a rest ih =>
    obtain ⟨k, v⟩ := a
    unfold map_assign at h
    by_cases h1 : key < k
    · simp only [h1, if_true, List.mem_cons] at h
      rcases h with h | h | h
      · exact Or.inl h
      · exact Or.inr (by simp [h])
      · exact Or.inr (by simp [h])
    · by_cases h2 : key = k
      · subst h2
        simp only [lt_irrefl, if_false, if_true, List.mem_cons] at h
        rcases h with h | h
        · exact Or.inl h
        · exact Or.inr (by simp [h])
      · simp only [h1, h2, if_false, List.mem_cons] at h
        rcases h with h | h
        · exact Or.inr (by simp [h])
        · rcases ih h with h' | h'
          · exact Or.inl h'
          · exact Or.inr (by simp [h'])

theorem map_assign_ne_nil {β : Type} (m : List (Nat × β)) (key : Nat) (value : β) :
    map_assign m key value ≠ [] := by
  cases m with
  | nil => simp [map_assign]
  | cons a rest =>
    obtain ⟨k, v⟩ := a
    unfold map_assign
    split
    · simp
    · split <;> simp

/-- `m[key] = value` keeps a `std::map` in ascending key order. -/
theorem map_assign_ascending {β : Type} (m : List (Nat × β)) (key : Nat) (value : β)
    (h : ascending_keys m) : ascending_keys (map_assign m key value) := by
  induction m with
  | nil => simp [map_assign, ascending_keys]
  | cons a rest ih =>
    obtain ⟨k, v⟩ := a
    unfold ascending_keys at h ih ⊢
    rw [List.pairwise_cons] at h
    obtain ⟨hhead, htail⟩ := h
    unfold map_assign
    by_cases h1 : key < k
    · simp only [h1, if_true]
      refine List.pairwise_cons.mpr ⟨?_, List.pairwise_cons.mpr ⟨hhead, htail⟩⟩
      intro b hb
      rcases List.mem_cons.mp hb with rfl | hb'
      · exact h1
      · exact lt_trans h1 (hhead b hb')
    · by_cases h2 : key = k
      · subst h2
        simp only [lt_irrefl, if_false, if_true]
        exact List.pairwise_cons.mpr ⟨hhead, htail⟩
      · simp only [h1, h2, if_false]
        refine List.pairwise_cons.mpr ⟨?_, ih htail⟩
        intro b hb
        rcases mem_map_assign rest key value b hb with rfl | hb'
        · show k < key
          omega
        · exact hhead b hb'

/-- In a map in ascending key order, the entries are what `find` gives. -/
theorem mem_iff_map_find {β : Type} (m : List (Nat × β)) (h : ascending_keys m)
    (e : Nat × β) : e ∈ m ↔ map_find m e.1 = some e.2 := by
  induction m with
  | nil => simp [map_find]
  | cons a rest ih =>
    obtain ⟨k, v⟩ := a
    unfold ascending_keys at h ih
    rw [List.pairwise_cons] at h
    obtain ⟨hhead, htail⟩ := h
    unfold map_find
    by_cases hk : k = e.1
    · simp only [hk, if_true, Option.some.injEq, List.mem_cons]
      constructor
      · rintro (h1 | h1)
        · rw [h1]
        · have := hhead e h1
          simp only at this
          omega
      · intro h1
        left
        exact Prod.ext rfl h1.symm
    · simp only [hk, if_false, List.mem_cons]
      rw [← ih htail]
      constructor
      · rintro (h1 | h1)
        · exact absurd (by rw [h1]) hk
        · exact h1
      · intro h1; exact Or.inr h1

theorem to_char32_lt (v : Int) : to_char32 v < 4294967296 := by
  unfold to_char32
  omega

/-- The assignment `sub_kernings[second] = amount` into the entry of `first`. -/
theorem assign_sub_ordered (kernings1 : Kernings) (f s : Nat) (amount : Int)
    (hf : f < 4294967296) (hs : s < 4294967296)
    (hasc1 : ascending_keys kernings1)
    (hall1 : ∀ e ∈ kernings1, e.1 < 4294967296 ∧ ascending_keys e.2 ∧
      (e.2 ≠ [] ∨ e.1 = f) ∧ ∀ x ∈ e.2, x.1 < 4294967296) :
    kernings_ordered
      (map_assign kernings1 f (map_assign ((map_find kernings1 f).getD []) s amount)) := by
  have hsub : ascending_keys ((map_find kernings1 f).getD []) ∧
      ∀ x ∈ (map_find kernings1 f).getD [], x.1 < 4294967296 := by
    cases hfind : map_find kernings1 f with
    | none => simp [ascending_keys]
    | some sub =>
      have hmem : (f, sub) ∈ kernings1 := (mem_iff_map_find kernings1 hasc1 (f, sub)).mpr hfind
      have := hall1 _ hmem
      exact ⟨this.2.1, this.2.2.2⟩
  have hnew : ∀ x ∈ map_assign ((map_find kernings1 f).getD []) s amount,
      x.1 < 4294967296 := by
    intro x hx
    rcases mem_map_assign _ _ _ _ hx with rfl | hx'
    · exact hs
    · exact hsub.2 x hx'
  refine ⟨map_assign_ascending _ _ _ hasc1, ?_⟩
  intro e he
  have hfind := (mem_iff_map_find _ (map_assign_ascending _ _ _ hasc1) e).mp he
  rw [map_find_assign] at hfind
  by_cases hkey : e.1 = f
  · rw [if_pos hkey] at hfind
    simp only [Option.some.injEq] at hfind
    rw [← hfind]
    exact ⟨by rw [hkey]; exact hf, map_assign_ascending _ _ _ hsub.1, map_assign_ne_nil _ _ _,
      hnew⟩
  · rw [if_neg hkey] at hfind
    have hmem : e ∈ kernings1 := (mem_iff_map_find kernings1 hasc1 e).mpr hfind
    have := hall1 e hmem
    refine ⟨this.1, this.2.1, ?_, this.2.2.2⟩
    rcases this.2.2.1 with h1 | h1
    · exact h1
    · exact absurd h1 hkey

/-- The insertion of the kerning loop keeps the kerning map ordered. -/
theorem insert_kerning_ordered (kernings : Kernings) (first second amount : Int)
    (h : kernings_ordered kernings) :
    kernings_ordered (insert_kerning kernings first second amount) := by
  obtain ⟨hasc, hall⟩ := h
  unfold insert_kerning
  cases hfind : map_find kernings (to_char32 first) with
  | none =>
    simp only
    apply assign_sub_ordered _ _ _ _ (to_char32_lt first) (to_char32_lt second)
      (map_assign_ascending _ _ _ hasc)
    intro e he
    rcases mem_map_assign _ _ _ _ he with rfl | he'
    · exact ⟨to_char32_lt first, by simp [ascending_keys], Or.inr rfl, by simp⟩
    · have := hall e he'
      exact ⟨this.1, this.2.1, Or.inl this.2.2.1, this.2.2.2⟩
  | some sub =>
    simp only
    apply assign_sub_ordered _ _ _ _ (to_char32_lt first) (to_char32_lt second) hasc
    intro e he
    have := hall e he
    exact ⟨this.1, this.2.1, Or.inl this.2.2.1, this.2.2.2⟩

theorem kernings_ordered_nil : kernings_ordered [] := by
  simp [kernings_ordered, ascending_keys]

/-- The kerning loop keeps the kerning map ordered. -/
theorem insert_kernings_ordered (records : List (Int × Int × Int)) :
    ∀ kernings : Kernings, kernings_ordered kernings →
      kernings_ordered (insert_kernings kernings records) := by
  induction records with
  | nil => intro kernings h; exact h
  | cons r rs ih =>
    intro kernings h
    rw [insert_kernings_cons]
    exact ih _ (insert_kerning_ordered kernings r.1 r.2.1 r.2.2 h)

/-- The kerning map of a document that `parse` returns is ordered. -/
theorem parse_ok_kernings_ordered (env : Env) (lines : List Str) (d : FntInfo) (st : Stream)
    (h : parse env (Stream.of_lines lines) = (.ok d, st)) : kernings_ordered d.kernings := by
  obtain ⟨l1, l2, plines, lc, clines, info, common, pages, count, chars, _, _, _, _, _, _, _,
    _, hcase⟩ := parse_ok_inv env lines d st h
  rcases hcase with ⟨_, hd, _⟩ | ⟨_, _, _, records, _, _, _, _, hd, _⟩
  · rw [hd]
    exact kernings_ordered_nil
  · rw [hd]
    exact insert_kernings_ordered records [] kernings_ordered_nil

theorem ascending_keys_nodup {β : Type} (m : List (Nat × β)) (h : ascending_keys m) :
    (m.map Prod.fst).Nodup := by
  unfold ascending_keys at h
  rw [List.Nodup, List.pairwise_map]
  exact h.imp (fun hab => Nat.ne_of_lt hab)

/-- C26: in the kerning block emitted for a document that `parse` returns,
the groups written by the outer loop are in strictly ascending order of their
left code point, and inside each group the lines written by the inner loop
are in strictly ascending order of their right code point; the code points
are numbers below `2 ^ 32`. So no left code point is written twice, and under
one left code point no right code point is written twice. -/
theorem kerning_block_ascending (env : Env) (lines : List Str) (d : FntInfo) (st : Stream)
    (h : parse env (Stream.of_lines lines) = (.ok d, st)) :
    kerning_block d =
      kerning_block_head ++ (kerning_initializer d).flatMap kerning_lines ++
        kerning_block_tail ∧
    (∀ kerning : Nat × SubKernings, kerning_lines kerning =
      "\t\t\x7b".toList ++ endl ++ "\t\t\t".toList ++ decimal kerning.1 ++ ",".toList ++ endl ++
        "\t\t\t\x7b".toList ++ endl ++ kerning.2.flatMap sub_kerning_line ++
        "\t\t\t\x7d".toList ++ endl ++ "\t\t\x7d,".toList ++ endl) ∧
    (kerning_initializer d).Pairwise (fun a b => a.1 < b.1) ∧
    (∀ e ∈ kerning_initializer d, e.1 < 4294967296 ∧
      e.2.Pairwise (fun a b => a.1 < b.1) ∧ ∀ s ∈ e.2, s.1 < 4294967296) ∧
    ((kerning_initializer d).map Prod.fst).Nodup ∧
    ∀ e ∈ kerning_initializer d, (e.2.map Prod.fst).Nodup := by
  obtain ⟨hasc, hall⟩ := parse_ok_kernings_ordered env lines d st h
  refine ⟨rfl, fun _ => rfl, hasc, ?_, ascending_keys_nodup _ hasc, ?_⟩
  · intro e he
    have := hall e he
    exact ⟨this.1, this.2.1, this.2.2.2⟩
  · intro e he
    exact ascending_keys_nodup _ (hall e he).2.1

/-- An instance of `kerning_block_ascending`: the kerning lines of
`sample_lines` come in the order 97, 0, 97 of their left code point; the block
has the group of 0 before the group of 97. -/
theorem kerning_block_ascending_witness :
    parse sample_env (Stream.of_lines sample_lines) = (.ok sample_document, sample_stream_after) ∧
    kerning_initializer sample_document = [(0, [(98, 7)]), (97, [(98, 0)])] ∧
    (kerning_initializer sample_document).Pairwise (fun a b => a.1 < b.1) :=
  ⟨parse_sample_lines, rfl,
    (kerning_block_ascending sample_env sample_lines sample_document sample_stream_after
      parse_sample_lines).2.2.1⟩
/-! ## The kerning map does not depend on the order of the kerning lines -/

/-- Two maps in ascending key order with the same `find` are equal. -/
theorem map_ext {β : Type} (m1 m2 : List (Nat × β)) (h1 : ascending_keys m1)
    (h2 : ascending_keys m2) (h : ∀ k, map_find m1 k = map_find m2 k) : m1 = m2 := by
  induction m1 generalizing m2 with
  | nil =>
    cases m2 with
    | nil => rfl
    | cons b r2 =>
      have := h b.1
      simp [map_find] at this
  | cons a r1 ih =>
    cases m2 with
    | nil =>
      have := h a.1
      simp [map_find] at this
    | cons b r2 =>
      obtain ⟨k1, v1⟩ := a
      obtain ⟨k2, v2⟩ := b
      unfold ascending_keys at h1 h2 ih
      rw [List.pairwise_cons] at h1 h2
      obtain ⟨hh1, ht1⟩ := h1
      obtain ⟨hh2, ht2⟩ := h2
      have hnone1 : ∀ k, k ≤ k1 → map_find r1 k = none := by
        intro k hk
        cases hf : map_find r1 k with
        | none => rfl
        | some v =>
          have hm := (mem_iff_map_find r1 ht1 (k, v)).mpr hf
          have := hh1 _ hm
          simp only at this
          omega
      have hnone2 : ∀ k, k ≤ k2 → map_find r2 k = none := by
        intro k hk
        cases hf : map_find r2 k with
        | none => rfl
        | some v =>
          have hm := (mem_iff_map_find r2 ht2 (k, v)).mpr hf
          have := hh2 _ hm
          simp only at this
          omega
      have hk : k1 = k2 := by
        rcases Nat.lt_trichotomy k1 k2 with hlt | heq | hgt
        · have := h k1
          simp only [map_find, if_true] at this
          rw [if_neg (by omega), hnone2 k1 (by omega)] at this
          cases this
        · exact heq
        · have := h k2
          simp only [map_find, if_true] at this
          rw [if_neg (by omega), hnone1 k2 (by omega)] at this
          cases this
      subst hk
      have hv : v1 = v2 := by
        have := h k1
        simpa [map_find] using this
      subst hv
      have hrest : r1 = r2 := by
        apply ih r2 ht1 ht2
        intro k
        by_cases hkk : k1 = k
        · subst hkk
          rw [hnone1 k1 (le_refl _), hnone2 k1 (le_refl _)]
        · have := h k
          simpa [map_find, hkk] using this
      rw [hrest]

/-- Two ordered kerning maps that hold the same amount for every pair are
equal. -/
theorem kernings_ext (k1 k2 : Kernings) (h1 : kernings_ordered k1) (h2 : kernings_ordered k2)
    (h : ∀ f s, kerning_amount k1 f s = kerning_amount k2 f s) : k1 = k2 := by
  have hsome : ∀ (k : Kernings), kernings_ordered k → ∀ f sub, map_find k f = some sub →
      ascending_keys sub ∧ ∃ s a, map_find sub s = some a := by
    intro k hk f sub hf
    have hm := (mem_iff_map_find k hk.1 (f, sub)).mpr hf
    have hw := hk.2 _ hm
    refine ⟨hw.2.1, ?_⟩
    cases hsub : sub with
    | nil => exact absurd hsub hw.2.2.1
    | cons x xs => exact ⟨x.1, x.2, by simp [map_find]⟩
  apply map_ext k1 k2 h1.1 h2.1
  intro f
  cases hf1 : map_find k1 f with
  | none =>
    cases hf2 : map_find k2 f with
    | none => rfl
    | some sub2 =>
      obtain ⟨_, s, a, hsa⟩ := hsome k2 h2 f sub2 hf2
      have := h f s
      simp [kerning_amount, hf1, hf2, hsa] at this
  | some sub1 =>
    cases hf2 : map_find k2 f with
    | none =>
      obtain ⟨_, s, a, hsa⟩ := hsome k1 h1 f sub1 hf1
      have := h f s
      simp [kerning_amount, hf1, hf2, hsa] at this
    | some sub2 =>
      have e : sub1 = sub2 := by
        apply map_ext sub1 sub2 (hsome k1 h1 f sub1 hf1).1 (hsome k2 h2 f sub2 hf2).1
        intro s
        have := h f s
        simpa [kerning_amount, hf1, hf2] using this
      rw [e]

/-- The amount that the kerning map holds for a pair after the kerning loop. -/
theorem kerning_amount_insert_kernings (records : List (Int × Int × Int)) :
    ∀ (kernings : Kernings) (f s : Nat),
      kerning_amount (insert_kernings kernings records) f s =
        (last_amount records f s).or (kerning_amount kernings f s) := by
  induction records with
  | nil => intro kernings f s; simp [insert_kernings, last_amount]
  | cons r rs ih =>
    intro kernings f s
    rw [insert_kernings_cons, ih, last_amount_cons, kerning_amount_insert]
    cases last_amount rs f s with
    | some a => simp
    | none =>
      simp only [Option.none_or]
      split <;> simp

/-- `std::stoi` returns a value of `int`. -/
theorem stoi_range (str : Str) (v : Int) (h : stoi str = .ok v) : INT_MIN ≤ v ∧ v ≤ INT_MAX := by
  unfold stoi at h
  cases hs : scan_number str with
  | none => rw [hs] at h; cases h
  | some p =>
    obtain ⟨negative, magnitude⟩ := p
    rw [hs] at h
    simp only at h
    by_cases hc : (if negative = true then -(magnitude : Int) else (magnitude : Int)) < INT_MIN ∨
        INT_MAX < (if negative = true then -(magnitude : Int) else (magnitude : Int))
    · rw [if_pos hc] at h
      cases h
    · rw [if_neg hc] at h
      simp only [Except.ok.injEq] at h
      rw [← h]
      have := not_or.mp hc
      exact ⟨not_lt.mp this.1, not_lt.mp this.2⟩

theorem to_char32_inj (a b : Int) (ha : INT_MIN ≤ a ∧ a ≤ INT_MAX)
    (hb : INT_MIN ≤ b ∧ b ≤ INT_MAX) (h : to_char32 a = to_char32 b) : a = b := by
  unfold to_char32 at h
  unfold INT_MIN INT_MAX at ha hb
  omega

/-- The `first` and `second` of a kerning line are values of `int`. -/
theorem kerning_record_range (line : Str) (r : Int × Int × Int)
    (h : kerning_record line = .ok r) :
    (INT_MIN ≤ r.1 ∧ r.1 ≤ INT_MAX) ∧ (INT_MIN ≤ r.2.1 ∧ r.2.1 ≤ INT_MAX) := by
  unfold kerning_record at h
  simp only [bind, Except.bind] at h
  split at h
  · cases h
  · split at h
    · cases h
    · split at h
      · cases h
      · split at h
        · cases h
        · rename_i h1 _ _ h2 _ _ h3
          simp only [Except.ok.injEq] at h
          rw [← h]
          exact ⟨stoi_range _ _ h1, stoi_range _ _ h2⟩

/-- For records no two of which have the same pair, the amount of a pair does
not depend on the order of the records. -/
theorem last_amount_perm (rs1 rs2 : List (Int × Int × Int)) (hperm : rs1.Perm rs2)
    (hrange : ∀ r ∈ rs1, (INT_MIN ≤ r.1 ∧ r.1 ≤ INT_MAX) ∧ (INT_MIN ≤ r.2.1 ∧ r.2.1 ≤ INT_MAX))
    (hnodup : (rs1.map fun r => (r.1, r.2.1)).Nodup) (f s : Nat) :
    last_amount rs1 f s = last_amount rs2 f s := by
  unfold last_amount
  have hp := hperm.filter (fun r => decide (to_char32 r.1 = f ∧ to_char32 r.2.1 = s))
  generalize hL1 : rs1.filter (fun r => decide (to_char32 r.1 = f ∧ to_char32 r.2.1 = s)) = L1
    at hp
  generalize rs2.filter (fun r => decide (to_char32 r.1 = f ∧ to_char32 r.2.1 = s)) = L2 at hp
  have hnd : (L1.map fun r => (r.1, r.2.1)).Nodup := by
    rw [← hL1]
    exact hnodup.sublist (List.Sublist.map _ (List.filter_sublist _))
  have hsame : ∀ a ∈ L1, ∀ b ∈ L1, (a.1, a.2.1) = (b.1, b.2.1) := by
    intro a ha b hb
    rw [← hL1] at ha hb
    obtain ⟨hma, hpa⟩ := List.mem_filter.mp ha
    obtain ⟨hmb, hpb⟩ := List.mem_filter.mp hb
    simp only [decide_eq_true_eq] at hpa hpb
    have e1 := to_char32_inj a.1 b.1 (hrange a hma).1 (hrange b hmb).1 (by rw [hpa.1, hpb.1])
    have e2 := to_char32_inj a.2.1 b.2.1 (hrange a hma).2 (hrange b hmb).2
      (by rw [hpa.2, hpb.2])
    rw [e1, e2]
  have hlen : L1 = L2 := by
    cases L1 with
    | nil => exact (List.Perm.nil_eq hp)
    | cons a l =>
      cases l with
      | nil => exact (List.singleton_perm.mp hp)
      | cons b l' =>
        exfalso
        have e := hsame a (by simp) b (by simp)
        simp only [List.map_cons, List.nodup_cons, List.mem_cons, not_or] at hnd
        exact hnd.1.1 e
  rw [hlen]

/-- The records of kerning lines that are all valid are the records of the
lines, in order. -/
theorem records_of_forall₂ (klines : List Str) (records : List (Int × Int × Int))
    (h : List.Forall₂ (fun l r => kerning_record l = .ok r) klines records) :
    records = klines.filterMap fun line => (kerning_record line).toOption := by
  induction h with
  | nil => rfl
  | @cons l r ls rs hhead _ ih =>
    rw [List.filterMap_cons, hhead, ih]
    rfl

theorem forall₂_of_records (klines : List Str)
    (h : ∀ l ∈ klines, ∃ r, kerning_record l = .ok r) :
    List.Forall₂ (fun l r => kerning_record l = .ok r) klines
      (klines.filterMap fun line => (kerning_record line).toOption) := by
  induction klines with
  | nil => exact List.Forall₂.nil
  | cons l ls ih =>
    obtain ⟨r, hr⟩ := h l (by simp)
    rw [List.filterMap_cons, hr]
    exact List.Forall₂.cons hr (ih (fun l' hl' => h l' (by simp [hl'])))
/-- The kerning lines that a successful `parse` has read, the lines it has
left, and the lines before the kerning lines. -/
theorem parse_ok_kerning_split (env : Env) (lines : List Str) (d : FntInfo) (st : Stream)
    (h : parse env (Stream.of_lines lines) = (.ok d, st)) :
    (lines_read .kerning st.log = [] ∧ st.lines = []) ∨
    ∃ before kcount info common pages chars records,
      lines = before ++ lines_read .kerning st.log ++ st.lines ∧
      (lines_read .kerning st.log).length = kcount ∧
      List.Forall₂ (fun l r => kerning_record l = .ok r) (lines_read .kerning st.log) records ∧
      d = document_of info common pages chars (insert_kernings [] records) ∧
      ∀ (klines : List Str) (records' : List (Int × Int × Int)) (rest : List Str),
        klines.length = kcount →
        List.Forall₂ (fun l r => kerning_record l = .ok r) klines records' →
        ∃ st', parse env (Stream.of_lines (before ++ klines ++ rest)) =
          (.ok (document_of info common pages chars (insert_kernings [] records')), st') ∧
          lines_read .kerning st'.log = klines ∧ st'.lines = rest := by
  obtain ⟨l1, l2, plines, lc, clines, info, common, pages, count, chars, hinfo, hcommon, hpn,
    hpages, hcount, hnn, hcn, hchars, hps, hcs, hcase⟩ := parse_ok_inv_full env lines d st h
  have hhead : lines_read .kerning
      (head_events l1 l2 common.scaleW common.scaleH plines pages lc clines) = [] := by
    simp only [head_events, lines_read_append, lines_read_line_events,
      lines_read_page_events .kerning _ _ plines pages (forall₂_length_eq hpages)]
    simp [lines_read]
  rcases hcase with ⟨_, _, hst⟩ | ⟨lk, klines, kcount, records, hkcount, hkn, hrecords, hl,
    hd, hlog⟩
  · left
    rw [hst]
    refine ⟨?_, rfl⟩
    simp only [lines_read_append, hhead, lines_read_other .kerning .kernings _ (by decide),
      List.append_nil]
  · right
    have hread : lines_read .kerning st.log = klines := by
      rw [hlog]
      simp only [lines_read_append, hhead, lines_read_other .kerning .kernings _ (by decide),
        lines_read_line_events, if_true, List.nil_append]
    refine ⟨l1 :: l2 :: (plines ++ lc :: (clines ++ [lk])), kcount.toNat, info, common, pages,
      chars, records, ?_, ?_, ?_, hd, ?_⟩
    · rw [hread]
      conv_lhs => rw [hl]
      simp
    · rw [hread, hkn]
    · rw [hread]
      exact hrecords
    · intro klines' records' rest hlen hrec'
      have hrun := parse_run_kernings env l1 l2 lc lk plines clines klines' rest info common
        pages count chars kcount records' hinfo hcommon hpn hpages hcount hnn hcn hchars hkcount
        hlen hrec' hps hcs
      refine ⟨{ lines := rest,
                log := head_events l1 l2 common.scaleW common.scaleH plines pages lc clines ++
                  [Event.getline .kernings (some lk)] ++ line_events .kerning klines' },
        ?_, ?_, rfl⟩
      · rw [← hrun]
        congr 2
        simp
      · simp only [lines_read_append, hhead, lines_read_other .kerning .kernings _ (by decide),
          lines_read_line_events, if_true, List.nil_append]

/-- C27: take a metrics stream on which `parse` succeeds, made of the lines
`before`, then the kerning lines that `parse` reads, then the lines it leaves
unread; let no two of its kerning lines have the same `(first, second)`.
Then on the stream with the kerning lines in any other order `parse` succeeds
as well and returns the same document, so `export_to_cpp` writes the same
text for both. -/
theorem export_kerning_order (env : Env) (before klines1 klines2 rest : List Str)
    (d1 : FntInfo) (st1 : Stream) (file_name : Str) (is_open : Bool)
    (h1 : parse env (Stream.of_lines (before ++ klines1 ++ rest)) = (.ok d1, st1))
    (hread : lines_read .kerning st1.log = klines1)
    (hrest : st1.lines = rest)
    (hperm : klines1.Perm klines2)
    (hnodup : ((kerning_records st1.log).map fun r => (r.1, r.2.1)).Nodup) :
    ∃ d2 st2, parse env (Stream.of_lines (before ++ klines2 ++ rest)) = (.ok d2, st2) ∧
      lines_read .kerning st2.log = klines2 ∧
      d2 = d1 ∧
      export_to_cpp d2 file_name is_open = export_to_cpp d1 file_name is_open := by
  rcases parse_ok_kerning_split env _ d1 st1 h1 with ⟨hk, _⟩ | ⟨before', kcount, info,
    common, pages, chars, records, hl, hlen, hrecords, hd, hrun⟩
  · rw [hread] at hk
    subst hk
    have : klines2 = [] := List.Perm.eq_nil (hperm.symm)
    subst this
    exact ⟨d1, st1, h1, hread, rfl, rfl⟩
  · rw [hread, hrest] at hl
    have hb : before = before' := List.append_cancel_right (List.append_cancel_right hl)
    subst hb
    rw [hread] at hlen hrecords
    have hrec1 := records_of_forall₂ klines1 records hrecords
    have hall2 : ∀ l ∈ klines2, ∃ r, kerning_record l = .ok r := by
      intro l hl2
      obtain ⟨r, _, hr⟩ := forall₂_of_mem_left hrecords l (hperm.symm.subset hl2)
      exact ⟨r, hr⟩
    obtain ⟨st2, hp2, hread2, _⟩ := hrun klines2 _ rest (by rw [← hlen]; exact hperm.length_eq.symm)
      (forall₂_of_records klines2 hall2)
    have hpermr : records.Perm (klines2.filterMap fun line => (kerning_record line).toOption) := by
      rw [hrec1]
      exact hperm.filterMap _
    have hrange : ∀ r ∈ records, (INT_MIN ≤ r.1 ∧ r.1 ≤ INT_MAX) ∧
        (INT_MIN ≤ r.2.1 ∧ r.2.1 ≤ INT_MAX) := by
      intro r hr
      obtain ⟨l, _, hlr⟩ := forall₂_of_mem_right hrecords r hr
      exact kerning_record_range l r hlr
    have hnd : (records.map fun r => (r.1, r.2.1)).Nodup := by
      have : kerning_records st1.log = records := by
        unfold kerning_records
        rw [hread, ← hrec1]
      rw [← this]
      exact hnodup
    have hk : insert_kernings [] (klines2.filterMap fun line => (kerning_record line).toOption) =
        insert_kernings [] records := by
      apply kernings_ext _ _ (insert_kernings_ordered _ [] kernings_ordered_nil)
        (insert_kernings_ordered _ [] kernings_ordered_nil)
      intro f s
      rw [kerning_amount_insert_kernings, kerning_amount_insert_kernings,
        last_amount_perm records _ hpermr hrange hnd f s]
    have hd2 : document_of info common pages chars
        (insert_kernings [] (klines2.filterMap fun line => (kerning_record line).toOption)) =
        d1 := by
      rw [hk, hd]
    rw [hd2] at hp2
    exact ⟨d1, st2, hp2, hread2, rfl, rfl⟩

/-- An instance of `export_kerning_order`: two kerning lines, swapped. -/
theorem export_kerning_order_witness :
    parse sample_env (Stream.of_lines (sample_head_lines ++ kerning_lines_in_order ++ [])) =
      (.ok two_kerning_document, two_kerning_stream_after) ∧
    kerning_lines_in_order.Perm kerning_lines_swapped ∧
    ∃ d2 st2,
      parse sample_env (Stream.of_lines (sample_head_lines ++ kerning_lines_swapped ++ [])) =
        (.ok d2, st2) ∧
      lines_read .kerning st2.log = kerning_lines_swapped ∧
      d2 = two_kerning_document ∧
      export_to_cpp d2 "font.cpp".toList true =
        export_to_cpp two_kerning_document "font.cpp".toList true :=
  ⟨by decide!, List.Perm.swap _ _ _,
    export_kerning_order sample_env sample_head_lines kerning_lines_in_order
      kerning_lines_swapped [] two_kerning_document two_kerning_stream_after
      "font.cpp".toList true (by decide!) (by decide!) (by decide!) (List.Perm.swap _ _ _)
      (by decide!)⟩
/-! ## The lines of the glyph block -/

theorem text_lines_line (body rest : Str) (h : '\n' ∉ body) :
    text_lines (body ++ '\n' :: rest) = body :: text_lines rest := by
  induction body with
  | nil => simp [text_lines]
  | cons c cs ih =>
    have hc : c ≠ '\n' := fun e => h (by simp [e])
    have hcs : '\n' ∉ cs := fun e => h (by simp [e])
    have e : text_lines (c :: (cs ++ '\n' :: rest)) =
        match text_lines (cs ++ '\n' :: rest) with
        | [] => [[c]]
        | line :: lines => (c :: line) :: lines := by
      simp only [text_lines, hc, if_false]
    rw [List.cons_append, e, ih hcs]

theorem digitChar_ne_newline : ∀ k, k < 16 → Nat.digitChar k ≠ '\n' := by decide

theorem toDigitsCore_no_newline (base : Nat) (hb : 0 < base ∧ base ≤ 16) :
    ∀ (fuel n : Nat) (ds : List Char), '\n' ∉ ds →
      '\n' ∉ Nat.toDigitsCore base fuel n ds := by
  intro fuel
  induction fuel with
  | zero => intro n ds h; simpa [Nat.toDigitsCore] using h
  | succ fuel ih =>
    intro n ds h
    have hd : Nat.digitChar (n % base) ≠ '\n' :=
      digitChar_ne_newline _ (lt_of_lt_of_le (Nat.mod_lt _ hb.1) hb.2)
    have hds : '\n' ∉ Nat.digitChar (n % base) :: ds := by
      intro hm
      rcases List.mem_cons.mp hm with e | e
      · exact hd e.symm
      · exact h e
    unfold Nat.toDigitsCore
    simp only
    split
    · exact hds
    · exact ih _ _ hds

theorem decimal_no_newline (v : Nat) : '\n' ∉ decimal v := by
  unfold decimal Nat.toDigits
  exact toDigitsCore_no_newline 10 (by decide) _ _ _ (by simp)

theorem decimal_int_no_newline (v : Int) : '\n' ∉ decimal_int v := by
  unfold decimal_int
  split
  · intro hm
    rcases List.mem_cons.mp hm with e | e
    · exact absurd e (by decide)
    · exact decimal_no_newline _ e
  · exact decimal_no_newline _

theorem glyph_entry_text_no_newline (e : Nat × GlyphInfo) : '\n' ∉ glyph_entry_text e := by
  unfold glyph_entry_text
  simp only [List.flatMap_cons, List.flatMap_nil, List.mem_append, not_or, List.append_nil]
  have h1 := decimal_no_newline e.1
  have hi := decimal_int_no_newline
  refine ⟨⟨⟨⟨by decide, h1⟩, by decide⟩, ?_⟩, by decide⟩
  refine ⟨⟨hi _, by decide⟩, ⟨hi _, by decide⟩, ⟨hi _, by decide⟩, ⟨hi _, by decide⟩,
    ⟨hi _, by decide⟩, ⟨hi _, by decide⟩, ⟨hi _, by decide⟩, hi _, by decide⟩

theorem glyph_line_eq (ch : CharInfo) :
    glyph_line ch = glyph_entry_text (glyph_entry ch) ++ endl := by
  simp [glyph_line, glyph_entry_text, glyph_entry, List.append_assoc]

/-- C28: the glyph block is the opening text, the glyph lines and the closing
text; the glyph lines are one line for each element of the glyph list, equal
code points included, in the order of the list; the line of a glyph is the
entry text of its code point and of its `page`, `x`, `y`, `width`, `height`,
`xoffset`, `yoffset`, `xadvance`, which the entry has as `page_id`, `page_x`,
`page_y`, `width`, `height`, `offset_x`, `offset_y`, `advance_x`: the members
of the emitted `struct GlyphInfo` in the order of their declaration. -/
theorem glyph_block_entries (d : FntInfo) :
    glyph_block d = glyph_block_head ++ d.chars.flatMap glyph_line ++ glyph_block_tail ∧
    text_lines (d.chars.flatMap glyph_line) =
      d.chars.map (fun ch => glyph_entry_text (glyph_entry ch)) ∧
    (text_lines (d.chars.flatMap glyph_line)).length = d.chars.length ∧
    (∀ ch : CharInfo, glyph_line ch = glyph_entry_text (glyph_entry ch) ++ endl ∧
      glyph_entry ch =
        (ch.id, { page_id := ch.page, page_x := ch.x, page_y := ch.y, width := ch.width,
                  height := ch.height, offset_x := ch.xoffset, offset_y := ch.yoffset,
                  advance_x := ch.xadvance })) ∧
    glyph_info_struct =
      "struct GlyphInfo".toList ++ endl ++ "\x7b".toList ++ endl ++
        glyph_info_members.flatMap (fun m => "\tint ".toList ++ m.toList ++ ";".toList ++ endl) ++
        "\x7d; // GlyphInfo".toList ++ endl ++ endl ++ endl := by
  have hlines : text_lines (d.chars.flatMap glyph_line) =
      d.chars.map (fun ch => glyph_entry_text (glyph_entry ch)) := by
    induction d.chars with
    | nil => rfl
    | cons ch chs ih =>
      rw [List.flatMap_cons, glyph_line_eq, List.map_cons, ← ih]
      simp only [endl, List.append_assoc, List.singleton_append]
      exact text_lines_line _ _ (glyph_entry_text_no_newline _)
  refine ⟨rfl, hlines, by rw [hlines, List.length_map], fun ch => ⟨glyph_line_eq ch, rfl⟩, ?_⟩
  decide
/-! ## The page block -/

/-- The octet loop within the bounds of `data`: the texts of its iterations,
one after the other. -/
theorem octet_loop_eq (data : List Nat) (data_size : Int) :
    ∀ (left j : Nat), j + left ≤ data.length →
      octet_loop data data_size left j =
        some ((List.range' j left).flatMap fun i => octet_text data_size i (data.getD i 0)) := by
  intro left
  induction left with
  | zero => intro j _; rfl
  | succ left ih =>
    intro j hj
    have hlt : j < data.length := by omega
    have hget : data.get? j = some (data.getD j 0) := by
      simp [List.getD, List.getElem?_eq_getElem hlt]
    unfold octet_loop
    rw [hget, ih (j + 1) (by omega), List.range'_succ, List.flatMap_cons]

theorem intercalate_cons_flatMap {α : Type} (sep a : List α) (l : List (List α)) :
    List.intercalate sep (a :: l) = a ++ l.flatMap (fun x => sep ++ x) := by
  induction l generalizing a with
  | nil => simp [List.intercalate]
  | cons b l ih =>
    have := ih b
    simp only [List.intercalate, List.intersperse, List.flatten_cons, List.flatMap_cons] at this ⊢
    rw [this]
    simp

/-- A run of texts each of which ends with a space, but the last, which ends
with `e`: the space can be moved to the front of each text. -/
theorem spaces_to_front (F g : Nat → Str) (e : Str) :
    ∀ (t i : Nat), (∀ x, i ≤ x → x < i + t → F x = g x ++ [' ']) →
      F (i + t) = g (i + t) ++ e →
      [' '] ++ (List.range' i (t + 1)).flatMap F =
        (List.range' i (t + 1)).flatMap (fun x => [' '] ++ g x) ++ e := by
  intro t
  induction t with
  | zero =>
    intro i _ hlast
    simp only [List.range'_succ, List.range', List.flatMap_cons, List.flatMap_nil,
      List.append_nil]
    rw [show F i = g i ++ e from hlast]
    simp
  | succ t ih =>
    intro i hmid hlast
    rw [List.range'_succ, List.flatMap_cons, List.flatMap_cons, hmid i (le_refl _) (by omega)]
    have := ih (i + 1) (fun x h1 h2 => hmid x (by omega) (by omega))
      (by rw [show i + 1 + t = i + (t + 1) by omega]; exact hlast)
    simp only [List.append_assoc]
    rw [this]

theorem octet_text_inner (n : Nat) (x o : Nat) (h0 : x % 11 ≠ 0) (h10 : x % 11 ≠ 10)
    (hlast : x + 1 ≠ n) : octet_text (n : Int) x o = octet_literal o ++ [' '] := by
  have hl : ¬ ((x : Int) + 1 = (n : Int)) := by omega
  simp [octet_text, octet_indent, octet_separator, octets_per_line, h0, h10, hl]

theorem octet_text_first (n : Nat) (x o : Nat) (h0 : x % 11 = 0) (hlast : x + 1 ≠ n) :
    octet_text (n : Int) x o = "\t\t\t".toList ++ octet_literal o ++ [' '] := by
  have hl : ¬ ((x : Int) + 1 = (n : Int)) := by omega
  have h10 : x % 11 ≠ 10 := by omega
  simp [octet_text, octet_indent, octet_separator, octets_per_line, h0, h10, hl]

theorem octet_text_end (n : Nat) (x o : Nat) (h0 : x % 11 ≠ 0)
    (hend : x % 11 = 10 ∨ x + 1 = n) : octet_text (n : Int) x o = octet_literal o ++ endl := by
  simp only [octet_text, octet_indent, octet_separator, octets_per_line, h0, if_false,
    List.nil_append]
  by_cases hl : (x : Int) + 1 = (n : Int)
  · simp [hl]
  · have : x % 11 = 10 := by omega
    simp [hl, this]

theorem octet_text_single (n : Nat) (x o : Nat) (h0 : x % 11 = 0) (hend : x + 1 = n) :
    octet_text (n : Int) x o = "\t\t\t".toList ++ octet_literal o ++ endl := by
  have hl : (x : Int) + 1 = (n : Int) := by omega
  simp [octet_text, octet_indent, octet_separator, octets_per_line, h0, hl]

/-- The iterations of the octet loop for line `k`. -/
theorem octet_line (data : List Nat) (n k : Nat) (hk : 11 * k < n) :
    (List.range' (11 * k) (min 11 (n - 11 * k))).flatMap
        (fun i => octet_text (n : Int) i (data.getD i 0)) =
      page_data_line data n k ++ endl := by
  obtain ⟨m, hm⟩ : ∃ m, min 11 (n - 11 * k) = m + 1 := ⟨min 11 (n - 11 * k) - 1, by omega⟩
  unfold page_data_line line_literals
  rw [hm, List.range'_succ, List.flatMap_cons, List.map_cons, intercalate_cons_flatMap,
    List.flatMap_map]
  cases m with
  | zero =>
    simp only [List.range', List.flatMap_nil, List.append_nil]
    rw [octet_text_single n _ _ (by omega) (by omega)]
  | succ t =>
    rw [octet_text_first n _ _ (by omega) (by omega)]
    have := spaces_to_front (fun i => octet_text (n : Int) i (data.getD i 0))
      (fun i => octet_literal (data.getD i 0)) endl t (11 * k + 1)
      (fun x h1 h2 => octet_text_inner n x _ (by omega) (by omega) (by omega))
      (octet_text_end n _ _ (by omega) (by omega))
    simp only [List.append_assoc] at this ⊢
    rw [this]

/-- The iterations of the octet loop from line `k` on. -/
theorem octet_lines_from (data : List Nat) (n : Nat) :
    ∀ (r k : Nat), k + r = (n + 10) / 11 →
      (List.range' (11 * k) (n - 11 * k)).flatMap
          (fun i => octet_text (n : Int) i (data.getD i 0)) =
        (List.range' k r).flatMap (fun k' => page_data_line data n k' ++ endl) := by
  intro r
  induction r with
  | zero =>
    intro k hk
    have : n - 11 * k = 0 := by omega
    rw [this]
    rfl
  | succ r ih =>
    intro k hk
    have hlt : 11 * k < n := by omega
    have hsplit : List.range' (11 * k) (n - 11 * k) =
        List.range' (11 * k) (min 11 (n - 11 * k)) ++
          List.range' (11 * (k + 1)) (n - 11 * (k + 1)) := by
      have := List.range'_append (11 * k) (min 11 (n - 11 * k)) (n - 11 * (k + 1)) 1
      rw [show n - 11 * (k + 1) + min 11 (n - 11 * k) = n - 11 * k by omega] at this
      rw [← this]
      by_cases hfull : 11 * (k + 1) ≤ n
      · rw [show 11 * k + 1 * min 11 (n - 11 * k) = 11 * (k + 1) by omega]
      · rw [show n - 11 * (k + 1) = 0 by omega]
        rfl
    rw [hsplit, List.flatMap_append, octet_line data n k hlt, List.range'_succ,
      List.flatMap_cons, ih (k + 1) (by omega)]

/-- The text of the octet loop is the text of its data lines. -/
theorem octet_loop_lines (data : List Nat) (n : Nat) (hn : n ≤ data.length) :
    octet_loop data (n : Int) n 0 =
      some ((List.range ((n + 10) / 11)).flatMap fun k => page_data_line data n k ++ endl) := by
  rw [octet_loop_eq data n n 0 (by omega), List.range_eq_range']
  have := octet_lines_from data n ((n + 10) / 11) 0 (by omega)
  simp only [Nat.mul_zero, Nat.sub_zero] at this
  rw [this]
theorem octet_literal_mod (o : Nat) : octet_literal o = octet_literal (o % 256) := by
  simp [octet_literal, Nat.mod_mod]

theorem octet_literal_byte : ∀ o, o < 256 →
    octet_literal o = ['0', 'x', hex_digit_upper (o / 16), hex_digit_upper (o % 16), ','] ∧
    decode_literal (octet_literal o) = some o := by decide!

theorem octet_literal_no_newline (o : Nat) : '\n' ∉ octet_literal o := by
  rw [octet_literal_mod, (octet_literal_byte (o % 256) (Nat.mod_lt _ (by decide))).1]
  have h : ∀ k, k < 16 → hex_digit_upper k ≠ '\n' := by decide
  have h1 := h (o % 256 / 16) (by omega)
  have h2 := h (o % 256 % 16) (by omega)
  simp only [List.mem_cons, List.not_mem_nil, or_false, not_or]
  exact ⟨by decide, by decide, fun e => h1 e.symm, fun e => h2 e.symm, by decide⟩

theorem page_data_line_no_newline (data : List Nat) (n k : Nat) :
    '\n' ∉ page_data_line data n k := by
  unfold page_data_line line_literals
  generalize List.range' (11 * k) (min 11 (n - 11 * k)) = js
  intro hm
  rcases List.mem_append.mp hm with h | h
  · exact absurd h (by decide)
  · cases js with
    | nil => simp [List.intercalate] at h
    | cons j js =>
      rw [List.map_cons, intercalate_cons_flatMap] at h
      rcases List.mem_append.mp h with h' | h'
      · exact octet_literal_no_newline _ h'
      · rw [List.mem_flatMap] at h'
        obtain ⟨x, hx, hx'⟩ := h'
        obtain ⟨j', _, rfl⟩ := List.mem_map.mp hx
        rcases List.mem_append.mp hx' with h'' | h''
        · simp at h''
        · exact octet_literal_no_newline _ h''

theorem text_lines_flatMap {α : Type} (f : α → Str) (l : List α)
    (h : ∀ x ∈ l, '\n' ∉ f x) :
    text_lines (l.flatMap fun x => f x ++ endl) = l.map f := by
  induction l with
  | nil => rfl
  | cons a l ih =>
    rw [List.flatMap_cons, List.map_cons, ← ih (fun x hx => h x (by simp [hx]))]
    simp only [endl, List.append_assoc, List.singleton_append]
    exact text_lines_line _ _ (h a (by simp))

/-- C30: the octet loop on a page of at least `n` bytes writes
`(n + 10) / 11` data lines, that is `n / 11` rounded up: the text is the
data lines of the page, each followed by `std::endl`; a data line is the
indentation and the literals of the line with one space between two of them,
so it ends with the comma of its last literal; the text of the page is
these lines between the line that opens the page and the line that closes
it; line `k` starts with the
literal of byte `11 * k` and holds 11 literals, but for the last line, which
holds the literals left, at least one and at most 11. The indentation is
written before the literal of byte `j` if and only if `j mod 11 = 0`. -/
theorem page_block_layout (data : List Nat) (n : Nat) (hn : n ≤ data.length) :
    octet_loop data (n : Int) n 0 =
      some ((List.range ((n + 10) / 11)).flatMap fun k => page_data_line data n k ++ endl) ∧
    (∀ (page_list : List Page) (i : Nat) (page : Page),
      page_list.get? i = some page → page.data = data →
      page_text page_list (n : Int) i =
        some ("\t\t\x7b".toList ++ endl ++
          ((List.range ((n + 10) / 11)).flatMap fun k => page_data_line data n k ++ endl) ++
          "\t\t\x7d,".toList ++ endl)) ∧
    text_lines ((List.range ((n + 10) / 11)).flatMap fun k => page_data_line data n k ++ endl) =
      (List.range ((n + 10) / 11)).map (page_data_line data n) ∧
    (n ≤ 11 * ((n + 10) / 11) ∧ 11 * ((n + 10) / 11) < n + 11) ∧
    (∀ k, k < (n + 10) / 11 →
      page_data_line data n k =
        "\t\t\t".toList ++ List.intercalate [' '] (line_literals data n k) ∧
      line_literals data n k =
        (List.range' (11 * k) (line_literals data n k).length).map
          (fun j => octet_literal (data.getD j 0)) ∧
      (k + 1 < (n + 10) / 11 → (line_literals data n k).length = 11) ∧
      (k + 1 = (n + 10) / 11 → (line_literals data n k).length = n - 11 * k ∧
        1 ≤ (line_literals data n k).length ∧ (line_literals data n k).length ≤ 11)) ∧
    ∀ j, octet_indent j = if j % 11 = 0 then "\t\t\t".toList else [] := by
  refine ⟨octet_loop_lines data n hn, ?_,
    text_lines_flatMap _ _ (fun k _ => page_data_line_no_newline data n k),
    ⟨by omega, by omega⟩, ?_, fun j => rfl⟩
  · intro page_list i page hget hdata
    unfold page_text
    rw [hget]
    simp only [Int.toNat_ofNat, hdata, octet_loop_lines data n hn]
  intro k hk
  have hlen : (line_literals data n k).length = min 11 (n - 11 * k) := by
    simp [line_literals]
  refine ⟨rfl, ?_, ?_, ?_⟩
  · rw [hlen]
    rfl
  · intro h
    rw [hlen]
    omega
  · intro h
    rw [hlen]
    omega

/-- An instance of `page_block_layout`: a page of sixteen bytes has two data
lines, of eleven and of five literals. -/
theorem page_block_layout_witness :
    16 ≤ sixteen_bytes.length ∧
    octet_loop sixteen_bytes 16 16 0 =
      some (("\t\t\t0x00, 0x11, 0x22, 0x33, 0x44, 0x55, 0x66, 0x77, 0x88, 0x99, 0xAA,\n" ++
        "\t\t\t0xBB, 0xCC, 0xDD, 0xEE, 0xFF,\n").toList) ∧
    octet_loop sixteen_bytes ((16 : Nat) : Int) 16 0 =
      some ((List.range ((16 + 10) / 11)).flatMap
        fun k => page_data_line sixteen_bytes 16 k ++ endl) :=
  ⟨by decide, by decide!, (page_block_layout sixteen_bytes 16 (by decide)).1⟩
/-- C22 (counterexample): on `negative_kernings_lines`, whose kernings line
declares the count -1, `parse` succeeds; after the kernings line it has read
no kerning line, and the number of kerning lines read is not the declared
count. -/
theorem parse_negative_kernings_count :
    kernings_record "kernings count=-1".toList = .ok (-1) ∧
    ∃ st, parse sample_env (Stream.of_lines negative_kernings_lines) =
        (.ok no_kerning_document, st) ∧
      st.lines = [sample_kerning_line] ∧
      lines_read .kernings st.log = ["kernings count=-1".toList] ∧
      lines_read .kerning st.log = [] ∧
      ¬ ((lines_read .kerning st.log).length : Int) = -1 :=
  ⟨by decide!, (parse sample_env (Stream.of_lines negative_kernings_lines)).2, by decide!,
    by decide!, by decide!, by decide!, by decide!⟩

/-! ## The metadata block -/

/-- The info line of a stream behind a value of the `// info` block. -/
theorem info_record_checks (line : Str) (info : InfoFields)
    (h : info_record line = .ok info) :
    ∃ parts, parse_line line "info".toList = .ok parts ∧
      stoi (parts.at "size") = .ok info.size ∧ info.size < 0 ∧
      info.stretchH = 100 ∧ info.outline = 0 := by
  unfold info_record at h
  simp only [bind, Except.bind] at h
  repeat' split at h
  all_goals try cases h
  rename_i parts hparts _ size hsize _ stretchH _ _ outline _ h1 h2 h3
  refine ⟨parts, hparts, hsize, ?_, ?_, ?_⟩
  · dsimp only; omega
  · dsimp only; simpa using h2
  · dsimp only; simpa using h3

/-- The `pages` value of a common line behind a value of the `// common`
block. -/
theorem common_record_pages (line : Str) (common : CommonFields)
    (h : common_record line = .ok common) :
    ∃ parts, parse_line line "common".toList = .ok parts ∧
      stoi (parts.at "pages") = .ok common.pages := by
  unfold common_record at h
  simp only [bind, Except.bind] at h
  repeat' split at h
  all_goals try cases h
  rename_i parts hparts _ _ _ _ _ _ _ _ _ _ _ _ _ pages hpages _ _ _ _ _ _ _ _ _ _ _ _ _ _ _ _ _ _ _ _
  exact ⟨parts, hparts, hpages⟩
/-- C31: the metadata block holds one initializer line, between the text
that opens `font_info` and the text that closes it; the line lists the six
values `size`, `lineHeight`, `base`, `page_list.size()`, `scaleW`, `scaleH`,
in this order, with a comma and a space between two of them; the emitted
`struct FontInfo` declares `font_size`, `line_height`, `base_offset`,
`page_count`, `page_width`, `page_height` in this order. For a document that
`parse` returns, `size` is the number that `std::stoi` gives for the `size`
value of the info line, it is negative, and the number of pages is the
`pages` number of the common line. -/
theorem metadata_initializer (d : FntInfo) :
    metadata_block d =
      file_head ++ font_info_struct ++ glyph_info_struct ++ font_struct ++ get_info_head ++
        font_info_initializer d ++ get_info_tail ∧
    font_info_initializer d =
      "\t\t".toList ++
        List.intercalate ", ".toList
          [decimal_int d.size, decimal_int d.lineHeight, decimal_int d.base,
            decimal d.page_list.length, decimal_int d.scaleW, decimal_int d.scaleH] ++
        endl ∧
    font_info_struct =
      "struct FontInfo".toList ++ endl ++ "\x7b".toList ++ endl ++
        font_info_members.flatMap (fun m => "\tint ".toList ++ m.toList ++ ";".toList ++ endl) ++
        "\x7d; // FontInfo".toList ++ endl ++ endl ∧
    ∀ (env : Env) (lines : List Str) (st : Stream),
      parse env (Stream.of_lines lines) = (.ok d, st) →
      ∃ l1 l2 rest parts1 parts2,
        lines = l1 :: l2 :: rest ∧
        parse_line l1 "info".toList = .ok parts1 ∧
        stoi (parts1.at "size") = .ok d.size ∧ d.size < 0 ∧
        parse_line l2 "common".toList = .ok parts2 ∧
        stoi (parts2.at "pages") = .ok d.pages ∧
        (d.page_list.length : Int) = d.pages := by
  refine ⟨rfl, ?_, by decide, ?_⟩
  · simp [font_info_initializer, List.intercalate, List.intersperse, List.append_assoc]
  · intro env lines st h
    obtain ⟨l1, l2, plines, lc, clines, info, common, pages, count, chars, hinfo, hcommon, hpn,
      hpages, _, _, _, _, hcase⟩ := parse_ok_inv env lines d st h
    obtain ⟨parts1, hp1, hsize, hneg, _, _⟩ := info_record_checks l1 info hinfo
    obtain ⟨parts2, hp2, hpg⟩ := common_record_pages l2 common hcommon
    have hpos : 0 < common.pages := (common_record_checks l2 common hcommon).2.2.2.1
    have hlen := forall₂_length_eq hpages
    have hd : d.size = info.size ∧ d.pages = common.pages ∧ d.page_list = pages ∧
        ∃ rest, lines = l1 :: l2 :: rest := by
      rcases hcase with ⟨hl, hd, _⟩ | ⟨_, _, _, _, _, _, _, hl, hd, _⟩ <;> rw [hd] <;>
        exact ⟨rfl, rfl, rfl, _, hl⟩
    obtain ⟨hd1, hd2, hd3, rest, hl⟩ := hd
    refine ⟨l1, l2, rest, parts1, parts2, hl, hp1, by rw [hd1]; exact hsize,
      by rw [hd1]; exact hneg, hp2, by rw [hd2]; exact hpg, ?_⟩
    rw [hd3, hd2, ← hlen, hpn]
    omega

/-- An instance of `metadata_initializer`: the initializer line of
`sample_document`, parsed from `sample_lines`. -/
theorem metadata_initializer_witness :
    parse sample_env (Stream.of_lines sample_lines) = (.ok sample_document, sample_stream_after) ∧
    font_info_initializer sample_document = "\t\t-12, 14, 11, 1, 2, 2\n".toList ∧
    ∃ l1 l2 rest parts1 parts2,
      sample_lines = l1 :: l2 :: rest ∧
      parse_line l1 "info".toList = .ok parts1 ∧
      stoi (parts1.at "size") = .ok sample_document.size ∧ sample_document.size < 0 ∧
      parse_line l2 "common".toList = .ok parts2 ∧
      stoi (parts2.at "pages") = .ok sample_document.pages ∧
      (sample_document.page_list.length : Int) = sample_document.pages :=
  ⟨parse_sample_lines, by decide!,
    (metadata_initializer sample_document).2.2.2 sample_env sample_lines sample_stream_after
      parse_sample_lines⟩
/-! ## The page loops stay inside the page list and the page data -/

theorem glyph_line_erase_chnl (ch : CharInfo) : glyph_line (erase_chnl ch) = glyph_line ch := rfl

theorem glyph_lines_congr (chars1 chars2 : List CharInfo)
    (h : chars1.map erase_chnl = chars2.map erase_chnl) :
    chars1.flatMap glyph_line = chars2.flatMap glyph_line := by
  have e : ∀ chars : List CharInfo,
      chars.flatMap glyph_line = (chars.map erase_chnl).flatMap glyph_line := by
    intro chars
    rw [List.flatMap_map]
    rfl
  rw [e chars1, e chars2, h]

theorem page_text_congr (pl1 pl2 : List Page) (data_size : Int) (i : Nat)
    (h : pl1.map (fun p => p.data) = pl2.map (fun p => p.data)) :
    page_text pl1 data_size i = page_text pl2 data_size i := by
  have hg : (pl1.get? i).map (fun p => p.data) = (pl2.get? i).map (fun p => p.data) := by
    have := congrArg (fun l => l.get? i) h
    simpa using this
  unfold page_text
  cases h1 : pl1.get? i with
  | none =>
    cases h2 : pl2.get? i with
    | none => rfl
    | some p2 => rw [h1, h2] at hg; simp at hg
  | some p1 =>
    cases h2 : pl2.get? i with
    | none => rw [h1, h2] at hg; simp at hg
    | some p2 =>
      rw [h1, h2] at hg
      simp only [Option.map_some', Option.some.injEq] at hg
      simp only [hg]

theorem page_loop_congr (pl1 pl2 : List Page) (data_size : Int)
    (h : pl1.map (fun p => p.data) = pl2.map (fun p => p.data)) :
    ∀ (left i : Nat), page_loop pl1 data_size left i = page_loop pl2 data_size left i := by
  intro left
  induction left with
  | zero => intro i; rfl
  | succ left ih =>
    intro i
    unfold page_loop
    rw [page_text_congr pl1 pl2 data_size i h, ih (i + 1)]

/-- C40: two documents with the same `size`, `lineHeight`, `base`, `pages`,
`scaleW` and `scaleH`, the same glyphs apart from their `chnl`, the same
kerning map, and page lists with the same data in the same order, make
`export_to_cpp` write the same text (or fail alike); nothing is asked of
`face`, `stretchH`, `outline`, `packed`, the four channel flags, the page ids,
the page files and the glyph `chnl` values. The text of the page loop for
index `i` is made of the data of `page_list[i]` alone. -/
theorem export_text_depends (d1 d2 : FntInfo)
    (hsize : d1.size = d2.size) (hline : d1.lineHeight = d2.lineHeight)
    (hbase : d1.base = d2.base) (hpages : d1.pages = d2.pages)
    (hW : d1.scaleW = d2.scaleW) (hH : d1.scaleH = d2.scaleH)
    (hchars : d1.chars.map erase_chnl = d2.chars.map erase_chnl)
    (hkernings : d1.kernings = d2.kernings)
    (hdata : d1.page_list.map (fun p => p.data) = d2.page_list.map (fun p => p.data)) :
    export_text d1 = export_text d2 ∧
    (∀ (file_name : Str) (is_open : Bool),
      export_to_cpp d1 file_name is_open = export_to_cpp d2 file_name is_open) ∧
    ∀ (page_list : List Page) (data_size : Int) (i : Nat) (page : Page),
      page_list.get? i = some page →
      page_text page_list data_size i =
        match octet_loop page.data data_size data_size.toNat 0 with
        | none => none
        | some octets =>
          some ("\t\t\x7b".toList ++ endl ++ octets ++ "\t\t\x7d,".toList ++ endl) := by
  have hlen : d1.page_list.length = d2.page_list.length := by
    have := congrArg List.length hdata
    simpa using this
  have hds : export_data_size d1 = export_data_size d2 := by
    unfold export_data_size
    rw [hW, hH]
  have hmeta : metadata_block d1 = metadata_block d2 := by
    unfold metadata_block font_info_initializer
    rw [hsize, hline, hbase, hlen, hW, hH]
  have hglyph : glyph_block d1 = glyph_block d2 := by
    unfold glyph_block
    rw [glyph_lines_congr _ _ hchars]
  have hkern : kerning_block d1 = kerning_block d2 := by
    unfold kerning_block
    rw [hkernings]
  have hpage : page_block d1 = page_block d2 := by
    unfold page_block page_block_head
    rw [hds, hpages, hlen, page_loop_congr _ _ _ hdata]
  have htext : export_text d1 = export_text d2 := by
    unfold export_text
    rw [hmeta, hglyph, hkern, hpage]
  refine ⟨htext, ?_, ?_⟩
  · intro file_name is_open
    unfold export_to_cpp
    rw [htext]
  · intro page_list data_size i page hget
    unfold page_text
    rw [hget]

/-- An instance of `export_text_depends`: `sample_document` and
`relabelled_document`. -/
theorem export_text_depends_witness :
    sample_document.face ≠ relabelled_document.face ∧
    sample_document.page_list.map (fun p => p.id) ≠
      relabelled_document.page_list.map (fun p => p.id) ∧
    sample_document.chars ≠ relabelled_document.chars ∧
    export_text sample_document = export_text relabelled_document :=
  ⟨by decide, by decide, by decide,
    (export_text_depends sample_document relabelled_document rfl rfl rfl rfl rfl rfl
      (by decide) rfl (by decide)).1⟩
/-! ## `is_pow2` on the values of `int` -/

theorem log2_int_le (n : Nat) (h : (n : Int) ≤ INT_MAX) : Nat.log 2 n ≤ 30 := by
  unfold INT_MAX at h
  have hn : n < 2 ^ 31 := by
    have : (n : Int) < 2147483648 := by omega
    have h2 : n < 2147483648 := by exact_mod_cast this
    simpa using h2
  by_cases h0 : n = 0
  · simp [h0]
  · have := Nat.log_lt_of_lt_pow h0 hn
    omega

/-- C34: for an `int` value `x ≥ 1`, `is_pow2 x` holds if and only if `x` is
`2 ^ k` for some `k` from 0 to 30; `is_pow2 x` is false for each negative `x`;
the loop of `is_pow2`, given as many iterations as it needs, leaves in `power`
the integer part of the binary logarithm of `x`, which is at most 30, so that
`1 << power` is `2 ^ power`, at most `x`, a value of `int`. -/
theorem is_pow2_int (x : Int) :
    (1 ≤ x → x ≤ INT_MAX → (is_pow2 x = true ↔ ∃ k : Nat, k ≤ 30 ∧ x = 2 ^ k)) ∧
    (x < 0 → is_pow2 x = false) ∧
    (1 ≤ x → x ≤ INT_MAX →
      (∀ fuel : Nat, x.toNat ≤ fuel → is_pow2_loop fuel x 0 = Nat.log 2 x.toNat) ∧
      is_pow2_loop x.toNat x 0 = Nat.log 2 x.toNat ∧
      Nat.log 2 x.toNat ≤ 30 ∧
      (2 : Int) ^ is_pow2_loop x.toNat x 0 ≤ x ∧
      (2 : Int) ^ is_pow2_loop x.toNat x 0 ≤ INT_MAX) := by
  refine ⟨?_, is_pow2_negative x, ?_⟩
  · intro h1 h2
    rw [is_pow2_iff_of_pos x (by omega)]
    constructor
    · rintro ⟨k, hk⟩
      refine ⟨k, ?_, hk⟩
      obtain ⟨n, rfl⟩ : ∃ n : Nat, x = (n : Int) := ⟨x.toNat, by omega⟩
      have hn : n = 2 ^ k := by exact_mod_cast hk
      have := log2_int_le n h2
      rw [hn, Nat.log_pow (by decide)] at this
      exact this
    · rintro ⟨k, _, hk⟩
      exact ⟨k, hk⟩
  · intro h1 h2
    obtain ⟨n, rfl⟩ : ∃ n : Nat, x = (n : Int) := ⟨x.toNat, by omega⟩
    have hloop : ∀ fuel : Nat, n ≤ fuel → is_pow2_loop fuel (n : Int) 0 = Nat.log 2 n := by
      intro fuel hf
      rw [is_pow2_loop_eq fuel n 0 hf]
      omega
    have hpow : (2 : Int) ^ Nat.log 2 n ≤ (n : Int) := by
      have : 2 ^ Nat.log 2 n ≤ n := Nat.pow_log_le_self 2 (by omega)
      exact_mod_cast this
    simp only [Int.toNat_ofNat]
    refine ⟨hloop, hloop n (le_refl n), log2_int_le n h2, ?_, ?_⟩
    · rw [hloop n (le_refl n)]
      exact hpow
    · rw [hloop n (le_refl n)]
      exact le_trans hpow h2

/-- An instance of `is_pow2_int`: 1024 and 1023. -/
theorem is_pow2_int_witness :
    (1 : Int) ≤ 1024 ∧ (1024 : Int) ≤ INT_MAX ∧ is_pow2 1024 = true ∧
    is_pow2_loop 1024 1024 0 = 10 ∧ is_pow2 1023 = false ∧
    (is_pow2 1024 = true ↔ ∃ k : Nat, k ≤ 30 ∧ (1024 : Int) = 2 ^ k) :=
  ⟨by decide, by decide, by decide, by decide, by decide,
    (is_pow2_int 1024).1 (by decide) (by decide)⟩
/-! ## The header fields that `read_data` looks at -/

theorem byte_at_congr (env1 env2 : Env) (bytes1 bytes2 : List Nat) (offset : Nat)
    (hlt : offset < bytes1.length) (h : bytes1.get? offset = bytes2.get? offset) :
    byte_at env1 bytes1 offset = byte_at env2 bytes2 offset := by
  unfold byte_at
  rw [← h]
  have : bytes1.get? offset = some bytes1[offset] := by
    simp [List.getElem?_eq_getElem hlt]
  rw [this]

theorem read_u32_congr (env1 env2 : Env) (bytes1 bytes2 : List Nat) (offset : Nat)
    (hlt : offset + 3 < bytes1.length)
    (h : ∀ k, offset ≤ k → k < offset + 4 → bytes1.get? k = bytes2.get? k) :
    read_u32 env1 bytes1 offset = read_u32 env2 bytes2 offset := by
  unfold read_u32
  rw [byte_at_congr env1 env2 bytes1 bytes2 offset (by omega) (h _ (by omega) (by omega)),
    byte_at_congr env1 env2 bytes1 bytes2 (offset + 1) (by omega) (h _ (by omega) (by omega)),
    byte_at_congr env1 env2 bytes1 bytes2 (offset + 2) (by omega) (h _ (by omega) (by omega)),
    byte_at_congr env1 env2 bytes1 bytes2 (offset + 3) (by omega) (h _ (by omega) (by omega))]

/-- The outcome of `read_data` on two contents of a file, both of 128 bytes
or more, with the same magic tag, header size, bit count, alpha mask and
pixel bytes. -/
theorem read_data_congr (env1 env2 : Env) (file : Str) (bytes1 bytes2 : List Nat)
    (width height : Int)
    (h1 : env1.open_file file = some bytes1) (h2 : env2.open_file file = some bytes2)
    (hl1 : 128 ≤ bytes1.length) (hl2 : 128 ≤ bytes2.length)
    (hagree : ∀ k, k < 8 ∨ (88 ≤ k ∧ k < 92) ∨ (104 ≤ k ∧ k < 108) →
      bytes1.get? k = bytes2.get? k)
    (hdata : bytes1.drop 128 = bytes2.drop 128) :
    Page.read_data env1 file width height = Page.read_data env2 file width height := by
  unfold Page.read_data
  rw [h1, h2]
  simp only [read_DDS_HEADER]
  rw [read_u32_congr env1 env2 bytes1 bytes2 0 (by omega)
      (fun k _ hk => hagree k (Or.inl (by omega))),
    read_u32_congr env1 env2 bytes1 bytes2 (4 + 4 * 0) (by omega)
      (fun k _ hk => hagree k (Or.inl (by omega))),
    read_u32_congr env1 env2 bytes1 bytes2 (4 + 4 * 21) (by omega)
      (fun k hk1 hk => hagree k (Or.inr (Or.inl (by omega)))),
    read_u32_congr env1 env2 bytes1 bytes2 (4 + 4 * 25) (by omega)
      (fun k hk1 hk => hagree k (Or.inr (Or.inr (by omega)))),
    hdata]
  have e1 : ¬ bytes1.length < 128 := by omega
  have e2 : ¬ bytes2.length < 128 := by omega
  simp only [e1, e2, false_or]

/-- C39: two contents of a page file, each of 128 bytes or more, that have
the same bytes at the offsets 0 to 7, 88 to 91 and 104 to 107 and the same
bytes from offset 128 on, make `read_data` end alike for the same `width` and
`height`: with the same data or with the same exception. The other bytes of
the header, those of `dwHeight` and `dwWidth` among them, and the bytes that
the locals held before the reads can be anything. The three fields that
`read_data` compares sit at the file offsets 4, 88 and 104. -/
theorem read_data_header_fields (env1 env2 : Env) (file : Str) (bytes1 bytes2 : List Nat)
    (width height : Int)
    (h1 : env1.open_file file = some bytes1) (h2 : env2.open_file file = some bytes2)
    (hl1 : 128 ≤ bytes1.length) (hl2 : 128 ≤ bytes2.length)
    (hagree : ∀ k, k < 8 ∨ (88 ≤ k ∧ k < 92) ∨ (104 ≤ k ∧ k < 108) →
      bytes1.get? k = bytes2.get? k)
    (hdata : bytes1.drop 128 = bytes2.drop 128) :
    Page.read_data env1 file width height = Page.read_data env2 file width height ∧
    (read_DDS_HEADER env1 bytes1 4).dwSize = read_u32 env1 bytes1 4 ∧
    (read_DDS_HEADER env1 bytes1 4).dwHeight = read_u32 env1 bytes1 12 ∧
    (read_DDS_HEADER env1 bytes1 4).dwWidth = read_u32 env1 bytes1 16 ∧
    (read_DDS_HEADER env1 bytes1 4).ddspf.dwRGBBitCount = read_u32 env1 bytes1 88 ∧
    (read_DDS_HEADER env1 bytes1 4).ddspf.dwABitMask = read_u32 env1 bytes1 104 :=
  ⟨read_data_congr env1 env2 file bytes1 bytes2 width height h1 h2 hl1 hl2 hagree hdata,
    rfl, rfl, rfl, rfl, rfl⟩

/-- An instance of `read_data_header_fields`: the header of
`other_header_dds` declares a height of 64 and a width of 32; `read_data`
reads its pixels for 2 by 2 as it does from `sample_dds`. -/
theorem read_data_header_fields_witness :
    (read_DDS_HEADER other_header_env (other_header_dds [1, 2, 3, 4, 200]) 4).dwHeight = 64 ∧
    (read_DDS_HEADER other_header_env (other_header_dds [1, 2, 3, 4, 200]) 4).dwWidth = 32 ∧
    (read_DDS_HEADER sample_env (sample_dds [1, 2, 3, 4, 200]) 4).dwHeight = 0 ∧
    Page.read_data sample_env "a.dds".toList 2 2 = .ok [1, 2, 3, 4] ∧
    Page.read_data sample_env "a.dds".toList 2 2 =
      Page.read_data other_header_env "a.dds".toList 2 2 :=
  ⟨by decide!, by decide!, by decide!, by decide!,
    (read_data_header_fields sample_env other_header_env "a.dds".toList
      (sample_dds [1, 2, 3, 4, 200]) (other_header_dds [1, 2, 3, 4, 200]) 2 2
      (by decide!) (by decide!) (by decide!) (by decide!)
      (by
        intro k hk
        have hk' : k < 108 := by omega
        interval_cases k <;> first | decide! | omega)
      (by decide!)).1⟩
/-! ## What the emitted text is made from -/

theorem forall₂_imp_mem_right {α β : Type} {R S : α → β → Prop} {l1 : List α} {l2 : List β}
    (h : List.Forall₂ R l1 l2) (himp : ∀ a b, b ∈ l2 → R a b → S a b) :
    List.Forall₂ S l1 l2 := by
  induction h with
  | nil => exact List.Forall₂.nil
  | cons hhead _ ih =>
    refine List.Forall₂.cons (himp _ _ (by simp) hhead) (ih ?_)
    intro a b hb hr
    exact himp a b (by simp [hb]) hr

/-- A file that `read_data` has read to the end of the pixels has the 128
bytes of magic tag and header. -/
theorem read_data_ok_file (env : Env) (file : Str) (width height : Int) (data : List Nat)
    (h : Page.read_data env file width height = .ok data) :
    ∃ bytes, env.open_file file = some bytes ∧ 128 ≤ bytes.length := by
  unfold Page.read_data at h
  cases hf : env.open_file file with
  | none => rw [hf] at h; cases h
  | some bytes =>
    rw [hf] at h
    refine ⟨bytes, rfl, ?_⟩
    simp only at h
    repeat' split at h
    all_goals try cases h
    rename_i hlen
    omega

/-- The successful outcome of `read_data` is the same wherever the file has
the same contents. -/
theorem read_data_ok_env (env1 env2 : Env) (file : Str) (width height : Int) (data : List Nat)
    (hfile : env1.open_file file = env2.open_file file)
    (h : Page.read_data env1 file width height = .ok data) :
    Page.read_data env2 file width height = .ok data := by
  obtain ⟨bytes, hf, hlen⟩ := read_data_ok_file env1 file width height data h
  rw [← read_data_congr env1 env2 file bytes bytes width height hf (hfile ▸ hf) hlen hlen
    (fun _ _ => rfl) rfl]
  exact h

theorem char_record_env (env1 env2 : Env) (hbits : env1.ulong_bits = env2.ulong_bits)
    (line : Str) : char_record env1 line = char_record env2 line := by
  unfold char_record
  rw [hbits]

/-- C33: the text that `export_to_cpp` writes after a successful `parse` is
settled by the lines of the metrics stream and by the contents of the files
that the page records name. Let `parse` succeed on `lines` with document `d`
in the surroundings `env1`, and let `env2` hold the same contents for the
file of every page of `d.page_list` (same program, so the same width of
`unsigned long`) and give the storage for the pages and glyphs of `d`;
whatever else differs, the other files and the bytes that the locals held
before the reads, `parse` on `lines` in `env2` gives the same document and
leaves the same stream, and `export_to_cpp` with an open output writes the
same text whatever the name of the output file. -/
theorem export_text_inputs (env1 env2 : Env) (lines : List Str) (d : FntInfo) (st : Stream)
    (hbits : env1.ulong_bits = env2.ulong_bits)
    (h : parse env1 (Stream.of_lines lines) = (.ok d, st))
    (hfiles : ∀ p ∈ d.page_list, env1.open_file p.file = env2.open_file p.file)
    (hps2 : resize_ok env2.page_list_storage d.pages.toNat = true)
    (hcs2 : resize_ok env2.chars_storage d.chars.length = true) :
    parse env2 (Stream.of_lines lines) = (.ok d, st) ∧
    ∀ (d2 : FntInfo) (st2 : Stream) (file_name1 file_name2 : Str),
      parse env2 (Stream.of_lines lines) = (.ok d2, st2) →
      export_to_cpp d2 file_name2 true = export_to_cpp d file_name1 true := by
  have key : parse env2 (Stream.of_lines lines) = (.ok d, st) := by
    obtain ⟨l1, l2, plines, lc, clines, info, common, pages, count, chars, hinfo, hcommon, hpn,
      hpages, hcount, hnn, hcn, hchars, hcase⟩ := parse_ok_inv env1 lines d st h
    have hlist : d.page_list = pages := by
      rcases hcase with ⟨_, hd, _⟩ | ⟨_, _, _, _, _, _, _, _, hd, _⟩ <;> rw [hd] <;> rfl
    rw [hlist] at hfiles
    have hps : resize_ok env2.page_list_storage common.pages.toNat = true := by
      rcases hcase with ⟨_, hd, _⟩ | ⟨_, _, _, _, _, _, _, _, hd, _⟩ <;> rw [hd] at hps2 <;>
        exact hps2
    have hcs : resize_ok env2.chars_storage count.toNat = true := by
      have hlen : d.chars.length = count.toNat := by
        rcases hcase with ⟨_, hd, _⟩ | ⟨_, _, _, _, _, _, _, _, hd, _⟩ <;> rw [hd] <;>
          exact (forall₂_length_eq hchars).symm.trans hcn
      rw [← hlen]
      exact hcs2
    have hpages2 : List.Forall₂ (page_line_ok env2 common.scaleW common.scaleH) plines pages :=
      forall₂_imp_mem_right hpages (fun l p hp hok =>
        ⟨hok.1, read_data_ok_env env1 env2 p.file _ _ p.data (hfiles p hp) hok.2⟩)
    have hchars2 : List.Forall₂ (fun l ch => char_record env2 l = .ok ch) clines chars :=
      forall₂_imp_mem_right hchars (fun l ch _ hok => by
        rw [← char_record_env env1 env2 hbits l]; exact hok)
    rcases hcase with ⟨hl, hd, hst⟩ | ⟨lk, klines, kcount, records, hk, hkn, hrec, hl, hd, hlog⟩
    · rw [hl, hd, hst]
      exact parse_run_end env2 l1 l2 lc plines clines info common pages count chars hinfo
        hcommon hpn hpages2 hcount hnn hcn hchars2 hps hcs
    · have hrun := parse_run_kernings env2 l1 l2 lc lk plines clines klines st.lines info common
        pages count chars kcount records hinfo hcommon hpn hpages2 hcount hnn hcn hchars2 hk
        hkn hrec hps hcs
      rw [hl, hd, hrun]
      obtain ⟨slines, slog⟩ := st
      simp only at hlog
      rw [hlog]
  refine ⟨key, ?_⟩
  intro d2 st2 file_name1 file_name2 h2
  rw [key] at h2
  cases h2
  rfl

/-- An instance of `export_text_inputs`: `sample_lines` in `sample_env` and
in `crowded_env`, which differ in a file that no page line names and in the
bytes that the locals held. -/
theorem export_text_inputs_witness :
    crowded_env.open_file "b.dds".toList ≠ sample_env.open_file "b.dds".toList ∧
    parse crowded_env (Stream.of_lines sample_lines) = (.ok sample_document, sample_stream_after) ∧
    ∀ (d2 : FntInfo) (st2 : Stream) (file_name1 file_name2 : Str),
      parse crowded_env (Stream.of_lines sample_lines) = (.ok d2, st2) →
      export_to_cpp d2 file_name2 true = export_to_cpp sample_document file_name1 true :=
  ⟨by decide!,
    export_text_inputs sample_env crowded_env sample_lines sample_document sample_stream_after
      (by decide!) (by decide!) (by
        intro p hp
        have hp' : p = { id := 0, file := "a.dds".toList, data := [1, 2, 3, 4] } := by
          simpa [sample_document] using hp
        rw [hp']
        decide!) (by decide!) (by decide!)⟩

/-! ## Empty lines in the metrics stream -/

theorem parse_line_nil (keyword : Str) : parse_line [] keyword = .ok [] := by
  unfold parse_line
  simp

theorem info_record_nil : info_record [] = .error (.invalid_argument "stoi".toList) := by
  decide!

theorem common_record_nil : common_record [] = .error (.invalid_argument "stoi".toList) := by
  decide!

theorem page_record_nil : page_record [] = .error (.invalid_argument "stoi".toList) := by
  decide!

theorem chars_record_nil : chars_record [] = .error (.invalid_argument "stoi".toList) := by
  decide!

theorem char_record_nil (env : Env) :
    char_record env [] = .error (.invalid_argument "stoul".toList) := by
  unfold char_record
  rw [parse_line_nil]
  rfl

theorem kernings_record_nil :
    kernings_record [] = .error (.invalid_argument "stoi".toList) := by
  decide!

theorem kerning_record_nil : kerning_record [] = .error (.invalid_argument "stoi".toList) := by
  decide!

/-- The exception of the block of a site is that of its first conversion
when this one throws. -/
theorem site_record_first (env : Env) (site : Site) (line : Str) (parts : LineParts)
    (e : Error) (hparts : parse_line line (site_keyword site).toList = .ok parts)
    (hfirst : first_conversion env site parts = .error e) :
    site_record env site line = .error e := by
  cases site <;>
    simp only [site_keyword] at hparts <;>
    simp only [first_conversion, first_numeric_field, if_true, if_false,
      (by decide : ¬ Site.info = Site.char), (by decide : ¬ Site.common = Site.char),
      (by decide : ¬ Site.page = Site.char), (by decide : ¬ Site.chars = Site.char),
      (by decide : ¬ Site.kernings = Site.char), (by decide : ¬ Site.kerning = Site.char)]
      at hfirst <;>
    simp only [site_record, info_record, common_record, page_record, chars_record, char_record,
      kernings_record, kerning_record, bind, Except.bind, hparts]
  all_goals
    first
    | (cases hs : stoi _ with
       | error e2 => rw [hs] at hfirst; simp only [Except.map] at hfirst ⊢; exact hfirst
       | ok v => rw [hs] at hfirst; simp [Except.map] at hfirst)
    | (cases hs : stoul _ _ with
       | error e2 => rw [hs] at hfirst; simp only [Except.map] at hfirst ⊢; exact hfirst
       | ok v => rw [hs] at hfirst; simp [Except.map] at hfirst)
/-- The page loop and empty lines: an empty line among those it reads makes
it throw the conversion error. -/
theorem read_pages_blank (env : Env) (w h : Int) :
    ∀ (n : Nat) (s : Stream), ∃ evs,
      (read_pages env w h n s).2.log = s.log ++ evs ∧
      ∀ site, Event.getline site (some []) ∈ evs →
        (read_pages env w h n s).1 = .error (conversion_error site) := by
  intro n
  induction n with
  | zero => intro s; exact ⟨[], by simp [read_pages], by simp⟩
  | succ n ih =>
    intro s
    obtain ⟨lines, log⟩ := s
    cases lines with
    | nil =>
      exact ⟨[Event.getline .page none], by simp [read_pages, getline_nil],
        by simp⟩
    | cons l rest =>
      simp only [read_pages, getline_cons]
      cases hrec : page_record l with
      | error e =>
        refine ⟨[Event.getline .page (some l)], rfl, ?_⟩
        intro site hmem
        simp only [List.mem_singleton, Event.getline.injEq, Option.some.injEq] at hmem
        obtain ⟨rfl, rfl⟩ := hmem
        rw [page_record_nil] at hrec
        cases hrec
        rfl
      | ok rec =>
        obtain ⟨id, file⟩ := rec
        have hl : l ≠ [] := by
          rintro rfl
          rw [page_record_nil] at hrec
          cases hrec
        simp only
        cases hdata : Page.read_data env file w h with
        | error e =>
          refine ⟨[Event.getline .page (some l), Event.read_data file w h], by simp, ?_⟩
          intro site hmem
          simp only [List.mem_cons, List.mem_singleton, Event.getline.injEq,
            Option.some.injEq, List.mem_nil_iff, or_false] at hmem
          rcases hmem with ⟨_, h2⟩ | h2
          · exact absurd h2.symm hl
          · cases h2
        | ok data =>
          simp only
          obtain ⟨evs, hlog, hall⟩ := ih
            { lines := rest,
              log := log ++ [Event.getline .page (some l)] ++ [Event.read_data file w h] }
          refine ⟨Event.getline .page (some l) :: Event.read_data file w h :: evs, ?_, ?_⟩
          · split <;> rename_i heq <;> rw [heq] at hlog <;> simpa using hlog
          · intro site hmem
            simp only [List.mem_cons, Event.getline.injEq, Option.some.injEq] at hmem
            rcases hmem with ⟨_, h2⟩ | h2 | h2
            · exact absurd h2.symm hl
            · cases h2
            · have := hall site h2
              split <;> rename_i heq <;> rw [heq] at this
              · exact this
              · cases this

/-- The char loop and empty lines. -/
theorem read_chars_blank (env : Env) :
    ∀ (n : Nat) (s : Stream), ∃ evs,
      (read_chars env n s).2.log = s.log ++ evs ∧
      ∀ site, Event.getline site (some []) ∈ evs →
        (read_chars env n s).1 = .error (conversion_error site) := by
  intro n
  induction n with
  | zero => intro s; exact ⟨[], by simp [read_chars], by simp⟩
  | succ n ih =>
    intro s
    obtain ⟨lines, log⟩ := s
    cases lines with
    | nil =>
      exact ⟨[Event.getline .char none], by simp [read_chars, getline_nil], by simp⟩
    | cons l rest =>
      simp only [read_chars, getline_cons]
      cases hrec : char_record env l with
      | error e =>
        refine ⟨[Event.getline .char (some l)], rfl, ?_⟩
        intro site hmem
        simp only [List.mem_singleton, Event.getline.injEq, Option.some.injEq] at hmem
        obtain ⟨rfl, rfl⟩ := hmem
        rw [char_record_nil] at hrec
        cases hrec
        rfl
      | ok ch =>
        have hl : l ≠ [] := by
          rintro rfl
          rw [char_record_nil] at hrec
          cases hrec
        simp only
        obtain ⟨evs, hlog, hall⟩ := ih
          { lines := rest, log := log ++ [Event.getline .char (some l)] }
        refine ⟨Event.getline .char (some l) :: evs, ?_, ?_⟩
        · split <;> rename_i heq <;> rw [heq] at hlog <;> simpa using hlog
        · intro site hmem
          simp only [List.mem_cons, Event.getline.injEq, Option.some.injEq] at hmem
          rcases hmem with ⟨_, h2⟩ | h2
          · exact absurd h2.symm hl
          · have := hall site h2
            split <;> rename_i heq <;> rw [heq] at this
            · exact this
            · cases this

/-- The kerning loop and empty lines. -/
theorem read_kernings_blank :
    ∀ (n : Nat) (kernings : Kernings) (s : Stream), ∃ evs,
      (read_kernings n kernings s).2.log = s.log ++ evs ∧
      ∀ site, Event.getline site (some []) ∈ evs →
        (read_kernings n kernings s).1 = .error (conversion_error site) := by
  intro n
  induction n with
  | zero => intro kernings s; exact ⟨[], by simp [read_kernings], by simp⟩
  | succ n ih =>
    intro kernings s
    obtain ⟨lines, log⟩ := s
    cases lines with
    | nil =>
      exact ⟨[Event.getline .kerning none], by simp [read_kernings, getline_nil], by simp⟩
    | cons l rest =>
      simp only [read_kernings, getline_cons]
      cases hrec : kerning_record l with
      | error e =>
        refine ⟨[Event.getline .kerning (some l)], rfl, ?_⟩
        intro site hmem
        simp only [List.mem_singleton, Event.getline.injEq, Option.some.injEq] at hmem
        obtain ⟨rfl, rfl⟩ := hmem
        rw [kerning_record_nil] at hrec
        cases hrec
        rfl
      | ok rec =>
        obtain ⟨first, second, amount⟩ := rec
        have hl : l ≠ [] := by
          rintro rfl
          rw [kerning_record_nil] at hrec
          cases hrec
        simp only
        obtain ⟨evs, hlog, hall⟩ := ih (insert_kerning kernings first second amount)
          { lines := rest, log := log ++ [Event.getline .kerning (some l)] }
        refine ⟨Event.getline .kerning (some l) :: evs, by simpa using hlog, ?_⟩
        intro site hmem
        simp only [List.mem_cons, Event.getline.injEq, Option.some.injEq] at hmem
        rcases hmem with ⟨_, h2⟩ | h2
        · exact absurd h2.symm hl
        · exact hall site h2
/-- An empty line among those that `parse` reads makes it throw the
conversion error of the site that reads it. -/
theorem parse_blank (env : Env) (lines : List Str) (site : Site)
    (hmem : Event.getline site (some []) ∈ (parse env (Stream.of_lines lines)).2.log) :
    (parse env (Stream.of_lines lines)).1 = .error (conversion_error site) := by
  revert hmem
  cases lines with
  | nil =>
    intro hmem
    simp [parse, Stream.of_lines, getline_nil] at hmem
  | cons l1 lines1 =>
  cases hinfo : info_record l1 with
  | error e =>
    rw [parse_info_error env l1 lines1 e hinfo]
    intro hmem
    simp only [List.mem_singleton, Event.getline.injEq, Option.some.injEq] at hmem
    obtain ⟨rfl, rfl⟩ := hmem
    rw [info_record_nil] at hinfo
    cases hinfo
    rfl
  | ok info =>
  have hl1 : l1 ≠ [] := by
    rintro rfl
    rw [info_record_nil] at hinfo
    cases hinfo
  cases lines1 with
  | nil =>
    have hparse : parse env (Stream.of_lines [l1]) = (.error failed_to_read_a_line,
        { lines := [], log := [Event.getline .info (some l1), Event.getline .common none] }) := by
      unfold parse
      simp only [Stream.of_lines, getline_cons, hinfo, List.nil_append, getline_nil,
        List.singleton_append]
    rw [hparse]
    intro hmem
    simp only [List.mem_cons, List.mem_singleton, Event.getline.injEq, Option.some.injEq,
      List.mem_nil_iff, or_false] at hmem
    rcases hmem with ⟨_, h2⟩ | ⟨_, h2⟩
    · exact absurd h2.symm hl1
    · cases h2
  | cons l2 lines2 =>
  cases hcommon : common_record l2 with
  | error e =>
    rw [parse_common_error env l1 l2 lines2 info e hinfo hcommon]
    intro hmem
    simp only [List.mem_cons, List.mem_singleton, Event.getline.injEq, Option.some.injEq,
      List.mem_nil_iff, or_false] at hmem
    rcases hmem with ⟨_, h2⟩ | ⟨rfl, rfl⟩
    · exact absurd h2.symm hl1
    · rw [common_record_nil] at hcommon
      cases hcommon
      rfl
  | ok common =>
  have hl2 : l2 ≠ [] := by
    rintro rfl
    rw [common_record_nil] at hcommon
    cases hcommon
  have hhead : ∀ site, Event.getline site (some []) ∉
      [Event.getline .info (some l1), Event.getline .common (some l2)] := by
    intro site hmem
    simp only [List.mem_cons, List.mem_singleton, Event.getline.injEq, Option.some.injEq,
      List.mem_nil_iff, or_false] at hmem
    rcases hmem with ⟨_, h2⟩ | ⟨_, h2⟩
    · exact hl1 h2.symm
    · exact hl2 h2.symm
  by_cases hps : resize_ok env.page_list_storage common.pages.toNat = true
  swap
  · simp only [Bool.not_eq_true] at hps
    have hparse : parse env (Stream.of_lines (l1 :: l2 :: lines2)) =
        (.error .bad_alloc,
          { lines := lines2,
            log := [Event.getline .info (some l1), Event.getline .common (some l2)] }) := by
      unfold parse
      simp only [Stream.of_lines, getline_cons, hinfo, hcommon, List.nil_append,
        List.singleton_append, hps, Bool.not_false, if_true]
    rw [hparse]
    intro hmem
    exact absurd hmem (hhead site)
  obtain ⟨pevs, hplog, hpall⟩ := read_pages_blank env common.scaleW common.scaleH
    common.pages.toNat
    { lines := lines2, log := [Event.getline .info (some l1), Event.getline .common (some l2)] }
  cases hrp : read_pages env common.scaleW common.scaleH common.pages.toNat
      { lines := lines2,
        log := [Event.getline .info (some l1), Event.getline .common (some l2)] } with
  | mk pres s3 =>
  rw [hrp] at hplog hpall
  obtain ⟨lines3, log3⟩ := s3
  simp only at hplog hpall
  cases pres with
  | error e =>
    have hparse : parse env (Stream.of_lines (l1 :: l2 :: lines2)) =
        (.error e, { lines := lines3, log := log3 }) := by
      unfold parse
      simp only [Stream.of_lines, getline_cons, hinfo, hcommon, List.nil_append,
        List.singleton_append, hps, Bool.not_true, Bool.false_eq_true, if_false, hrp]
    rw [hparse]
    intro hmem
    simp only at hmem
    rw [hplog] at hmem
    rcases List.mem_append.mp hmem with h1 | h1
    · exact absurd h1 (hhead site)
    · rw [Except.error.inj (hpall site h1)]
  | ok pages =>
  have hpfree : ∀ site, Event.getline site (some []) ∉ log3 := by
    intro site hmem
    rw [hplog] at hmem
    rcases List.mem_append.mp hmem with h1 | h1
    · exact hhead site h1
    · cases hpall site h1
  cases lines3 with
  | nil =>
    have hparse : parse env (Stream.of_lines (l1 :: l2 :: lines2)) =
        (.error failed_to_read_a_line,
          { lines := [], log := log3 ++ [Event.getline .chars none] }) := by
      unfold parse
      simp only [Stream.of_lines, getline_cons, hinfo, hcommon, List.nil_append,
        List.singleton_append, hps, Bool.not_true, Bool.false_eq_true, if_false, hrp, getline_nil]
    rw [hparse]
    intro hmem
    rcases List.mem_append.mp hmem with h1 | h1
    · exact absurd h1 (hpfree site)
    · simp at h1
  | cons lc lines4 =>
  cases hcount : chars_record lc with
  | error e =>
    have hparse : parse env (Stream.of_lines (l1 :: l2 :: lines2)) =
        (.error e, { lines := lines4, log := log3 ++ [Event.getline .chars (some lc)] }) := by
      unfold parse
      simp only [Stream.of_lines, getline_cons, hinfo, hcommon, List.nil_append,
        List.singleton_append, hps, Bool.not_true, Bool.false_eq_true, if_false, hrp, hcount]
    rw [hparse]
    intro hmem
    rcases List.mem_append.mp hmem with h1 | h1
    · exact absurd h1 (hpfree site)
    · simp only [List.mem_singleton, Event.getline.injEq, Option.some.injEq] at h1
      obtain ⟨rfl, rfl⟩ := h1
      rw [chars_record_nil] at hcount
      cases hcount
      rfl
  | ok count =>
  have hcfree : ∀ site, Event.getline site (some []) ∉
      log3 ++ [Event.getline .chars (some lc)] := by
    intro site hmem
    rcases List.mem_append.mp hmem with h1 | h1
    · exact hpfree site h1
    · simp only [List.mem_singleton, Event.getline.injEq, Option.some.injEq] at h1
      obtain ⟨_, rfl⟩ := h1
      rw [chars_record_nil] at hcount
      cases hcount
  by_cases hneg : count < 0
  · have hparse : parse env (Stream.of_lines (l1 :: l2 :: lines2)) =
        (.error (.length_error "vector::_M_default_append".toList),
          { lines := lines4, log := log3 ++ [Event.getline .chars (some lc)] }) := by
      unfold parse
      simp only [Stream.of_lines, getline_cons, hinfo, hcommon, List.nil_append,
        List.singleton_append, hps, Bool.not_true, Bool.false_eq_true, if_false, hrp, hcount, hneg, if_true]
    rw [hparse]
    intro hmem
    exact absurd hmem (hcfree site)
  · by_cases hcs : resize_ok env.chars_storage count.toNat = true
    swap
    · simp only [Bool.not_eq_true] at hcs
      have hparse : parse env (Stream.of_lines (l1 :: l2 :: lines2)) =
          (.error .bad_alloc,
            { lines := lines4, log := log3 ++ [Event.getline .chars (some lc)] }) := by
        unfold parse
        simp only [Stream.of_lines, getline_cons, hinfo, hcommon, List.nil_append,
          List.singleton_append, hps, Bool.not_true, Bool.false_eq_true, if_false, hrp, hcount,
          hneg, hcs, Bool.not_false, if_true]
      rw [hparse]
      intro hmem
      exact absurd hmem (hcfree site)
    obtain ⟨cevs, hclog, hcall⟩ := read_chars_blank env count.toNat
      { lines := lines4, log := log3 ++ [Event.getline .chars (some lc)] }
    cases hrc : read_chars env count.toNat
        { lines := lines4, log := log3 ++ [Event.getline .chars (some lc)] } with
    | mk cres s5 =>
    rw [hrc] at hclog hcall
    obtain ⟨lines5, log5⟩ := s5
    simp only at hclog hcall
    cases cres with
    | error e =>
      have hparse : parse env (Stream.of_lines (l1 :: l2 :: lines2)) =
          (.error e, { lines := lines5, log := log5 }) := by
        unfold parse
        simp only [Stream.of_lines, getline_cons, hinfo, hcommon, List.nil_append,
          List.singleton_append, hps, Bool.not_true, Bool.false_eq_true, if_false, hrp, hcount, hneg, if_false, hcs, hrc]
      rw [hparse]
      intro hmem
      simp only at hmem
      rw [hclog] at hmem
      rcases List.mem_append.mp hmem with h1 | h1
      · exact absurd h1 (hcfree site)
      · rw [Except.error.inj (hcall site h1)]
    | ok chars =>
    have h5free : ∀ site, Event.getline site (some []) ∉ log5 := by
      intro site hmem
      rw [hclog] at hmem
      rcases List.mem_append.mp hmem with h1 | h1
      · exact hcfree site h1
      · cases hcall site h1
    cases lines5 with
    | nil =>
      have hparse : parse env (Stream.of_lines (l1 :: l2 :: lines2)) =
          (.ok (document_of info common pages chars []),
            { lines := [], log := log5 ++ [Event.getline .kernings none] }) := by
        unfold parse
        simp only [Stream.of_lines, getline_cons, hinfo, hcommon, List.nil_append,
          List.singleton_append, hps, Bool.not_true, Bool.false_eq_true, if_false, hrp, hcount, hneg, if_false, hcs, hrc, getline_nil]
        rfl
      rw [hparse]
      intro hmem
      rcases List.mem_append.mp hmem with h1 | h1
      · exact absurd h1 (h5free site)
      · simp at h1
    | cons lk lines6 =>
    cases hkcount : kernings_record lk with
    | error e =>
      have hparse : parse env (Stream.of_lines (l1 :: l2 :: lines2)) =
          (.error e,
            { lines := lines6, log := log5 ++ [Event.getline .kernings (some lk)] }) := by
        unfold parse
        simp only [Stream.of_lines, getline_cons, hinfo, hcommon, List.nil_append,
          List.singleton_append, hps, Bool.not_true, Bool.false_eq_true, if_false, hrp, hcount, hneg, if_false, hcs, hrc, hkcount]
      rw [hparse]
      intro hmem
      rcases List.mem_append.mp hmem with h1 | h1
      · exact absurd h1 (h5free site)
      · simp only [List.mem_singleton, Event.getline.injEq, Option.some.injEq] at h1
        obtain ⟨rfl, rfl⟩ := h1
        rw [kernings_record_nil] at hkcount
        cases hkcount
        rfl
    | ok kcount =>
    have h6free : ∀ site, Event.getline site (some []) ∉
        log5 ++ [Event.getline .kernings (some lk)] := by
      intro site hmem
      rcases List.mem_append.mp hmem with h1 | h1
      · exact h5free site h1
      · simp only [List.mem_singleton, Event.getline.injEq, Option.some.injEq] at h1
        obtain ⟨_, rfl⟩ := h1
        rw [kernings_record_nil] at hkcount
        cases hkcount
    obtain ⟨kevs, hklog, hkall⟩ := read_kernings_blank kcount.toNat []
      { lines := lines6, log := log5 ++ [Event.getline .kernings (some lk)] }
    cases hrk : read_kernings kcount.toNat []
        { lines := lines6, log := log5 ++ [Event.getline .kernings (some lk)] } with
    | mk kres s7 =>
    rw [hrk] at hklog hkall
    obtain ⟨lines7, log7⟩ := s7
    simp only at hklog hkall
    have hlast : ∀ (d : Except Error FntInfo), (∀ e, kres = .error e → d = .error e) →
        parse env (Stream.of_lines (l1 :: l2 :: lines2)) = (d, { lines := lines7, log := log7 }) →
        Event.getline site (some []) ∈
          (parse env (Stream.of_lines (l1 :: l2 :: lines2))).2.log →
        (parse env (Stream.of_lines (l1 :: l2 :: lines2))).1 = .error (conversion_error site) := by
      intro d hd hparse
      rw [hparse]
      intro hmem
      simp only at hmem ⊢
      rw [hklog] at hmem
      rcases List.mem_append.mp hmem with h1 | h1
      · exact absurd h1 (h6free site)
      · exact hd _ (hkall site h1)
    cases kres with
    | error e =>
      refine hlast (.error e) (fun e2 he2 => by rw [Except.error.inj he2]) ?_
      unfold parse
      simp only [Stream.of_lines, getline_cons, hinfo, hcommon, List.nil_append,
        List.singleton_append, hps, Bool.not_true, Bool.false_eq_true, if_false, hrp, hcount, hneg, if_false, hcs, hrc, hkcount, hrk]
    | ok kernings =>
      refine hlast (.ok (document_of info common pages chars kernings))
        (fun e2 he2 => by cases he2) ?_
      unfold parse
      simp only [Stream.of_lines, getline_cons, hinfo, hcommon, List.nil_append,
        List.singleton_append, hps, Bool.not_true, Bool.false_eq_true, if_false, hrp, hcount, hneg, if_false, hcs, hrc, hkcount, hrk]
      rfl
/-- The run of `parse` on a stream with valid records up to the last char
line, followed by a line whose `kernings` block throws. -/
theorem parse_run_kernings_error (env : Env) (l1 l2 lc lk : Str)
    (plines clines rest : List Str)
    (info : InfoFields) (common : CommonFields) (pages : List Page) (count : Int)
    (chars : List CharInfo) (e : Error)
    (hinfo : info_record l1 = .ok info)
    (hcommon : common_record l2 = .ok common)
    (hpn : plines.length = common.pages.toNat)
    (hpages : List.Forall₂ (page_line_ok env common.scaleW common.scaleH) plines pages)
    (hcount : chars_record lc = .ok count) (hnn : 0 ≤ count)
    (hcn : clines.length = count.toNat)
    (hchars : List.Forall₂ (fun l ch => char_record env l = .ok ch) clines chars)
    (hkcount : kernings_record lk = .error e)
    (hps : resize_ok env.page_list_storage common.pages.toNat = true)
    (hcs : resize_ok env.chars_storage count.toNat = true) :
    parse env (Stream.of_lines (l1 :: l2 :: (plines ++ lc :: (clines ++ lk :: rest)))) =
      (.error e,
        { lines := rest,
          log := head_events l1 l2 common.scaleW common.scaleH plines pages lc clines ++
            [Event.getline .kernings (some lk)] }) := by
  have hrp := read_pages_run env common.scaleW common.scaleH plines pages hpages
    (lc :: (clines ++ lk :: rest))
    [Event.getline .info (some l1), Event.getline .common (some l2)]
  have hrc := read_chars_run env clines chars hchars (lk :: rest)
    ([Event.getline .info (some l1), Event.getline .common (some l2)] ++
      page_events common.scaleW common.scaleH plines pages ++ [Event.getline .chars (some lc)])
  rw [hpn] at hrp
  rw [hcn] at hrc
  unfold parse
  simp only [Stream.of_lines, getline_cons, hinfo, hcommon, List.nil_append,
    List.singleton_append, hps, hcs, Bool.not_true, Bool.false_eq_true, hrp, hcount,
    not_lt.mpr hnn, if_false, hrc, hkcount]
  rfl

/-- C38: `parse_line` accepts the empty line, with the empty record, and
`parse` does not accept it. Whatever the metrics stream, if a line that
`parse` reads, at any of its seven `std::getline` sites, is empty, then
`parse` throws the `std::invalid_argument` of `std::stoi` (of `std::stoul` at
the char site): in the empty record the first member that the block of the
site converts to a number is missing, this conversion throws, and the
exception of a first conversion is the exception of the block. In particular,
when `parse` succeeds on a stream by finding its end where a kernings line
could stand, it throws this exception on the stream with one empty line
added. -/
theorem parse_empty_line (env : Env) :
    (∀ keyword, parse_line [] keyword = .ok []) ∧
    (∀ (lines : List Str) (site : Site),
      Event.getline site (some []) ∈ (parse env (Stream.of_lines lines)).2.log →
      (parse env (Stream.of_lines lines)).1 = .error (conversion_error site) ∧
      first_conversion env site [] = .error (conversion_error site) ∧
      ∀ (line : Str) (parts : LineParts) (e : Error),
        parse_line line (site_keyword site).toList = .ok parts →
        first_conversion env site parts = .error e →
        site_record env site line = .error e) ∧
    (∀ (lines : List Str) (d : FntInfo) (st : Stream),
      parse env (Stream.of_lines lines) = (.ok d, st) →
      Event.getline .kernings none ∈ st.log →
      (parse env (Stream.of_lines (lines ++ [[]]))).1 =
        .error (.invalid_argument "stoi".toList) ∧
      Event.getline .kernings (some []) ∈ (parse env (Stream.of_lines (lines ++ [[]]))).2.log) := by
  refine ⟨parse_line_nil, ?_, ?_⟩
  · intro lines site hmem
    refine ⟨parse_blank env lines site hmem, ?_, ?_⟩
    · cases site <;> rfl
    · intro line parts e hparts hfirst
      exact site_record_first env site line parts e hparts hfirst
  · intro lines d st h hend
    obtain ⟨l1, l2, plines, lc, clines, info, common, pages, count, chars, hinfo, hcommon, hpn,
      hpages, hcount, hnn, hcn, hchars, hps, hcs, hcase⟩ := parse_ok_inv_full env lines d st h
    rcases hcase with ⟨hl, _, _⟩ | ⟨lk, klines, _, _, _, _, _, _, _, hlog⟩
    · have hrun := parse_run_kernings_error env l1 l2 lc [] plines clines [] info common pages
        count chars _ hinfo hcommon hpn hpages hcount hnn hcn hchars kernings_record_nil
        hps hcs
      have hlines : lines ++ [[]] = l1 :: l2 :: (plines ++ lc :: (clines ++ [[]])) := by
        rw [hl]
        simp
      rw [hlines, hrun]
      exact ⟨rfl, by simp⟩
    · exfalso
      rw [hlog] at hend
      simp only [head_events, List.mem_append, List.mem_cons, List.mem_singleton,
        List.mem_nil_iff, or_false, line_events_mem, Event.getline.injEq] at hend
      rcases hend with ((((h1 | h1) | h1) | h1) | h1) | h1
      · rcases h1 with ⟨h2, _⟩ | ⟨h2, _⟩ <;> cases h2
      · rcases page_events_mem _ _ _ _ _ h1 with ⟨l, _, h2⟩ | ⟨p, _, h2⟩ <;> cases h2
      · cases h1.1
      · obtain ⟨l, _, _, h2⟩ := h1
        cases h2
      · cases h1.2
      · obtain ⟨l, _, _, h2⟩ := h1
        cases h2

/-- An instance of `parse_empty_line`: an empty line where the first char
line should be, and an empty line after the last char line of
`no_kerning_lines`. -/
theorem parse_empty_line_witness :
    Event.getline .char (some []) ∈
      (parse sample_env (Stream.of_lines blank_char_lines)).2.log ∧
    (parse sample_env (Stream.of_lines blank_char_lines)).1 =
      .error (.invalid_argument "stoul".toList) ∧
    (parse sample_env (Stream.of_lines no_kerning_lines)).1 = .ok no_kerning_document ∧
    (parse sample_env (Stream.of_lines (no_kerning_lines ++ [[]]))).1 =
      .error (.invalid_argument "stoi".toList) :=
  ⟨by decide!,
    ((parse_empty_line sample_env).2.1 blank_char_lines .char (by decide!)).1,
    by decide!,
    ((parse_empty_line sample_env).2.2 no_kerning_lines no_kerning_document
      (parse sample_env (Stream.of_lines no_kerning_lines)).2 (by decide!) (by decide!)).1⟩
/-! ## Keys and the characters before the equal sign -/

/-- When the scan of a line stands in `State::find_key_end`, the key begins
where the scan stands. -/
theorem scan_key_begin {line keyword : Str} {n : Nat} {m : Scan}
    (h : scan_after line keyword n = some m) (hs : m.state = .find_key_end) :
    m.char_begin_it = m.char_it := by
  cases n with
  | zero =>
    have h0 := (scan_after_some h).2.2
    simp only [steps] at h0
    cases h0
    cases hs
  | succ n =>
    obtain ⟨m0, _, hstep⟩ := scan_after_pred h
    exact (step_to_find_key_end hstep hs).2.2.1

/-- The pass of `State::find_equal_sign` over characters that are not equal
signs, up to an equal sign. -/
theorem step_find_equal_sign (line keyword : Str) (m : Scan) (skipped rest : List Char)
    (hs : m.state = .find_equal_sign)
    (hline : line.drop m.char_it = skipped ++ '=' :: rest)
    (hskip : '=' ∉ skipped) :
    step line keyword m =
      .ok { m with char_it := m.char_it + skipped.length + 1, state := .find_value_begin } := by
  have htake : (line.drop m.char_it).takeWhile (fun c => c != '=') = skipped := by
    rw [hline, List.takeWhile_append_of_pos]
    · simp
    · intro c hc
      have : c ≠ '=' := fun e => hskip (e ▸ hc)
      simpa using this
  have hadv : advance_while (fun c => c != '=') (line.drop m.char_it) m.char_it =
      m.char_it + skipped.length := by
    rw [advance_while_eq, htake]
  have hget : line.get? (m.char_it + skipped.length) = some '=' := by
    have := congrArg (fun l => l.get? skipped.length) hline
    simp only [List.get?_eq_getElem?, List.getElem?_drop] at this ⊢
    rw [this, List.getElem?_append_right (le_refl _)]
    simp
  unfold step
  simp only [hs, hadv, hget]

/-- C37: in `parse_line` a key is the longest run of characters, from where
the key begins, that holds neither a space nor an equal sign; and the pass
that looks for the equal sign goes over every character that is not an equal
sign, whatever it is, and leaves the key and the record as they are.
On the line `info a b=5` with keyword `info` the call returns the record with
the one entry `a` to `5`; it has no key `b`. -/
theorem parse_line_key_run :
    (∀ (line keyword : Str) (n : Nat) (m m' : Scan),
      scan_after line keyword n = some m → m.state = .find_key_end →
      step line keyword m = .ok m' →
      m'.key = (line.drop m.char_it).takeWhile (fun c => c != ' ' && c != '=') ∧
      m'.key ≠ [] ∧
      m'.char_it = m.char_it + m'.key.length ∧
      (∀ c ∈ m'.key, c ≠ ' ' ∧ c ≠ '=') ∧
      (∀ c, line.get? m'.char_it = some c → c = ' ' ∨ c = '=') ∧
      m'.state = .find_equal_sign) ∧
    (∀ (line keyword : Str) (m : Scan) (skipped rest : List Char),
      m.state = .find_equal_sign →
      line.drop m.char_it = skipped ++ '=' :: rest → '=' ∉ skipped →
      step line keyword m =
        .ok { m with char_it := m.char_it + skipped.length + 1, state := .find_value_begin }) ∧
    parse_line "info a b=5".toList "info".toList = .ok [("a".toList, "5".toList)] ∧
    LineParts.find [("a".toList, "5".toList)] "b".toList = none := by
  refine ⟨?_, step_find_equal_sign, by decide!, by decide!⟩
  intro line keyword n m m' h hs hstep
  have hbegin := scan_key_begin h hs
  have hkey : assign line m.char_begin_it
      (advance_while (fun c => c != ' ' && c != '=') (line.drop m.char_it) m.char_it) =
      (line.drop m.char_it).takeWhile (fun c => c != ' ' && c != '=') := by
    rw [hbegin, assign_advance_while]
  unfold step at hstep
  simp only [hs, hkey] at hstep
  split at hstep
  · cases hstep
  · rename_i hne
    cases hstep
    refine ⟨rfl, hne, ?_, ?_, ?_, rfl⟩
    · rw [advance_while_eq]
    · intro c hc
      have := List.mem_takeWhile_imp hc
      simpa using this
    · intro c hc
      have := advance_while_stop _ line m.char_it c hc
      simp only [Bool.and_eq_false_iff, bne_eq_false_iff_eq, beq_iff_eq] at this
      simpa using this

/-- An instance of `parse_line_key_run`: the scan of `info a b=5` on the key
`a`, and the pass over ` b` to the equal sign. -/
theorem parse_line_key_run_witness :
    scan_after stray_word_line "info".toList 2 = some stray_word_scan ∧
    stray_word_scan_key.key =
      (stray_word_line.drop 5).takeWhile (fun c => c != ' ' && c != '=') ∧
    step stray_word_line "info".toList stray_word_scan_key = .ok stray_word_scan_equal :=
  ⟨by decide!,
    (parse_line_key_run.1 stray_word_line "info".toList 2 stray_word_scan stray_word_scan_key
      (by decide!) rfl (by decide!)).1,
    parse_line_key_run.2.1 stray_word_line "info".toList stray_word_scan_key
      " b".toList "5".toList rfl (by decide!) (by decide!)⟩
/-! ## Progress of the scan of `parse_line` -/

/-- What one pass does to the scan position. -/
theorem step_progress {line keyword : Str} {m m' : Scan}
    (h : step line keyword m = .ok m')
    (hb : m.state = .find_key_end → m.char_begin_it = m.char_it)
    (hle : m.char_it ≤ line.length) :
    m.char_it ≤ m'.char_it ∧ m'.char_it ≤ line.length ∧
    (m'.state = .find_key_end → m'.char_begin_it = m'.char_it) ∧
    3 * (if m.state = .find_value_end then 1 else 0) + m'.state.consumed + m.char_it ≤
      m'.char_it + m.state.consumed ∧
    (m'.state ≠ .done → m.state ≠ .find_keyword_end →
      1 + m.state.position =
        5 * (if m.state = .find_value_end then 1 else 0) + m'.state.position) := by
  unfold step at h
  cases hs : m.state <;> rw [hs] at h <;> simp only at h
  · -- find_keyword_end
    have h1 := advance_while_ge (fun c => c != ' ') line m.char_it
    have h2 := advance_while_le (fun c => c != ' ') line m.char_it hle
    split at h
    · cases h
    · cases h
      simp [State.consumed]
      omega
  · -- find_key_begin
    have h1 := advance_while_ge (fun c => c == ' ') line m.char_it
    have h2 := advance_while_le (fun c => c == ' ') line m.char_it hle
    split at h <;> cases h <;> simp [State.consumed, State.position] <;> omega
  · -- find_key_end
    have h2 := advance_while_le (fun c => c != ' ' && c != '=') line m.char_it hle
    have h3 := advance_while_eq (fun c => c != ' ' && c != '=') (line.drop m.char_it) m.char_it
    have h4 := assign_advance_while (fun c => c != ' ' && c != '=') line m.char_it
    rw [hb hs, h4] at h
    split at h
    · cases h
    · rename_i hne
      cases h
      have h5 : 0 < ((line.drop m.char_it).takeWhile (fun c => c != ' ' && c != '=')).length :=
        List.length_pos.mpr hne
      simp [State.consumed, State.position]
      omega
  · -- find_equal_sign
    have h1 := advance_while_ge (fun c => c != '=') line m.char_it
    split at h
    · cases h
    · rename_i c hc
      have h2 := get?_some_lt hc
      cases h
      simp [State.consumed, State.position]
      omega
  · -- find_value_begin
    have h1 := advance_while_ge (fun c => c == ' ') line m.char_it
    split at h
    · cases h
    · rename_i c hc
      have h2 := get?_some_lt hc
      cases h
      simp [State.consumed, State.position]
      omega
  · -- find_value_end
    have h1 := advance_while_ge (value_continues m.is_string_value) line m.char_it
    have h2 := advance_while_le (value_continues m.is_string_value) line m.char_it hle
    split at h
    · split at h
      · cases h
      · rename_i c hc
        have h3 := get?_some_lt hc
        cases h
        simp [State.consumed, State.position]
        omega
    · cases h
      simp [State.consumed, State.position]
      omega
  · -- done
    cases h
    simp [hs, State.consumed]
    exact hle
theorem step_not_find_keyword_end {line keyword : Str} {m m' : Scan}
    (h : step line keyword m = .ok m') (hd : m.state ≠ .done) :
    m'.state ≠ .find_keyword_end := by
  unfold step at h
  cases hs : m.state <;> rw [hs] at h <;> simp only at h
  all_goals try exact absurd hs hd
  all_goals repeat' split at h
  all_goals cases h
  all_goals simp

theorem steps_add (line keyword : Str) :
    ∀ (n k : Nat) (m0 m m' : Scan), steps line keyword n m0 = .ok m →
      steps line keyword (n + k) m0 = .ok m' → steps line keyword k m = .ok m' := by
  intro n
  induction n with
  | zero =>
    intro k m0 m m' h1 h2
    simp only [steps] at h1
    cases h1
    simpa using h2
  | succ n ih =>
    intro k m0 m m' h1 h2
    rw [show n + 1 + k = (n + k) + 1 by omega] at h2
    simp only [steps] at h1 h2
    cases hstep : step line keyword m0 with
    | error e => rw [hstep] at h1; cases h1
    | ok m1 =>
      rw [hstep] at h1 h2
      exact ih k m1 m m' h1 h2

/-- What a number of passes does to the scan position, to the pairs stored
and to the state. -/
theorem steps_progress (line keyword : Str) :
    ∀ (n : Nat) (m0 m : Scan), steps line keyword n m0 = .ok m →
      (m0.state = .find_key_end → m0.char_begin_it = m0.char_it) →
      m0.char_it ≤ line.length →
      m0.char_it ≤ m.char_it ∧ m.char_it ≤ line.length ∧
      (m.state = .find_key_end → m.char_begin_it = m.char_it) ∧
      3 * (stored_pairs line keyword n m0).length + m.state.consumed + m0.char_it ≤
        m.char_it + m0.state.consumed ∧
      (m.state ≠ .done → m0.state ≠ .find_keyword_end →
        n + m0.state.position =
          5 * (stored_pairs line keyword n m0).length + m.state.position) := by
  intro n
  induction n with
  | zero =>
    intro m0 m h hb hle
    simp only [steps] at h
    cases h
    refine ⟨le_refl _, hle, hb, ?_, fun _ _ => ?_⟩
    · simp only [stored_pairs, List.length_nil]
      omega
    · simp only [stored_pairs, List.length_nil]
  | succ n ih =>
    intro m0 m h hb hle
    simp only [steps] at h
    cases hstep : step line keyword m0 with
    | error e => rw [hstep] at h; cases h
    | ok m1 =>
      rw [hstep] at h
      simp only at h
      obtain ⟨s1, s2, s3, s4, s5⟩ := step_progress hstep hb hle
      obtain ⟨i1, i2, i3, i4, i5⟩ := ih m1 m h s3 s2
      have hpairs : (stored_pairs line keyword (n + 1) m0).length =
          (if m0.state = .find_value_end then 1 else 0) +
            (stored_pairs line keyword n m1).length := by
        simp only [stored_pairs, hstep]
        split <;> simp
        all_goals omega
      refine ⟨by omega, i2, i3, by omega, ?_⟩
      intro hd hk
      have hd0 : m0.state ≠ .done := by
        intro hdone
        have := steps_of_done line keyword (n + 1) m0 hdone
        simp only [steps, hstep] at this
        rw [h] at this
        cases this
        exact hd hdone
      have hd1 : m1.state ≠ .done := by
        intro hdone
        have := steps_of_done line keyword n m1 hdone
        rw [h] at this
        cases this
        exact hd hdone
      have := s5 hd1 hk
      have := i5 hd (step_not_find_keyword_end hstep hd0)
      omega

/-- The pairs that the passes store, counted against the characters left. -/
theorem stored_pairs_bound (line keyword : Str) :
    ∀ (n : Nat) (m0 : Scan),
      (m0.state = .find_key_end → m0.char_begin_it = m0.char_it) →
      m0.char_it ≤ line.length →
      3 * (stored_pairs line keyword n m0).length + m0.char_it ≤
        line.length + m0.state.consumed := by
  intro n
  induction n with
  | zero =>
    intro m0 hb hle
    simp only [stored_pairs, List.length_nil]
    omega
  | succ n ih =>
    intro m0 hb hle
    cases hstep : step line keyword m0 with
    | error e =>
      simp only [stored_pairs, hstep, List.length_nil]
      omega
    | ok m1 =>
      obtain ⟨s1, s2, s3, s4, _⟩ := step_progress hstep hb hle
      have i1 := ih m1 s3 s2
      have hpairs : (stored_pairs line keyword (n + 1) m0).length =
          (if m0.state = .find_value_end then 1 else 0) +
            (stored_pairs line keyword n m1).length := by
        simp only [stored_pairs, hstep]
        split <;> simp
        all_goals omega
      omega

/-- C35: `parse_line` returns or throws on every line and every keyword: the
budget of the loop is never used up, and a larger budget changes nothing.
From pass to pass the scan position does not go back and does not pass the
end of the line. Between two passes that find the scan in
`State::find_key_begin`, the position has moved on by three characters or
more for each pair stored in between, and one pair or more has been stored.
The pairs stored, at any number of passes and in the whole call, are at most
a third of the length of the line. -/
theorem parse_line_terminates (line keyword : Str) :
    parse_line line keyword ≠ .error .step_budget_exhausted ∧
    (∀ b, step_budget line ≤ b →
      run line keyword b Scan.start = run line keyword (step_budget line) Scan.start) ∧
    (∀ (n k : Nat) (m m' : Scan), scan_after line keyword n = some m →
      scan_after line keyword (n + k) = some m' →
      m.char_it ≤ m'.char_it ∧ m'.char_it ≤ line.length) ∧
    (∀ (n k : Nat) (m m' : Scan), scan_after line keyword n = some m →
      scan_after line keyword (n + k) = some m' → 0 < k →
      m.state = .find_key_begin → m'.state = .find_key_begin →
      1 ≤ (stored_pairs line keyword k m).length ∧
      k = 5 * (stored_pairs line keyword k m).length ∧
      m.char_it + 3 * (stored_pairs line keyword k m).length ≤ m'.char_it ∧
      m.char_it + 3 ≤ m'.char_it) ∧
    (∀ n, (stored_pairs line keyword n Scan.start).length ≤ line.length / 3) ∧
    (line_pairs line keyword).length ≤ line.length / 3 := by
  have hstart : Scan.start.state = .find_key_end → Scan.start.char_begin_it =
      Scan.start.char_it := fun _ => rfl
  have hzero : Scan.start.char_it ≤ line.length := Nat.zero_le _
  have hbound : ∀ n, (stored_pairs line keyword n Scan.start).length ≤ line.length / 3 := by
    intro n
    have := stored_pairs_bound line keyword n Scan.start hstart hzero
    have h0 : Scan.start.char_it = 0 := rfl
    have h1 : Scan.start.state.consumed = 0 := rfl
    rw [Nat.le_div_iff_mul_le (by decide)]
    omega
  have hscan : ∀ (n k : Nat) (m m' : Scan), scan_after line keyword n = some m →
      scan_after line keyword (n + k) = some m' →
      steps line keyword k m = .ok m' ∧
      (m.state = .find_key_end → m.char_begin_it = m.char_it) ∧ m.char_it ≤ line.length := by
    intro n k m m' h1 h2
    have h1' := (scan_after_some h1).2.2
    have h2' := (scan_after_some h2).2.2
    obtain ⟨_, p2, p3, _, _⟩ := steps_progress line keyword n Scan.start m h1' hstart hzero
    exact ⟨steps_add line keyword n k Scan.start m m' h1' h2', p3, p2⟩
  refine ⟨parse_line_budget_suffices line keyword, ?_, ?_, ?_, hbound, ?_⟩
  · intro b hb
    exact run_budget_irrelevant line keyword b (step_budget line) Scan.start
      (le_trans (passes_left_start line) hb) (passes_left_start line)
  · intro n k m m' h1 h2
    obtain ⟨hsteps, hb, hle⟩ := hscan n k m m' h1 h2
    obtain ⟨p1, p2, _, _, _⟩ := steps_progress line keyword k m m' hsteps hb hle
    exact ⟨p1, p2⟩
  · intro n k m m' h1 h2 hk hs hs'
    obtain ⟨hsteps, hb, hle⟩ := hscan n k m m' h1 h2
    obtain ⟨_, _, _, p4, p5⟩ := steps_progress line keyword k m m' hsteps hb hle
    have q := p5 (by rw [hs']; decide) (by rw [hs]; decide)
    simp only [hs, hs', State.consumed, State.position] at p4 q
    omega
  · unfold line_pairs
    split
    · simp
    · exact hbound _
/-- An instance of `parse_line_terminates`: on `info a b=5` the scan is in
`State::find_key_begin` at position 4 after one pass and at position 10
after six, with one pair stored in between. -/
theorem parse_line_terminates_witness :
    scan_after stray_word_line "info".toList 1 = some stray_word_scan_start ∧
    scan_after stray_word_line "info".toList (1 + 5) = some stray_word_scan_stored ∧
    stray_word_scan_start.char_it + 3 ≤ stray_word_scan_stored.char_it ∧
    (line_pairs stray_word_line "info".toList).length ≤ stray_word_line.length / 3 :=
  ⟨by decide!, by decide!,
    ((parse_line_terminates stray_word_line "info".toList).2.2.2.1 1 5 stray_word_scan_start
      stray_word_scan_stored (by decide!) (by decide!) (by decide) rfl rfl).2.2.2,
    (parse_line_terminates stray_word_line "info".toList).2.2.2.2.2⟩
/-! ## Round trip of rendering and `parse_line` -/

theorem drop_at {line a b : List Char} (h : line = a ++ b) : line.drop a.length = b := by
  rw [h]
  simp

theorem get?_at {line a b : List Char} (h : line = a ++ b) :
    line.get? a.length = b.head? := by
  rw [h, List.get?_eq_getElem?, List.getElem?_append_right (le_refl _)]
  cases b <;> simp

theorem advance_at (p : Char → Bool) {line a t b : List Char} (h : line = a ++ (t ++ b))
    (ht : ∀ c ∈ t, p c = true) (hb : ∀ c, b.head? = some c → p c = false) :
    advance_while p (line.drop a.length) a.length = a.length + t.length := by
  rw [advance_while_eq, drop_at h, List.takeWhile_append_of_pos ht]
  cases b with
  | nil => simp
  | cons c rest =>
    have := hb c rfl
    simp [List.takeWhile, this]

theorem assign_at {line a t b : List Char} (h : line = a ++ (t ++ b)) :
    assign line a.length (a.length + t.length) = t := by
  unfold assign
  rw [drop_at h]
  simp
theorem get?_at_append {line a t b : List Char} (h : line = a ++ (t ++ b)) :
    line.get? (a.length + t.length) = b.head? := by
  have h2 : line = (a ++ t) ++ b := by rw [h, List.append_assoc]
  have := get?_at h2
  rwa [List.length_append] at this

/-- The pass of `State::find_key_begin` over spaces that end the line. -/
theorem step_key_begin_end (keyword : Str) {line : Str} {m : Scan} {a t : List Char}
    (hs : m.state = .find_key_begin) (hpos : m.char_it = a.length)
    (hline : line = a ++ t) (ht : ∀ x ∈ t, x = ' ') :
    step line keyword m = .ok { m with char_it := a.length + t.length, state := .done } := by
  have hline2 : line = a ++ (t ++ []) := by rw [List.append_nil]; exact hline
  have hadv := advance_at (fun c => c == ' ') hline2
    (fun x hx => by simp [ht x hx]) (fun c hc => by simp at hc)
  have hget := get?_at_append hline2
  unfold step
  simp only [hs, hpos, hadv, hget, List.head?_nil]

/-- The pass of `State::find_key_begin` over spaces up to another character. -/
theorem step_key_begin_at (keyword : Str) {line : Str} {m : Scan} {a t b : List Char} {c : Char}
    (hs : m.state = .find_key_begin) (hpos : m.char_it = a.length)
    (hline : line = a ++ (t ++ c :: b)) (ht : ∀ x ∈ t, x = ' ') (hc : c ≠ ' ') :
    step line keyword m =
      .ok { m with char_it := a.length + t.length, char_begin_it := a.length + t.length,
                   state := .find_key_end } := by
  have hadv := advance_at (fun c => c == ' ') hline
    (fun x hx => by simp [ht x hx]) (fun x hx => by
      simp only [List.head?_cons, Option.some.injEq] at hx
      subst hx
      simpa using hc)
  have hget := get?_at_append hline
  unfold step
  simp only [hs, hpos, hadv, hget, List.head?_cons]

/-- The pass of `State::find_key_end` over a key. -/
theorem step_key_end_at (keyword : Str) {line : Str} {m : Scan} {a key b : List Char} {c : Char}
    (hs : m.state = .find_key_end) (hpos : m.char_it = a.length)
    (hbegin : m.char_begin_it = a.length)
    (hline : line = a ++ (key ++ c :: b)) (hkey : key ≠ [])
    (hk1 : ' ' ∉ key) (hk2 : '=' ∉ key) (hc : c = ' ' ∨ c = '=') :
    step line keyword m =
      .ok { m with char_it := a.length + key.length, key := key,
                   state := .find_equal_sign } := by
  have hadv := advance_at (fun c => c != ' ' && c != '=') hline
    (fun x hx => by
      have h1 : x ≠ ' ' := fun e => hk1 (e ▸ hx)
      have h2 : x ≠ '=' := fun e => hk2 (e ▸ hx)
      simp [h1, h2])
    (fun x hx => by
      simp only [List.head?_cons, Option.some.injEq] at hx
      subst hx
      rcases hc with rfl | rfl <;> simp)
  have hassign := assign_at hline
  unfold step
  simp only [hs, hpos, hbegin, hadv, hassign, hkey, if_false]

/-- The pass of `State::find_value_begin` on the first character of a value. -/
theorem step_value_begin_at (keyword : Str) {line : Str} {m : Scan} {a b : List Char} {c : Char}
    (hs : m.state = .find_value_begin) (hpos : m.char_it = a.length)
    (hline : line = a ++ c :: b) (hc : c ≠ ' ') :
    step line keyword m =
      .ok { m with char_begin_it := a.length, is_string_value := (c == '"'),
                   char_it := a.length + 1, state := .find_value_end } := by
  have hline2 : line = a ++ ([] ++ c :: b) := hline
  have hadv := advance_at (fun c => c == ' ') hline2
    (fun x hx => by simp at hx) (fun x hx => by
      simp only [List.head?_cons, Option.some.injEq] at hx
      subst hx
      simpa using hc)
  have hget := get?_at hline
  simp only [List.length_nil, Nat.add_zero] at hadv
  unfold step
  simp only [hs, hpos, hadv, hget, List.head?_cons]

/-- The pass of `State::find_value_end` over a bare value. -/
theorem step_value_end_bare (keyword : Str) {line : Str} {m : Scan} {a vs b : List Char} {c : Char}
    (hs : m.state = .find_value_end) (hq : m.is_string_value = false)
    (hbegin : m.char_begin_it = a.length) (hpos : m.char_it = a.length + 1)
    (hline : line = a ++ (c :: vs ++ b)) (hv : ' ' ∉ vs)
    (hb : ∀ x, b.head? = some x → x = ' ') :
    step line keyword m =
      .ok { m with char_it := a.length + (c :: vs).length, value := c :: vs,
                   line_parts := LineParts.assign m.line_parts m.key (c :: vs),
                   state := .find_key_begin } := by
  have hline2 : line = (a ++ [c]) ++ (vs ++ b) := by rw [hline]; simp
  have hadv := advance_at (fun c => c != ' ') hline2
    (fun x hx => by
      have h1 : x ≠ ' ' := fun e => hv (e ▸ hx)
      simp [h1])
    (fun x hx => by simp [hb x hx])
  have hassign := assign_at hline
  simp only [List.length_append, List.length_singleton] at hadv
  unfold step
  simp only [hs, hq, hpos, hbegin, value_continues_plain, hadv]
  simp only [List.length_cons] at hassign ⊢
  rw [show a.length + 1 + vs.length = a.length + (vs.length + 1) by omega, hassign]
  rfl

/-- The pass of `State::find_value_end` over a value between double quotes. -/
theorem step_value_end_quoted (keyword : Str) {line : Str} {m : Scan} {a v b : List Char}
    (hs : m.state = .find_value_end) (hq : m.is_string_value = true)
    (hbegin : m.char_begin_it = a.length) (hpos : m.char_it = a.length + 1)
    (hline : line = a ++ ('"' :: (v ++ '"' :: b))) (hv : '"' ∉ v) :
    step line keyword m =
      .ok { m with char_it := a.length + 1 + v.length + 1, value := v,
                   line_parts := LineParts.assign m.line_parts m.key v,
                   state := .find_key_begin } := by
  have hline2 : line = (a ++ ['"']) ++ (v ++ '"' :: b) := by rw [hline]; simp
  have hadv := advance_at (value_continues true) hline2
    (fun x hx => by
      have h1 : x ≠ '"' := fun e => hv (e ▸ hx)
      unfold value_continues
      split <;> simp [h1])
    (fun x hx => by
      simp only [List.head?_cons, Option.some.injEq] at hx
      subst hx
      decide)
  have hget := get?_at_append hline2
  have hassign := assign_at hline2
  simp only [List.length_append, List.length_singleton] at hadv hget hassign
  unfold step
  simp only [hs, hq, hpos, hbegin, hadv, hget, List.head?_cons, if_true,
    Nat.add_sub_cancel, hassign]
/-- The five passes of `parse_line` over the text of one pair. -/
theorem scan_rendered_pair (keyword : Str) {line : Str} {m : Scan} {a b : List Char}
    {p : RenderedPair} (hs : m.state = .find_key_begin) (hpos : m.char_it = a.length)
    (hline : line = a ++ (render_pair p ++ b)) (hp : renderable p)
    (hb : ∀ x, b.head? = some x → x = ' ') :
    ∃ m5, steps line keyword 5 m = .ok m5 ∧ m5.state = .find_key_begin ∧
      m5.char_it = (a ++ render_pair p).length ∧
      m5.line_parts = LineParts.assign m.line_parts p.key p.value := by
  obtain ⟨hkey, hk1, hk2, hvalue⟩ := hp
  obtain ⟨k0, ks, hk⟩ : ∃ k0 ks, p.key = k0 :: ks := by
    cases hkk : p.key with
    | nil => exact absurd hkk hkey
    | cons k0 ks => exact ⟨k0, ks, rfl⟩
  have hk0 : k0 ≠ ' ' := by
    intro e
    apply hk1
    rw [hk, e]
    simp
  -- find_key_begin
  have hline1 : line = a ++ ([' '] ++ k0 :: (ks ++ '=' :: (render_value p ++ b))) := by
    rw [hline, render_pair, hk]
    simp
  obtain ⟨m1, hm1, s1, c1, b1, p1⟩ : ∃ m1, step line keyword m = .ok m1 ∧
      m1.state = .find_key_end ∧ m1.char_it = (a ++ [' ']).length ∧
      m1.char_begin_it = (a ++ [' ']).length ∧ m1.line_parts = m.line_parts :=
    ⟨_, step_key_begin_at keyword hs hpos hline1 (fun x hx => by simpa using hx) hk0,
      rfl, by simp, by simp, rfl⟩
  -- find_key_end
  have hline2 : line = (a ++ [' ']) ++ (p.key ++ '=' :: (render_value p ++ b)) := by
    rw [hline, render_pair]
    simp
  obtain ⟨m2, hm2, s2, c2, k2, p2⟩ : ∃ m2, step line keyword m1 = .ok m2 ∧
      m2.state = .find_equal_sign ∧ m2.char_it = (a ++ ' ' :: p.key).length ∧
      m2.key = p.key ∧ m2.line_parts = m.line_parts :=
    ⟨_, step_key_end_at keyword s1 c1 b1 hline2 hkey hk1 hk2 (Or.inr rfl),
      rfl, by simp; omega, rfl, p1⟩
  -- find_equal_sign
  have hline3 : line = (a ++ ' ' :: p.key) ++ ([] ++ '=' :: (render_value p ++ b)) := by
    rw [hline, render_pair]
    simp
  have hdrop3 : line.drop m2.char_it = [] ++ '=' :: (render_value p ++ b) := by
    rw [c2]
    exact drop_at hline3
  obtain ⟨m3, hm3, s3, c3, k3, p3⟩ : ∃ m3, step line keyword m2 = .ok m3 ∧
      m3.state = .find_value_begin ∧ m3.char_it = (a ++ ' ' :: (p.key ++ ['='])).length ∧
      m3.key = p.key ∧ m3.line_parts = m.line_parts :=
    ⟨_, step_find_equal_sign line keyword m2 [] (render_value p ++ b) s2 hdrop3 (by simp),
      rfl, by simp [c2]; omega, k2, p2⟩
  have hlen : (a ++ render_pair p).length =
      (a ++ ' ' :: (p.key ++ ['='])).length + (render_value p).length := by
    simp [render_pair]
    omega
  cases hquoted : p.quoted with
  | true =>
    have hrv : render_value p = '"' :: (p.value ++ ['"']) := by
      simp [render_value, hquoted]
    have hline4 : line = (a ++ ' ' :: (p.key ++ ['='])) ++ ('"' :: (p.value ++ '"' :: b)) := by
      rw [hline, render_pair, hrv]
      simp
    obtain ⟨m4, hm4, s4, c4, b4, q4, k4, p4⟩ : ∃ m4, step line keyword m3 = .ok m4 ∧
        m4.state = .find_value_end ∧
        m4.char_it = (a ++ ' ' :: (p.key ++ ['='])).length + 1 ∧
        m4.char_begin_it = (a ++ ' ' :: (p.key ++ ['='])).length ∧
        m4.is_string_value = true ∧ m4.key = p.key ∧ m4.line_parts = m.line_parts :=
      ⟨_, step_value_begin_at keyword s3 c3 hline4 (by decide), rfl, rfl, rfl, rfl, k3, p3⟩
    rw [hquoted] at hvalue
    obtain ⟨m5, hm5, s5, c5, p5⟩ : ∃ m5, step line keyword m4 = .ok m5 ∧
        m5.state = .find_key_begin ∧
        m5.char_it = (a ++ ' ' :: (p.key ++ ['='])).length + 1 + p.value.length + 1 ∧
        m5.line_parts = LineParts.assign m4.line_parts m4.key p.value :=
      ⟨_, step_value_end_quoted keyword s4 q4 b4 c4 hline4
        (by simpa using hvalue), rfl, rfl, rfl⟩
    refine ⟨m5, ?_, s5, ?_, ?_⟩
    · simp only [steps, hm1, hm2, hm3, hm4, hm5]
    · rw [c5, hlen, hrv]
      simp
      omega
    · rw [p5, k4, p4]
  | false =>
    rw [hquoted] at hvalue
    simp only [Bool.false_eq_true, if_false] at hvalue
    obtain ⟨hv0, hv1, hv2⟩ := hvalue
    obtain ⟨v0, vs, hv⟩ : ∃ v0 vs, p.value = v0 :: vs := by
      cases hvv : p.value with
      | nil => exact absurd hvv hv0
      | cons v0 vs => exact ⟨v0, vs, rfl⟩
    have hrv : render_value p = v0 :: vs := by
      simp [render_value, hquoted, hv]
    have hv0s : v0 ≠ ' ' := by
      intro e
      apply hv1
      rw [hv, e]
      simp
    have hv0q : v0 ≠ '"' := by
      intro e
      apply hv2
      rw [hv, e]
      rfl
    have hvs : ' ' ∉ vs := by
      intro hmem
      apply hv1
      rw [hv]
      simp [hmem]
    have hline4 : line = (a ++ ' ' :: (p.key ++ ['='])) ++ (v0 :: (vs ++ b)) := by
      rw [hline, render_pair, hrv]
      simp
    obtain ⟨m4, hm4, s4, c4, b4, q4, k4, p4⟩ : ∃ m4, step line keyword m3 = .ok m4 ∧
        m4.state = .find_value_end ∧
        m4.char_it = (a ++ ' ' :: (p.key ++ ['='])).length + 1 ∧
        m4.char_begin_it = (a ++ ' ' :: (p.key ++ ['='])).length ∧
        m4.is_string_value = false ∧ m4.key = p.key ∧ m4.line_parts = m.line_parts :=
      ⟨_, step_value_begin_at keyword s3 c3 hline4 hv0s, rfl, rfl, rfl, by simpa using hv0q, k3, p3⟩
    have hline5 : line = (a ++ ' ' :: (p.key ++ ['='])) ++ (v0 :: vs ++ b) := by
      rw [hline4]
      simp
    obtain ⟨m5, hm5, s5, c5, p5⟩ : ∃ m5, step line keyword m4 = .ok m5 ∧
        m5.state = .find_key_begin ∧
        m5.char_it = (a ++ ' ' :: (p.key ++ ['='])).length + (v0 :: vs).length ∧
        m5.line_parts = LineParts.assign m4.line_parts m4.key (v0 :: vs) :=
      ⟨_, step_value_end_bare keyword s4 q4 b4 c4 hline5 hvs hb, rfl, rfl, rfl⟩
    refine ⟨m5, ?_, s5, ?_, ?_⟩
    · simp only [steps, hm1, hm2, hm3, hm4, hm5]
    · rw [c5, hlen, hrv]
    · rw [p5, k4, p4, hv]

/-- The loop of `parse_line` from `State::find_key_begin` over the text of
pairs that may be rendered: it ends and has stored each pair in turn. -/
theorem run_rendered (keyword : Str) :
    ∀ (pairs : List RenderedPair) (a : List Char) (m : Scan),
      (∀ p ∈ pairs, renderable p) → m.state = .find_key_begin → m.char_it = a.length →
      run (a ++ pairs.flatMap render_pair) keyword
          (passes_left (a ++ pairs.flatMap render_pair) m) m =
        .ok (pairs.foldl (fun acc p => LineParts.assign acc p.key p.value) m.line_parts) := by
  intro pairs
  induction pairs with
  | nil =>
    intro a m _ hs hpos
    have hline : a ++ ([] : List RenderedPair).flatMap render_pair = a ++ [] := by simp
    have hstep := step_key_begin_end keyword hs hpos hline (fun x hx => by cases hx)
    rw [run_unfold (by rw [hs]; decide), hstep]
    simp only
    unfold run
    simp
  | cons p ps ih =>
    intro a m hall hs hpos
    have hline : a ++ (p :: ps).flatMap render_pair =
        a ++ (render_pair p ++ ps.flatMap render_pair) := by simp
    have hb : ∀ x, (ps.flatMap render_pair).head? = some x → x = ' ' := by
      intro x hx
      cases ps with
      | nil => simp at hx
      | cons q qs =>
        simp only [List.flatMap_cons, render_pair, List.cons_append, List.head?_cons,
          Option.some.injEq] at hx
        exact hx.symm
    obtain ⟨m5, hsteps, s5, c5, p5⟩ := scan_rendered_pair keyword hs hpos hline
      (hall p (by simp)) hb
    rw [run_after_steps _ keyword 5 m m5 _ hsteps (le_refl _)]
    have hline2 : a ++ (p :: ps).flatMap render_pair =
        (a ++ render_pair p) ++ ps.flatMap render_pair := by simp
    rw [hline2, ih (a ++ render_pair p) m5 (fun q hq => hall q (by simp [hq])) s5 c5, p5]
    rfl
/-- C36: round trip of rendering and `parse_line`. For a keyword that is not
empty and holds no space, and pairs that may be rendered (`renderable`), the
line made of the keyword followed, for each pair, by one space and
`key=value` or `key="value"` is accepted by `parse_line` with that keyword,
and the record returned maps each key to the value of the last pair with that
key: it has the keys of the pairs and no other, each once. -/
theorem parse_line_render (keyword : Str) (pairs : List RenderedPair)
    (hk : keyword ≠ []) (hks : ' ' ∉ keyword) (hp : ∀ p ∈ pairs, renderable p) :
    ∃ parts, parse_line (render_line keyword pairs) keyword = .ok parts ∧
      (∀ key, LineParts.find parts key =
        last_value (pairs.map fun p => (p.key, p.value)) key) ∧
      (parts.map fun kv => kv.1).Nodup ∧
      ∀ key, key ∈ (parts.map fun kv => kv.1) ↔ key ∈ pairs.map fun p => p.key := by
  have hline : render_line keyword pairs = [] ++ (keyword ++ pairs.flatMap render_pair) := rfl
  have hne : render_line keyword pairs ≠ [] := by
    unfold render_line
    simp [hk]
  have hb : ∀ x, (pairs.flatMap render_pair).head? = some x → x = ' ' := by
    intro x hx
    cases pairs with
    | nil => simp at hx
    | cons q qs =>
      simp only [List.flatMap_cons, render_pair, List.cons_append, List.head?_cons,
        Option.some.injEq] at hx
      exact hx.symm
  have hadv := advance_at (fun c => c != ' ') hline
    (fun x hx => by
      have h1 : x ≠ ' ' := fun e => hks (e ▸ hx)
      simp [h1])
    (fun x hx => by simp [hb x hx])
  have hassign := assign_at hline
  simp only [List.length_nil, Nat.zero_add] at hadv hassign
  obtain ⟨m1, hm1, s1, c1, p1⟩ : ∃ m1,
      step (render_line keyword pairs) keyword Scan.start = .ok m1 ∧
      m1.state = .find_key_begin ∧ m1.char_it = keyword.length ∧ m1.line_parts = [] := by
    refine ⟨{ Scan.start with char_it := keyword.length, key := keyword,
                              state := .find_key_begin }, ?_, rfl, rfl, rfl⟩
    unfold step
    simp only [Scan.start, hadv, hassign, ne_eq, not_true_eq_false, if_false]
  have hrun : parse_line (render_line keyword pairs) keyword =
      .ok (pairs.foldl (fun acc p => LineParts.assign acc p.key p.value) []) := by
    unfold parse_line
    rw [if_neg hne, if_neg hk,
      run_after_steps (render_line keyword pairs) keyword 1 Scan.start m1 _
        (by simp only [steps, hm1]) (passes_left_start _)]
    have := run_rendered keyword pairs keyword m1 hp s1 c1
    rw [p1] at this
    exact this
  have hfold : pairs.foldl (fun acc p => LineParts.assign acc p.key p.value) [] =
      (pairs.map fun p => (p.key, p.value)).foldl
        (fun acc kv => LineParts.assign acc kv.1 kv.2) [] := by
    rw [List.foldl_map]
  refine ⟨_, hrun, ?_, ?_, ?_⟩
  · intro key
    rw [hfold, find_foldl_assign]
    simp [LineParts.find]
  · rw [hfold]
    exact (keys_foldl_assign _ [] (by simp)).1
  · intro key
    rw [hfold, (keys_foldl_assign _ [] (by simp)).2 key]
    simp [List.map_map, Function.comp_def]

/-- An instance of `parse_line_render`: the line
`info face="Arial Black" size=-12 face=""`, whose record maps `face` to the
empty string and `size` to `-12`. -/
theorem parse_line_render_witness :
    render_line "info".toList rendered_sample =
      "info face=\"Arial Black\" size=-12 face=\"\"".toList ∧
    parse_line (render_line "info".toList rendered_sample) "info".toList =
      .ok [("face".toList, []), ("size".toList, "-12".toList)] ∧
    ∃ parts, parse_line (render_line "info".toList rendered_sample) "info".toList = .ok parts ∧
      (∀ key, LineParts.find parts key =
        last_value (rendered_sample.map fun p => (p.key, p.value)) key) ∧
      (parts.map fun kv => kv.1).Nodup ∧
      ∀ key, key ∈ (parts.map fun kv => kv.1) ↔ key ∈ rendered_sample.map fun p => p.key :=
  ⟨by decide!, by decide!,
    parse_line_render "info".toList rendered_sample (by decide) (by decide!) (by decide!)⟩

end BMFont
